import Mathlib

/-! SAM2 inference pipeline: geometry, buffers and sequencing

A shallow embedding of `FSam2ModelInstance` (Sam2ModelInstance.cpp / .h) and of the
parts of `USam2Component` that drive mask postprocessing.

Conventions of the embedding
* `int32` values are integers; every `int32` operation of the source is wrapped by
  `wrap32` (two's complement), integer division truncates (`Int.tdiv`).
* `float` / `double` values are `Flt`: a finite rational, an infinity or NaN.  Every
  arithmetic operation computes the exact result and rounds it to the format
  (round to nearest, ties to even), as IEEE-754 prescribes.  The two zeros are not
  distinguished; the only zero divisors of the program come from `int32 → float`
  conversions, which give `+0`.
* `FMath::RoundToInt(F)` is `FloorToInt(F + 0.5f)`: the sum is a `float`, rounded before
  the floor is taken.
* `TArray<T>` is `List T`; an access outside `[0, Num)` has no defined result.
* The inference engine is a parameter (`Platform`).  An output of a session run is an
  `OrtOutput`: a `float` tensor, or a value that is not a tensor, whose accessors
  throw.
* A function `bool f(in, out&)` returns `Res out`: it returned `true` with these
  out-parameters (`ok`), it returned `false` (`fail`), or its behaviour is not
  defined (`ub`: array access out of range, negative allocation size, conversion of
  a non-representable float to `int32`).
-/

namespace Sam2

/-! ## Machine integers -/

/-- Two's complement wrap-around of a mathematical integer into the `int32` range. -/
def wrap32 (z : ℤ) : ℤ := (z + 2147483648) % 4294967296 - 2147483648

/-- Addition on `int32`. -/
def i32add (a b : ℤ) : ℤ := wrap32 (a + b)

/-- Subtraction on `int32`. -/
def i32sub (a b : ℤ) : ℤ := wrap32 (a - b)

/-- Multiplication on `int32`. -/
def i32mul (a b : ℤ) : ℤ := wrap32 (a * b)

/-- Division on `int32`: truncates toward zero. -/
def i32div (a b : ℤ) : ℤ := wrap32 (Int.tdiv a b)

/-- Membership in the `int32` range. -/
def isInt32 (z : ℤ) : Prop := -2147483648 ≤ z ∧ z < 2147483648

instance (z : ℤ) : Decidable (isInt32 z) := by unfold isInt32; infer_instance

/-! ## IEEE-754 binary floating point -/

/-- A binary floating-point format: precision in bits (hidden bit included) and the
exponent range of normal numbers. -/
structure Fmt where
  prec : ℕ
  emin : ℤ
  emax : ℤ

/-- The C++ type `float`. -/
def binary32 : Fmt := ⟨24, -126, 127⟩

/-- The C++ type `double`. -/
def binary64 : Fmt := ⟨53, -1022, 1023⟩

/-- A floating-point datum. -/
inductive Flt where
  | fin (q : ℚ)
  | pinf
  | ninf
  | nan
  deriving DecidableEq, Repr

/-- Nearest integer, a tie going to the even neighbour. -/
def roundHalfEven (q : ℚ) : ℤ :=
  if q - ⌊q⌋ < 1 / 2 then ⌊q⌋
  else if 1 / 2 < q - ⌊q⌋ then ⌊q⌋ + 1
  else if ⌊q⌋ % 2 = 0 then ⌊q⌋ else ⌊q⌋ + 1

/-- Unit in the last place of the binade of `q` (of the subnormal range below `2^emin`). -/
def Fmt.ulp (F : Fmt) (q : ℚ) : ℚ :=
  (2 : ℚ) ^ (max (Int.log 2 |q|) F.emin - ((F.prec : ℤ) - 1))

/-- Rounding of an exact result to the format: nearest representable value, ties to
even, overflow to the infinity of the same sign. -/
def Fmt.round (F : Fmt) (q : ℚ) : Flt :=
  if q = 0 then Flt.fin 0
  else if (2 : ℚ) ^ (F.emax + 1) ≤ |(roundHalfEven (q / F.ulp q) : ℚ) * F.ulp q| then
    (if 0 < q then Flt.pinf else Flt.ninf)
  else Flt.fin ((roundHalfEven (q / F.ulp q) : ℚ) * F.ulp q)

/-- Conversion of an `int32` to the format. -/
def Fmt.ofInt (F : Fmt) (z : ℤ) : Flt := F.round (z : ℚ)

/-- Conversion between formats (exact when widening). -/
def Fmt.cast (F : Fmt) : Flt → Flt
  | Flt.fin q => F.round q
  | x => x

/-- Floating-point addition. -/
def Fmt.add (F : Fmt) : Flt → Flt → Flt
  | Flt.fin a, Flt.fin b => F.round (a + b)
  | Flt.nan, _ => Flt.nan
  | _, Flt.nan => Flt.nan
  | Flt.pinf, Flt.ninf => Flt.nan
  | Flt.ninf, Flt.pinf => Flt.nan
  | Flt.pinf, _ => Flt.pinf
  | _, Flt.pinf => Flt.pinf
  | Flt.ninf, _ => Flt.ninf
  | _, Flt.ninf => Flt.ninf

/-- Floating-point negation. -/
def Flt.neg : Flt → Flt
  | Flt.fin a => Flt.fin (-a)
  | Flt.pinf => Flt.ninf
  | Flt.ninf => Flt.pinf
  | Flt.nan => Flt.nan

/-- Floating-point subtraction. -/
def Fmt.sub (F : Fmt) (a b : Flt) : Flt := F.add a b.neg

/-- Sign of a datum: `1`, `0` or `-1` (`none` for NaN). -/
def Flt.sign : Flt → Option ℤ
  | Flt.fin a => some (if 0 < a then 1 else if a < 0 then -1 else 0)
  | Flt.pinf => some 1
  | Flt.ninf => some (-1)
  | Flt.nan => none

/-- Floating-point multiplication. -/
def Fmt.mul (F : Fmt) : Flt → Flt → Flt
  | Flt.fin a, Flt.fin b => F.round (a * b)
  | x, y =>
    match x.sign, y.sign with
    | some s, some t =>
      if s * t = 0 then Flt.nan else if 0 < s * t then Flt.pinf else Flt.ninf
    | _, _ => Flt.nan

/-- Floating-point division (a zero divisor is `+0`). -/
def Fmt.div (F : Fmt) : Flt → Flt → Flt
  | Flt.fin a, Flt.fin b =>
    if b = 0 then (if a = 0 then Flt.nan else if 0 < a then Flt.pinf else Flt.ninf)
    else F.round (a / b)
  | Flt.fin _, Flt.pinf => Flt.fin 0
  | Flt.fin _, Flt.ninf => Flt.fin 0
  | Flt.pinf, Flt.fin b => if b < 0 then Flt.ninf else Flt.pinf
  | Flt.ninf, Flt.fin b => if b < 0 then Flt.pinf else Flt.ninf
  | _, _ => Flt.nan

/-- The comparison `a < b` (false as soon as one side is NaN). -/
def Flt.lt : Flt → Flt → Bool
  | Flt.fin a, Flt.fin b => decide (a < b)
  | Flt.fin _, Flt.pinf => true
  | Flt.ninf, Flt.fin _ => true
  | Flt.ninf, Flt.pinf => true
  | _, _ => false

/-- The literal `0.5f`. -/
def half : Flt := Flt.fin (1 / 2)

/-! ## Unreal Engine `FMath` -/

/-- `FMath::Min` on floats: `(A < B) ? A : B`, the smaller value when neither is NaN. -/
def FMath.Min (A B : Flt) : Flt := if A.lt B then A else B

/-- `FMath::Min` on `int32`. -/
def FMath.MinInt (A B : ℤ) : ℤ := if A < B then A else B

/-- `FMath::Clamp` on floats: `X < Min ? Min : X < Max ? X : Max`. -/
def FMath.Clamp (X Mn Mx : Flt) : Flt := if X.lt Mn then Mn else if X.lt Mx then X else Mx

/-- `FMath::FloorToInt`: the largest `int32` not above the argument. -/
def FMath.FloorToInt : Flt → Option ℤ
  | Flt.fin q => if isInt32 ⌊q⌋ then some ⌊q⌋ else none
  | _ => none

/-- `FMath::RoundToInt`: `FloorToInt(F + 0.5f)`.  The sum is a `float`, so it is rounded
before the floor is taken (`0.49999997f + 0.5f` is `1.0f`); not defined when the result
does not fit an `int32`. -/
def FMath.RoundToInt (F : Flt) : Option ℤ := FMath.FloorToInt (binary32.add F half)

/-! ## `TArray` -/

/-- `A[i]` as an r-value. -/
def TArray.read {α : Type} (A : List α) (i : ℤ) : Option α :=
  if 0 ≤ i ∧ i < (A.length : ℤ) then A[i.toNat]? else none

/-- `A[i] = v`. -/
def TArray.write {α : Type} (A : List α) (i : ℤ) (v : α) : Option (List α) :=
  if 0 ≤ i ∧ i < (A.length : ℤ) then some (A.set i.toNat v) else none

/-- `A.Empty(n); A.AddZeroed(n)` (also `AddUninitialized`, every element being
written before it is read): a fresh array of `n` copies of `z`. -/
def TArray.alloc {α : Type} (n : ℤ) (z : α) : Option (List α) :=
  if 0 ≤ n then some (List.replicate n.toNat z) else none

/-- `A.Add(v)`: one more element at the end.  `Num()` is an `int32`, an array cannot grow
past `MAX_int32` elements. -/
def TArray.add {α : Type} (A : List α) (v : α) : Option (List α) :=
  if (A.length : ℤ) < 2147483647 then some (A ++ [v]) else none

/-- The loop `for (int32 i = 0; i < n; ++i) body(i)` over a state, `k` iterations done. -/
def forLoopAux {σ : Type} (body : ℤ → σ → Option σ) : ℕ → σ → Option σ
  | 0, s => some s
  | k + 1, s => (forLoopAux body k s).bind (body (k : ℤ))

/-- The loop `for (int32 i = 0; i < n; ++i) body(i)`. -/
def forLoop {σ : Type} (n : ℤ) (body : ℤ → σ → Option σ) (s : σ) : Option σ :=
  forLoopAux body n.toNat s

/-- Outcome of a `bool`-returning function with out-parameters. -/
inductive Res (α : Type) where
  | ub
  | fail
  | ok (out : α)
  deriving DecidableEq, Repr

/-! ## `FSam2ModelInstance::TransformPromptPoints` -/

/-- `FVector2D`: two `double` components (Unreal Engine 5). -/
structure FVector2D where
  X : Flt
  Y : Flt

/-- The two coordinates one prompt point contributes. -/
def TransformPromptPoint (InputWidth InputHeight : ℤ) (Scale : Flt) (XOffset YOffset : ℤ)
    (Point : FVector2D) : List Flt :=
  -- `XOffset + Point.X * InputWidth * Scale` is evaluated in `double`, then stored in a `float`
  let CanvasX := binary32.cast (binary64.add (binary64.ofInt XOffset)
    (binary64.mul (binary64.mul Point.X (binary64.ofInt InputWidth)) Scale))
  let CanvasY := binary32.cast (binary64.add (binary64.ofInt YOffset)
    (binary64.mul (binary64.mul Point.Y (binary64.ofInt InputHeight)) Scale))
  [FMath.Clamp CanvasX (Flt.fin 0) (Flt.fin 1024), FMath.Clamp CanvasY (Flt.fin 0) (Flt.fin 1024)]

/-- `TransformPromptPoints`: `OutputCoords` after the call. -/
def TransformPromptPoints (InputPoints : List FVector2D) (InputWidth InputHeight : ℤ)
    (Scale : Flt) (XOffset YOffset : ℤ) : List Flt :=
  InputPoints.foldl
    (fun OutputCoords Point =>
      OutputCoords ++ TransformPromptPoint InputWidth InputHeight Scale XOffset YOffset Point) []

/-! ## `FSam2ModelInstance::PreprocessImage` -/

/-- `const int32 TargetSize = 1024`. -/
def TargetSize : ℤ := 1024

/-- `const float Mean[3] = {0.485f, 0.456f, 0.406f}`. -/
def Mean (c : ℤ) : Flt :=
  if c = 0 then binary32.round (485 / 1000)
  else if c = 1 then binary32.round (456 / 1000) else binary32.round (406 / 1000)

/-- `const float Std[3] = {0.229f, 0.224f, 0.225f}`. -/
def Std (c : ℤ) : Flt :=
  if c = 0 then binary32.round (229 / 1000)
  else if c = 1 then binary32.round (224 / 1000) else binary32.round (225 / 1000)

/-- Out-parameters of `PreprocessImage`. -/
structure PreprocessOut where
  ProcessedImageData : List Flt
  OutScale : Flt
  OutXOffset : ℤ
  OutYOffset : ℤ
  deriving DecidableEq, Repr

/-- Body of the channel loop of the resampling: four reads of the image, one write of
the canvas. -/
def bilinearChannel (InputImageData : List Flt) (InputWidth : ℤ) (SrcX0 SrcY0 SrcX1 SrcY1 : ℤ)
    (WeightX WeightY : Flt) (DstIndex : ℤ) (c : ℤ) (ProcessedImageData : List Flt) :
    Option (List Flt) := do
  let P00 ← TArray.read InputImageData (i32add (i32mul (i32add (i32mul SrcY0 InputWidth) SrcX0) 3) c)
  let P01 ← TArray.read InputImageData (i32add (i32mul (i32add (i32mul SrcY0 InputWidth) SrcX1) 3) c)
  let P10 ← TArray.read InputImageData (i32add (i32mul (i32add (i32mul SrcY1 InputWidth) SrcX0) 3) c)
  let P11 ← TArray.read InputImageData (i32add (i32mul (i32add (i32mul SrcY1 InputWidth) SrcX1) 3) c)
  let InterpolatedValue :=
    binary32.add
      (binary32.add
        (binary32.add
          (binary32.mul (binary32.mul P00 (binary32.sub (Flt.fin 1) WeightX))
            (binary32.sub (Flt.fin 1) WeightY))
          (binary32.mul (binary32.mul P01 WeightX) (binary32.sub (Flt.fin 1) WeightY)))
        (binary32.mul (binary32.mul P10 (binary32.sub (Flt.fin 1) WeightX)) WeightY))
      (binary32.mul (binary32.mul P11 WeightX) WeightY)
  TArray.write ProcessedImageData (i32add DstIndex c) InterpolatedValue

/-- Body of the pixel loop of the resampling, destination pixel `(x, y)` of the footprint. -/
def resamplePixel (InputImageData : List Flt) (InputWidth InputHeight : ℤ) (OutScale : Flt)
    (OutXOffset OutYOffset : ℤ) (y x : ℤ) (ProcessedImageData : List Flt) :
    Option (List Flt) := do
  let SrcX := binary32.div (binary32.ofInt x) OutScale
  let SrcY := binary32.div (binary32.ofInt y) OutScale
  let SrcX0 ← FMath.FloorToInt SrcX
  let SrcY0 ← FMath.FloorToInt SrcY
  let SrcX1 := FMath.MinInt (i32add SrcX0 1) (i32sub InputWidth 1)
  let SrcY1 := FMath.MinInt (i32add SrcY0 1) (i32sub InputHeight 1)
  let WeightX := binary32.sub SrcX (binary32.ofInt SrcX0)
  let WeightY := binary32.sub SrcY (binary32.ofInt SrcY0)
  let DstX := i32add x OutXOffset
  let DstY := i32add y OutYOffset
  if 0 ≤ DstX ∧ DstX < TargetSize ∧ 0 ≤ DstY ∧ DstY < TargetSize then
    forLoop 3
      (bilinearChannel InputImageData InputWidth SrcX0 SrcY0 SrcX1 SrcY1 WeightX WeightY
        (i32mul (i32add (i32mul DstY TargetSize) DstX) 3))
      ProcessedImageData
  else some ProcessedImageData

/-- The resampling loops: bilinear resize into the centre of the canvas. -/
def resampleImage (InputImageData : List Flt) (InputWidth InputHeight : ℤ) (OutScale : Flt)
    (NewWidth NewHeight OutXOffset OutYOffset : ℤ) (ProcessedImageData : List Flt) :
    Option (List Flt) :=
  forLoop NewHeight
    (fun y => forLoop NewWidth
      (resamplePixel InputImageData InputWidth InputHeight OutScale OutXOffset OutYOffset y))
    ProcessedImageData

/-- Body of the normalisation loops: `Data[Index] = (Data[Index] - Mean[c]) / Std[c]`. -/
def normalizeStep (i c : ℤ) (ProcessedImageData : List Flt) : Option (List Flt) := do
  let v ← TArray.read ProcessedImageData (i32add (i32mul i 3) c)
  TArray.write ProcessedImageData (i32add (i32mul i 3) c)
    (binary32.div (binary32.sub v (Mean c)) (Std c))

/-- The ImageNet normalisation loops. -/
def normalizeCanvas (ProcessedImageData : List Flt) : Option (List Flt) :=
  forLoop (TargetSize * TargetSize) (fun i => forLoop 3 (normalizeStep i)) ProcessedImageData

/-- Body of the transposition loops: `NCHWData[NCHWIndex] = ProcessedImageData[HWCIndex]`. -/
def transposeStep (ProcessedImageData : List Flt) (c h w : ℤ) (NCHWData : List Flt) :
    Option (List Flt) := do
  let v ← TArray.read ProcessedImageData (i32add (i32mul (i32add (i32mul h TargetSize) w) 3) c)
  TArray.write NCHWData
    (i32add (i32add (i32mul (i32mul c TargetSize) TargetSize) (i32mul h TargetSize)) w) v

/-- The conversion from pixel-interleaved to channel-major layout. -/
def toNCHW (ProcessedImageData : List Flt) : Option (List Flt) := do
  let NCHWData ← TArray.alloc (TargetSize * TargetSize * 3) (Flt.fin 0)
  forLoop 3
    (fun c => forLoop TargetSize (fun h => forLoop TargetSize (transposeStep ProcessedImageData c h)))
    NCHWData

/-- Everything `PreprocessImage` does to the pixel buffers once the geometry is known. -/
def buildTensor (InputImageData : List Flt) (InputWidth InputHeight : ℤ) (OutScale : Flt)
    (NewWidth NewHeight OutXOffset OutYOffset : ℤ) : Option (List Flt) := do
  let canvas ← TArray.alloc (TargetSize * TargetSize * 3) (Flt.fin 0)
  let resized ← resampleImage InputImageData InputWidth InputHeight OutScale NewWidth NewHeight
    OutXOffset OutYOffset canvas
  let normalized ← normalizeCanvas resized
  toNCHW normalized

/-- `OutScale` as computed by `PreprocessImage`. -/
def letterboxScale (InputWidth InputHeight : ℤ) : Flt :=
  FMath.Min (binary32.div (binary32.ofInt TargetSize) (binary32.ofInt InputWidth))
    (binary32.div (binary32.ofInt TargetSize) (binary32.ofInt InputHeight))

/-- `FSam2ModelInstance::PreprocessImage`. -/
def PreprocessImage (InputImageData : List Flt) (InputWidth InputHeight : ℤ) :
    Res PreprocessOut :=
  if (InputImageData.length : ℤ) ≠ i32mul (i32mul InputWidth InputHeight) 3 then Res.fail
  else
    let OutScale := letterboxScale InputWidth InputHeight
    match FMath.RoundToInt (binary32.mul (binary32.ofInt InputWidth) OutScale),
      FMath.RoundToInt (binary32.mul (binary32.ofInt InputHeight) OutScale) with
    | some NewWidth, some NewHeight =>
      let OutXOffset := i32div (i32sub TargetSize NewWidth) 2
      let OutYOffset := i32div (i32sub TargetSize NewHeight) 2
      match buildTensor InputImageData InputWidth InputHeight OutScale NewWidth NewHeight
        OutXOffset OutYOffset with
      | some ProcessedImageData => Res.ok ⟨ProcessedImageData, OutScale, OutXOffset, OutYOffset⟩
      | none => Res.ub
    | _, _ => Res.ub

/-! ## `FSam2ModelInstance::ApplySigmoid` and `PostprocessMask` -/

/-- `ApplySigmoid`: `Value = 1.0f / (1.0f + FMath::Exp(-Value))` on every element; `Exp` is
the exponential of the platform's math library. -/
def ApplySigmoid (Exp : Flt → Flt) (Data : List Flt) : List Flt :=
  Data.map (fun Value => binary32.div (Flt.fin 1) (binary32.add (Flt.fin 1) (Exp Value.neg)))

/-- Binarisation of one mask value: `Value > 0.5f ? 255 : 0`. -/
def binarize (Value : Flt) : ℕ := if half.lt Value then 255 else 0

/-- Body of the crop loops: one `RegionMask.Add`. -/
def cropPixel (BinaryMask : List ℕ) (XOffset YOffset : ℤ) (y x : ℤ) (RegionMask : List ℕ) :
    Option (List ℕ) :=
  if 0 ≤ i32add x XOffset ∧ i32add x XOffset < 1024 ∧
      0 ≤ i32add y YOffset ∧ i32add y YOffset < 1024 then
    (TArray.read BinaryMask (i32add (i32mul (i32add y YOffset) 1024) (i32add x XOffset))).bind
      (fun v => TArray.add RegionMask v)
  else TArray.add RegionMask 0

/-- The crop loops: the valid region of the canvas, row by row. -/
def cropRegion (BinaryMask : List ℕ) (ScaledWidth ScaledHeight XOffset YOffset : ℤ) :
    Option (List ℕ) :=
  if 0 ≤ i32mul ScaledWidth ScaledHeight then
    forLoop ScaledHeight (fun y => forLoop ScaledWidth (cropPixel BinaryMask XOffset YOffset y)) []
  else none

/-- Body of the nearest-neighbour loops: one write of `FinalMask`. -/
def resizePixel (RegionMask : List ℕ) (OriginalWidth ScaledWidth ScaledHeight : ℤ)
    (InvScaleX InvScaleY : Flt) (y x : ℤ) (FinalMask : List ℕ) : Option (List ℕ) := do
  let rx ← FMath.RoundToInt (binary32.mul (binary32.ofInt x) InvScaleX)
  let SrcX := FMath.MinInt rx (i32sub ScaledWidth 1)
  let ry ← FMath.RoundToInt (binary32.mul (binary32.ofInt y) InvScaleY)
  let SrcY := FMath.MinInt ry (i32sub ScaledHeight 1)
  let v ← TArray.read RegionMask (i32add (i32mul SrcY ScaledWidth) SrcX)
  TArray.write FinalMask (i32add (i32mul y OriginalWidth) x) v

/-- The nearest-neighbour loops: the region scaled back to the original size. -/
def resizeRegion (RegionMask : List ℕ) (OriginalWidth OriginalHeight ScaledWidth ScaledHeight : ℤ) :
    Option (List ℕ) := do
  let FinalMask ← TArray.alloc (i32mul OriginalWidth OriginalHeight) 0
  forLoop OriginalHeight
    (fun y => forLoop OriginalWidth
      (resizePixel RegionMask OriginalWidth ScaledWidth ScaledHeight
        (binary32.div (binary32.ofInt ScaledWidth) (binary32.ofInt OriginalWidth))
        (binary32.div (binary32.ofInt ScaledHeight) (binary32.ofInt OriginalHeight)) y))
    FinalMask

/-- `FSam2ModelInstance::PostprocessMask`; the result is `FinalMask`. -/
def PostprocessMask (MaskData : List Flt) (OriginalWidth OriginalHeight : ℤ) (Scale : Flt)
    (XOffset YOffset : ℤ) : Res (List ℕ) :=
  if (MaskData.length : ℤ) ≠ 1024 * 1024 then Res.fail
  else
    match FMath.RoundToInt (binary32.mul (binary32.ofInt OriginalWidth) Scale),
      FMath.RoundToInt (binary32.mul (binary32.ofInt OriginalHeight) Scale) with
    | some ScaledWidth, some ScaledHeight =>
      match (cropRegion (MaskData.map binarize) ScaledWidth ScaledHeight XOffset YOffset).bind
        (fun RegionMask =>
          resizeRegion RegionMask OriginalWidth OriginalHeight ScaledWidth ScaledHeight) with
      | some FinalMask => Res.ok FinalMask
      | none => Res.ub
    | _, _ => Res.ub

/-! ## `FSam2Input`, `FSam2Output` and `USam2Component::CreateMaskTexture` -/

/-- `FSam2Input`. -/
structure FSam2Input where
  ImageData : List Flt
  ImageWidth : ℤ
  ImageHeight : ℤ
  PromptPoints : List FVector2D
  PromptLabels : List ℤ

/-- `FSam2Output`. -/
structure FSam2Output where
  MaskData : List Flt
  IouScores : List Flt
  NumMasks : ℤ
  MaskWidth : ℤ
  MaskHeight : ℤ
  OriginalWidth : ℤ
  OriginalHeight : ℤ
  Scale : Flt
  XOffset : ℤ
  YOffset : ℤ
  deriving DecidableEq, Repr

/-- The copy loop of `GetMask`, `fuel` iterations left before `i` reaches `MaskSize`:
`for (i = ..; i < MaskSize && (StartIndex + i) < MaskData.Num(); ++i) SingleMask.Add(..)`. -/
def GetMaskLoop (MaskData : List Flt) (MaskSize StartIndex : ℤ) :
    ℕ → ℤ → List Flt → Option (List Flt)
  | 0, _, SingleMask => some SingleMask
  | fuel + 1, i, SingleMask =>
    if i < MaskSize ∧ i32add StartIndex i < (MaskData.length : ℤ) then
      (TArray.read MaskData (i32add StartIndex i)).bind
        (fun v => GetMaskLoop MaskData MaskSize StartIndex fuel (i32add i 1) (SingleMask ++ [v]))
    else some SingleMask

/-- `FSam2Output::GetMask`. -/
def FSam2Output.GetMask (Output : FSam2Output) (MaskIndex : ℤ) : Option (List Flt) :=
  if MaskIndex < 0 ∨ MaskIndex ≥ Output.NumMasks then some []
  else if 0 ≤ i32mul Output.MaskWidth Output.MaskHeight then
    GetMaskLoop Output.MaskData (i32mul Output.MaskWidth Output.MaskHeight)
      (i32mul MaskIndex (i32mul Output.MaskWidth Output.MaskHeight))
      (i32mul Output.MaskWidth Output.MaskHeight).toNat 0 []
  else none

/-- `USam2Component::CreateMaskTexture`: the pixels of the texture it returns, `fail`
standing for `nullptr`.  `bSam2Instance` tells whether the component holds a model
instance, `bCreateTransient` whether `UTexture2D::CreateTransient` gives a texture. -/
def CreateMaskTexture (bSam2Instance bCreateTransient : Bool) (Output : FSam2Output)
    (MaskIndex : ℤ) : Res (List ℕ) :=
  if MaskIndex ≥ Output.NumMasks ∨ MaskIndex < 0 then Res.fail
  else if Output.OriginalWidth ≤ 0 ∨ Output.OriginalHeight ≤ 0 then Res.fail
  else
    match Output.GetMask MaskIndex with
    | none => Res.ub
    | some RawMaskData =>
      if (RawMaskData.length : ℤ) ≠ 1024 * 1024 then Res.fail
      else if bSam2Instance then
        match PostprocessMask RawMaskData Output.OriginalWidth Output.OriginalHeight
          Output.Scale Output.XOffset Output.YOffset with
        | Res.ok FinalMaskData => if bCreateTransient then Res.ok FinalMaskData else Res.fail
        | Res.fail => Res.fail
        | Res.ub => Res.ub
      else Res.fail

/-! ## The model instance and `RunDecoder` -/

/-- An `Ort::Value` tensor over caller-owned data. -/
inductive OrtValue where
  | floats (Data : List Flt) (Shape : List ℤ)
  | ints (Data : List ℤ) (Shape : List ℤ)
  deriving DecidableEq, Repr

/-- An output `Ort::Value` of a session run, as the accessors
`GetTensorTypeAndShapeInfo()` and `GetTensorMutableData<float>()` see it: a tensor with
its elements, or a value that is not a tensor, on which the accessors throw
`Ort::Exception`. -/
inductive OrtOutput where
  | tensor (Data : List Flt)
  | other
  deriving DecidableEq, Repr

/-- The elements the accessors `GetTensorTypeAndShapeInfo().GetElementCount()` and
`GetTensorMutableData<float>()` give; `none` when they throw. -/
def OrtOutput.floatData : OrtOutput → Option (List Flt)
  | OrtOutput.tensor Data => some Data
  | OrtOutput.other => none

/-- What the program takes from its platform: the exponential of the math library and
the ONNX Runtime.  `CreateTensorAccepts` tells whether `Ort::Value::CreateTensor` takes a
buffer and shape (it throws otherwise); a session run gives the output values, or `none`
when it throws `Ort::Exception`. -/
structure Platform where
  Exp : Flt → Flt
  CreateTensorAccepts : OrtValue → Bool
  EncoderRun : List (String × OrtValue) → List String → Option (List OrtOutput)
  DecoderRun : List (String × OrtValue) → List String → Option (List OrtOutput)

/-- One call of `Ort::Session::Run`. -/
structure SessionRun where
  bDecoder : Bool
  Inputs : List (String × OrtValue)
  OutputNames : List String
  deriving DecidableEq, Repr

/-- The mutable members of `FSam2ModelInstance`, and the history of the calls it made
to the engine (`SessionRuns`, not a member of the class). -/
structure FSam2ModelInstance where
  bIsInitialized : Bool
  CachedImageEmbed : List Flt
  CachedHighResFeats0 : List Flt
  CachedHighResFeats1 : List Flt
  bHasCachedFeatures : Bool
  SessionRuns : List SessionRun
  deriving DecidableEq, Repr

/-- The constructor; `bModelsLoaded` tells whether `InitializeEncoder() &&
InitializeDecoder()` held without an exception. -/
def FSam2ModelInstance.construct (bModelsLoaded : Bool) : FSam2ModelInstance :=
  ⟨bModelsLoaded, [], [], [], false, []⟩

/-- `FSam2ModelInstance::CreateTensor`; `none` when the runtime throws. -/
def CreateTensor (P : Platform) (v : OrtValue) : Option OrtValue :=
  if P.CreateTensorAccepts v then some v else none

/-- The eight input tensors of the decoder, in the order of `inputNames`. -/
def decoderInputs (P : Platform) (self : FSam2ModelInstance) (Input : FSam2Input)
    (Output : FSam2Output) : Option (List (String × OrtValue)) := do
  let embedTensor ← CreateTensor P (OrtValue.floats self.CachedImageEmbed [1, 256, 64, 64])
  let feats0Tensor ← CreateTensor P (OrtValue.floats self.CachedHighResFeats0 [1, 32, 256, 256])
  let feats1Tensor ← CreateTensor P (OrtValue.floats self.CachedHighResFeats1 [1, 64, 128, 128])
  let coordsTensor ← CreateTensor P
    (OrtValue.floats
      (TransformPromptPoints Input.PromptPoints Input.ImageWidth Input.ImageHeight
        Output.Scale Output.XOffset Output.YOffset)
      [1, (Input.PromptPoints.length : ℤ), 2])
  let labelsTensor ← CreateTensor P
    (OrtValue.floats (Input.PromptLabels.map binary32.ofInt) [1, (Input.PromptLabels.length : ℤ)])
  let maskTensor ← CreateTensor P
    (OrtValue.floats (List.replicate (1 * 1 * 256 * 256) (Flt.fin 0)) [1, 1, 256, 256])
  let hasMaskTensor ← CreateTensor P (OrtValue.floats [Flt.fin 0] [1])
  let origSizeTensor ← CreateTensor P (OrtValue.ints [1024, 1024] [2])
  some [("image_embed", embedTensor), ("high_res_feats_0", feats0Tensor),
    ("high_res_feats_1", feats1Tensor), ("point_coords", coordsTensor),
    ("point_labels", labelsTensor), ("mask_input", maskTensor),
    ("has_mask_input", hasMaskTensor), ("orig_im_size", origSizeTensor)]

/-- `FSam2ModelInstance::RunDecoder`: the returned `bool`, the instance and `Output`
after the call.  The accessors of the two outputs are called in turn inside the `try`
block: when those of `outputs[1]` throw, `Output.MaskData` has been overwritten already. -/
def RunDecoder (P : Platform) (self : FSam2ModelInstance) (Input : FSam2Input)
    (Output : FSam2Output) : Bool × FSam2ModelInstance × FSam2Output :=
  if !self.bHasCachedFeatures then (false, self, Output)
  else
    match decoderInputs P self Input Output with
    | none => (false, self, Output)
    | some inputs =>
      let self1 : FSam2ModelInstance :=
        ⟨self.bIsInitialized, self.CachedImageEmbed, self.CachedHighResFeats0,
          self.CachedHighResFeats1, self.bHasCachedFeatures,
          self.SessionRuns ++ [⟨true, inputs, ["masks", "iou_predictions"]⟩]⟩
      match P.DecoderRun inputs ["masks", "iou_predictions"] with
      | some [masksTensor, iouTensor] =>
        match masksTensor.floatData with
        | none => (false, self1, Output)
        | some masks =>
          match iouTensor.floatData with
          | none =>
            (false, self1,
              ⟨ApplySigmoid P.Exp masks, Output.IouScores, Output.NumMasks, Output.MaskWidth,
                Output.MaskHeight, Output.OriginalWidth, Output.OriginalHeight, Output.Scale,
                Output.XOffset, Output.YOffset⟩)
          | some iou =>
            (true, self1,
              ⟨ApplySigmoid P.Exp masks, iou, 1, 1024, 1024, Output.OriginalWidth,
                Output.OriginalHeight, Output.Scale, Output.XOffset, Output.YOffset⟩)
      | _ => (false, self1, Output)

/-- `FSam2ModelInstance::RunEncoder`: the returned `bool` and the instance after the
call.  The three outputs are copied in the order of `outputNames`, each after its
accessors were called, all inside the `try` block: when the accessors of a later output
throw, the buffers copied before keep their new contents. -/
def RunEncoder (P : Platform) (self : FSam2ModelInstance) (ImageData : List Flt) :
    Bool × FSam2ModelInstance :=
  match CreateTensor P (OrtValue.floats ImageData [1, 3, 1024, 1024]) with
  | none => (false, self)
  | some inputTensor =>
    let Runs : List SessionRun :=
      self.SessionRuns ++ [⟨false, [("image", inputTensor)],
        ["high_res_feats_0", "high_res_feats_1", "image_embed"]⟩]
    match P.EncoderRun [("image", inputTensor)]
        ["high_res_feats_0", "high_res_feats_1", "image_embed"] with
    | some [feats0Tensor, feats1Tensor, embedTensor] =>
      match feats0Tensor.floatData with
      | none =>
        (false, ⟨self.bIsInitialized, self.CachedImageEmbed, self.CachedHighResFeats0,
          self.CachedHighResFeats1, self.bHasCachedFeatures, Runs⟩)
      | some feats0 =>
        match feats1Tensor.floatData with
        | none =>
          (false, ⟨self.bIsInitialized, self.CachedImageEmbed, feats0,
            self.CachedHighResFeats1, self.bHasCachedFeatures, Runs⟩)
        | some feats1 =>
          match embedTensor.floatData with
          | none =>
            (false, ⟨self.bIsInitialized, self.CachedImageEmbed, feats0, feats1,
              self.bHasCachedFeatures, Runs⟩)
          | some embed => (true, ⟨self.bIsInitialized, embed, feats0, feats1, true, Runs⟩)
    | _ =>
      (false, ⟨self.bIsInitialized, self.CachedImageEmbed, self.CachedHighResFeats0,
        self.CachedHighResFeats1, self.bHasCachedFeatures, Runs⟩)

/-- `FSam2ModelInstance::RunInference`: the returned `bool`, the instance and `Output`
after the call; `none` when `PreprocessImage` leaves defined behaviour. -/
def RunInference (P : Platform) (self : FSam2ModelInstance) (Input : FSam2Input)
    (Output : FSam2Output) : Option (Bool × FSam2ModelInstance × FSam2Output) :=
  if !self.bIsInitialized then some (false, self, Output)
  else if Input.ImageData.length = 0 then some (false, self, Output)
  else if Input.PromptPoints.length = 0 then some (false, self, Output)
  else
    match PreprocessImage Input.ImageData Input.ImageWidth Input.ImageHeight with
    | Res.ub => none
    | Res.fail => some (false, self, Output)
    | Res.ok pre =>
      match RunEncoder P self pre.ProcessedImageData with
      | (false, self1) => some (false, self1, Output)
      | (true, self1) =>
        some (RunDecoder P self1 Input
          ⟨Output.MaskData, Output.IouScores, Output.NumMasks, Output.MaskWidth,
            Output.MaskHeight, Input.ImageWidth, Input.ImageHeight, pre.OutScale,
            pre.OutXOffset, pre.OutYOffset⟩)

/-- Consecutive `RunDecoder` calls on one instance, one for each input and output
record of `Calls`: the instance after the last call. -/
def decodeAll (P : Platform) (self : FSam2ModelInstance) :
    List (FSam2Input × FSam2Output) → FSam2ModelInstance
  | [] => self
  | (Input, Output) :: Calls => decodeAll P (RunDecoder P self Input Output).2.1 Calls

/-! ## One pixel of the resampling -/

/-- The `InterpolatedValue` of the resampling: the four samples weighted by `WeightX`,
`WeightY` and `1 - WeightX`, `1 - WeightY`, every product and sum in `float`. -/
def InterpolatedValue (P00 P01 P10 P11 WeightX WeightY : Flt) : Flt :=
  binary32.add
    (binary32.add
      (binary32.add
        (binary32.mul (binary32.mul P00 (binary32.sub (Flt.fin 1) WeightX))
          (binary32.sub (Flt.fin 1) WeightY))
        (binary32.mul (binary32.mul P01 WeightX) (binary32.sub (Flt.fin 1) WeightY)))
      (binary32.mul (binary32.mul P10 (binary32.sub (Flt.fin 1) WeightX)) WeightY))
    (binary32.mul (binary32.mul P11 WeightX) WeightY)

/-- The value that the pixel loop of the resampling assigns to
`ProcessedImageData[DstIndex + c]` for the destination pixel `(x, y)` of the footprint. -/
def sampleBilinear (InputImageData : List Flt) (InputWidth InputHeight : ℤ) (OutScale : Flt)
    (y x c : ℤ) : Option Flt := do
  let SrcX := binary32.div (binary32.ofInt x) OutScale
  let SrcY := binary32.div (binary32.ofInt y) OutScale
  let SrcX0 ← FMath.FloorToInt SrcX
  let SrcY0 ← FMath.FloorToInt SrcY
  let SrcX1 := FMath.MinInt (i32add SrcX0 1) (i32sub InputWidth 1)
  let SrcY1 := FMath.MinInt (i32add SrcY0 1) (i32sub InputHeight 1)
  let WeightX := binary32.sub SrcX (binary32.ofInt SrcX0)
  let WeightY := binary32.sub SrcY (binary32.ofInt SrcY0)
  let P00 ← TArray.read InputImageData (i32add (i32mul (i32add (i32mul SrcY0 InputWidth) SrcX0) 3) c)
  let P01 ← TArray.read InputImageData (i32add (i32mul (i32add (i32mul SrcY0 InputWidth) SrcX1) 3) c)
  let P10 ← TArray.read InputImageData (i32add (i32mul (i32add (i32mul SrcY1 InputWidth) SrcX0) 3) c)
  let P11 ← TArray.read InputImageData (i32add (i32mul (i32add (i32mul SrcY1 InputWidth) SrcX1) 3) c)
  some (InterpolatedValue P00 P01 P10 P11 WeightX WeightY)

/-! Properties.  Rounding. -/

theorem roundHalfEven_sub_abs (q : ℚ) : |(roundHalfEven q : ℚ) - q| ≤ 1 / 2 := by
  have h1 := Int.floor_le q
  have h2 := Int.lt_floor_add_one q
  unfold roundHalfEven
  split_ifs with a b c
  · rw [abs_le]; constructor <;> linarith
  · push_cast; rw [abs_le]; constructor <;> linarith
  · rw [abs_le]; constructor <;> linarith
  · push_cast; rw [abs_le]; constructor <;> linarith

theorem roundHalfEven_eq_of_lt (q : ℚ) (m : ℤ) (h : |q - m| < 1 / 2) : roundHalfEven q = m := by
  have h0 := roundHalfEven_sub_abs q
  rw [abs_lt] at h
  rw [abs_le] at h0
  have : ((roundHalfEven q : ℤ) : ℚ) < m + 1 := by linarith
  have h3 : ((m : ℤ) : ℚ) < roundHalfEven q + 1 := by linarith
  have a : roundHalfEven q < m + 1 := by exact_mod_cast this
  have b : m < roundHalfEven q + 1 := by exact_mod_cast h3
  omega

theorem roundHalfEven_intCast (m : ℤ) : roundHalfEven (m : ℚ) = m :=
  roundHalfEven_eq_of_lt _ _ (by simp)

theorem roundHalfEven_nonneg (q : ℚ) (h : 0 ≤ q) : 0 ≤ roundHalfEven q := by
  have h1 : 0 ≤ ⌊q⌋ := Int.floor_nonneg.mpr h
  unfold roundHalfEven
  split_ifs <;> omega

theorem roundHalfEven_nonpos (q : ℚ) (h : q ≤ 0) : roundHalfEven q ≤ 0 := by
  have h0 := roundHalfEven_sub_abs q
  rw [abs_le] at h0
  have : ((roundHalfEven q : ℤ) : ℚ) < 1 := by linarith
  have a : roundHalfEven q < 1 := by exact_mod_cast this
  omega

theorem Fmt.ulp_pos (F : Fmt) (q : ℚ) : 0 < F.ulp q := by
  unfold Fmt.ulp; positivity

theorem log2_eq_of_bounds (x : ℚ) (e : ℤ) (h1 : (2 : ℚ) ^ e ≤ x) (h2 : x < (2 : ℚ) ^ (e + 1)) :
    Int.log 2 x = e := by
  have hx : 0 < x := lt_of_lt_of_le (by positivity) h1
  have a : e ≤ Int.log 2 x := (Int.zpow_le_iff_le_log (by norm_num) hx).mp (by exact_mod_cast h1)
  have b : Int.log 2 x < e + 1 := (Int.lt_zpow_iff_log_lt (by norm_num) hx).mp (by exact_mod_cast h2)
  omega

theorem Fmt.ulp_of_bounds (F : Fmt) (q : ℚ) (e : ℤ) (h1 : (2 : ℚ) ^ e ≤ |q|)
    (h2 : |q| < (2 : ℚ) ^ (e + 1)) (he : F.emin ≤ e) :
    F.ulp q = (2 : ℚ) ^ (e - ((F.prec : ℤ) - 1)) := by
  unfold Fmt.ulp
  rw [log2_eq_of_bounds _ e h1 h2, max_eq_left he]

/-- The rounded value in terms of the unit in the last place. -/
theorem Fmt.round_fin (F : Fmt) (q : ℚ)
    (hov : |(roundHalfEven (q / F.ulp q) : ℚ) * F.ulp q| < (2 : ℚ) ^ (F.emax + 1)) :
    F.round q = Flt.fin ((roundHalfEven (q / F.ulp q) : ℚ) * F.ulp q) := by
  unfold Fmt.round
  by_cases h0 : q = 0
  · subst h0
    simp [roundHalfEven]
  · rw [if_neg h0, if_neg (not_le.mpr hov)]

theorem Fmt.round_of_scaled (F : Fmt) (q : ℚ) (e m : ℤ)
    (h1 : (2 : ℚ) ^ e ≤ |q|) (h2 : |q| < (2 : ℚ) ^ (e + 1)) (he : F.emin ≤ e)
    (hm : |q / (2 : ℚ) ^ (e - ((F.prec : ℤ) - 1)) - m| < 1 / 2)
    (hov : |(m : ℚ) * (2 : ℚ) ^ (e - ((F.prec : ℤ) - 1))| < (2 : ℚ) ^ (F.emax + 1)) :
    F.round q = Flt.fin ((m : ℚ) * (2 : ℚ) ^ (e - ((F.prec : ℤ) - 1))) := by
  have hu := F.ulp_of_bounds q e h1 h2 he
  have hr : roundHalfEven (q / F.ulp q) = m := by
    rw [hu]; exact roundHalfEven_eq_of_lt _ _ hm
  have := F.round_fin q (by rw [hr, hu]; exact hov)
  rw [this, hr, hu]

/-- A value that is a whole number of units in the last place is not changed by rounding. -/
theorem Fmt.round_exact (F : Fmt) (q : ℚ) (n : ℤ) (hn : q = n * F.ulp q)
    (hov : |q| < (2 : ℚ) ^ (F.emax + 1)) : F.round q = Flt.fin q := by
  have hu := F.ulp_pos q
  have hr : roundHalfEven (q / F.ulp q) = n := by
    have : q / F.ulp q = n := by
      rw [div_eq_iff (ne_of_gt hu)]; exact hn
    rw [this]; exact roundHalfEven_intCast n
  have := F.round_fin q (by rw [hr, ← hn]; exact hov)
  rw [this, hr, ← hn]

/-- Relative error of rounding in the range of normal numbers. -/
theorem Fmt.round_rel (F : Fmt) (hp : 1 ≤ F.prec) (q : ℚ) (h1 : (2 : ℚ) ^ F.emin ≤ |q|)
    (h2 : |q| ≤ (2 : ℚ) ^ F.emax) :
    ∃ r : ℚ, F.round q = Flt.fin r ∧ |r - q| ≤ |q| * (2 : ℚ) ^ (-(F.prec : ℤ)) ∧
      (0 ≤ q → 0 ≤ r) ∧ (q ≤ 0 → r ≤ 0) := by
  have hq : 0 < |q| := lt_of_lt_of_le (by positivity) h1
  set e := Int.log 2 |q| with he
  have hle : (2 : ℚ) ^ e ≤ |q| := by
    have := Int.zpow_log_le_self (b := 2) (by norm_num) hq
    exact_mod_cast this
  have hemin : F.emin ≤ e := (Int.zpow_le_iff_le_log (by norm_num) hq).mp (by exact_mod_cast h1)
  have hu : F.ulp q = (2 : ℚ) ^ (e - ((F.prec : ℤ) - 1)) := by
    unfold Fmt.ulp; rw [← he, max_eq_left hemin]
  have hupos := F.ulp_pos q
  have hhalf : F.ulp q / 2 = (2 : ℚ) ^ e * (2 : ℚ) ^ (-(F.prec : ℤ)) := by
    rw [hu, ← zpow_add₀ (by norm_num : (2 : ℚ) ≠ 0)]
    rw [div_eq_iff (by norm_num : (2 : ℚ) ≠ 0)]
    have : e - ((F.prec : ℤ) - 1) = (e + -(F.prec : ℤ)) + 1 := by ring
    rw [this, zpow_add_one₀ (by norm_num : (2 : ℚ) ≠ 0)]
  have herr : |(roundHalfEven (q / F.ulp q) : ℚ) * F.ulp q - q| ≤ F.ulp q / 2 := by
    have h := roundHalfEven_sub_abs (q / F.ulp q)
    have e1 : (roundHalfEven (q / F.ulp q) : ℚ) * F.ulp q - q
        = ((roundHalfEven (q / F.ulp q) : ℚ) - q / F.ulp q) * F.ulp q := by
      field_simp
    rw [e1, abs_mul, abs_of_pos hupos]
    calc |(roundHalfEven (q / F.ulp q) : ℚ) - q / F.ulp q| * F.ulp q
        ≤ 1 / 2 * F.ulp q := mul_le_mul_of_nonneg_right h (le_of_lt hupos)
      _ = F.ulp q / 2 := by ring
  have hpow : (2 : ℚ) ^ (-(F.prec : ℤ)) ≤ 1 / 2 := by
    have : (2 : ℚ) ^ (-(F.prec : ℤ)) ≤ (2 : ℚ) ^ (-1 : ℤ) :=
      zpow_le_zpow_right₀ (by norm_num) (by omega)
    simpa using this
  have hpow0 : (0 : ℚ) < (2 : ℚ) ^ (-(F.prec : ℤ)) := by positivity
  have herr2 : |(roundHalfEven (q / F.ulp q) : ℚ) * F.ulp q - q|
      ≤ |q| * (2 : ℚ) ^ (-(F.prec : ℤ)) := by
    refine le_trans herr ?_
    rw [hhalf]
    exact mul_le_mul_of_nonneg_right hle (le_of_lt hpow0)
  have hov : |(roundHalfEven (q / F.ulp q) : ℚ) * F.ulp q| < (2 : ℚ) ^ (F.emax + 1) := by
    have t1 : |(roundHalfEven (q / F.ulp q) : ℚ) * F.ulp q|
        ≤ |q| + |(roundHalfEven (q / F.ulp q) : ℚ) * F.ulp q - q| := by
      have := abs_add q ((roundHalfEven (q / F.ulp q) : ℚ) * F.ulp q - q)
      simpa using this
    have t2 : |q| * (2 : ℚ) ^ (-(F.prec : ℤ)) ≤ |q| * (1 / 2) :=
      mul_le_mul_of_nonneg_left hpow (le_of_lt hq)
    have t3 : (2 : ℚ) ^ (F.emax + 1) = (2 : ℚ) ^ F.emax * 2 := zpow_add_one₀ (by norm_num) _
    have t4 : (0 : ℚ) < (2 : ℚ) ^ F.emax := by positivity
    rw [t3]; linarith
  refine ⟨_, F.round_fin q hov, herr2, ?_, ?_⟩
  · intro h
    exact mul_nonneg (by exact_mod_cast roundHalfEven_nonneg _ (div_nonneg h (le_of_lt hupos)))
      (le_of_lt hupos)
  · intro h
    exact mul_nonpos_of_nonpos_of_nonneg
      (by exact_mod_cast roundHalfEven_nonpos _ (div_nonpos_of_nonpos_of_nonneg h (le_of_lt hupos)))
      (le_of_lt hupos)
theorem Fmt.round_zero (F : Fmt) : F.round 0 = Flt.fin 0 := by
  unfold Fmt.round; simp

/-- Integers below `2^prec` in magnitude are representable. -/
theorem Fmt.ofInt_exact (F : Fmt) (hemin : F.emin ≤ 0) (hemax : (F.prec : ℤ) ≤ F.emax + 1)
    (z : ℤ) (hz : |z| < 2 ^ F.prec) : F.ofInt z = Flt.fin (z : ℚ) := by
  unfold Fmt.ofInt
  by_cases h0 : z = 0
  · subst h0; simpa using F.round_zero
  have hz1 : (1 : ℚ) ≤ |(z : ℚ)| := by
    have : 1 ≤ |z| := Int.one_le_abs h0
    exact_mod_cast this
  have hq : 0 < |(z : ℚ)| := lt_of_lt_of_le one_pos hz1
  have hzq : |(z : ℚ)| < (2 : ℚ) ^ (F.prec : ℤ) := by
    have : ((|z| : ℤ) : ℚ) < ((2 ^ F.prec : ℤ) : ℚ) := by exact_mod_cast hz
    simpa using this
  set e := Int.log 2 |(z : ℚ)| with he
  have he0 : 0 ≤ e :=
    (Int.zpow_le_iff_le_log (by norm_num) hq).mp (by simpa using hz1)
  have he1 : e < F.prec :=
    (Int.lt_zpow_iff_log_lt (by norm_num) hq).mp (by exact_mod_cast hzq)
  obtain ⟨k, hk⟩ : ∃ k : ℕ, (k : ℤ) = (F.prec : ℤ) - 1 - e := ⟨((F.prec : ℤ) - 1 - e).toNat, by omega⟩
  have hu : F.ulp (z : ℚ) = ((2 : ℚ) ^ k)⁻¹ := by
    unfold Fmt.ulp
    rw [← he, max_eq_left (by omega), ← zpow_natCast, ← zpow_neg]
    congr 1; omega
  apply F.round_exact (z : ℚ) (z * 2 ^ k)
  · rw [hu]; push_cast; field_simp
  · refine lt_of_lt_of_le hzq ?_
    exact zpow_le_zpow_right₀ (by norm_num) hemax

theorem ofInt32_exact (z : ℤ) (hz : |z| < 16777216) : binary32.ofInt z = Flt.fin (z : ℚ) :=
  binary32.ofInt_exact (by decide) (by decide) z (by simpa [binary32] using hz)

theorem ofInt64_exact (z : ℤ) (hz : |z| < 9007199254740992) : binary64.ofInt z = Flt.fin (z : ℚ) :=
  binary64.ofInt_exact (by decide) (by decide) z (by simpa [binary64] using hz)

theorem Clamp_fin (q : ℚ) :
    FMath.Clamp (Flt.fin q) (Flt.fin 0) (Flt.fin 1024) = Flt.fin (max 0 (min q 1024)) := by
  unfold FMath.Clamp
  simp only [Flt.lt, decide_eq_true_eq]
  by_cases h : q < 0
  · rw [if_pos h]; congr 1
    rw [max_eq_left]; exact le_trans (min_le_left _ _) (le_of_lt h)
  · rw [if_neg h]
    push_neg at h
    by_cases h2 : q < 1024
    · rw [if_pos h2, min_eq_left (le_of_lt h2), max_eq_right h]
    · rw [if_neg h2]; push_neg at h2
      rw [min_eq_right h2, max_eq_right (by norm_num)]

theorem tpp_foldl_length (f : FVector2D → List Flt) (hf : ∀ p, (f p).length = 2)
    (l : List FVector2D) (init : List Flt) :
    (l.foldl (fun acc p => acc ++ f p) init).length = init.length + 2 * l.length := by
  induction l generalizing init with
  | nil => simp
  | cons p t ih => simp [ih, hf]; omega

theorem tpp_foldl_keeps_init (f : FVector2D → List Flt)
    (l : List FVector2D) (init : List Flt) (k : ℕ) (hk : k < init.length) :
    (l.foldl (fun acc p => acc ++ f p) init)[k]? = init[k]? := by
  induction l generalizing init with
  | nil => simp
  | cons p t ih =>
    simp only [List.foldl_cons]
    rw [ih (init ++ f p) (by simp; omega), List.getElem?_append_left hk]

theorem tpp_foldl_get (f : FVector2D → List Flt) (hf : ∀ p, (f p).length = 2)
    (l : List FVector2D) (init : List Flt) (i : ℕ) (hi : i < l.length) (j : ℕ) (hj : j < 2) :
    (l.foldl (fun acc p => acc ++ f p) init)[init.length + 2 * i + j]? = (f (l.get ⟨i, hi⟩))[j]? := by
  induction l generalizing init i with
  | nil => simp at hi
  | cons p t ih =>
    simp only [List.foldl_cons]
    cases i with
    | zero =>
      rw [tpp_foldl_keeps_init f t (init ++ f p) _ (by simp [hf]; omega)]
      simp [List.getElem?_append_right]
    | succ i =>
      have := ih (init ++ f p) i (by simpa using hi)
      simp only [List.length_append, hf] at this
      have e : init.length + 2 * (i + 1) + j = init.length + 2 + 2 * i + j := by ring
      rw [e, this]; rfl

theorem round32_of_scaled (q : ℚ) (e m : ℤ)
    (h1 : (2 : ℚ) ^ e ≤ |q|) (h2 : |q| < (2 : ℚ) ^ (e + 1)) (he : -126 ≤ e)
    (hm : |q / (2 : ℚ) ^ (e - 23) - m| < 1 / 2)
    (hov : |(m : ℚ) * (2 : ℚ) ^ (e - 23)| < (2 : ℚ) ^ (128 : ℤ)) :
    binary32.round q = Flt.fin ((m : ℚ) * (2 : ℚ) ^ (e - 23)) := by
  have := binary32.round_of_scaled q e m h1 h2 he (by simpa [binary32] using hm)
    (by simpa [binary32] using hov)
  simpa [binary32] using this

theorem round64_of_scaled (q : ℚ) (e m : ℤ)
    (h1 : (2 : ℚ) ^ e ≤ |q|) (h2 : |q| < (2 : ℚ) ^ (e + 1)) (he : -1022 ≤ e)
    (hm : |q / (2 : ℚ) ^ (e - 52) - m| < 1 / 2)
    (hov : |(m : ℚ) * (2 : ℚ) ^ (e - 52)| < (2 : ℚ) ^ (1024 : ℤ)) :
    binary64.round q = Flt.fin ((m : ℚ) * (2 : ℚ) ^ (e - 52)) := by
  have := binary64.round_of_scaled q e m h1 h2 he (by simpa [binary64] using hm)
    (by simpa [binary64] using hov)
  simpa [binary64] using this

theorem scale_800 : binary32.round (32 / 25) = Flt.fin (5368709 / 4194304) := by
  have := round32_of_scaled (32 / 25) 0 10737418 (by norm_num [abs_of_pos])
    (by norm_num [abs_of_pos]) (by norm_num) (by norm_num [abs_lt]) (by norm_num [abs_of_pos])
  rw [this]; norm_num

theorem ex_x : binary32.cast (binary64.add (binary64.ofInt 0)
    (binary64.mul (binary64.mul (Flt.fin (1 / 2)) (binary64.ofInt 800)) (Flt.fin (5368709 / 4194304))))
    = Flt.fin 512 := by
  rw [ofInt64_exact 0 (by norm_num), ofInt64_exact 800 (by norm_num)]
  have a : binary64.mul (Flt.fin (1 / 2)) (Flt.fin ((800 : ℤ) : ℚ)) = Flt.fin 400 := by
    show binary64.round _ = _
    have e : (1 / 2 : ℚ) * ((800 : ℤ) : ℚ) = ((400 : ℤ) : ℚ) := by norm_num
    rw [e]
    exact (ofInt64_exact 400 (by norm_num)).trans (by norm_num)
  rw [a]
  have b : binary64.mul (Flt.fin 400) (Flt.fin (5368709 / 4194304)) = Flt.fin (134217725 / 262144) := by
    show binary64.round _ = _
    have := round64_of_scaled (400 * (5368709 / 4194304)) 8 9007199053414400
      (by norm_num [abs_of_pos]) (by norm_num [abs_of_pos]) (by norm_num) (by norm_num [abs_lt])
      (by norm_num [abs_of_pos])
    rw [this]; norm_num
  rw [b]
  have c : binary64.add (Flt.fin ((0 : ℤ) : ℚ)) (Flt.fin (134217725 / 262144)) = Flt.fin (134217725 / 262144) := by
    show binary64.round _ = _
    have := round64_of_scaled (((0 : ℤ) : ℚ) + 134217725 / 262144) 8 9007199053414400
      (by norm_num [abs_of_pos]) (by norm_num [abs_of_pos]) (by norm_num) (by norm_num [abs_lt])
      (by norm_num [abs_of_pos])
    rw [this]; norm_num
  rw [c]
  show binary32.round _ = _
  have := round32_of_scaled (134217725 / 262144) 8 16777216
      (by norm_num [abs_of_pos]) (by norm_num [abs_of_pos]) (by norm_num) (by norm_num [abs_lt])
      (by norm_num [abs_of_pos])
  rw [this]; norm_num

theorem ex_y : binary32.cast (binary64.add (binary64.ofInt 128)
    (binary64.mul (binary64.mul (Flt.fin (1 / 2)) (binary64.ofInt 600)) (Flt.fin (5368709 / 4194304))))
    = Flt.fin 512 := by
  rw [ofInt64_exact 128 (by norm_num), ofInt64_exact 600 (by norm_num)]
  have a : binary64.mul (Flt.fin (1 / 2)) (Flt.fin ((600 : ℤ) : ℚ)) = Flt.fin 300 := by
    show binary64.round _ = _
    have e : (1 / 2 : ℚ) * ((600 : ℤ) : ℚ) = ((300 : ℤ) : ℚ) := by norm_num
    rw [e]
    exact (ofInt64_exact 300 (by norm_num)).trans (by norm_num)
  rw [a]
  have b : binary64.mul (Flt.fin 300) (Flt.fin (5368709 / 4194304)) = Flt.fin (402653175 / 1048576) := by
    show binary64.round _ = _
    have := round64_of_scaled (300 * (5368709 / 4194304)) 8 6755399290060800
      (by norm_num [abs_of_pos]) (by norm_num [abs_of_pos]) (by norm_num) (by norm_num [abs_lt])
      (by norm_num [abs_of_pos])
    rw [this]; norm_num
  rw [b]
  have c : binary64.add (Flt.fin ((128 : ℤ) : ℚ)) (Flt.fin (402653175 / 1048576)) = Flt.fin (536870903 / 1048576) := by
    show binary64.round _ = _
    have := round64_of_scaled (((128 : ℤ) : ℚ) + 402653175 / 1048576) 8 9007199103746048
      (by norm_num [abs_of_pos]) (by norm_num [abs_of_pos]) (by norm_num) (by norm_num [abs_lt])
      (by norm_num [abs_of_pos])
    rw [this]; norm_num
  rw [c]
  show binary32.round _ = _
  have := round32_of_scaled (536870903 / 1048576) 8 16777216
      (by norm_num [abs_of_pos]) (by norm_num [abs_of_pos]) (by norm_num) (by norm_num [abs_lt])
      (by norm_num [abs_of_pos])
  rw [this]; norm_num

theorem TransformPromptPoint_length (W H : ℤ) (Scale : Flt) (XOffset YOffset : ℤ) (p : FVector2D) :
    (TransformPromptPoint W H Scale XOffset YOffset p).length = 2 := rfl

/-- C1. `TransformPromptPoints` returns two floats per point, in input order: entries
`2i` and `2i+1` are the clamped values of `XOffset + X_i * W * Scale` and
`YOffset + Y_i * H * Scale` (evaluated in `double`, stored as `float`); the clamp of a
finite value is `max 0 (min v 1024)`; and the point (0.5, 0.5) of an 800x600 image with
scale `1.28f` and offsets (0, 128) goes to (512, 512). -/
theorem TransformPromptPoints_layout (InputPoints : List FVector2D) (W H : ℤ) (Scale : Flt)
    (XOffset YOffset : ℤ) :
    (TransformPromptPoints InputPoints W H Scale XOffset YOffset).length
        = 2 * InputPoints.length ∧
    (∀ i : Fin InputPoints.length,
      (TransformPromptPoints InputPoints W H Scale XOffset YOffset)[2 * i.val]? =
        some (FMath.Clamp (binary32.cast (binary64.add (binary64.ofInt XOffset)
          (binary64.mul (binary64.mul (InputPoints.get i).X (binary64.ofInt W)) Scale)))
          (Flt.fin 0) (Flt.fin 1024)) ∧
      (TransformPromptPoints InputPoints W H Scale XOffset YOffset)[2 * i.val + 1]? =
        some (FMath.Clamp (binary32.cast (binary64.add (binary64.ofInt YOffset)
          (binary64.mul (binary64.mul (InputPoints.get i).Y (binary64.ofInt H)) Scale)))
          (Flt.fin 0) (Flt.fin 1024))) ∧
    (∀ q : ℚ, FMath.Clamp (Flt.fin q) (Flt.fin 0) (Flt.fin 1024) = Flt.fin (max 0 (min q 1024))) ∧
    TransformPromptPoints [⟨Flt.fin (1 / 2), Flt.fin (1 / 2)⟩] 800 600 (binary32.round (32 / 25))
        0 128 = [Flt.fin 512, Flt.fin 512] := by
  refine ⟨?_, ?_, Clamp_fin, ?_⟩
  · unfold TransformPromptPoints
    rw [tpp_foldl_length _ (TransformPromptPoint_length W H Scale XOffset YOffset)]
    simp
  · intro i
    unfold TransformPromptPoints
    have h0 := tpp_foldl_get _ (TransformPromptPoint_length W H Scale XOffset YOffset)
      InputPoints [] i.val i.isLt 0 (by norm_num)
    have h1 := tpp_foldl_get _ (TransformPromptPoint_length W H Scale XOffset YOffset)
      InputPoints [] i.val i.isLt 1 (by norm_num)
    simp only [List.length_nil, zero_add, add_zero] at h0 h1
    rw [h0, h1]
    exact ⟨rfl, rfl⟩
  · rw [scale_800]
    simp only [TransformPromptPoints, List.foldl_cons, List.foldl_nil, List.nil_append,
      TransformPromptPoint]
    rw [ex_x, ex_y, Clamp_fin]
    norm_num

/-- Rounding to `float` of a positive value of moderate size: relative error `2^-24`. -/
theorem round32_pos (q : ℚ) (h1 : 1 / 1099511627776 ≤ q) (h2 : q ≤ 1099511627776) :
    ∃ r : ℚ, binary32.round q = Flt.fin r ∧ q * (1 - 1 / 16777216) ≤ r ∧
      r ≤ q * (1 + 1 / 16777216) := by
  have hq : 0 < q := lt_of_lt_of_le (by norm_num) h1
  have habs : |q| = q := abs_of_pos hq
  obtain ⟨r, hr, herr, _, _⟩ := binary32.round_rel (by decide) q
    (by rw [habs]; refine le_trans ?_ h1; norm_num [binary32])
    (by rw [habs]; refine le_trans h2 ?_; norm_num [binary32])
  refine ⟨r, hr, ?_, ?_⟩
  · rw [habs] at herr
    have : (2 : ℚ) ^ (-((binary32.prec : ℕ) : ℤ)) = 1 / 16777216 := by norm_num [binary32]
    rw [this, abs_le] at herr
    linarith [herr.1]
  · rw [habs] at herr
    have : (2 : ℚ) ^ (-((binary32.prec : ℕ) : ℤ)) = 1 / 16777216 := by norm_num [binary32]
    rw [this, abs_le] at herr
    linarith [herr.2]

/-- Conversion of a positive `int32` to `float`. -/
theorem ofInt32_pos (D : ℤ) (h0 : 0 < D) (h1 : D < 2147483648) :
    ∃ d : ℚ, binary32.ofInt D = Flt.fin d ∧ (D : ℚ) * (1 - 1 / 16777216) ≤ d ∧
      d ≤ (D : ℚ) * (1 + 1 / 16777216) := by
  have a : (1 : ℚ) ≤ D := by exact_mod_cast h0
  have b : (D : ℚ) ≤ 2147483648 := by exact_mod_cast le_of_lt h1
  exact round32_pos D (by linarith) (by linarith)

/-- The quotient `1024 / float(D)` of `PreprocessImage`. -/
theorem scaleOf_bounds (d : ℚ) (h0 : 1 / 2 ≤ d) (h1 : d ≤ 4294967296) :
    ∃ s : ℚ, binary32.div (binary32.ofInt TargetSize) (Flt.fin d) = Flt.fin s ∧
      1024 * (1 - 1 / 16777216) ≤ s * d ∧ s * d ≤ 1024 * (1 + 1 / 16777216) ∧ 0 < s := by
  have hd : 0 < d := by linarith
  have ht : binary32.ofInt TargetSize = Flt.fin 1024 := by
    rw [TargetSize, ofInt32_exact 1024 (by norm_num)]; norm_num
  rw [ht]
  have hne : d ≠ 0 := ne_of_gt hd
  have hq1 : 1 / 1099511627776 ≤ 1024 / d := by
    rw [le_div_iff₀ hd]; linarith
  have hq2 : 1024 / d ≤ 1099511627776 := by
    rw [div_le_iff₀ hd]; linarith
  obtain ⟨s, hs, lo, hi⟩ := round32_pos (1024 / d) hq1 hq2
  refine ⟨s, ?_, ?_, ?_, ?_⟩
  · show (if d = 0 then _ else binary32.round (1024 / d)) = _
    rw [if_neg hne, hs]
  · have := mul_le_mul_of_nonneg_right lo (le_of_lt hd)
    have e : 1024 / d * (1 - 1 / 16777216) * d = 1024 * (1 - 1 / 16777216) := by
      field_simp; ring
    linarith
  · have := mul_le_mul_of_nonneg_right hi (le_of_lt hd)
    have e : 1024 / d * (1 + 1 / 16777216) * d = 1024 * (1 + 1 / 16777216) := by
      field_simp; ring
    linarith
  · have : 0 < 1024 / d := by positivity
    nlinarith

theorem roundHalfEven_ge_int (y : ℚ) (m : ℤ) (h : (m : ℚ) ≤ y) : m ≤ roundHalfEven y := by
  have h1 := (abs_le.mp (roundHalfEven_sub_abs y)).1
  have h2 : ((m - 1 : ℤ) : ℚ) < (roundHalfEven y : ℚ) := by
    push_cast
    linarith
  have h3 : m - 1 < roundHalfEven y := by exact_mod_cast h2
  omega

theorem roundHalfEven_le_int (y : ℚ) (m : ℤ) (h : y < (m : ℚ) + 1 / 2) :
    roundHalfEven y ≤ m := by
  have h1 := (abs_le.mp (roundHalfEven_sub_abs y)).2
  have h2 : (roundHalfEven y : ℚ) < ((m + 1 : ℤ) : ℚ) := by
    push_cast
    linarith
  have h3 : roundHalfEven y < m + 1 := by exact_mod_cast h2
  omega

/-! ## Rounding between dyadic bounds -/

/-- Rounding keeps bounds that are multiples of `2^-k` below `2^prec` units: such bounds
are representable, and rounding to nearest does not cross a representable value. -/
theorem Fmt.round_dyadic_bounds (F : Fmt) (hemax : (F.prec : ℤ) ≤ F.emax + 1) (q : ℚ)
    (lo hi : ℤ) (k : ℕ) (hk : F.emin + (k : ℤ) ≤ (F.prec : ℤ) - 1)
    (h0 : 0 ≤ lo) (h1 : (lo : ℚ) ≤ q * 2 ^ k) (h2 : q * 2 ^ k ≤ hi) (h3 : hi < 2 ^ F.prec) :
    ∃ r : ℚ, F.round q = Flt.fin r ∧ (lo : ℚ) ≤ r * 2 ^ k ∧ r * 2 ^ k ≤ hi := by
  have hk0 : (0 : ℚ) < 2 ^ k := by positivity
  have hlo : (0 : ℚ) ≤ lo := by exact_mod_cast h0
  have hq0 : 0 ≤ q := by
    by_contra hc
    push_neg at hc
    have : q * 2 ^ k < 0 := mul_neg_of_neg_of_pos hc hk0
    linarith
  by_cases hz : q = 0
  · subst hz
    refine ⟨0, F.round_zero, ?_, ?_⟩
    · rw [zero_mul] at h1 ⊢
      exact h1
    · rw [zero_mul] at h2 ⊢
      exact h2
  have hq : 0 < q := lt_of_le_of_ne hq0 (Ne.symm hz)
  have hupos := F.ulp_pos q
  have hhi : (hi : ℚ) < (2 : ℚ) ^ (F.prec : ℤ) := by
    rw [zpow_natCast]
    exact_mod_cast h3
  -- the exponent of the unit in the last place
  have hlog : Int.log 2 q + (k : ℤ) ≤ (F.prec : ℤ) - 1 := by
    obtain ⟨x, hx⟩ : ∃ x : ℤ, x = (F.prec : ℤ) - (k : ℤ) := ⟨_, rfl⟩
    have hlt : q < (2 : ℚ) ^ x := by
      rw [hx, zpow_sub₀ (by norm_num : (2 : ℚ) ≠ 0), zpow_natCast (2 : ℚ) k, lt_div_iff₀ hk0]
      exact lt_of_le_of_lt h2 hhi
    have := (Int.lt_zpow_iff_log_lt (by norm_num : 1 < 2) hq).mp (by exact_mod_cast hlt)
    omega
  obtain ⟨E, hE, hEk⟩ : ∃ E : ℤ, F.ulp q = (2 : ℚ) ^ (E - ((F.prec : ℤ) - 1)) ∧
      E + (k : ℤ) ≤ (F.prec : ℤ) - 1 := by
    refine ⟨max (Int.log 2 q) F.emin, ?_, ?_⟩
    · unfold Fmt.ulp
      rw [abs_of_pos hq]
    · rcases le_total (Int.log 2 q) F.emin with h | h
      · rw [max_eq_right h]; exact hk
      · rw [max_eq_left h]; exact hlog
  obtain ⟨j, hj⟩ : ∃ j : ℕ, (j : ℤ) = (F.prec : ℤ) - 1 - E - (k : ℤ) :=
    ⟨((F.prec : ℤ) - 1 - E - (k : ℤ)).toNat, by omega⟩
  have hj0 : (0 : ℚ) < 2 ^ j := by positivity
  have hprod : F.ulp q * 2 ^ k * 2 ^ j = 1 := by
    rw [hE, ← zpow_natCast (2 : ℚ) k, ← zpow_natCast (2 : ℚ) j,
      ← zpow_add₀ (by norm_num : (2 : ℚ) ≠ 0), ← zpow_add₀ (by norm_num : (2 : ℚ) ≠ 0)]
    have : E - ((F.prec : ℤ) - 1) + (k : ℤ) + (j : ℤ) = 0 := by omega
    rw [this, zpow_zero]
  have hdiv : q / F.ulp q = q * 2 ^ k * 2 ^ j := by
    rw [div_eq_iff (ne_of_gt hupos)]
    calc q = q * (F.ulp q * 2 ^ k * 2 ^ j) := by rw [hprod, mul_one]
      _ = q * 2 ^ k * 2 ^ j * F.ulp q := by ring
  have hge : lo * 2 ^ j ≤ roundHalfEven (q / F.ulp q) := by
    apply roundHalfEven_ge_int
    rw [hdiv]
    push_cast
    exact mul_le_mul_of_nonneg_right h1 (le_of_lt hj0)
  have hle : roundHalfEven (q / F.ulp q) ≤ hi * 2 ^ j := by
    apply roundHalfEven_le_int
    rw [hdiv]
    push_cast
    have := mul_le_mul_of_nonneg_right h2 (le_of_lt hj0)
    linarith
  have hgeq : (lo : ℚ) * 2 ^ j ≤ (roundHalfEven (q / F.ulp q) : ℚ) := by exact_mod_cast hge
  have hleq : (roundHalfEven (q / F.ulp q) : ℚ) ≤ (hi : ℚ) * 2 ^ j := by exact_mod_cast hle
  have hrk : (roundHalfEven (q / F.ulp q) : ℚ) * F.ulp q * 2 ^ k * 2 ^ j
      = (roundHalfEven (q / F.ulp q) : ℚ) := by
    calc (roundHalfEven (q / F.ulp q) : ℚ) * F.ulp q * 2 ^ k * 2 ^ j
        = (roundHalfEven (q / F.ulp q) : ℚ) * (F.ulp q * 2 ^ k * 2 ^ j) := by ring
      _ = _ := by rw [hprod, mul_one]
  have hlo2 : (lo : ℚ) ≤ (roundHalfEven (q / F.ulp q) : ℚ) * F.ulp q * 2 ^ k := by
    by_contra hc
    push_neg at hc
    have := mul_lt_mul_of_pos_right hc hj0
    rw [hrk] at this
    linarith
  have hhi2 : (roundHalfEven (q / F.ulp q) : ℚ) * F.ulp q * 2 ^ k ≤ hi := by
    by_contra hc
    push_neg at hc
    have := mul_lt_mul_of_pos_right hc hj0
    rw [hrk] at this
    linarith
  have hr0 : 0 ≤ (roundHalfEven (q / F.ulp q) : ℚ) * F.ulp q :=
    mul_nonneg (le_trans (mul_nonneg hlo (le_of_lt hj0)) hgeq) (le_of_lt hupos)
  have hk1 : (1 : ℚ) ≤ 2 ^ k := one_le_pow₀ (by norm_num)
  refine ⟨_, F.round_fin q ?_, hlo2, hhi2⟩
  rw [abs_of_nonneg hr0]
  have h5 : (roundHalfEven (q / F.ulp q) : ℚ) * F.ulp q
      ≤ (roundHalfEven (q / F.ulp q) : ℚ) * F.ulp q * 2 ^ k := by
    have := mul_le_mul_of_nonneg_left hk1 hr0
    linarith
  have h6 : (2 : ℚ) ^ (F.prec : ℤ) ≤ (2 : ℚ) ^ (F.emax + 1) :=
    zpow_le_zpow_right₀ (by norm_num) hemax
  linarith

theorem FloorToInt_fin (p : ℚ) (h : isInt32 ⌊p⌋) :
    FMath.FloorToInt (Flt.fin p) = some ⌊p⌋ := by
  show (if isInt32 ⌊p⌋ then some ⌊p⌋ else none) = _
  rw [if_pos h]

/-- `RoundToInt` takes the floor of the rounded sum `F + 0.5f`. -/
theorem RoundToInt_of_round (p r : ℚ) (hr : binary32.round (p + 1 / 2) = Flt.fin r)
    (h : isInt32 ⌊r⌋) : FMath.RoundToInt (Flt.fin p) = some ⌊r⌋ := by
  show FMath.FloorToInt (binary32.round (p + 1 / 2)) = _
  rw [hr]
  exact FloorToInt_fin r h

/-- `RoundToInt` of a value whose sum with one half lies between `N` and `N + 3/4`: these
bounds are representable, so the rounding of the sum does not cross them. -/
theorem RoundToInt_of_bounds (p : ℚ) (N : ℤ) (hN0 : 0 ≤ N) (hN1 : N < 4194303)
    (h1 : (N : ℚ) ≤ p + 1 / 2) (h2 : p + 1 / 2 ≤ N + 3 / 4) :
    FMath.RoundToInt (Flt.fin p) = some N := by
  have p24 : (2 : ℤ) ^ binary32.prec = 16777216 := by decide
  obtain ⟨r, hr, lo, hi⟩ := Fmt.round_dyadic_bounds binary32 (by decide) (p + 1 / 2)
    (4 * N) (4 * N + 3) 2 (by decide) (by omega) (by push_cast; linarith)
    (by push_cast; linarith) (by rw [p24]; omega)
  push_cast at lo hi
  have e : ⌊r⌋ = N := Int.floor_eq_iff.mpr ⟨by linarith, by linarith⟩
  rw [RoundToInt_of_round p r hr (by rw [e]; constructor <;> omega), e]

/-- `RoundToInt` when the sum `F + 0.5f` is exact. -/
theorem RoundToInt_fin (p : ℚ) (hr : binary32.round (p + 1 / 2) = Flt.fin (p + 1 / 2))
    (h : isInt32 ⌊p + 1 / 2⌋) : FMath.RoundToInt (Flt.fin p) = some ⌊p + 1 / 2⌋ :=
  RoundToInt_of_round p (p + 1 / 2) hr h

/-- `RoundToInt` of a non-negative value below `2^22`: the result is the floor of the
rounded sum, which is within one part in `2^24` of the exact sum and not below any
integer that the exact sum reaches. -/
theorem RoundToInt_spec (p : ℚ) (h0 : 0 ≤ p) (h1 : p ≤ 4194304) :
    ∃ (r : ℚ) (N : ℤ), binary32.round (p + 1 / 2) = Flt.fin r ∧
      FMath.RoundToInt (Flt.fin p) = some N ∧ N = ⌊r⌋ ∧ 0 ≤ N ∧ N ≤ 4194305 ∧
      (p + 1 / 2) * (1 - 1 / 16777216) ≤ r ∧ r ≤ (p + 1 / 2) * (1 + 1 / 16777216) ∧
      (N : ℚ) ≤ (p + 1 / 2) * (1 + 1 / 16777216) ∧
      (∀ m : ℤ, 0 ≤ m → (m : ℚ) ≤ p + 1 / 2 → m ≤ N) := by
  obtain ⟨r, hr, lo, hi⟩ := round32_pos (p + 1 / 2) (by linarith) (by linarith)
  have hr0 : 0 ≤ r := by nlinarith
  have hN0 : 0 ≤ ⌊r⌋ := Int.floor_nonneg.mpr hr0
  have hN1 : ⌊r⌋ ≤ 4194305 := by
    have : ⌊r⌋ < 4194306 := Int.floor_lt.mpr (by push_cast; nlinarith)
    omega
  refine ⟨r, ⌊r⌋, hr, RoundToInt_of_round p r hr ⟨by omega, by omega⟩, rfl, hN0, hN1, lo, hi,
    le_trans (Int.floor_le r) hi, ?_⟩
  intro m hm0 hm
  have p24 : (2 : ℤ) ^ binary32.prec = 16777216 := by decide
  obtain ⟨r2, hr2, lo2, _⟩ := Fmt.round_dyadic_bounds binary32 (by decide) (p + 1 / 2)
    m 4194305 0 (by decide) hm0 (by simpa using hm) (by push_cast; linarith)
    (by rw [p24]; norm_num)
  have e : r2 = r := by
    have := hr2.symm.trans hr
    injection this
  rw [e] at lo2
  exact Int.le_floor.mpr (by simpa using lo2)

/-- The resized extent `RoundToInt(float(D) * s)` of one dimension. -/
theorem scaledDim_bounds (d s : ℚ) (hlo : 1 / 1073741824 ≤ s * d)
    (hhi : s * d ≤ 1024 * (1 + 1 / 16777216)) :
    ∃ (p : ℚ) (N : ℤ), binary32.mul (Flt.fin d) (Flt.fin s) = Flt.fin p ∧
      FMath.RoundToInt (Flt.fin p) = some N ∧
      (N : ℚ) ≤ (p + 1 / 2) * (1 + 1 / 16777216) ∧ 0 ≤ N ∧ N ≤ 1024 ∧
      p ≤ s * d * (1 + 1 / 16777216) ∧ (1024 * (1 - 1 / 16777216) ≤ s * d → N = 1024) ∧
      0 ≤ p ∧ (∀ m : ℤ, 0 ≤ m → (m : ℚ) ≤ p + 1 / 2 → m ≤ N) := by
  obtain ⟨p, hp, lo, hi⟩ := round32_pos (d * s) (by rw [mul_comm]; linarith)
    (by rw [mul_comm]; linarith)
  rw [mul_comm d s] at lo hi
  have hp0 : 0 ≤ p := by nlinarith
  obtain ⟨r, N, hr, hN, hNr, hN0, _, _, _, hNle, hge⟩ := RoundToInt_spec p hp0 (by nlinarith)
  have p24 : (2 : ℤ) ^ binary32.prec = 16777216 := by decide
  have hN1 : N ≤ 1024 := by
    obtain ⟨r2, hr2, _, hi2⟩ := Fmt.round_dyadic_bounds binary32 (by decide) (p + 1 / 2)
      0 4099 2 (by decide) (le_refl 0) (by push_cast; nlinarith) (by push_cast; nlinarith)
      (by rw [p24]; norm_num)
    have e : r2 = r := by
      have := hr2.symm.trans hr
      injection this
    rw [e] at hi2
    push_cast at hi2
    have : ⌊r⌋ < 1025 := Int.floor_lt.mpr (by push_cast; linarith)
    omega
  refine ⟨p, N, hp, hN, hNle, hN0, hN1, hi, ?_, hp0, hge⟩
  intro h
  have : (1024 : ℤ) ≤ N := hge 1024 (by norm_num) (by push_cast; nlinarith)
  omega

/-- The source index `FloorToInt(x / s)` of a footprint pixel stays inside the image. -/
theorem srcIndex_bounds (D : ℤ) (d s p : ℚ) (x N : ℤ) (hD : 0 < D) (hD2 : D < 2147483648)
    (hd1 : (D : ℚ) * (1 - 1 / 16777216) ≤ d) (hd2 : d ≤ (D : ℚ) * (1 + 1 / 16777216))
    (hs : 1 / 8388608 ≤ s) (hsd : s * d ≤ 1024 * (1 + 1 / 16777216))
    (hp : p ≤ s * d * (1 + 1 / 16777216))
    (hN : (N : ℚ) ≤ (p + 1 / 2) * (1 + 1 / 16777216)) (hN2 : N ≤ 1024)
    (hx0 : 0 ≤ x) (hx : x < N) :
    ∃ (v : ℚ) (k : ℤ), binary32.div (binary32.ofInt x) (Flt.fin s) = Flt.fin v ∧
      FMath.FloorToInt (Flt.fin v) = some k ∧ k = ⌊v⌋ ∧ 0 ≤ k ∧ k ≤ D - 1 ∧ 0 ≤ v := by
  have hs0 : 0 < s := lt_of_lt_of_le (by norm_num) hs
  have hsne : s ≠ 0 := ne_of_gt hs0
  have hDq : (1 : ℚ) ≤ D := by exact_mod_cast hD
  have hDq2 : (D : ℚ) ≤ 2147483648 := by exact_mod_cast le_of_lt hD2
  rw [ofInt32_exact x (by rw [abs_of_nonneg hx0]; omega)]
  by_cases hx1 : x = 0
  · subst hx1
    refine ⟨0, 0, ?_, ?_, by simp, le_refl _, by omega, le_refl _⟩
    · show (if s = 0 then _ else binary32.round (((0 : ℤ) : ℚ) / s)) = _
      rw [if_neg hsne]; simpa using binary32.round_zero
    · rw [FloorToInt_fin 0 (by simp [isInt32])]; simp
  have hxq1 : (1 : ℚ) ≤ x := by
    have : 1 ≤ x := by omega
    exact_mod_cast this
  have hxq2 : (x : ℚ) + 1 ≤ N := by
    have : x + 1 ≤ N := by omega
    exact_mod_cast this
  have hxq3 : (x : ℚ) ≤ 1023 := by
    have : x ≤ 1023 := by omega
    exact_mod_cast this
  have hd0 : 0 < d := by nlinarith
  -- s is at most about 2049
  have hsup : s ≤ 4096 := by nlinarith
  have hq1 : 1 / 1099511627776 ≤ (x : ℚ) / s := by
    rw [le_div_iff₀ hs0]; nlinarith
  have hq2 : (x : ℚ) / s ≤ 1099511627776 := by
    rw [div_le_iff₀ hs0]; nlinarith
  obtain ⟨v, hv, lo, hi⟩ := round32_pos ((x : ℚ) / s) hq1 hq2
  have hv0 : 0 ≤ v := by
    have : 0 ≤ (x : ℚ) / s := by positivity
    nlinarith
  -- the key inequality `v < D`
  have hvs : v * s ≤ (x : ℚ) * (1 + 1 / 16777216) := by
    have := mul_le_mul_of_nonneg_right hi (le_of_lt hs0)
    have e : (x : ℚ) / s * (1 + 1 / 16777216) * s = (x : ℚ) * (1 + 1 / 16777216) := by
      field_simp; ring
    linarith
  have hsd2 : s * d ≤ s * (D : ℚ) * (1 + 1 / 16777216) := by
    have := mul_le_mul_of_nonneg_left hd2 (le_of_lt hs0)
    rw [← mul_assoc] at this
    exact this
  have ht0 : 0 ≤ s * (D : ℚ) := by positivity
  have hxp : (x : ℚ) ≤ (s * d * (1 + 1 / 16777216) + 1 / 2) * (1 + 1 / 16777216) - 1 := by
    linarith
  have e1 : (x : ℚ) * (1 + 1 / 16777216)
      ≤ ((s * d * (1 + 1 / 16777216) + 1 / 2) * (1 + 1 / 16777216) - 1) * (1 + 1 / 16777216) :=
    mul_le_mul_of_nonneg_right hxp (by norm_num)
  have hlt : v * s < (D : ℚ) * s := by
    rw [mul_comm (D : ℚ) s]
    generalize s * (D : ℚ) = T at *
    generalize s * d = U at *
    generalize v * s = Y at *
    linarith
  have hvD : v < D := lt_of_mul_lt_mul_right hlt (le_of_lt hs0)
  have hk0 : 0 ≤ ⌊v⌋ := Int.floor_nonneg.mpr hv0
  have hk1 : ⌊v⌋ < D := Int.floor_lt.mpr hvD
  refine ⟨v, ⌊v⌋, ?_, FloorToInt_fin v ⟨by omega, by omega⟩, rfl, hk0, by omega, hv0⟩
  show (if s = 0 then _ else binary32.round ((x : ℚ) / s)) = _
  rw [if_neg hsne, hv]

/-! ## Machine integers, arrays and loops -/

theorem wrap32_eq (z : ℤ) (h0 : -2147483648 ≤ z) (h1 : z < 2147483648) : wrap32 z = z := by
  unfold wrap32; omega

theorem i32add_eq (a b : ℤ) (h0 : -2147483648 ≤ a + b) (h1 : a + b < 2147483648) :
    i32add a b = a + b := wrap32_eq _ h0 h1

theorem i32sub_eq (a b : ℤ) (h0 : -2147483648 ≤ a - b) (h1 : a - b < 2147483648) :
    i32sub a b = a - b := wrap32_eq _ h0 h1

theorem i32mul_eq (a b : ℤ) (h0 : -2147483648 ≤ a * b) (h1 : a * b < 2147483648) :
    i32mul a b = a * b := wrap32_eq _ h0 h1

theorem TArray.read_ok {α : Type} (A : List α) (i : ℤ) (h0 : 0 ≤ i) (h1 : i < (A.length : ℤ)) :
    ∃ v, TArray.read A i = some v := by
  unfold TArray.read
  rw [if_pos ⟨h0, h1⟩]
  have : i.toNat < A.length := by omega
  exact ⟨A[i.toNat], List.getElem?_eq_getElem this⟩

theorem TArray.write_ok {α : Type} (A : List α) (i : ℤ) (v : α) (h0 : 0 ≤ i)
    (h1 : i < (A.length : ℤ)) : TArray.write A i v = some (A.set i.toNat v) := by
  unfold TArray.write
  rw [if_pos ⟨h0, h1⟩]

/-- A loop whose body keeps an invariant, and cannot go wrong under it, runs to its end. -/
theorem forLoopAux_inv {σ : Type} (body : ℤ → σ → Option σ) (Inv : σ → Prop) (n : ℕ) (s : σ)
    (h0 : Inv s)
    (hstep : ∀ k : ℕ, k < n → ∀ t, Inv t → ∃ u, body (k : ℤ) t = some u ∧ Inv u) :
    ∃ t, forLoopAux body n s = some t ∧ Inv t := by
  induction n with
  | zero => exact ⟨s, rfl, h0⟩
  | succ n ih =>
    obtain ⟨t, ht, hinv⟩ := ih (fun k hk => hstep k (by omega))
    obtain ⟨u, hu, hinv2⟩ := hstep n (by omega) t hinv
    exact ⟨u, by simp [forLoopAux, ht, hu], hinv2⟩

theorem forLoop_inv {σ : Type} (body : ℤ → σ → Option σ) (Inv : σ → Prop) (n : ℤ) (s : σ)
    (h0 : Inv s)
    (hstep : ∀ k : ℤ, 0 ≤ k → k < n → ∀ t, Inv t → ∃ u, body k t = some u ∧ Inv u) :
    ∃ t, forLoop n body s = some t ∧ Inv t := by
  unfold forLoop
  exact forLoopAux_inv body Inv n.toNat s h0
    (fun k hk t ht => hstep k (by omega) (by omega) t ht)

/-- A loop of no iterations leaves the state as it is. -/
theorem forLoop_nonpos {σ : Type} (body : ℤ → σ → Option σ) (n : ℤ) (hn : n ≤ 0) (s : σ) :
    forLoop n body s = some s := by
  unfold forLoop
  have : n.toNat = 0 := by omega
  rw [this]; rfl

theorem srcRead_ok (img : List Flt) (W H ky kx c : ℤ) (hlen : (img.length : ℤ) = W * H * 3)
    (h32 : W * H * 3 < 2147483648) (hW : 0 < W)
    (hky0 : 0 ≤ ky) (hky : ky ≤ H - 1) (hkx0 : 0 ≤ kx) (hkx : kx ≤ W - 1) (hc0 : 0 ≤ c)
    (hc : c < 3) :
    ∃ v, TArray.read img (i32add (i32mul (i32add (i32mul ky W) kx) 3) c) = some v := by
  have hp : ky * W ≤ (H - 1) * W := Int.mul_le_mul_of_nonneg_right hky (le_of_lt hW)
  have hp0 : 0 ≤ ky * W := mul_nonneg hky0 (le_of_lt hW)
  have e : (H - 1) * W = W * H - W := by ring
  rw [i32mul_eq ky W (by omega) (by omega), i32add_eq (ky * W) kx (by omega) (by omega),
    i32mul_eq (ky * W + kx) 3 (by omega) (by omega),
    i32add_eq ((ky * W + kx) * 3) c (by omega) (by omega)]
  exact TArray.read_ok img _ (by omega) (by omega)

theorem bilinearChannel_ok (img : List Flt) (W H x0 y0 x1 y1 : ℤ) (wx wy : Flt)
    (DstIndex c : ℤ) (canvas : List Flt) (hlen : (img.length : ℤ) = W * H * 3)
    (h32 : W * H * 3 < 2147483648) (hW : 0 < W)
    (hx0 : 0 ≤ x0 ∧ x0 ≤ W - 1) (hy0 : 0 ≤ y0 ∧ y0 ≤ H - 1)
    (hx1 : 0 ≤ x1 ∧ x1 ≤ W - 1) (hy1 : 0 ≤ y1 ∧ y1 ≤ H - 1)
    (hc : 0 ≤ c ∧ c < 3) (hd : 0 ≤ DstIndex ∧ DstIndex + 2 < (canvas.length : ℤ))
    (hcl : (canvas.length : ℤ) < 2147483648) :
    ∃ u, bilinearChannel img W x0 y0 x1 y1 wx wy DstIndex c canvas = some u ∧
      u.length = canvas.length := by
  obtain ⟨p00, h00⟩ := srcRead_ok img W H y0 x0 c hlen h32 hW hy0.1 hy0.2 hx0.1 hx0.2 hc.1 hc.2
  obtain ⟨p01, h01⟩ := srcRead_ok img W H y0 x1 c hlen h32 hW hy0.1 hy0.2 hx1.1 hx1.2 hc.1 hc.2
  obtain ⟨p10, h10⟩ := srcRead_ok img W H y1 x0 c hlen h32 hW hy1.1 hy1.2 hx0.1 hx0.2 hc.1 hc.2
  obtain ⟨p11, h11⟩ := srcRead_ok img W H y1 x1 c hlen h32 hW hy1.1 hy1.2 hx1.1 hx1.2 hc.1 hc.2
  have hi : i32add DstIndex c = DstIndex + c := i32add_eq _ _ (by omega) (by omega)
  unfold bilinearChannel
  simp only [h00, h01, h10, h11, Option.bind_eq_bind, Option.some_bind, hi]
  rw [TArray.write_ok _ _ _ (by omega) (by omega)]
  exact ⟨_, rfl, List.length_set _ _ _⟩

/-- One pixel of the resampling succeeds when its source indices are inside the image. -/
theorem resamplePixel_ok (img : List Flt) (W H : ℤ) (s : Flt) (xo yo y x : ℤ)
    (canvas : List Flt) (kx ky : ℤ) (hlen : (img.length : ℤ) = W * H * 3)
    (h32 : W * H * 3 < 2147483648) (hW : 0 < W) (hH : 0 < H)
    (hcv : canvas.length = 3145728)
    (hfx : FMath.FloorToInt (binary32.div (binary32.ofInt x) s) = some kx)
    (hfy : FMath.FloorToInt (binary32.div (binary32.ofInt y) s) = some ky)
    (hkx : 0 ≤ kx ∧ kx ≤ W - 1) (hky : 0 ≤ ky ∧ ky ≤ H - 1) :
    ∃ u, resamplePixel img W H s xo yo y x canvas = some u ∧ u.length = 3145728 := by
  have hW2 : W < 2147483648 := by nlinarith
  have hH2 : H < 2147483648 := by nlinarith
  unfold resamplePixel
  simp only [hfx, hfy, Option.bind_eq_bind, Option.some_bind]
  split_ifs with hg
  · have hx1 : 0 ≤ FMath.MinInt (i32add kx 1) (i32sub W 1) ∧
        FMath.MinInt (i32add kx 1) (i32sub W 1) ≤ W - 1 := by
      rw [i32add_eq kx 1 (by omega) (by omega), i32sub_eq W 1 (by omega) (by omega)]
      unfold FMath.MinInt; split_ifs <;> omega
    have hy1 : 0 ≤ FMath.MinInt (i32add ky 1) (i32sub H 1) ∧
        FMath.MinInt (i32add ky 1) (i32sub H 1) ≤ H - 1 := by
      rw [i32add_eq ky 1 (by omega) (by omega), i32sub_eq H 1 (by omega) (by omega)]
      unfold FMath.MinInt; split_ifs <;> omega
    obtain ⟨g1, g2, g3, g4⟩ := hg
    simp only [TargetSize] at g2 g4 ⊢
    have hd : i32mul (i32add (i32mul (i32add y yo) 1024) (i32add x xo)) 3
        = ((i32add y yo) * 1024 + (i32add x xo)) * 3 := by
      rw [i32mul_eq (i32add y yo) 1024 (by omega) (by omega),
        i32add_eq _ _ (by omega) (by omega), i32mul_eq _ 3 (by omega) (by omega)]
    rw [hd]
    refine forLoop_inv _ (fun t : List Flt => t.length = 3145728) 3 canvas hcv ?_
    intro c hc0 hc1 t ht
    obtain ⟨u, hu, hl⟩ := bilinearChannel_ok img W H kx ky _ _
      (binary32.sub (binary32.div (binary32.ofInt x) s) (binary32.ofInt kx))
      (binary32.sub (binary32.div (binary32.ofInt y) s) (binary32.ofInt ky))
      (((i32add y yo) * 1024 + (i32add x xo)) * 3) c t hlen h32 hW hkx hky hx1 hy1 ⟨hc0, hc1⟩
      ⟨by omega, by rw [ht]; push_cast; omega⟩ (by rw [ht]; norm_num)
    exact ⟨u, hu, hl.trans ht⟩
  · exact ⟨canvas, rfl, hcv⟩

theorem resampleImage_ok (img : List Flt) (W H : ℤ) (s : Flt) (NewWidth NewHeight xo yo : ℤ)
    (canvas : List Flt) (hlen : (img.length : ℤ) = W * H * 3)
    (h32 : W * H * 3 < 2147483648) (hW : 0 < W) (hH : 0 < H)
    (hcv : canvas.length = 3145728)
    (hsx : ∀ x : ℤ, 0 ≤ x → x < NewWidth → ∃ kx,
      FMath.FloorToInt (binary32.div (binary32.ofInt x) s) = some kx ∧ 0 ≤ kx ∧ kx ≤ W - 1)
    (hsy : ∀ y : ℤ, 0 ≤ y → y < NewHeight → ∃ ky,
      FMath.FloorToInt (binary32.div (binary32.ofInt y) s) = some ky ∧ 0 ≤ ky ∧ ky ≤ H - 1) :
    ∃ u, resampleImage img W H s NewWidth NewHeight xo yo canvas = some u ∧
      u.length = 3145728 := by
  unfold resampleImage
  refine forLoop_inv _ (fun t : List Flt => t.length = 3145728) NewHeight canvas hcv ?_
  intro y hy0 hy1 t ht
  obtain ⟨ky, hfy, hky⟩ := hsy y hy0 hy1
  refine forLoop_inv _ (fun t : List Flt => t.length = 3145728) NewWidth t ht ?_
  intro x hx0 hx1 t2 ht2
  obtain ⟨kx, hfx, hkx⟩ := hsx x hx0 hx1
  exact resamplePixel_ok img W H s xo yo y x t2 kx ky hlen h32 hW hH ht2 hfx hfy hkx hky

theorem normalizeCanvas_ok (canvas : List Flt) (hcv : canvas.length = 3145728) :
    ∃ u, normalizeCanvas canvas = some u ∧ u.length = 3145728 := by
  unfold normalizeCanvas
  refine forLoop_inv _ (fun t : List Flt => t.length = 3145728) _ canvas hcv ?_
  intro i hi0 hi1 t ht
  simp only [TargetSize] at hi1
  refine forLoop_inv _ (fun t : List Flt => t.length = 3145728) 3 t ht ?_
  intro c hc0 hc1 t2 ht2
  have hi : i32add (i32mul i 3) c = i * 3 + c := by
    rw [i32mul_eq i 3 (by omega) (by omega), i32add_eq (i * 3) c (by omega) (by omega)]
  obtain ⟨v, hv⟩ := TArray.read_ok t2 (i * 3 + c) (by omega) (by rw [ht2]; push_cast; omega)
  unfold normalizeStep
  simp only [hi, hv, Option.bind_eq_bind, Option.some_bind]
  rw [TArray.write_ok _ _ _ (by omega) (by rw [ht2]; push_cast; omega)]
  exact ⟨_, rfl, (List.length_set _ _ _).trans ht2⟩

theorem alloc_canvas : ∃ cv : List Flt,
    TArray.alloc (TargetSize * TargetSize * 3) (Flt.fin 0) = some cv ∧ cv.length = 3145728 := by
  have e : (TargetSize * TargetSize * 3).toNat = 3145728 := by
    simp only [TargetSize]; omega
  have e2 : (0 : ℤ) ≤ TargetSize * TargetSize * 3 := by
    simp only [TargetSize]; omega
  refine ⟨List.replicate (TargetSize * TargetSize * 3).toNat (Flt.fin 0), ?_, ?_⟩
  · unfold TArray.alloc
    rw [if_pos e2]
  · rw [List.length_replicate, e]

theorem toNCHW_ok (canvas : List Flt) (hcv : canvas.length = 3145728) :
    ∃ u, toNCHW canvas = some u ∧ u.length = 3145728 := by
  unfold toNCHW
  obtain ⟨cv, ha, hcl⟩ := alloc_canvas
  simp only [ha, Option.bind_eq_bind, Option.some_bind]
  refine forLoop_inv _ (fun t : List Flt => t.length = 3145728) 3 _ hcl ?_
  intro c hc0 hc1 t ht
  refine forLoop_inv _ (fun t : List Flt => t.length = 3145728) _ t ht ?_
  intro h hh0 hh1 t2 ht2
  refine forLoop_inv _ (fun t : List Flt => t.length = 3145728) _ t2 ht2 ?_
  intro w hw0 hw1 t3 ht3
  simp only [TargetSize] at hh1 hw1
  have hi : i32add (i32mul (i32add (i32mul h TargetSize) w) 3) c = (h * 1024 + w) * 3 + c := by
    simp only [TargetSize]
    rw [i32mul_eq h 1024 (by omega) (by omega), i32add_eq (h * 1024) w (by omega) (by omega),
      i32mul_eq (h * 1024 + w) 3 (by omega) (by omega),
      i32add_eq ((h * 1024 + w) * 3) c (by omega) (by omega)]
  have hj : i32add (i32add (i32mul (i32mul c TargetSize) TargetSize) (i32mul h TargetSize)) w
      = c * 1024 * 1024 + h * 1024 + w := by
    simp only [TargetSize]
    rw [i32mul_eq c 1024 (by omega) (by omega), i32mul_eq (c * 1024) 1024 (by omega) (by omega),
      i32mul_eq h 1024 (by omega) (by omega),
      i32add_eq (c * 1024 * 1024) (h * 1024) (by omega) (by omega),
      i32add_eq (c * 1024 * 1024 + h * 1024) w (by omega) (by omega)]
  obtain ⟨v, hv⟩ := TArray.read_ok canvas ((h * 1024 + w) * 3 + c) (by omega)
    (by rw [hcv]; push_cast; omega)
  unfold transposeStep
  simp only [hi, hj, hv, Option.bind_eq_bind, Option.some_bind]
  rw [TArray.write_ok _ _ _ (by omega) (by rw [ht3]; push_cast; omega)]
  exact ⟨_, rfl, (List.length_set _ _ _).trans ht3⟩

theorem buildTensor_ok (img : List Flt) (W H : ℤ) (s : Flt) (NewWidth NewHeight xo yo : ℤ)
    (hlen : (img.length : ℤ) = W * H * 3)
    (h32 : W * H * 3 < 2147483648) (hW : 0 < W) (hH : 0 < H)
    (hsx : ∀ x : ℤ, 0 ≤ x → x < NewWidth → ∃ kx,
      FMath.FloorToInt (binary32.div (binary32.ofInt x) s) = some kx ∧ 0 ≤ kx ∧ kx ≤ W - 1)
    (hsy : ∀ y : ℤ, 0 ≤ y → y < NewHeight → ∃ ky,
      FMath.FloorToInt (binary32.div (binary32.ofInt y) s) = some ky ∧ 0 ≤ ky ∧ ky ≤ H - 1) :
    ∃ u, buildTensor img W H s NewWidth NewHeight xo yo = some u ∧ u.length = 3145728 := by
  unfold buildTensor
  obtain ⟨cv, ha, hcl⟩ := alloc_canvas
  obtain ⟨r, hr, hrl⟩ := resampleImage_ok img W H s NewWidth NewHeight xo yo
    cv hlen h32 hW hH hcl hsx hsy
  obtain ⟨n, hn, hnl⟩ := normalizeCanvas_ok r hrl
  obtain ⟨t, ht, htl⟩ := toNCHW_ok n hnl
  refine ⟨t, ?_, htl⟩
  rw [ha, Option.bind_eq_bind, Option.some_bind, hr, Option.some_bind, hn, Option.some_bind, ht]

/-- The scale `Min(1024 / float(W), 1024 / float(H))` for positive sizes. -/
theorem letterboxScale_facts (W H : ℤ) (hW : 0 < W) (hW2 : W < 2147483648) (hH : 0 < H)
    (hH2 : H < 2147483648) :
    ∃ w h s : ℚ, binary32.ofInt W = Flt.fin w ∧ binary32.ofInt H = Flt.fin h ∧
      letterboxScale W H = Flt.fin s ∧
      (W : ℚ) * (1 - 1 / 16777216) ≤ w ∧ w ≤ (W : ℚ) * (1 + 1 / 16777216) ∧
      (H : ℚ) * (1 - 1 / 16777216) ≤ h ∧ h ≤ (H : ℚ) * (1 + 1 / 16777216) ∧
      1 / 8388608 ≤ s ∧ s * w ≤ 1024 * (1 + 1 / 16777216) ∧ s * h ≤ 1024 * (1 + 1 / 16777216) ∧
      (1024 * (1 - 1 / 16777216) ≤ s * w ∨ 1024 * (1 - 1 / 16777216) ≤ s * h) ∧
      (W = H → 1024 * (1 - 1 / 16777216) ≤ s * w ∧ 1024 * (1 - 1 / 16777216) ≤ s * h) := by
  obtain ⟨w, hw, w1, w2⟩ := ofInt32_pos W hW hW2
  obtain ⟨h, hh, h1, h2⟩ := ofInt32_pos H hH hH2
  have hWq : (1 : ℚ) ≤ W := by exact_mod_cast hW
  have hWq2 : (W : ℚ) ≤ 2147483648 := by exact_mod_cast le_of_lt hW2
  have hHq : (1 : ℚ) ≤ H := by exact_mod_cast hH
  have hHq2 : (H : ℚ) ≤ 2147483648 := by exact_mod_cast le_of_lt hH2
  have hw0 : 1 / 2 ≤ w := by linarith
  have hh0 : 1 / 2 ≤ h := by linarith
  obtain ⟨sW, hsW, a1, a2, a3⟩ := scaleOf_bounds w hw0 (by linarith)
  obtain ⟨sH, hsH, b1, b2, b3⟩ := scaleOf_bounds h hh0 (by linarith)
  have lW : 1 / 8388608 ≤ sW := by
    by_contra hc; push_neg at hc
    have : sW * w < 1 / 8388608 * 4294967296 := by
      calc sW * w ≤ sW * 4294967296 := by
            apply mul_le_mul_of_nonneg_left _ (le_of_lt a3); linarith
        _ < 1 / 8388608 * 4294967296 := by linarith
    linarith
  have lH : 1 / 8388608 ≤ sH := by
    by_contra hc; push_neg at hc
    have : sH * h < 1 / 8388608 * 4294967296 := by
      calc sH * h ≤ sH * 4294967296 := by
            apply mul_le_mul_of_nonneg_left _ (le_of_lt b3); linarith
        _ < 1 / 8388608 * 4294967296 := by linarith
    linarith
  have hw00 : 0 ≤ w := by linarith
  have hh00 : 0 ≤ h := by linarith
  have hscale : letterboxScale W H = FMath.Min (Flt.fin sW) (Flt.fin sH) := by
    unfold letterboxScale; rw [hw, hh, hsW, hsH]
  by_cases hlt : sW < sH
  · have hmin : letterboxScale W H = Flt.fin sW := by
      rw [hscale]; simp [FMath.Min, Flt.lt, hlt]
    refine ⟨w, h, sW, hw, hh, hmin, w1, w2, h1, h2, lW, a2, ?_, Or.inl a1, ?_⟩
    · exact le_trans (mul_le_mul_of_nonneg_right (le_of_lt hlt) hh00) b2
    · intro e; subst e
      rw [hw] at hh; cases hh
      rw [hsW] at hsH; cases hsH
      exact absurd hlt (lt_irrefl _)
  · have hmin : letterboxScale W H = Flt.fin sH := by
      rw [hscale]; simp [FMath.Min, Flt.lt, hlt]
    push_neg at hlt
    refine ⟨w, h, sH, hw, hh, hmin, w1, w2, h1, h2, lH, ?_, b2, Or.inr b1, ?_⟩
    · exact le_trans (mul_le_mul_of_nonneg_right hlt hw00) a2
    · intro e; subst e
      rw [hw] at hh; cases hh
      rw [hsW] at hsH; cases hsH
      exact ⟨a1, a1⟩

theorem i32div_two (z : ℤ) (h0 : 0 ≤ z) (h1 : z < 2147483648) : i32div z 2 = z / 2 := by
  unfold i32div
  rw [Int.tdiv_eq_ediv h0 (by norm_num)]
  exact wrap32_eq _ (by omega) (by omega)

/-- `PreprocessImage` succeeds on every well-formed image of positive size, with the
scale, the resized extents and the offsets of the letterbox. -/
theorem PreprocessImage_ok (img : List Flt) (W H : ℤ) (hW : 0 < W) (hH : 0 < H)
    (hlen : (img.length : ℤ) = W * H * 3) (h32 : W * H * 3 < 2147483648) :
    ∃ (data : List Flt) (NewWidth NewHeight : ℤ),
      PreprocessImage img W H =
        Res.ok ⟨data, letterboxScale W H, (1024 - NewWidth) / 2, (1024 - NewHeight) / 2⟩ ∧
      data.length = 3145728 ∧
      FMath.RoundToInt (binary32.mul (binary32.ofInt W) (letterboxScale W H)) = some NewWidth ∧
      FMath.RoundToInt (binary32.mul (binary32.ofInt H) (letterboxScale W H)) = some NewHeight ∧
      0 ≤ NewWidth ∧ NewWidth ≤ 1024 ∧ 0 ≤ NewHeight ∧ NewHeight ≤ 1024 ∧
      (NewWidth = 1024 ∨ NewHeight = 1024) ∧ (W = H → NewWidth = 1024 ∧ NewHeight = 1024) := by
  have hW2 : W < 2147483648 := by nlinarith
  have hH2 : H < 2147483648 := by nlinarith
  obtain ⟨w, h, s, hw, hh, hs, w1, w2, h1, h2, ls, sw, sh, hone, hsq⟩ :=
    letterboxScale_facts W H hW hW2 hH hH2
  have hWq : (1 : ℚ) ≤ W := by exact_mod_cast hW
  have hHq : (1 : ℚ) ≤ H := by exact_mod_cast hH
  have hw0 : 1 / 2 ≤ w := by linarith
  have hh0 : 1 / 2 ≤ h := by linarith
  have hs0 : 0 < s := lt_of_lt_of_le (by norm_num) ls
  obtain ⟨pw, NW, hpw, hNW, nw1, nw2, nw3, nw4, nw5, nw6, nw7⟩ :=
    scaledDim_bounds w s (by nlinarith) sw
  obtain ⟨ph, NH, hph, hNH, nh1, nh2, nh3, nh4, nh5, nh6, nh7⟩ :=
    scaledDim_bounds h s (by nlinarith) sh
  have hsx : ∀ x : ℤ, 0 ≤ x → x < NW → ∃ kx,
      FMath.FloorToInt (binary32.div (binary32.ofInt x) (Flt.fin s)) = some kx ∧
        0 ≤ kx ∧ kx ≤ W - 1 := by
    intro x hx0 hx1
    obtain ⟨v, k, hv, hk, _, k0, k1, _⟩ :=
      srcIndex_bounds W w s pw x NW hW hW2 w1 w2 ls sw nw4 nw1 nw3 hx0 hx1
    exact ⟨k, by rw [hv, hk], k0, k1⟩
  have hsy : ∀ y : ℤ, 0 ≤ y → y < NH → ∃ ky,
      FMath.FloorToInt (binary32.div (binary32.ofInt y) (Flt.fin s)) = some ky ∧
        0 ≤ ky ∧ ky ≤ H - 1 := by
    intro y hy0 hy1
    obtain ⟨v, k, hv, hk, _, k0, k1, _⟩ :=
      srcIndex_bounds H h s ph y NH hH hH2 h1 h2 ls sh nh4 nh1 nh3 hy0 hy1
    exact ⟨k, by rw [hv, hk], k0, k1⟩
  have hxo : i32div (i32sub TargetSize NW) 2 = (1024 - NW) / 2 := by
    rw [TargetSize, i32sub_eq 1024 NW (by omega) (by omega), i32div_two _ (by omega) (by omega)]
  have hyo : i32div (i32sub TargetSize NH) 2 = (1024 - NH) / 2 := by
    rw [TargetSize, i32sub_eq 1024 NH (by omega) (by omega), i32div_two _ (by omega) (by omega)]
  obtain ⟨data, hdata, hdl⟩ := buildTensor_ok img W H (Flt.fin s) NW NH ((1024 - NW) / 2)
    ((1024 - NH) / 2) hlen h32 hW hH hsx hsy
  have hWH : 0 < W * H := mul_pos hW hH
  have hguard : i32mul (i32mul W H) 3 = W * H * 3 := by
    rw [i32mul_eq W H (by omega) (by omega), i32mul_eq (W * H) 3 (by omega) (by omega)]
  refine ⟨data, NW, NH, ?_, hdl, ?_, ?_, nw2, nw3, nh2, nh3, ?_, ?_⟩
  · unfold PreprocessImage
    rw [hguard, if_neg (by rw [hlen]; exact fun h => h rfl)]
    simp only [hs, hw, hh, hpw, hph, hNW, hNH, hxo, hyo, hdata]
  · rw [hs, hw, hpw, hNW]
  · rw [hs, hh, hph, hNH]
  · rcases hone with a | a
    · exact Or.inl (nw5 a)
    · exact Or.inr (nh5 a)
  · intro e
    obtain ⟨a, b⟩ := hsq e
    exact ⟨nw5 a, nh5 b⟩

theorem ofInt_TargetSize : binary32.ofInt TargetSize = Flt.fin 1024 := by
  rw [TargetSize, ofInt32_exact 1024 (by norm_num)]; norm_num

/-- The float scale is the exact scale `1024 / max W H` up to two roundings. -/
theorem letterboxScale_near (W H : ℤ) (hW : 0 < W) (hW2 : W < 2147483648) (hH : 0 < H)
    (hH2 : H < 2147483648) :
    ∃ s : ℚ, letterboxScale W H = Flt.fin s ∧
      1024 * (1 - 1 / 16777216) ≤ s * ((max W H : ℤ) : ℚ) * (1 + 1 / 16777216) ∧
      s * ((max W H : ℤ) : ℚ) * (1 - 1 / 16777216) ≤ 1024 * (1 + 1 / 16777216) := by
  obtain ⟨w, h, s, hw, hh, hs, w1, w2, h1, h2, ls, sw, sh, hone, hsq⟩ :=
    letterboxScale_facts W H hW hW2 hH hH2
  have hs0 : 0 < s := lt_of_lt_of_le (by norm_num) ls
  have a1 := mul_le_mul_of_nonneg_left w1 (le_of_lt hs0)
  have a2 := mul_le_mul_of_nonneg_left w2 (le_of_lt hs0)
  have b1 := mul_le_mul_of_nonneg_left h1 (le_of_lt hs0)
  have b2 := mul_le_mul_of_nonneg_left h2 (le_of_lt hs0)
  rw [← mul_assoc] at a1 a2 b1 b2
  have hWq : (0 : ℚ) < W := by exact_mod_cast hW
  have hHq : (0 : ℚ) < H := by exact_mod_cast hH
  refine ⟨s, hs, ?_, ?_⟩
  · rcases le_total W H with hle | hle
    · rw [max_eq_right hle]
      have hq : (W : ℚ) ≤ H := by exact_mod_cast hle
      have c : s * (W : ℚ) ≤ s * (H : ℚ) := mul_le_mul_of_nonneg_left hq (le_of_lt hs0)
      have c2 : s * (W : ℚ) * (1 + 1 / 16777216) ≤ s * (H : ℚ) * (1 + 1 / 16777216) :=
        mul_le_mul_of_nonneg_right c (by norm_num)
      rcases hone with o | o <;> linarith
    · rw [max_eq_left hle]
      have hq : (H : ℚ) ≤ W := by exact_mod_cast hle
      have c : s * (H : ℚ) ≤ s * (W : ℚ) := mul_le_mul_of_nonneg_left hq (le_of_lt hs0)
      have c2 : s * (H : ℚ) * (1 + 1 / 16777216) ≤ s * (W : ℚ) * (1 + 1 / 16777216) :=
        mul_le_mul_of_nonneg_right c (by norm_num)
      rcases hone with o | o <;> linarith
  · rcases le_total W H with hle | hle
    · rw [max_eq_right hle]; linarith
    · rw [max_eq_left hle]; linarith

theorem Fmt.div_fin (F : Fmt) (a b : ℚ) (hb : b ≠ 0) :
    F.div (Flt.fin a) (Flt.fin b) = F.round (a / b) := by
  show (if b = 0 then _ else F.round (a / b)) = _
  rw [if_neg hb]

theorem scale_800_600 : letterboxScale 800 600 = Flt.fin (5368709 / 4194304) := by
  unfold letterboxScale
  rw [ofInt_TargetSize, ofInt32_exact 800 (by norm_num), ofInt32_exact 600 (by norm_num)]
  have a : binary32.div (Flt.fin 1024) (Flt.fin ((800 : ℤ) : ℚ)) = Flt.fin (5368709 / 4194304) := by
    rw [binary32.div_fin _ _ (by norm_num)]
    have e : (1024 : ℚ) / ((800 : ℤ) : ℚ) = 32 / 25 := by norm_num
    rw [e, scale_800]
  have b : binary32.div (Flt.fin 1024) (Flt.fin ((600 : ℤ) : ℚ)) = Flt.fin (7158279 / 4194304) := by
    rw [binary32.div_fin _ _ (by norm_num)]
    have := round32_of_scaled (1024 / ((600 : ℤ) : ℚ)) 0 14316558 (by norm_num [abs_of_pos])
      (by norm_num [abs_of_pos]) (by norm_num) (by norm_num [abs_lt]) (by norm_num [abs_of_pos])
    rw [this]; norm_num
  rw [a, b]
  unfold FMath.Min
  rw [if_pos (by simp only [Flt.lt, decide_eq_true_eq]; norm_num)]

theorem width_800_600 :
    FMath.RoundToInt (binary32.mul (binary32.ofInt 800) (Flt.fin (5368709 / 4194304))) = some 1024 := by
  rw [ofInt32_exact 800 (by norm_num)]
  have a : binary32.mul (Flt.fin ((800 : ℤ) : ℚ)) (Flt.fin (5368709 / 4194304)) = Flt.fin 1024 := by
    show binary32.round _ = _
    have := round32_of_scaled (((800 : ℤ) : ℚ) * (5368709 / 4194304)) 9 16777216
      (by norm_num [abs_of_pos]) (by norm_num [abs_of_pos]) (by norm_num) (by norm_num [abs_lt])
      (by norm_num [abs_of_pos])
    rw [this]; norm_num
  rw [a]
  exact RoundToInt_of_bounds 1024 1024 (by norm_num) (by norm_num) (by norm_num) (by norm_num)

theorem height_800_600 :
    FMath.RoundToInt (binary32.mul (binary32.ofInt 600) (Flt.fin (5368709 / 4194304))) = some 768 := by
  rw [ofInt32_exact 600 (by norm_num)]
  have a : binary32.mul (Flt.fin ((600 : ℤ) : ℚ)) (Flt.fin (5368709 / 4194304)) = Flt.fin 768 := by
    show binary32.round _ = _
    have := round32_of_scaled (((600 : ℤ) : ℚ) * (5368709 / 4194304)) 9 12582912
      (by norm_num [abs_of_pos]) (by norm_num [abs_of_pos]) (by norm_num) (by norm_num [abs_lt])
      (by norm_num [abs_of_pos])
    rw [this]; norm_num
  rw [a]
  exact RoundToInt_of_bounds 768 768 (by norm_num) (by norm_num) (by norm_num) (by norm_num)

/-- A loop that ran to its end kept every invariant its body keeps, and its body
returned at every index on a state satisfying the invariant. -/
theorem forLoopAux_some {σ : Type} (body : ℤ → σ → Option σ) (Inv : σ → Prop) (n : ℕ)
    (s t : σ) (h0 : Inv s)
    (hpres : ∀ k : ℕ, k < n → ∀ a b, Inv a → body (k : ℤ) a = some b → Inv b)
    (hsome : forLoopAux body n s = some t) :
    Inv t ∧ ∀ k : ℕ, k < n → ∃ a b, Inv a ∧ body (k : ℤ) a = some b := by
  induction n generalizing t with
  | zero =>
    simp only [forLoopAux, Option.some.injEq] at hsome
    subst hsome
    exact ⟨h0, fun k hk => absurd hk (Nat.not_lt_zero k)⟩
  | succ n ih =>
    simp only [forLoopAux] at hsome
    cases hm : forLoopAux body n s with
    | none => rw [hm] at hsome; cases hsome
    | some m =>
      rw [hm] at hsome
      simp only [Option.some_bind] at hsome
      obtain ⟨im, hk⟩ := ih m (fun k hk => hpres k (by omega)) hm
      refine ⟨hpres n (by omega) m t im hsome, ?_⟩
      intro k hkn
      by_cases hkn2 : k < n
      · exact hk k hkn2
      · have : k = n := by omega
        subst this
        exact ⟨m, t, im, hsome⟩

theorem forLoop_some {σ : Type} (body : ℤ → σ → Option σ) (Inv : σ → Prop) (n : ℤ)
    (s t : σ) (h0 : Inv s)
    (hpres : ∀ k : ℤ, 0 ≤ k → k < n → ∀ a b, Inv a → body k a = some b → Inv b)
    (hsome : forLoop n body s = some t) :
    Inv t ∧ ∀ k : ℤ, 0 ≤ k → k < n → ∃ a b, Inv a ∧ body k a = some b := by
  unfold forLoop at hsome
  obtain ⟨h1, h2⟩ := forLoopAux_some body Inv n.toNat s t h0
    (fun k hk a b ia hb => hpres k (by omega) (by omega) a b ia hb) hsome
  refine ⟨h1, ?_⟩
  intro k hk0 hk1
  obtain ⟨a, b, ia, hb⟩ := h2 k.toNat (by omega)
  have e : ((k.toNat : ℕ) : ℤ) = k := by omega
  rw [e] at hb
  exact ⟨a, b, ia, hb⟩

theorem TArray.read_some {α : Type} (A : List α) (i : ℤ) (v : α) (h : TArray.read A i = some v) :
    0 ≤ i ∧ i < (A.length : ℤ) ∧ v ∈ A := by
  unfold TArray.read at h
  split_ifs at h with hc
  refine ⟨hc.1, hc.2, ?_⟩
  exact List.getElem?_mem h

theorem TArray.write_some {α : Type} (A B : List α) (i : ℤ) (v : α)
    (h : TArray.write A i v = some B) :
    0 ≤ i ∧ i < (A.length : ℤ) ∧ B = A.set i.toNat v := by
  unfold TArray.write at h
  split_ifs at h with hc
  simp only [Option.some.injEq] at h
  exact ⟨hc.1, hc.2, h.symm⟩

theorem binarize_cases (v : Flt) : binarize v = 0 ∨ binarize v = 255 := by
  unfold binarize; split_ifs
  · exact Or.inr rfl
  · exact Or.inl rfl

/-- `PostprocessMask` returns `false` exactly on a mask of the wrong size. -/
theorem PostprocessMask_fail_iff (MaskData : List Flt) (W H : ℤ) (Scale : Flt) (xo yo : ℤ) :
    PostprocessMask MaskData W H Scale xo yo = Res.fail ↔ (MaskData.length : ℤ) ≠ 1024 * 1024 := by
  unfold PostprocessMask
  constructor
  · intro h hlen
    rw [if_neg (not_not.mpr hlen)] at h
    split at h
    · split at h <;> cases h
    · cases h
  · intro h
    rw [if_pos h]

/-- What a successful `PostprocessMask` went through. -/
theorem PostprocessMask_ok_inv (MaskData : List Flt) (W H : ℤ) (Scale : Flt) (xo yo : ℤ)
    (FinalMask : List ℕ) (h : PostprocessMask MaskData W H Scale xo yo = Res.ok FinalMask) :
    (MaskData.length : ℤ) = 1024 * 1024 ∧ ∃ (SW SH : ℤ) (RegionMask : List ℕ),
      FMath.RoundToInt (binary32.mul (binary32.ofInt W) Scale) = some SW ∧
      FMath.RoundToInt (binary32.mul (binary32.ofInt H) Scale) = some SH ∧
      cropRegion (MaskData.map binarize) SW SH xo yo = some RegionMask ∧
      resizeRegion RegionMask W H SW SH = some FinalMask := by
  unfold PostprocessMask at h
  by_cases hlen : (MaskData.length : ℤ) ≠ 1024 * 1024
  · rw [if_pos hlen] at h; cases h
  rw [if_neg hlen] at h
  refine ⟨not_not.mp hlen, ?_⟩
  cases h1 : FMath.RoundToInt (binary32.mul (binary32.ofInt W) Scale) with
  | none => rw [h1] at h; cases h
  | some SW =>
    cases h2 : FMath.RoundToInt (binary32.mul (binary32.ofInt H) Scale) with
    | none => rw [h1, h2] at h; cases h
    | some SH =>
      rw [h1, h2] at h
      simp only at h
      cases h3 : cropRegion (MaskData.map binarize) SW SH xo yo with
      | none => rw [h3] at h; simp at h
      | some R =>
        rw [h3] at h
        simp only [Option.some_bind] at h
        cases h4 : resizeRegion R W H SW SH with
        | none => rw [h4] at h; cases h
        | some F =>
          rw [h4] at h
          simp only [Res.ok.injEq] at h
          subst h
          exact ⟨SW, SH, R, rfl, rfl, h3, h4⟩

theorem TArray.add_ok {α : Type} (A : List α) (v : α) (h : (A.length : ℤ) < 2147483647) :
    TArray.add A v = some (A ++ [v]) := by
  unfold TArray.add
  rw [if_pos h]

theorem TArray.add_some {α : Type} (A B : List α) (v : α) (h : TArray.add A v = some B) :
    B = A ++ [v] ∧ (A.length : ℤ) < 2147483647 := by
  unfold TArray.add at h
  split_ifs at h with hc
  simp only [Option.some.injEq] at h
  exact ⟨h.symm, hc⟩

theorem cropPixel_some (B : List ℕ) (xo yo y x : ℤ) (R R2 : List ℕ)
    (h : cropPixel B xo yo y x R = some R2) : ∃ v, R2 = R ++ [v] ∧ (v = 0 ∨ v ∈ B) := by
  unfold cropPixel at h
  split_ifs at h
  · cases hr : TArray.read B (i32add (i32mul (i32add y yo) 1024) (i32add x xo)) with
    | none => rw [hr] at h; cases h
    | some v =>
      rw [hr, Option.some_bind] at h
      exact ⟨v, (TArray.add_some _ _ _ h).1, Or.inr (TArray.read_some _ _ _ hr).2.2⟩
  · exact ⟨0, (TArray.add_some _ _ _ h).1, Or.inl rfl⟩

theorem resizePixel_some (R : List ℕ) (W SW SH : ℤ) (ix iy : Flt) (y x : ℤ) (F F2 : List ℕ)
    (h : resizePixel R W SW SH ix iy y x F = some F2) :
    ∃ (v : ℕ) (rx ry : ℤ),
      FMath.RoundToInt (binary32.mul (binary32.ofInt x) ix) = some rx ∧
      FMath.RoundToInt (binary32.mul (binary32.ofInt y) iy) = some ry ∧
      TArray.read R (i32add (i32mul (FMath.MinInt ry (i32sub SH 1)) SW)
        (FMath.MinInt rx (i32sub SW 1))) = some v ∧
      TArray.write F (i32add (i32mul y W) x) v = some F2 := by
  unfold resizePixel at h
  cases h1 : FMath.RoundToInt (binary32.mul (binary32.ofInt x) ix) with
  | none => rw [h1] at h; cases h
  | some rx =>
    cases h2 : FMath.RoundToInt (binary32.mul (binary32.ofInt y) iy) with
    | none => rw [h1, h2] at h; cases h
    | some ry =>
      rw [h1, h2] at h
      simp only [Option.bind_eq_bind, Option.some_bind] at h
      cases h3 : TArray.read R (i32add (i32mul (FMath.MinInt ry (i32sub SH 1)) SW)
          (FMath.MinInt rx (i32sub SW 1))) with
      | none => rw [h3] at h; cases h
      | some v =>
        rw [h3] at h
        exact ⟨v, rx, ry, rfl, rfl, h3, h⟩

/-- Every entry of the cropped region is 0 or 255. -/
theorem cropRegion_values (MaskData : List Flt) (SW SH xo yo : ℤ) (R : List ℕ)
    (h : cropRegion (MaskData.map binarize) SW SH xo yo = some R) :
    ∀ e ∈ R, e = 0 ∨ e = 255 := by
  unfold cropRegion at h
  split_ifs at h
  have hstep : ∀ (y x : ℤ) (a b : List ℕ), (∀ e ∈ a, e = 0 ∨ e = 255) →
      cropPixel (MaskData.map binarize) xo yo y x a = some b → ∀ e ∈ b, e = 0 ∨ e = 255 := by
    intro y x a b ia hb e he
    obtain ⟨v, rfl, hv⟩ := cropPixel_some _ _ _ _ _ _ _ hb
    rcases List.mem_append.mp he with h1 | h1
    · exact ia e h1
    · simp only [List.mem_singleton] at h1
      subst h1
      rcases hv with hv | hv
      · exact Or.inl hv
      · obtain ⟨m, _, rfl⟩ := List.mem_map.mp hv
        exact binarize_cases m
  refine (forLoop_some _ (fun t : List ℕ => ∀ e ∈ t, e = 0 ∨ e = 255) SH [] R
    (by intro e he; cases he) ?_ h).1
  intro y _ _ a b ia hb
  exact (forLoop_some _ (fun t : List ℕ => ∀ e ∈ t, e = 0 ∨ e = 255) SW a b ia
    (fun x _ _ a2 b2 ia2 hb2 => hstep y x a2 b2 ia2 hb2) hb).1

/-- The mask a successful resize returns: one entry per original pixel, each of them an
entry of the region or the initial 0. -/
theorem resizeRegion_some (R : List ℕ) (W H SW SH : ℤ) (F : List ℕ) (hW : 0 < W) (hH : 0 < H)
    (h : resizeRegion R W H SW SH = some F) :
    (F.length : ℤ) = W * H ∧ ∀ e ∈ F, e = 0 ∨ e ∈ R := by
  unfold resizeRegion at h
  unfold TArray.alloc at h
  by_cases hn : 0 ≤ i32mul W H
  swap
  · rw [if_neg hn] at h; cases h
  rw [if_pos hn] at h
  simp only [Option.bind_eq_bind, Option.some_bind] at h
  set n := i32mul W H with hnd
  have hn2 : n < 2147483648 := by
    rw [hnd]; unfold i32mul wrap32; omega
  have hpres : ∀ (y x : ℤ) (a b : List ℕ),
      ((a.length : ℤ) = n ∧ ∀ e ∈ a, e = 0 ∨ e ∈ R) →
      resizePixel R W SW SH (binary32.div (binary32.ofInt SW) (binary32.ofInt W))
        (binary32.div (binary32.ofInt SH) (binary32.ofInt H)) y x a = some b →
      ((b.length : ℤ) = n ∧ ∀ e ∈ b, e = 0 ∨ e ∈ R) := by
    intro y x a b ia hb
    obtain ⟨v, rx, ry, _, _, hr, hw⟩ := resizePixel_some _ _ _ _ _ _ _ _ _ _ hb
    obtain ⟨_, _, rfl⟩ := TArray.write_some _ _ _ _ hw
    refine ⟨by rw [List.length_set]; exact ia.1, ?_⟩
    intro e he
    rcases List.mem_or_eq_of_mem_set he with h1 | h1
    · exact ia.2 e h1
    · subst h1; exact Or.inr (TArray.read_some _ _ _ hr).2.2
  have hinit : ((List.replicate n.toNat (0 : ℕ)).length : ℤ) = n ∧
      ∀ e ∈ List.replicate n.toNat (0 : ℕ), e = 0 ∨ e ∈ R := by
    refine ⟨by rw [List.length_replicate]; omega, ?_⟩
    intro e he
    exact Or.inl (List.eq_of_mem_replicate he)
  obtain ⟨hF, hrows⟩ := forLoop_some _
    (fun t : List ℕ => (t.length : ℤ) = n ∧ ∀ e ∈ t, e = 0 ∨ e ∈ R) H _ F hinit
    (fun y _ _ a b ia hb => (forLoop_some _
      (fun t : List ℕ => (t.length : ℤ) = n ∧ ∀ e ∈ t, e = 0 ∨ e ∈ R) W a b ia
      (fun x _ _ a2 b2 ia2 hb2 => hpres y x a2 b2 ia2 hb2) hb).1) h
  refine ⟨?_, hF.2⟩
  rw [hF.1]
  by_contra hne
  have hWH : 0 < W * H := mul_pos hW hH
  have hbig : n < W * H := by
    by_contra hc
    apply hne
    rw [hnd]
    exact i32mul_eq W H (by omega) (by omega)
  -- the write at linear index `n` is out of range
  have hy0 : 0 ≤ n / W := Int.ediv_nonneg hn (le_of_lt hW)
  have hy1 : n / W < H := Int.ediv_lt_of_lt_mul hW (by rw [mul_comm]; exact hbig)
  have hx0 : 0 ≤ n % W := Int.emod_nonneg n (ne_of_gt hW)
  have hx1 : n % W < W := Int.emod_lt_of_pos n hW
  have hsum : n / W * W + n % W = n := by
    rw [mul_comm]; exact Int.ediv_add_emod n W
  obtain ⟨a, b, ia, hb⟩ := hrows (n / W) hy0 hy1
  obtain ⟨_, hcols⟩ := forLoop_some _
    (fun t : List ℕ => (t.length : ℤ) = n ∧ ∀ e ∈ t, e = 0 ∨ e ∈ R) W a b ia
    (fun x _ _ a2 b2 ia2 hb2 => hpres (n / W) x a2 b2 ia2 hb2) hb
  obtain ⟨a2, b2, ia2, hb2⟩ := hcols (n % W) hx0 hx1
  obtain ⟨v, rx, ry, _, _, _, hw⟩ := resizePixel_some _ _ _ _ _ _ _ _ _ _ hb2
  obtain ⟨_, hlt, _⟩ := TArray.write_some _ _ _ _ hw
  have hprod : 0 ≤ n / W * W := mul_nonneg hy0 (le_of_lt hW)
  rw [i32mul_eq (n / W) W (by omega) (by omega),
    i32add_eq (n / W * W) (n % W) (by omega) (by omega), hsum, ia2.1] at hlt
  exact lt_irrefl _ hlt

/-- C6. Whenever `PostprocessMask` succeeds for positive original dimensions, the mask it
returns has exactly `W * H` entries and every entry is 0 or 255. -/
theorem PostprocessMask_values (MaskData : List Flt) (W H : ℤ) (Scale : Flt) (xo yo : ℤ)
    (FinalMask : List ℕ) (hW : 0 < W) (hH : 0 < H)
    (h : PostprocessMask MaskData W H Scale xo yo = Res.ok FinalMask) :
    (FinalMask.length : ℤ) = W * H ∧ ∀ e ∈ FinalMask, e = 0 ∨ e = 255 := by
  obtain ⟨_, SW, SH, R, _, _, hc, hr⟩ := PostprocessMask_ok_inv _ _ _ _ _ _ _ h
  obtain ⟨hl, hv⟩ := resizeRegion_some R W H SW SH FinalMask hW hH hr
  refine ⟨hl, ?_⟩
  intro e he
  rcases hv e he with h0 | h1
  · exact Or.inl h0
  · exact cropRegion_values MaskData SW SH xo yo R hc e h1

/-- A loop whose body takes the invariant of index `k` to that of `k + 1` runs to its end. -/
theorem forLoopAux_idx {σ : Type} (body : ℤ → σ → Option σ) (Inv : ℤ → σ → Prop) (n : ℕ)
    (s : σ) (h0 : Inv 0 s)
    (hstep : ∀ k : ℕ, k < n → ∀ t, Inv (k : ℤ) t → ∃ u, body (k : ℤ) t = some u ∧ Inv ((k : ℤ) + 1) u) :
    ∃ t, forLoopAux body n s = some t ∧ Inv (n : ℤ) t := by
  induction n with
  | zero => exact ⟨s, rfl, by simpa using h0⟩
  | succ n ih =>
    obtain ⟨t, ht, hinv⟩ := ih (fun k hk => hstep k (by omega))
    obtain ⟨u, hu, hinv2⟩ := hstep n (by omega) t hinv
    refine ⟨u, by simp [forLoopAux, ht, hu], ?_⟩
    push_cast
    exact hinv2

theorem forLoop_idx {σ : Type} (body : ℤ → σ → Option σ) (Inv : ℤ → σ → Prop) (n : ℤ)
    (hn : 0 ≤ n) (s : σ) (h0 : Inv 0 s)
    (hstep : ∀ k : ℤ, 0 ≤ k → k < n → ∀ t, Inv k t → ∃ u, body k t = some u ∧ Inv (k + 1) u) :
    ∃ t, forLoop n body s = some t ∧ Inv n t := by
  unfold forLoop
  obtain ⟨t, ht, hi⟩ := forLoopAux_idx body Inv n.toNat s h0
    (fun k hk t ht => hstep k (by omega) (by omega) t ht)
  have e : ((n.toNat : ℕ) : ℤ) = n := by omega
  rw [e] at hi
  exact ⟨t, ht, hi⟩

/-- The nearest-neighbour source coordinate `RoundToInt(x * (float(SD) / float(D)))` is
defined and not negative. -/
theorem invScale_round (D SD x : ℤ) (hD : 0 < D) (hD2 : D < 2147483648) (hS1 : 1 ≤ SD)
    (hS2 : SD ≤ 1024) (hx0 : 0 ≤ x) (hx1 : x < D) :
    ∃ r, FMath.RoundToInt (binary32.mul (binary32.ofInt x)
      (binary32.div (binary32.ofInt SD) (binary32.ofInt D))) = some r ∧ 0 ≤ r := by
  obtain ⟨d, hd, d1, d2⟩ := ofInt32_pos D hD hD2
  have hDq : (1 : ℚ) ≤ D := by exact_mod_cast hD
  have hDq2 : (D : ℚ) ≤ 2147483648 := by exact_mod_cast le_of_lt hD2
  have hSq1 : (1 : ℚ) ≤ SD := by exact_mod_cast hS1
  have hSq2 : (SD : ℚ) ≤ 1024 := by exact_mod_cast hS2
  have hd0 : 0 < d := by linarith
  rw [hd, ofInt32_exact SD (by rw [abs_of_nonneg (by omega)]; omega),
    binary32.div_fin _ _ (ne_of_gt hd0)]
  obtain ⟨iv, hiv, i1, i2⟩ := round32_pos ((SD : ℚ) / d)
    (by rw [le_div_iff₀ hd0]; linarith) (by rw [div_le_iff₀ hd0]; linarith)
  rw [hiv]
  have hq0 : 0 < (SD : ℚ) / d := by positivity
  have hiv0 : 0 < iv := by nlinarith
  have hivd : iv * d ≤ (SD : ℚ) * (1 + 1 / 16777216) := by
    have := mul_le_mul_of_nonneg_right i2 (le_of_lt hd0)
    have e : (SD : ℚ) / d * (1 + 1 / 16777216) * d = (SD : ℚ) * (1 + 1 / 16777216) := by
      field_simp; ring
    linarith
  have hivd2 : (SD : ℚ) * (1 - 1 / 16777216) ≤ iv * d := by
    have := mul_le_mul_of_nonneg_right i1 (le_of_lt hd0)
    have e : (SD : ℚ) / d * (1 - 1 / 16777216) * d = (SD : ℚ) * (1 - 1 / 16777216) := by
      field_simp; ring
    linarith
  by_cases hx : x = 0
  · subst hx
    rw [ofInt32_exact 0 (by norm_num)]
    have : binary32.mul (Flt.fin ((0 : ℤ) : ℚ)) (Flt.fin iv) = Flt.fin 0 := by
      show binary32.round _ = _
      simpa using binary32.round_zero
    rw [this, RoundToInt_of_bounds 0 0 (by norm_num) (by norm_num) (by norm_num) (by norm_num)]
    exact ⟨_, rfl, by norm_num⟩
  obtain ⟨xv, hxv, x1, x2⟩ := ofInt32_pos x (by omega) (by omega)
  have hxq1 : (1 : ℚ) ≤ x := by
    have : 1 ≤ x := by omega
    exact_mod_cast this
  have hxq2 : (x : ℚ) ≤ D := by exact_mod_cast le_of_lt hx1
  have hxv0 : 0 < xv := by linarith
  rw [hxv]
  -- bounds on the product
  have hlow : 1 / 1099511627776 ≤ xv * iv := by
    have a : iv * d ≤ iv * 4294967296 := mul_le_mul_of_nonneg_left (by linarith) (le_of_lt hiv0)
    have b : 1 / 8589934592 ≤ iv := by linarith
    have c : 1 / 2 * iv ≤ xv * iv := mul_le_mul_of_nonneg_right (by linarith) (le_of_lt hiv0)
    linarith
  have hupp : xv * iv ≤ 1025 := by
    have a : xv * iv ≤ (D : ℚ) * (1 + 1 / 16777216) * iv :=
      mul_le_mul_of_nonneg_right (by linarith) (le_of_lt hiv0)
    have b : (D : ℚ) * (1 - 1 / 16777216) * iv ≤ d * iv :=
      mul_le_mul_of_nonneg_right d1 (le_of_lt hiv0)
    have e1 : (D : ℚ) * (1 + 1 / 16777216) * iv = (D : ℚ) * iv * (1 + 1 / 16777216) := by ring
    have e2 : (D : ℚ) * (1 - 1 / 16777216) * iv = (D : ℚ) * iv * (1 - 1 / 16777216) := by ring
    have e3 : d * iv = iv * d := mul_comm _ _
    rw [e1] at a; rw [e2, e3] at b
    generalize (D : ℚ) * iv = T at *
    generalize iv * d = U at *
    generalize xv * iv = P at *
    linarith
  obtain ⟨p, hp, p1, p2⟩ := round32_pos (xv * iv) hlow (by linarith)
  have hmul : binary32.mul (Flt.fin xv) (Flt.fin iv) = Flt.fin p := hp
  have hp0 : 0 ≤ p := by nlinarith
  have hp1 : p ≤ 1026 := by nlinarith
  obtain ⟨_, N, _, hN, _, hN0, _⟩ := RoundToInt_spec p hp0 (by linarith)
  rw [hmul, hN]
  exact ⟨_, rfl, hN0⟩

theorem MinInt_bounds (r S : ℤ) (hr : 0 ≤ r) (hS1 : 1 ≤ S) (hS2 : S ≤ 1024) :
    0 ≤ FMath.MinInt r (i32sub S 1) ∧ FMath.MinInt r (i32sub S 1) ≤ S - 1 := by
  rw [i32sub_eq S 1 (by omega) (by omega)]
  unfold FMath.MinInt
  split_ifs <;> omega

/-- The crop of a canvas that is uniform after binarisation, for a footprint inside the
canvas: `SH * SW` copies of the uniform value. -/
theorem cropRegion_uniform (B : List ℕ) (c : ℕ) (SW SH xo yo : ℤ)
    (hB : (B.length : ℤ) = 1048576) (hall : ∀ e ∈ B, e = c)
    (hSW : 0 ≤ SW) (hSH : 0 ≤ SH) (hxo : 0 ≤ xo) (hxo2 : xo + SW ≤ 1024) (hyo : 0 ≤ yo)
    (hyo2 : yo + SH ≤ 1024) :
    ∃ R, cropRegion B SW SH xo yo = some R ∧ (R.length : ℤ) = SH * SW ∧ ∀ e ∈ R, e = c := by
  have hprod0 : 0 ≤ SW * SH := mul_nonneg hSW hSH
  have hprod1 : SW * SH ≤ 1024 * 1024 := mul_le_mul (by omega) (by omega) hSH (by norm_num)
  unfold cropRegion
  rw [if_pos (by rw [i32mul_eq SW SH (by omega) (by omega)]; exact hprod0)]
  refine forLoop_idx _ (fun y (t : List ℕ) => (t.length : ℤ) = y * SW ∧ ∀ e ∈ t, e = c) SH hSH []
    ⟨by simp, by intro e he; cases he⟩ ?_
  intro y hy0 hy1 t ht
  obtain ⟨u, hu, hul, hua⟩ := forLoop_idx (cropPixel B xo yo y)
    (fun x (t : List ℕ) => (t.length : ℤ) = y * SW + x ∧ ∀ e ∈ t, e = c) SW hSW t
    ⟨by simpa using ht.1, ht.2⟩ (by
      intro x hx0 hx1 t2 ht2
      have ex : i32add x xo = x + xo := i32add_eq _ _ (by omega) (by omega)
      have ey : i32add y yo = y + yo := i32add_eq _ _ (by omega) (by omega)
      have ei : i32add (i32mul (y + yo) 1024) (x + xo) = (y + yo) * 1024 + (x + xo) := by
        rw [i32mul_eq (y + yo) 1024 (by omega) (by omega),
          i32add_eq ((y + yo) * 1024) (x + xo) (by omega) (by omega)]
      obtain ⟨v, hv⟩ := TArray.read_ok B ((y + yo) * 1024 + (x + xo)) (by omega)
        (by rw [hB]; omega)
      have hvc : v = c := hall v (TArray.read_some _ _ _ hv).2.2
      have hys : y * SW ≤ 1023 * 1024 := mul_le_mul (by omega) (by omega) hSW (by norm_num)
      unfold cropPixel
      rw [ex, ey, if_pos ⟨by omega, by omega, by omega, by omega⟩, ei, hv, Option.some_bind,
        TArray.add_ok t2 v (by rw [ht2.1]; omega)]
      refine ⟨_, rfl, ?_, ?_⟩
      · rw [List.length_append, List.length_singleton]; push_cast; rw [ht2.1]; ring
      · intro e he
        rcases List.mem_append.mp he with h1 | h1
        · exact ht2.2 e h1
        · simp only [List.mem_singleton] at h1
          rw [h1, hvc])
  exact ⟨u, hu, by rw [hul]; ring, hua⟩

/-- The nearest-neighbour resize of a uniform region that is not empty: `W * H` copies
of the uniform value. -/
theorem resizeRegion_uniform (R : List ℕ) (c : ℕ) (W H SW SH : ℤ) (hW : 0 < W) (hH : 0 < H)
    (h32 : W * H < 2147483648) (hSW1 : 1 ≤ SW) (hSW2 : SW ≤ 1024) (hSH1 : 1 ≤ SH)
    (hSH2 : SH ≤ 1024) (hR : (R.length : ℤ) = SH * SW) (hall : ∀ e ∈ R, e = c) :
    resizeRegion R W H SW SH = some (List.replicate (W * H).toNat c) := by
  have hWH : 0 < W * H := mul_pos hW hH
  have hW2 : W < 2147483648 := by nlinarith
  have hH2 : H < 2147483648 := by nlinarith
  unfold resizeRegion TArray.alloc
  rw [i32mul_eq W H (by omega) (by omega), if_pos (le_of_lt hWH)]
  simp only [Option.bind_eq_bind, Option.some_bind]
  obtain ⟨F, hF, hFl, hFa⟩ := forLoop_idx
    (fun y => forLoop W
      (resizePixel R W SW SH (binary32.div (binary32.ofInt SW) (binary32.ofInt W))
        (binary32.div (binary32.ofInt SH) (binary32.ofInt H)) y))
    (fun y (t : List ℕ) => (t.length : ℤ) = W * H ∧ ∀ i : ℕ, (i : ℤ) < y * W → t[i]? = some c)
    H (le_of_lt hH) (List.replicate (W * H).toNat 0)
    ⟨by rw [List.length_replicate]; omega, by intro i hi; omega⟩ (by
      intro y hy0 hy1 t ht
      obtain ⟨ry, hry, hry0⟩ := invScale_round H SH y hH hH2 hSH1 hSH2 hy0 hy1
      have hyW : y * W ≤ (H - 1) * W := Int.mul_le_mul_of_nonneg_right (by omega) (le_of_lt hW)
      have hyW0 : 0 ≤ y * W := mul_nonneg hy0 (le_of_lt hW)
      have eHW : (H - 1) * W = W * H - W := by ring
      obtain ⟨u, hu, hul, hua⟩ := forLoop_idx
        (resizePixel R W SW SH (binary32.div (binary32.ofInt SW) (binary32.ofInt W))
          (binary32.div (binary32.ofInt SH) (binary32.ofInt H)) y)
        (fun x (t : List ℕ) => (t.length : ℤ) = W * H ∧
          ∀ i : ℕ, (i : ℤ) < y * W + x → t[i]? = some c) W (le_of_lt hW) t
        ⟨ht.1, by simpa using ht.2⟩ (by
          intro x hx0 hx1 t2 ht2
          obtain ⟨rx, hrx, hrx0⟩ := invScale_round W SW x hW hW2 hSW1 hSW2 hx0 hx1
          obtain ⟨sx0, sx1⟩ := MinInt_bounds rx SW hrx0 hSW1 hSW2
          obtain ⟨sy0, sy1⟩ := MinInt_bounds ry SH hry0 hSH1 hSH2
          have hp0 : 0 ≤ FMath.MinInt ry (i32sub SH 1) * SW := mul_nonneg sy0 (by omega)
          have hp1 : FMath.MinInt ry (i32sub SH 1) * SW ≤ (SH - 1) * SW :=
            Int.mul_le_mul_of_nonneg_right sy1 (by omega)
          have hp2 : SH * SW ≤ 1024 * 1024 := mul_le_mul hSH2 hSW2 (by omega) (by norm_num)
          have eS : (SH - 1) * SW = SH * SW - SW := by ring
          have ei : i32add (i32mul (FMath.MinInt ry (i32sub SH 1)) SW)
              (FMath.MinInt rx (i32sub SW 1))
              = FMath.MinInt ry (i32sub SH 1) * SW + FMath.MinInt rx (i32sub SW 1) := by
            rw [i32mul_eq _ SW (by omega) (by omega), i32add_eq _ _ (by omega) (by omega)]
          obtain ⟨v, hv⟩ := TArray.read_ok R
            (FMath.MinInt ry (i32sub SH 1) * SW + FMath.MinInt rx (i32sub SW 1)) (by omega)
            (by rw [hR]; omega)
          have hvc : v = c := hall v (TArray.read_some _ _ _ hv).2.2
          have ej : i32add (i32mul y W) x = y * W + x := by
            rw [i32mul_eq y W (by omega) (by omega), i32add_eq _ _ (by omega) (by omega)]
          unfold resizePixel
          simp only [hrx, hry, Option.bind_eq_bind, Option.some_bind, ei, hv, ej]
          rw [TArray.write_ok _ _ _ (by omega) (by rw [ht2.1]; omega)]
          refine ⟨_, rfl, by rw [List.length_set]; exact ht2.1, ?_⟩
          intro i hi
          by_cases hie : (y * W + x).toNat = i
          · rw [← hie, List.getElem?_set_self (by have := ht2.1; omega), hvc]
          · rw [List.getElem?_set_ne hie]
            exact ht2.2 i (by omega))
      exact ⟨u, hu, hul, by intro i hi; exact hua i (by rw [add_mul] at hi; omega)⟩)
  rw [hF]
  congr 1
  rw [List.eq_replicate_iff]
  refine ⟨by omega, ?_⟩
  intro b hb
  obtain ⟨i, hi⟩ := List.mem_iff_getElem?.mp hb
  have hlt : i < F.length := (List.getElem?_eq_some.mp hi).1
  have := hFa i (by rw [mul_comm]; omega)
  rw [this] at hi
  exact (Option.some.inj hi).symm

/-- A mask that is uniform after binarisation gives a uniform result, whenever the
footprint lies inside the canvas and neither resized extent is 0. -/
theorem PostprocessMask_uniform (MaskData : List Flt) (c : ℕ) (W H : ℤ) (Scale : Flt)
    (xo yo SW SH : ℤ) (hlen : (MaskData.length : ℤ) = 1024 * 1024)
    (hall : ∀ m ∈ MaskData, binarize m = c) (hW : 0 < W) (hH : 0 < H)
    (h32 : W * H < 2147483648)
    (hSW : FMath.RoundToInt (binary32.mul (binary32.ofInt W) Scale) = some SW)
    (hSH : FMath.RoundToInt (binary32.mul (binary32.ofInt H) Scale) = some SH)
    (hSW1 : 1 ≤ SW) (hSH1 : 1 ≤ SH) (hxo : 0 ≤ xo) (hxo2 : xo + SW ≤ 1024) (hyo : 0 ≤ yo)
    (hyo2 : yo + SH ≤ 1024) :
    PostprocessMask MaskData W H Scale xo yo = Res.ok (List.replicate (W * H).toNat c) := by
  obtain ⟨R, hR, hRl, hRa⟩ := cropRegion_uniform (MaskData.map binarize) c SW SH xo yo
    (by rw [List.length_map, hlen]; norm_num)
    (by
      intro e he
      obtain ⟨m, hm, rfl⟩ := List.mem_map.mp he
      exact hall m hm)
    (by omega) (by omega) hxo hxo2 hyo hyo2
  have hres := resizeRegion_uniform R c W H SW SH hW hH h32 hSW1 (by omega) hSH1 (by omega)
    hRl hRa
  unfold PostprocessMask
  rw [if_neg (not_not.mpr hlen)]
  simp only [hSW, hSH, hR, Option.some_bind, hres]

/-- A loop whose body cannot return at some index does not return. -/
theorem forLoop_none {σ : Type} (body : ℤ → σ → Option σ) (n : ℤ) (s : σ) (k : ℤ)
    (hk0 : 0 ≤ k) (hk1 : k < n) (hnone : ∀ t, body k t = none) : forLoop n body s = none := by
  cases h : forLoop n body s with
  | none => rfl
  | some t =>
    obtain ⟨_, hstep⟩ := forLoop_some body (fun _ => True) n s t trivial
      (fun _ _ _ _ _ _ _ => trivial) h
    obtain ⟨a, b, _, hb⟩ := hstep k hk0 hk1
    rw [hnone a] at hb
    cases hb

theorem round32_int (z : ℤ) (hz : |z| < 16777216) : binary32.round (z : ℚ) = Flt.fin (z : ℚ) :=
  ofInt32_exact z hz

theorem mul_zero_left (b : ℚ) : binary32.mul (Flt.fin 0) (Flt.fin b) = Flt.fin 0 := by
  show binary32.round _ = _
  rw [zero_mul]; exact binary32.round_zero

theorem RoundToInt_zero : FMath.RoundToInt (Flt.fin 0) = some 0 := by
  exact RoundToInt_of_bounds 0 0 (by norm_num) (by norm_num) (by norm_num) (by norm_num)

theorem ofInt32_zero : binary32.ofInt 0 = Flt.fin 0 := by
  rw [ofInt32_exact 0 (by norm_num)]; norm_num

theorem ofInt32_one : binary32.ofInt 1 = Flt.fin 1 := by
  rw [ofInt32_exact 1 (by norm_num)]; norm_num

/-- When the resized width is 0 the resampling loops touch nothing and the tensor is built. -/
theorem buildTensor_ok_empty (img : List Flt) (W H : ℤ) (s : Flt) (NewWidth NewHeight xo yo : ℤ)
    (hN : NewWidth ≤ 0) :
    ∃ u, buildTensor img W H s NewWidth NewHeight xo yo = some u ∧ u.length = 3145728 := by
  unfold buildTensor
  obtain ⟨cv, ha, hcl⟩ := alloc_canvas
  obtain ⟨r, hr, hrl⟩ : ∃ r, resampleImage img W H s NewWidth NewHeight xo yo cv = some r ∧
      r.length = 3145728 := by
    unfold resampleImage
    refine forLoop_inv _ (fun t : List Flt => t.length = 3145728) NewHeight cv hcl ?_
    intro y _ _ t ht
    exact ⟨t, forLoop_nonpos _ NewWidth hN t, ht⟩
  obtain ⟨n, hn, hnl⟩ := normalizeCanvas_ok r hrl
  obtain ⟨t, ht, htl⟩ := toNCHW_ok n hnl
  refine ⟨t, ?_, htl⟩
  rw [ha, Option.bind_eq_bind, Option.some_bind, hr, Option.some_bind, hn, Option.some_bind, ht]

theorem div_pos_zero (a : ℚ) (ha : 0 < a) : binary32.div (Flt.fin a) (Flt.fin 0) = Flt.pinf := by
  unfold Fmt.div
  simp only [if_true, if_neg (ne_of_gt ha), if_pos ha]

theorem div_by_one (z : ℤ) (hz : |z| < 16777216) :
    binary32.div (Flt.fin (z : ℚ)) (Flt.fin 1) = Flt.fin (z : ℚ) := by
  rw [binary32.div_fin _ _ (by norm_num), div_one]
  exact round32_int z hz

theorem mul_one_left (z : ℤ) (hz : |z| < 16777216) :
    binary32.mul (Flt.fin 1) (Flt.fin (z : ℚ)) = Flt.fin (z : ℚ) := by
  show binary32.round _ = _
  rw [one_mul]
  exact round32_int z hz

theorem scale_0_1 : letterboxScale 0 1 = Flt.fin 1024 := by
  unfold letterboxScale
  rw [ofInt_TargetSize, ofInt32_zero, ofInt32_one, div_pos_zero 1024 (by norm_num)]
  have b := div_by_one 1024 (by norm_num)
  norm_num at b
  rw [b]
  unfold FMath.Min Flt.lt
  rfl

theorem width_0_1 : FMath.RoundToInt (binary32.mul (binary32.ofInt 0) (Flt.fin 1024)) = some 0 := by
  rw [ofInt32_zero, mul_zero_left, RoundToInt_zero]

theorem RoundToInt_1024 : FMath.RoundToInt (Flt.fin 1024) = some 1024 := by
  exact RoundToInt_of_bounds 1024 1024 (by norm_num) (by norm_num) (by norm_num) (by norm_num)

theorem height_0_1 :
    FMath.RoundToInt (binary32.mul (binary32.ofInt 1) (Flt.fin 1024)) = some 1024 := by
  rw [ofInt32_one]
  have a := mul_one_left 1024 (by norm_num)
  norm_num at a
  rw [a, RoundToInt_1024]

theorem offset_of_zero : i32div (i32sub TargetSize 0) 2 = 512 := by
  rw [TargetSize, i32sub_eq 1024 0 (by norm_num) (by norm_num), i32div_two _ (by norm_num)
    (by norm_num)]
  norm_num

theorem offset_of_full : i32div (i32sub TargetSize 1024) 2 = 0 := by
  rw [TargetSize, i32sub_eq 1024 1024 (by norm_num) (by norm_num), i32div_two _ (by norm_num)
    (by norm_num)]
  norm_num

theorem guard_0_1 : i32mul (i32mul 0 1) 3 = 0 := by
  rw [i32mul_eq 0 1 (by norm_num) (by norm_num), i32mul_eq (0 * 1) 3 (by norm_num) (by norm_num)]
  norm_num

/-- `PreprocessImage` from its parts. -/
theorem PreprocessImage_eq (img : List Flt) (W H : ℤ) (s : Flt) (NW NH xo yo : ℤ)
    (data : List Flt) (hg : (img.length : ℤ) = i32mul (i32mul W H) 3)
    (hs : letterboxScale W H = s)
    (hw : FMath.RoundToInt (binary32.mul (binary32.ofInt W) s) = some NW)
    (hh : FMath.RoundToInt (binary32.mul (binary32.ofInt H) s) = some NH)
    (hxo : i32div (i32sub TargetSize NW) 2 = xo) (hyo : i32div (i32sub TargetSize NH) 2 = yo)
    (hd : buildTensor img W H s NW NH xo yo = some data) :
    PreprocessImage img W H = Res.ok ⟨data, s, xo, yo⟩ := by
  unfold PreprocessImage
  rw [if_neg (not_not.mpr hg)]
  simp only [hs, hw, hh, hxo, hyo, hd]

/-- C8 (failing input). `PreprocessImage` accepts width 0: with height 1 and the empty
buffer the size check passes (`0 == 0 * 1 * 3`), the scale is `Min(+inf, 1024) = 1024`,
the resized extents are 0 and 1024, and the call returns `true` with offsets 512 and 0. -/
theorem PreprocessImage_zero_width :
    ∃ data : List Flt, PreprocessImage [] 0 1 = Res.ok ⟨data, Flt.fin 1024, 512, 0⟩ := by
  obtain ⟨data, hdata, _⟩ := buildTensor_ok_empty [] 0 1 (Flt.fin 1024) 0 1024 512 0 (le_refl 0)
  exact ⟨data, PreprocessImage_eq [] 0 1 (Flt.fin 1024) 0 1024 512 0 data guard_0_1.symm
    scale_0_1 width_0_1 height_0_1 offset_of_zero offset_of_full hdata⟩

theorem guard_wrapped : i32mul (i32mul 1 1431655766) 3 = 2 := by
  unfold i32mul wrap32; norm_num

theorem ofInt_big : binary32.ofInt 1431655766 = Flt.fin 1431655808 := by
  unfold Fmt.ofInt
  have := round32_of_scaled ((1431655766 : ℤ) : ℚ) 30 11184811 (by norm_num [abs_of_pos])
    (by norm_num [abs_of_pos]) (by norm_num) (by norm_num [abs_lt]) (by norm_num [abs_of_pos])
  rw [this]; norm_num

theorem scale_tall : letterboxScale 1 1431655766 = Flt.fin (3 / 4194304) := by
  unfold letterboxScale
  rw [ofInt_TargetSize, ofInt32_one, ofInt_big]
  have a := div_by_one 1024 (by norm_num)
  norm_num at a
  have b : binary32.div (Flt.fin 1024) (Flt.fin 1431655808) = Flt.fin (3 / 4194304) := by
    rw [binary32.div_fin _ _ (by norm_num)]
    have := round32_of_scaled (1024 / 1431655808) (-21) 12582912 (by norm_num [abs_of_pos])
      (by norm_num [abs_of_pos]) (by norm_num) (by norm_num [abs_lt]) (by norm_num [abs_of_pos])
    rw [this]; norm_num
  rw [a, b]
  unfold FMath.Min
  rw [if_neg (by simp only [Flt.lt, decide_eq_true_eq]; norm_num)]

theorem width_tall :
    FMath.RoundToInt (binary32.mul (binary32.ofInt 1) (Flt.fin (3 / 4194304))) = some 0 := by
  rw [ofInt32_one]
  have a : binary32.mul (Flt.fin 1) (Flt.fin (3 / 4194304)) = Flt.fin (3 / 4194304) := by
    show binary32.round _ = _
    have := round32_of_scaled (1 * (3 / 4194304)) (-21) 12582912 (by norm_num [abs_of_pos])
      (by norm_num [abs_of_pos]) (by norm_num) (by norm_num [abs_lt]) (by norm_num [abs_of_pos])
    rw [this]; norm_num
  rw [a]
  exact RoundToInt_of_bounds _ 0 (by norm_num) (by norm_num) (by norm_num) (by norm_num)

theorem height_tall :
    FMath.RoundToInt (binary32.mul (binary32.ofInt 1431655766) (Flt.fin (3 / 4194304)))
      = some 1024 := by
  rw [ofInt_big]
  have a : binary32.mul (Flt.fin 1431655808) (Flt.fin (3 / 4194304)) = Flt.fin 1024 := by
    show binary32.round _ = _
    have := round32_of_scaled (1431655808 * (3 / 4194304)) 10 8388608 (by norm_num [abs_of_pos])
      (by norm_num [abs_of_pos]) (by norm_num) (by norm_num [abs_lt]) (by norm_num [abs_of_pos])
    rw [this]; norm_num
  rw [a, RoundToInt_1024]

/-- C9 (failing input). The size check of `PreprocessImage` compares with the wrapped
`int32` product: for `W = 1`, `H = 1431655766` the product `W * H * 3 = 4294967298`
wraps to 2, a buffer of 2 floats passes the check, no pixel is resampled (the resized
width is 0) and the call returns `true`. -/
theorem PreprocessImage_wrapped_size :
    (([Flt.fin 0, Flt.fin 0] : List Flt).length : ℤ) ≠ 1 * 1431655766 * 3 ∧
    ∃ data : List Flt, PreprocessImage [Flt.fin 0, Flt.fin 0] 1 1431655766
      = Res.ok ⟨data, Flt.fin (3 / 4194304), 512, 0⟩ := by
  refine ⟨by simp, ?_⟩
  obtain ⟨data, hdata, _⟩ := buildTensor_ok_empty [Flt.fin 0, Flt.fin 0] 1 1431655766
    (Flt.fin (3 / 4194304)) 0 1024 512 0 (le_refl 0)
  exact ⟨data, PreprocessImage_eq _ 1 1431655766 (Flt.fin (3 / 4194304)) 0 1024 512 0 data
    guard_wrapped.symm scale_tall width_tall height_tall offset_of_zero offset_of_full hdata⟩

/-- With a resized extent of 0 the cropped region is empty. -/
theorem cropRegion_empty (B : List ℕ) (SW SH xo yo : ℤ) (R : List ℕ) (hE : SW ≤ 0 ∨ SH ≤ 0)
    (h : cropRegion B SW SH xo yo = some R) : R = [] := by
  unfold cropRegion at h
  split_ifs at h
  refine (forLoop_some _ (fun t : List ℕ => t = []) SH [] R rfl ?_ h).1
  intro y hy0 hy1 a b ia hb
  rcases hE with hE | hE
  · rw [forLoop_nonpos _ SW hE a] at hb
    cases hb
    exact ia
  · omega

/-- The nearest-neighbour loops read the region at every pixel: on an empty region they
leave the array bounds at the first pixel. -/
theorem resizeRegion_empty (W H SW SH : ℤ) (hW : 0 < W) (hH : 0 < H) :
    resizeRegion [] W H SW SH = none := by
  unfold resizeRegion
  cases ha : TArray.alloc (i32mul W H) (0 : ℕ) with
  | none => rfl
  | some F =>
    simp only [Option.bind_eq_bind, Option.some_bind]
    refine forLoop_none _ H F 0 (le_refl 0) hH ?_
    intro t
    refine forLoop_none _ W t 0 (le_refl 0) hW ?_
    intro t2
    cases hr : resizePixel [] W SW SH (binary32.div (binary32.ofInt SW) (binary32.ofInt W))
        (binary32.div (binary32.ofInt SH) (binary32.ofInt H)) 0 0 t2 with
    | none => rfl
    | some F2 =>
      obtain ⟨v, rx, ry, _, _, hread, _⟩ := resizePixel_some _ _ _ _ _ _ _ _ _ _ hr
      obtain ⟨h0, h1, _⟩ := TArray.read_some _ _ _ hread
      simp only [List.length_nil, Nat.cast_zero] at h1
      omega

/-- `PostprocessMask` on parameters whose resized width or height is 0: a read outside
the (empty) region. -/
theorem PostprocessMask_empty_region (MaskData : List Flt) (W H : ℤ) (Scale : Flt)
    (xo yo SW SH : ℤ) (hlen : (MaskData.length : ℤ) = 1024 * 1024) (hW : 0 < W) (hH : 0 < H)
    (hSW : FMath.RoundToInt (binary32.mul (binary32.ofInt W) Scale) = some SW)
    (hSH : FMath.RoundToInt (binary32.mul (binary32.ofInt H) Scale) = some SH)
    (hE : SW ≤ 0 ∨ SH ≤ 0) :
    PostprocessMask MaskData W H Scale xo yo = Res.ub := by
  unfold PostprocessMask
  rw [if_neg (not_not.mpr hlen)]
  simp only [hSW, hSH]
  cases hc : cropRegion (MaskData.map binarize) SW SH xo yo with
  | none => rfl
  | some R =>
    have := cropRegion_empty _ _ _ _ _ _ hE hc
    subst this
    simp only [Option.some_bind, resizeRegion_empty W H SW SH hW hH]

theorem ofInt_4096 : binary32.ofInt 4096 = Flt.fin 4096 := by
  rw [ofInt32_exact 4096 (by norm_num)]; norm_num

theorem round32_quarter : binary32.round (1 / 4) = Flt.fin (1 / 4) := by
  have := round32_of_scaled (1 / 4) (-2) 8388608 (by norm_num [abs_of_pos])
    (by norm_num [abs_of_pos]) (by norm_num) (by norm_num [abs_lt]) (by norm_num [abs_of_pos])
  rw [this]; norm_num

theorem scale_wide : letterboxScale 4096 1 = Flt.fin (1 / 4) := by
  unfold letterboxScale
  rw [ofInt_TargetSize, ofInt32_one, ofInt_4096]
  have a := div_by_one 1024 (by norm_num)
  norm_num at a
  have b : binary32.div (Flt.fin 1024) (Flt.fin 4096) = Flt.fin (1 / 4) := by
    rw [binary32.div_fin _ _ (by norm_num)]
    have e : (1024 : ℚ) / 4096 = 1 / 4 := by norm_num
    rw [e, round32_quarter]
  rw [a, b]
  unfold FMath.Min
  rw [if_pos (by simp only [Flt.lt, decide_eq_true_eq]; norm_num)]

theorem width_wide :
    FMath.RoundToInt (binary32.mul (binary32.ofInt 4096) (Flt.fin (1 / 4))) = some 1024 := by
  rw [ofInt_4096]
  have a : binary32.mul (Flt.fin 4096) (Flt.fin (1 / 4)) = Flt.fin 1024 := by
    show binary32.round _ = _
    have e : (4096 : ℚ) * (1 / 4) = ((1024 : ℤ) : ℚ) := by norm_num
    rw [e, round32_int 1024 (by norm_num)]; norm_num
  rw [a, RoundToInt_1024]

theorem height_wide :
    FMath.RoundToInt (binary32.mul (binary32.ofInt 1) (Flt.fin (1 / 4))) = some 0 := by
  rw [ofInt32_one]
  have a : binary32.mul (Flt.fin 1) (Flt.fin (1 / 4)) = Flt.fin (1 / 4) := by
    show binary32.round _ = _
    rw [one_mul, round32_quarter]
  rw [a]
  exact RoundToInt_of_bounds _ 0 (by norm_num) (by norm_num) (by norm_num) (by norm_num)

/-- `PreprocessImage` on a 4096x1 image: scale 0.25, resized extents 1024 and 0,
offsets 0 and 512. -/
theorem PreprocessImage_wide (img : List Flt) (hlen : (img.length : ℤ) = 4096 * 1 * 3) :
    ∃ data : List Flt, PreprocessImage img 4096 1 = Res.ok ⟨data, Flt.fin (1 / 4), 0, 512⟩ := by
  obtain ⟨data, NW, NH, hok, _, hnw, hnh, _⟩ :=
    PreprocessImage_ok img 4096 1 (by norm_num) (by norm_num) hlen (by norm_num)
  rw [scale_wide, width_wide] at hnw
  rw [scale_wide, height_wide] at hnh
  cases hnw; cases hnh
  rw [scale_wide] at hok
  exact ⟨data, by simpa using hok⟩

/-- C4 (failing input). A 4096x1 image is preprocessed with scale 0.25 and offsets
(0, 512); its resized height `RoundToInt(1 * 0.25)` is 0, so with these parameters
`PostprocessMask` crops an empty region and, on the all-ones mask, reads
`RegionMask[-1 * 1024 + 0]`: it does not return the all-255 mask. -/
theorem roundTrip_wide_image :
    (∃ data : List Flt, PreprocessImage (List.replicate 12288 (Flt.fin 1)) 4096 1
      = Res.ok ⟨data, Flt.fin (1 / 4), 0, 512⟩) ∧
    PostprocessMask (List.replicate (1024 * 1024) (Flt.fin 1)) 4096 1 (Flt.fin (1 / 4)) 0 512
      = Res.ub :=
  ⟨PreprocessImage_wide _ (by rw [List.length_replicate]; norm_num),
    PostprocessMask_empty_region _ 4096 1 (Flt.fin (1 / 4)) 0 512 1024 0
      (by rw [List.length_replicate]; norm_num) (by norm_num) (by norm_num)
      width_wide height_wide (Or.inr (le_refl 0))⟩

theorem binarize_fin (q : ℚ) : binarize (Flt.fin q) = if 1 / 2 < q then 255 else 0 := by
  unfold binarize half Flt.lt
  by_cases h : (1 / 2 : ℚ) < q
  · rw [if_pos h, if_pos (decide_eq_true h)]
  · rw [if_neg h, if_neg (by simpa using h)]

theorem binarize_one : binarize (Flt.fin 1) = 255 := by
  rw [binarize_fin, if_pos (by norm_num)]

theorem binarize_half : binarize (Flt.fin (1 / 2)) = 0 := by
  rw [binarize_fin, if_neg (lt_irrefl _)]

theorem postprocess_unit_example :
    PostprocessMask (List.replicate (1024 * 1024) (Flt.fin 1)) 1 1 (Flt.fin 1024) 0 0
      = Res.ok (List.replicate ((1 : ℤ) * 1).toNat 255) :=
  PostprocessMask_uniform _ 255 1 1 (Flt.fin 1024) 0 0 1024 1024
    (by rw [List.length_replicate]; norm_num)
    (by intro m hm; rw [List.eq_of_mem_replicate hm]; exact binarize_one)
    (by norm_num) (by norm_num) (by norm_num) height_0_1 height_0_1 (by norm_num) (by norm_num)
    (by norm_num) (by norm_num) (by norm_num) (by norm_num)

theorem PostprocessMask_values_witness :
    ((List.replicate ((1 : ℤ) * 1).toNat 255).length : ℤ) = 1 * 1 ∧
      ∀ e ∈ List.replicate ((1 : ℤ) * 1).toNat 255, e = 0 ∨ e = 255 :=
  PostprocessMask_values (List.replicate (1024 * 1024) (Flt.fin 1)) 1 1 (Flt.fin 1024) 0 0
    (List.replicate ((1 : ℤ) * 1).toNat 255) (by decide) (by decide) postprocess_unit_example

/-- C5. Postprocessing mask number `MaskIndex` fails on an index outside `[0, NumMasks)`
and on a raw mask that is not 1024x1024: `GetMask` returns the empty buffer for every
index out of range and `CreateMaskTexture` returns `nullptr` there; `PostprocessMask`
returns `false` exactly when its buffer length differs from `1024 * 1024`; and
`CreateMaskTexture` returns `nullptr` whenever `GetMask` gives a buffer of another length. -/
theorem postprocess_failures (Output : FSam2Output) (MaskIndex : ℤ) (MaskData : List Flt)
    (W H : ℤ) (Scale : Flt) (xo yo : ℤ) (bSam2Instance bCreateTransient : Bool) :
    ((MaskIndex < 0 ∨ Output.NumMasks ≤ MaskIndex) →
      Output.GetMask MaskIndex = some [] ∧
      CreateMaskTexture bSam2Instance bCreateTransient Output MaskIndex = Res.fail) ∧
    (PostprocessMask MaskData W H Scale xo yo = Res.fail ↔
      (MaskData.length : ℤ) ≠ 1024 * 1024) ∧
    (∀ raw : List Flt, Output.GetMask MaskIndex = some raw → (raw.length : ℤ) ≠ 1024 * 1024 →
      CreateMaskTexture bSam2Instance bCreateTransient Output MaskIndex = Res.fail) := by
  refine ⟨?_, PostprocessMask_fail_iff MaskData W H Scale xo yo, ?_⟩
  · intro h
    constructor
    · unfold FSam2Output.GetMask
      rw [if_pos (by rcases h with h | h; exact Or.inl h; exact Or.inr h)]
    · unfold CreateMaskTexture
      rw [if_pos (by rcases h with h | h; exact Or.inr h; exact Or.inl h)]
  · intro raw hraw hlen
    unfold CreateMaskTexture
    by_cases h1 : MaskIndex ≥ Output.NumMasks ∨ MaskIndex < 0
    · rw [if_pos h1]
    rw [if_neg h1]
    by_cases h2 : Output.OriginalWidth ≤ 0 ∨ Output.OriginalHeight ≤ 0
    · rw [if_pos h2]
    rw [if_neg h2, hraw]
    simp only
    rw [if_pos hlen]

theorem postprocess_failures_witness :
    (FSam2Output.GetMask ⟨[], [], 1, 1024, 1024, 1, 1, Flt.fin 1, 0, 0⟩ 5 = some [] ∧
      CreateMaskTexture true true ⟨[], [], 1, 1024, 1024, 1, 1, Flt.fin 1, 0, 0⟩ 5 = Res.fail) ∧
    PostprocessMask [Flt.fin 1] 1 1 (Flt.fin 1) 0 0 = Res.fail :=
  ⟨(postprocess_failures ⟨[], [], 1, 1024, 1024, 1, 1, Flt.fin 1, 0, 0⟩ 5 [Flt.fin 1] 1 1
      (Flt.fin 1) 0 0 true true).1 (Or.inr (by decide)),
    (postprocess_failures ⟨[], [], 1, 1024, 1024, 1, 1, Flt.fin 1, 0, 0⟩ 5 [Flt.fin 1] 1 1
      (Flt.fin 1) 0 0 true true).2.1.mpr (by decide)⟩

theorem round32_half : binary32.round (1 / 2) = Flt.fin (1 / 2) := by
  have := round32_of_scaled (1 / 2) (-1) 8388608 (by norm_num [abs_of_pos])
    (by norm_num [abs_of_pos]) (by norm_num) (by norm_num [abs_lt]) (by norm_num [abs_of_pos])
  rw [this]; norm_num

/-- The sigmoid of logit 0 is exactly 0.5 when the platform's `Exp` maps 0 to 1. -/
theorem ApplySigmoid_zero (Exp : Flt → Flt) (h : Exp (Flt.fin 0) = Flt.fin 1) :
    ApplySigmoid Exp [Flt.fin 0] = [Flt.fin (1 / 2)] := by
  unfold ApplySigmoid
  simp only [List.map_cons, List.map_nil, Flt.neg, neg_zero, h]
  have a : binary32.add (Flt.fin 1) (Flt.fin 1) = Flt.fin 2 := by
    show binary32.round _ = _
    have e : (1 : ℚ) + 1 = ((2 : ℤ) : ℚ) := by norm_num
    rw [e, round32_int 2 (by norm_num)]; norm_num
  rw [a, binary32.div_fin _ _ (by norm_num), round32_half]

theorem width_identity :
    FMath.RoundToInt (binary32.mul (binary32.ofInt 1024) (Flt.fin 1)) = some 1024 := by
  rw [ofInt32_exact 1024 (by norm_num)]
  have a : binary32.mul (Flt.fin ((1024 : ℤ) : ℚ)) (Flt.fin 1) = Flt.fin 1024 := by
    show binary32.round _ = _
    rw [mul_one, round32_int 1024 (by norm_num)]; norm_num
  rw [a, RoundToInt_1024]

/-- C10. Decode before encode: while the validity flag is false `RunDecoder` returns
`false` on every input and every platform, leaving the instance (the three feature
buffers, the flag and the history of engine calls) and `Output` as they were; the flag
is false on a freshly constructed instance. -/
theorem RunDecoder_before_encode (P : Platform) (self : FSam2ModelInstance) (Input : FSam2Input)
    (Output : FSam2Output) (h : self.bHasCachedFeatures = false) :
    RunDecoder P self Input Output = (false, self, Output) ∧
    (∀ bModelsLoaded : Bool,
      (FSam2ModelInstance.construct bModelsLoaded).bHasCachedFeatures = false ∧
      RunDecoder P (FSam2ModelInstance.construct bModelsLoaded) Input Output
        = (false, FSam2ModelInstance.construct bModelsLoaded, Output)) := by
  constructor
  · unfold RunDecoder
    rw [h]; rfl
  · intro b
    exact ⟨rfl, rfl⟩

theorem RunDecoder_before_encode_witness :
    RunDecoder ⟨fun v => v, fun _ => true,
        fun _ _ => some [OrtOutput.tensor [], OrtOutput.tensor [], OrtOutput.tensor []],
        fun _ _ => some [OrtOutput.tensor [Flt.fin 0], OrtOutput.tensor [Flt.fin 1]]⟩
      ⟨true, [Flt.fin 1], [Flt.fin 2], [Flt.fin 3], false, []⟩
      ⟨[], 1, 1, [⟨Flt.fin 0, Flt.fin 0⟩], [1]⟩
      ⟨[], [], 0, 1024, 1024, 0, 0, Flt.fin 1, 0, 0⟩
      = (false, ⟨true, [Flt.fin 1], [Flt.fin 2], [Flt.fin 3], false, []⟩,
          ⟨[], [], 0, 1024, 1024, 0, 0, Flt.fin 1, 0, 0⟩) :=
  (RunDecoder_before_encode _ _ _ _ rfl).1

/-- A resized extent is at least 1 as soon as the scaled extent exceeds one half. -/
theorem scaledDim_pos (d s : ℚ) (N : ℤ) (hlo : 1 / 2 * (1 + 1 / 1048576) ≤ s * d)
    (hhi : s * d ≤ 1024 * (1 + 1 / 16777216))
    (hN : FMath.RoundToInt (binary32.mul (Flt.fin d) (Flt.fin s)) = some N) : 1 ≤ N := by
  obtain ⟨p, hp, lo, hi⟩ := round32_pos (d * s) (by rw [mul_comm]; linarith)
    (by rw [mul_comm]; linarith)
  rw [mul_comm d s] at lo hi
  have hmul : binary32.mul (Flt.fin d) (Flt.fin s) = Flt.fin p := hp
  have hp0 : 0 ≤ p := by nlinarith
  obtain ⟨_, N2, _, hN2, _, _, _, _, _, _, hge⟩ := RoundToInt_spec p hp0 (by nlinarith)
  rw [hmul, hN2] at hN
  cases hN
  exact hge 1 (by norm_num) (by push_cast; linarith)

/-- For an aspect ratio of at most 2047:1 neither resized extent is 0. -/
theorem resized_extents_pos (W H NW NH : ℤ) (hW : 0 < W) (hW2 : W < 2147483648) (hH : 0 < H)
    (hH2 : H < 2147483648) (hr1 : W ≤ 2047 * H) (hr2 : H ≤ 2047 * W)
    (hnw : FMath.RoundToInt (binary32.mul (binary32.ofInt W) (letterboxScale W H)) = some NW)
    (hnh : FMath.RoundToInt (binary32.mul (binary32.ofInt H) (letterboxScale W H)) = some NH) :
    1 ≤ NW ∧ 1 ≤ NH := by
  obtain ⟨w, h, s, hw, hh, hs, w1, w2, h1, h2, ls, sw, sh, hone, _⟩ :=
    letterboxScale_facts W H hW hW2 hH hH2
  rw [hw, hs] at hnw
  rw [hh, hs] at hnh
  have hs0 : 0 < s := lt_of_lt_of_le (by norm_num) ls
  have a1 := mul_le_mul_of_nonneg_left w1 (le_of_lt hs0)
  have a2 := mul_le_mul_of_nonneg_left w2 (le_of_lt hs0)
  have b1 := mul_le_mul_of_nonneg_left h1 (le_of_lt hs0)
  have b2 := mul_le_mul_of_nonneg_left h2 (le_of_lt hs0)
  rw [← mul_assoc] at a1 a2 b1 b2
  have hq1 : (W : ℚ) ≤ 2047 * H := by exact_mod_cast hr1
  have hq2 : (H : ℚ) ≤ 2047 * W := by exact_mod_cast hr2
  have c1 : s * (W : ℚ) ≤ 2047 * (s * (H : ℚ)) := by
    have := mul_le_mul_of_nonneg_left hq1 (le_of_lt hs0)
    linarith
  have c2 : s * (H : ℚ) ≤ 2047 * (s * (W : ℚ)) := by
    have := mul_le_mul_of_nonneg_left hq2 (le_of_lt hs0)
    linarith
  have lw : 1 / 2 * (1 + 1 / 1048576) ≤ s * w := by
    rcases hone with o | o <;> linarith
  have lh : 1 / 2 * (1 + 1 / 1048576) ≤ s * h := by
    rcases hone with o | o <;> linarith
  exact ⟨scaledDim_pos w s NW lw sw hnw, scaledDim_pos h s NH lh sh hnh⟩

/-- The round trip on an image of aspect ratio at most 2047:1: with the scale and offsets
`PreprocessImage` returns, the all-ones mask is postprocessed to the mask that is 255 at
every original pixel. -/
theorem roundTrip_all_ones (img : List Flt) (W H : ℤ) (hW : 0 < W) (hH : 0 < H)
    (hlen : (img.length : ℤ) = W * H * 3) (h32 : W * H * 3 < 2147483648)
    (hr1 : W ≤ 2047 * H) (hr2 : H ≤ 2047 * W) :
    ∃ out : PreprocessOut, PreprocessImage img W H = Res.ok out ∧
      PostprocessMask (List.replicate (1024 * 1024) (Flt.fin 1)) W H out.OutScale
        out.OutXOffset out.OutYOffset = Res.ok (List.replicate (W * H).toNat 255) := by
  obtain ⟨data, NW, NH, hok, _, hnw, hnh, nw0, nw, nh0, nh, _, _⟩ :=
    PreprocessImage_ok img W H hW hH hlen h32
  have hWH : 0 < W * H := mul_pos hW hH
  have hW2 : W < 2147483648 := by nlinarith
  have hH2 : H < 2147483648 := by nlinarith
  obtain ⟨p1, p2⟩ := resized_extents_pos W H NW NH hW hW2 hH hH2 hr1 hr2 hnw hnh
  refine ⟨_, hok, ?_⟩
  exact PostprocessMask_uniform _ 255 W H (letterboxScale W H) ((1024 - NW) / 2)
    ((1024 - NH) / 2) NW NH
    (by rw [List.length_replicate]; norm_num)
    (by intro m hm; rw [List.eq_of_mem_replicate hm]; exact binarize_one)
    hW hH (by omega) hnw hnh p1 p2 (by omega) (by omega) (by omega) (by omega)

/-- The resized extents for positive sizes: defined, between 0 and 1024, one of them 1024. -/
theorem letterbox_extents (W H : ℤ) (hW : 0 < W) (hW2 : W < 2147483648) (hH : 0 < H)
    (hH2 : H < 2147483648) :
    ∃ NW NH : ℤ,
      FMath.RoundToInt (binary32.mul (binary32.ofInt W) (letterboxScale W H)) = some NW ∧
      FMath.RoundToInt (binary32.mul (binary32.ofInt H) (letterboxScale W H)) = some NH ∧
      0 ≤ NW ∧ NW ≤ 1024 ∧ 0 ≤ NH ∧ NH ≤ 1024 ∧
      (NW = 1024 ∨ NH = 1024) ∧ (W = H → NW = 1024 ∧ NH = 1024) := by
  obtain ⟨w, h, s, hw, hh, hs, w1, w2, h1, h2, ls, sw, sh, hone, hsq⟩ :=
    letterboxScale_facts W H hW hW2 hH hH2
  have hWq : (1 : ℚ) ≤ W := by exact_mod_cast hW
  have hHq : (1 : ℚ) ≤ H := by exact_mod_cast hH
  have hw0 : 1 / 2 ≤ w := by linarith
  have hh0 : 1 / 2 ≤ h := by linarith
  obtain ⟨pw, NW, hpw, hNW, nw1, nw2, nw3, nw4, nw5, nw6, nw7⟩ :=
    scaledDim_bounds w s (by nlinarith) sw
  obtain ⟨ph, NH, hph, hNH, nh1, nh2, nh3, nh4, nh5, nh6, nh7⟩ :=
    scaledDim_bounds h s (by nlinarith) sh
  refine ⟨NW, NH, by rw [hs, hw, hpw, hNW], by rw [hs, hh, hph, hNH], nw2, nw3, nh2, nh3, ?_, ?_⟩
  · rcases hone with a | a
    · exact Or.inl (nw5 a)
    · exact Or.inr (nh5 a)
  · intro e
    obtain ⟨a, b⟩ := hsq e
    exact ⟨nw5 a, nh5 b⟩

/-- What a successful `PreprocessImage` went through. -/
theorem PreprocessImage_ok_inv (img : List Flt) (W H : ℤ) (out : PreprocessOut)
    (h : PreprocessImage img W H = Res.ok out) :
    (img.length : ℤ) = i32mul (i32mul W H) 3 ∧ out.OutScale = letterboxScale W H ∧
    ∃ NW NH : ℤ,
      FMath.RoundToInt (binary32.mul (binary32.ofInt W) (letterboxScale W H)) = some NW ∧
      FMath.RoundToInt (binary32.mul (binary32.ofInt H) (letterboxScale W H)) = some NH ∧
      out.OutXOffset = i32div (i32sub TargetSize NW) 2 ∧
      out.OutYOffset = i32div (i32sub TargetSize NH) 2 ∧
      buildTensor img W H (letterboxScale W H) NW NH out.OutXOffset out.OutYOffset
        = some out.ProcessedImageData := by
  unfold PreprocessImage at h
  by_cases hg : (img.length : ℤ) ≠ i32mul (i32mul W H) 3
  · rw [if_pos hg] at h; cases h
  rw [if_neg hg] at h
  dsimp only at h
  cases h1 : FMath.RoundToInt (binary32.mul (binary32.ofInt W) (letterboxScale W H)) with
  | none => rw [h1] at h; cases h
  | some NW =>
    cases h2 : FMath.RoundToInt (binary32.mul (binary32.ofInt H) (letterboxScale W H)) with
    | none => rw [h1, h2] at h; cases h
    | some NH =>
      rw [h1, h2] at h
      simp only at h
      cases h3 : buildTensor img W H (letterboxScale W H) NW NH
          (i32div (i32sub TargetSize NW) 2) (i32div (i32sub TargetSize NH) 2) with
      | none => rw [h3] at h; cases h
      | some data =>
        rw [h3] at h
        simp only [Res.ok.injEq] at h
        subst h
        exact ⟨not_not.mp hg, rfl, NW, NH, rfl, rfl, rfl, rfl, h3⟩

/-- C2. For positive sizes: `PreprocessImage` succeeds on every well-formed image, and
whenever it succeeds the scale it returns is `Min(1024 / float(W), 1024 / float(H))`,
which is `1024 / max W H` up to two float roundings, the resized extents
`RoundToInt(W * scale)` and `RoundToInt(H * scale)` are both at most 1024, one of them is
1024, and both are 1024 when `W = H`. -/
theorem PreprocessImage_scale_extents (img : List Flt) (W H : ℤ) (hW : 0 < W)
    (hW2 : W < 2147483648) (hH : 0 < H) (hH2 : H < 2147483648) :
    ((img.length : ℤ) = W * H * 3 → W * H * 3 < 2147483648 →
      ∃ out : PreprocessOut, PreprocessImage img W H = Res.ok out) ∧
    (∀ out : PreprocessOut, PreprocessImage img W H = Res.ok out →
      ∃ (s : ℚ) (NewWidth NewHeight : ℤ),
        out.OutScale = FMath.Min (binary32.div (Flt.fin 1024) (binary32.ofInt W))
          (binary32.div (Flt.fin 1024) (binary32.ofInt H)) ∧
        out.OutScale = Flt.fin s ∧
        1024 * (1 - 1 / 16777216) ≤ s * ((max W H : ℤ) : ℚ) * (1 + 1 / 16777216) ∧
        s * ((max W H : ℤ) : ℚ) * (1 - 1 / 16777216) ≤ 1024 * (1 + 1 / 16777216) ∧
        FMath.RoundToInt (binary32.mul (binary32.ofInt W) out.OutScale) = some NewWidth ∧
        FMath.RoundToInt (binary32.mul (binary32.ofInt H) out.OutScale) = some NewHeight ∧
        NewWidth ≤ 1024 ∧ NewHeight ≤ 1024 ∧ (NewWidth = 1024 ∨ NewHeight = 1024) ∧
        (W = H → NewWidth = 1024 ∧ NewHeight = 1024)) := by
  constructor
  · intro hlen h32
    obtain ⟨data, NW, NH, hok, _⟩ := PreprocessImage_ok img W H hW hH hlen h32
    exact ⟨_, hok⟩
  · intro out hok
    obtain ⟨_, hsc, _⟩ := PreprocessImage_ok_inv img W H out hok
    obtain ⟨NW, NH, hnw, hnh, _, nw, _, nh, hone, hsq⟩ := letterbox_extents W H hW hW2 hH hH2
    obtain ⟨s, hs, s1, s2⟩ := letterboxScale_near W H hW hW2 hH hH2
    refine ⟨s, NW, NH, ?_, by rw [hsc, hs], s1, s2, by rw [hsc, hnw], by rw [hsc, hnh], nw, nh,
      hone, hsq⟩
    rw [hsc]
    unfold letterboxScale
    rw [ofInt_TargetSize]

theorem PreprocessImage_scale_extents_witness :
    ∃ (out : PreprocessOut) (s : ℚ) (NewWidth NewHeight : ℤ),
      PreprocessImage [Flt.fin 0, Flt.fin 0, Flt.fin 0] 1 1 = Res.ok out ∧
      out.OutScale = Flt.fin s ∧
      FMath.RoundToInt (binary32.mul (binary32.ofInt 1) out.OutScale) = some NewWidth ∧
      FMath.RoundToInt (binary32.mul (binary32.ofInt 1) out.OutScale) = some NewHeight ∧
      NewWidth = 1024 ∧ NewHeight = 1024 := by
  obtain ⟨out, h⟩ := (PreprocessImage_scale_extents [Flt.fin 0, Flt.fin 0, Flt.fin 0] 1 1
    (by decide) (by decide) (by decide) (by decide)).1 (by decide) (by decide)
  obtain ⟨s, NW, NH, _, hs, _, _, hnw, hnh, _, _, _, hsq⟩ :=
    (PreprocessImage_scale_extents [Flt.fin 0, Flt.fin 0, Flt.fin 0] 1 1
      (by decide) (by decide) (by decide) (by decide)).2 out h
  exact ⟨out, s, NW, NH, h, hs, hnw, hnh, (hsq rfl).1, (hsq rfl).2⟩

/-! ## The encoder, the decoder and their cache -/

theorem OrtOutput.floatData_some (o : OrtOutput) (d : List Flt) (h : o.floatData = some d) :
    o = OrtOutput.tensor d := by
  cases o with
  | tensor Data =>
    have e : some Data = some d := h
    rw [Option.some.inj e]
  | other =>
    have e : (none : Option (List Flt)) = some d := h
    cases e

theorem OrtOutput.floatData_none (o : OrtOutput) (h : o.floatData = none) :
    o = OrtOutput.other := by
  cases o with
  | tensor Data =>
    have e : some Data = (none : Option (List Flt)) := h
    cases e
  | other => rfl

/-- The ways `RunEncoder` returns: the runtime refuses the image tensor; the run throws,
gives a number of outputs other than three, or a first output that is not a tensor; the
second output is not a tensor (the first is cached already); the third is not a tensor
(the first two are cached already); or all three are cached and the flag is set. -/
theorem RunEncoder_shape (P : Platform) (self : FSam2ModelInstance) (ImageData : List Flt) :
    (CreateTensor P (OrtValue.floats ImageData [1, 3, 1024, 1024]) = none ∧
      RunEncoder P self ImageData = (false, self)) ∨
    ∃ t, CreateTensor P (OrtValue.floats ImageData [1, 3, 1024, 1024]) = some t ∧
      (((∀ f0 o1 o2, P.EncoderRun [("image", t)]
            ["high_res_feats_0", "high_res_feats_1", "image_embed"]
            ≠ some [OrtOutput.tensor f0, o1, o2]) ∧
          RunEncoder P self ImageData = (false,
            ⟨self.bIsInitialized, self.CachedImageEmbed, self.CachedHighResFeats0,
              self.CachedHighResFeats1, self.bHasCachedFeatures,
              self.SessionRuns ++ [⟨false, [("image", t)],
                ["high_res_feats_0", "high_res_feats_1", "image_embed"]⟩]⟩)) ∨
        (∃ f0 o2, P.EncoderRun [("image", t)]
            ["high_res_feats_0", "high_res_feats_1", "image_embed"]
            = some [OrtOutput.tensor f0, OrtOutput.other, o2] ∧
          RunEncoder P self ImageData = (false,
            ⟨self.bIsInitialized, self.CachedImageEmbed, f0,
              self.CachedHighResFeats1, self.bHasCachedFeatures,
              self.SessionRuns ++ [⟨false, [("image", t)],
                ["high_res_feats_0", "high_res_feats_1", "image_embed"]⟩]⟩)) ∨
        (∃ f0 f1, P.EncoderRun [("image", t)]
            ["high_res_feats_0", "high_res_feats_1", "image_embed"]
            = some [OrtOutput.tensor f0, OrtOutput.tensor f1, OrtOutput.other] ∧
          RunEncoder P self ImageData = (false,
            ⟨self.bIsInitialized, self.CachedImageEmbed, f0, f1, self.bHasCachedFeatures,
              self.SessionRuns ++ [⟨false, [("image", t)],
                ["high_res_feats_0", "high_res_feats_1", "image_embed"]⟩]⟩)) ∨
        (∃ f0 f1 e, P.EncoderRun [("image", t)]
            ["high_res_feats_0", "high_res_feats_1", "image_embed"]
            = some [OrtOutput.tensor f0, OrtOutput.tensor f1, OrtOutput.tensor e] ∧
          RunEncoder P self ImageData = (true,
            ⟨self.bIsInitialized, e, f0, f1, true,
              self.SessionRuns ++ [⟨false, [("image", t)],
                ["high_res_feats_0", "high_res_feats_1", "image_embed"]⟩]⟩))) := by
  unfold RunEncoder
  split
  · rename_i h
    exact Or.inl ⟨h, rfl⟩
  · rename_i t ht
    refine Or.inr ⟨t, ht, ?_⟩
    split
    · rename_i o0 o1 o2 hrun
      split
      · rename_i h0
        refine Or.inl ⟨?_, rfl⟩
        intro f0 a b hc
        rw [hrun] at hc
        cases hc
        cases h0
      · rename_i f0 h0
        have e0 := OrtOutput.floatData_some o0 f0 h0
        subst e0
        split
        · rename_i h1
          have e1 := OrtOutput.floatData_none o1 h1
          subst e1
          exact Or.inr (Or.inl ⟨f0, o2, hrun, rfl⟩)
        · rename_i f1 h1
          have e1 := OrtOutput.floatData_some o1 f1 h1
          subst e1
          split
          · rename_i h2
            have e2 := OrtOutput.floatData_none o2 h2
            subst e2
            exact Or.inr (Or.inr (Or.inl ⟨f0, f1, hrun, rfl⟩))
          · rename_i e h2
            have e2 := OrtOutput.floatData_some o2 e h2
            subst e2
            exact Or.inr (Or.inr (Or.inr ⟨f0, f1, e, hrun, rfl⟩))
    · rename_i hne
      refine Or.inl ⟨?_, rfl⟩
      intro f0 a b hc
      exact hne _ _ _ hc

/-- A failed `RunEncoder` leaves the flags and the cached `image_embed` as they were. -/
theorem RunEncoder_fail_frame (P : Platform) (self : FSam2ModelInstance) (ImageData : List Flt)
    (h : (RunEncoder P self ImageData).1 = false) :
    (RunEncoder P self ImageData).2.bIsInitialized = self.bIsInitialized ∧
    (RunEncoder P self ImageData).2.CachedImageEmbed = self.CachedImageEmbed ∧
    (RunEncoder P self ImageData).2.bHasCachedFeatures = self.bHasCachedFeatures := by
  rcases RunEncoder_shape P self ImageData with ⟨_, e⟩ | ⟨t, _, ⟨_, e⟩ | ⟨_, _, _, e⟩ |
    ⟨_, _, _, e⟩ | ⟨_, _, _, _, e⟩⟩
  · rw [e]; exact ⟨rfl, rfl, rfl⟩
  · rw [e]; exact ⟨rfl, rfl, rfl⟩
  · rw [e]; exact ⟨rfl, rfl, rfl⟩
  · rw [e]; exact ⟨rfl, rfl, rfl⟩
  · rw [e] at h
    cases h

/-- What a successful `RunEncoder` did. -/
theorem RunEncoder_true_inv (P : Platform) (self self1 : FSam2ModelInstance)
    (ImageData : List Flt) (h : RunEncoder P self ImageData = (true, self1)) :
    ∃ t feats0 feats1 embed,
      CreateTensor P (OrtValue.floats ImageData [1, 3, 1024, 1024]) = some t ∧
      P.EncoderRun [("image", t)] ["high_res_feats_0", "high_res_feats_1", "image_embed"]
        = some [OrtOutput.tensor feats0, OrtOutput.tensor feats1, OrtOutput.tensor embed] ∧
      self1 = ⟨self.bIsInitialized, embed, feats0, feats1, true,
        self.SessionRuns ++ [⟨false, [("image", t)],
          ["high_res_feats_0", "high_res_feats_1", "image_embed"]⟩]⟩ := by
  rcases RunEncoder_shape P self ImageData with ⟨_, e⟩ | ⟨t, ht, ⟨_, e⟩ | ⟨_, _, _, e⟩ |
    ⟨_, _, _, e⟩ | ⟨f0, f1, em, hrun, e⟩⟩
  · rw [e] at h; cases h
  · rw [e] at h; cases h
  · rw [e] at h; cases h
  · rw [e] at h; cases h
  · rw [e] at h
    cases h
    exact ⟨t, f0, f1, em, ht, hrun, rfl⟩

/-- `RunEncoder` succeeds when the runtime takes the image tensor and the run gives three
tensors. -/
theorem RunEncoder_ok (P : Platform) (self : FSam2ModelInstance) (ImageData : List Flt)
    (t : OrtValue) (feats0 feats1 embed : List Flt)
    (ht : CreateTensor P (OrtValue.floats ImageData [1, 3, 1024, 1024]) = some t)
    (he : P.EncoderRun [("image", t)] ["high_res_feats_0", "high_res_feats_1", "image_embed"]
        = some [OrtOutput.tensor feats0, OrtOutput.tensor feats1, OrtOutput.tensor embed]) :
    RunEncoder P self ImageData = (true,
      ⟨self.bIsInitialized, embed, feats0, feats1, true,
        self.SessionRuns ++ [⟨false, [("image", t)],
          ["high_res_feats_0", "high_res_feats_1", "image_embed"]⟩]⟩) := by
  rcases RunEncoder_shape P self ImageData with ⟨hn, _⟩ | ⟨t2, ht2, ⟨hne, _⟩ |
    ⟨_, _, hrun, _⟩ | ⟨_, _, hrun, _⟩ | ⟨f0, f1, em, hrun, e⟩⟩
  · rw [ht] at hn; cases hn
  · rw [ht] at ht2; cases ht2
    exact absurd he (hne _ _ _)
  · rw [ht] at ht2; cases ht2
    rw [he] at hrun; cases hrun
  · rw [ht] at ht2; cases ht2
    rw [he] at hrun; cases hrun
  · rw [ht] at ht2; cases ht2
    rw [he] at hrun; cases hrun
    exact e

/-- `RunDecoder` changes at most the history of engine calls of the instance. -/
theorem RunDecoder_frame (P : Platform) (self : FSam2ModelInstance) (Input : FSam2Input)
    (Output : FSam2Output) :
    (RunDecoder P self Input Output).2.1.bIsInitialized = self.bIsInitialized ∧
    (RunDecoder P self Input Output).2.1.CachedImageEmbed = self.CachedImageEmbed ∧
    (RunDecoder P self Input Output).2.1.CachedHighResFeats0 = self.CachedHighResFeats0 ∧
    (RunDecoder P self Input Output).2.1.CachedHighResFeats1 = self.CachedHighResFeats1 ∧
    (RunDecoder P self Input Output).2.1.bHasCachedFeatures = self.bHasCachedFeatures := by
  unfold RunDecoder
  split
  · exact ⟨rfl, rfl, rfl, rfl, rfl⟩
  · split
    · exact ⟨rfl, rfl, rfl, rfl, rfl⟩
    · split
      · split
        · exact ⟨rfl, rfl, rfl, rfl, rfl⟩
        · split <;> exact ⟨rfl, rfl, rfl, rfl, rfl⟩
      · exact ⟨rfl, rfl, rfl, rfl, rfl⟩

/-- The first three decoder inputs are the cached buffers. -/
theorem decoderInputs_head (P : Platform) (self : FSam2ModelInstance) (Input : FSam2Input)
    (Output : FSam2Output) (inputs : List (String × OrtValue))
    (h : decoderInputs P self Input Output = some inputs) :
    inputs.take 3 =
      [("image_embed", OrtValue.floats self.CachedImageEmbed [1, 256, 64, 64]),
       ("high_res_feats_0", OrtValue.floats self.CachedHighResFeats0 [1, 32, 256, 256]),
       ("high_res_feats_1", OrtValue.floats self.CachedHighResFeats1 [1, 64, 128, 128])] ∧
    inputs.length = 8 := by
  unfold decoderInputs CreateTensor at h
  simp only [Option.bind_eq_bind, Option.bind_eq_some] at h
  obtain ⟨a1, h1, a2, h2, a3, h3, a4, h4, a5, h5, a6, h6, a7, h7, a8, h8, h9⟩ := h
  split_ifs at h1 h2 h3
  cases h1; cases h2; cases h3
  cases h9
  exact ⟨rfl, rfl⟩

/-- The engine call a `RunDecoder` adds to the history, if any. -/
theorem RunDecoder_log (P : Platform) (self : FSam2ModelInstance) (Input : FSam2Input)
    (Output : FSam2Output) :
    (RunDecoder P self Input Output).2.1.SessionRuns = self.SessionRuns ∨
    ∃ inputs, decoderInputs P self Input Output = some inputs ∧
      (RunDecoder P self Input Output).2.1.SessionRuns
        = self.SessionRuns ++ [⟨true, inputs, ["masks", "iou_predictions"]⟩] := by
  unfold RunDecoder
  split
  · exact Or.inl rfl
  · split
    · exact Or.inl rfl
    · rename_i inputs hi
      split
      · split
        · exact Or.inr ⟨inputs, hi, rfl⟩
        · split <;> exact Or.inr ⟨inputs, hi, rfl⟩
      · exact Or.inr ⟨inputs, hi, rfl⟩

/-- The ways `RunDecoder` returns: before the run (flag false, or a tensor refused); after
a run that throws, gives a number of outputs other than two, or a first output that is
not a tensor (`Output` as it was); after a run whose second output is not a tensor
(`Output.MaskData` overwritten already); or with the full result. -/
theorem RunDecoder_shape (P : Platform) (self : FSam2ModelInstance) (Input : FSam2Input)
    (Output : FSam2Output) :
    (RunDecoder P self Input Output = (false, self, Output) ∧
      (self.bHasCachedFeatures = false ∨ decoderInputs P self Input Output = none)) ∨
    (self.bHasCachedFeatures = true ∧
      ∃ inputs, decoderInputs P self Input Output = some inputs ∧
        ((∃ masks iou, P.DecoderRun inputs ["masks", "iou_predictions"]
              = some [OrtOutput.tensor masks, OrtOutput.tensor iou] ∧
            RunDecoder P self Input Output = (true,
              ⟨self.bIsInitialized, self.CachedImageEmbed, self.CachedHighResFeats0,
                self.CachedHighResFeats1, self.bHasCachedFeatures,
                self.SessionRuns ++ [⟨true, inputs, ["masks", "iou_predictions"]⟩]⟩,
              ⟨ApplySigmoid P.Exp masks, iou, 1, 1024, 1024, Output.OriginalWidth,
                Output.OriginalHeight, Output.Scale, Output.XOffset, Output.YOffset⟩)) ∨
          (∃ masks, P.DecoderRun inputs ["masks", "iou_predictions"]
              = some [OrtOutput.tensor masks, OrtOutput.other] ∧
            RunDecoder P self Input Output = (false,
              ⟨self.bIsInitialized, self.CachedImageEmbed, self.CachedHighResFeats0,
                self.CachedHighResFeats1, self.bHasCachedFeatures,
                self.SessionRuns ++ [⟨true, inputs, ["masks", "iou_predictions"]⟩]⟩,
              ⟨ApplySigmoid P.Exp masks, Output.IouScores, Output.NumMasks, Output.MaskWidth,
                Output.MaskHeight, Output.OriginalWidth, Output.OriginalHeight, Output.Scale,
                Output.XOffset, Output.YOffset⟩)) ∨
          ((∀ masks o, P.DecoderRun inputs ["masks", "iou_predictions"]
              ≠ some [OrtOutput.tensor masks, o]) ∧
            RunDecoder P self Input Output = (false,
              ⟨self.bIsInitialized, self.CachedImageEmbed, self.CachedHighResFeats0,
                self.CachedHighResFeats1, self.bHasCachedFeatures,
                self.SessionRuns ++ [⟨true, inputs, ["masks", "iou_predictions"]⟩]⟩,
              Output)))) := by
  unfold RunDecoder
  split
  · rename_i h1
    exact Or.inl ⟨rfl, Or.inl (by simpa using h1)⟩
  · rename_i h1
    split
    · rename_i h2
      exact Or.inl ⟨rfl, Or.inr h2⟩
    · rename_i inputs h2
      refine Or.inr ⟨by simpa using h1, inputs, h2, ?_⟩
      split
      · rename_i o0 o1 h3
        split
        · rename_i h4
          refine Or.inr (Or.inr ⟨?_, rfl⟩)
          intro masks o hc
          rw [h3] at hc
          cases hc
          cases h4
        · rename_i masks h4
          have e0 := OrtOutput.floatData_some o0 masks h4
          subst e0
          split
          · rename_i h5
            have e1 := OrtOutput.floatData_none o1 h5
            subst e1
            exact Or.inr (Or.inl ⟨masks, h3, rfl⟩)
          · rename_i iou h5
            have e1 := OrtOutput.floatData_some o1 iou h5
            subst e1
            exact Or.inl ⟨masks, iou, h3, rfl⟩
      · rename_i hne
        refine Or.inr (Or.inr ⟨?_, rfl⟩)
        intro masks o hc
        exact hne _ _ hc

/-- What a successful `RunDecoder` did. -/
theorem RunDecoder_true_inv (P : Platform) (self : FSam2ModelInstance) (Input : FSam2Input)
    (Output : FSam2Output) (h : (RunDecoder P self Input Output).1 = true) :
    self.bHasCachedFeatures = true ∧
    ∃ inputs masks iou, decoderInputs P self Input Output = some inputs ∧
      P.DecoderRun inputs ["masks", "iou_predictions"]
        = some [OrtOutput.tensor masks, OrtOutput.tensor iou] ∧
      (RunDecoder P self Input Output).2.2 =
        ⟨ApplySigmoid P.Exp masks, iou, 1, 1024, 1024, Output.OriginalWidth,
          Output.OriginalHeight, Output.Scale, Output.XOffset, Output.YOffset⟩ := by
  rcases RunDecoder_shape P self Input Output with
    ⟨e, _⟩ | ⟨hf, inputs, hin, ⟨masks, iou, hr, e⟩ | ⟨_, _, e⟩ | ⟨_, e⟩⟩
  · rw [e] at h
    cases h
  · exact ⟨hf, inputs, masks, iou, hin, hr, by rw [e]⟩
  · rw [e] at h
    cases h
  · rw [e] at h
    cases h

/-- `RunInference` on an input that passes its checks and whose image is preprocessed and
encoded: the result is that of `RunDecoder` on the output record with the snapshot
written. -/
theorem RunInference_decode (P : Platform) (self self1 : FSam2ModelInstance)
    (Input : FSam2Input) (Output : FSam2Output) (pre : PreprocessOut)
    (hi : self.bIsInitialized = true) (himg : Input.ImageData.length ≠ 0)
    (hp : Input.PromptPoints.length ≠ 0)
    (hpre : PreprocessImage Input.ImageData Input.ImageWidth Input.ImageHeight = Res.ok pre)
    (henc : RunEncoder P self pre.ProcessedImageData = (true, self1)) :
    RunInference P self Input Output =
      some (RunDecoder P self1 Input
        ⟨Output.MaskData, Output.IouScores, Output.NumMasks, Output.MaskWidth,
          Output.MaskHeight, Input.ImageWidth, Input.ImageHeight, pre.OutScale,
          pre.OutXOffset, pre.OutYOffset⟩) := by
  unfold RunInference
  rw [hi, if_neg (by simp), if_neg himg, if_neg hp, hpre]
  simp only [henc]

/-- The ways `RunInference` returns. -/
theorem RunInference_cases (P : Platform) (self : FSam2ModelInstance) (Input : FSam2Input)
    (Output : FSam2Output) (r : Bool × FSam2ModelInstance × FSam2Output)
    (h : RunInference P self Input Output = some r) :
    r = (false, self, Output) ∨
    ∃ pre, PreprocessImage Input.ImageData Input.ImageWidth Input.ImageHeight = Res.ok pre ∧
      self.bIsInitialized = true ∧ Input.ImageData.length ≠ 0 ∧
      Input.PromptPoints.length ≠ 0 ∧
      (((RunEncoder P self pre.ProcessedImageData).1 = false ∧
          r = (false, (RunEncoder P self pre.ProcessedImageData).2, Output)) ∨
        ((RunEncoder P self pre.ProcessedImageData).1 = true ∧
          r = RunDecoder P (RunEncoder P self pre.ProcessedImageData).2 Input
            ⟨Output.MaskData, Output.IouScores, Output.NumMasks, Output.MaskWidth,
              Output.MaskHeight, Input.ImageWidth, Input.ImageHeight, pre.OutScale,
              pre.OutXOffset, pre.OutYOffset⟩)) := by
  unfold RunInference at h
  split_ifs at h with h1 h2 h3
  · exact Or.inl (Option.some.inj h).symm
  · exact Or.inl (Option.some.inj h).symm
  · exact Or.inl (Option.some.inj h).symm
  · split at h
    · cases h
    · exact Or.inl (Option.some.inj h).symm
    · rename_i pre hpre
      refine Or.inr ⟨pre, hpre, by simpa using h1, h2, h3, ?_⟩
      split at h
      · rename_i self1 henc
        refine Or.inl ⟨by rw [henc], ?_⟩
        rw [henc]
        exact (Option.some.inj h).symm
      · rename_i self1 henc
        refine Or.inr ⟨by rw [henc], ?_⟩
        rw [henc]
        exact (Option.some.inj h).symm

/-- `RunInference` returns on every image that `PreprocessImage` handles within defined
behaviour. -/
theorem RunInference_total (P : Platform) (self : FSam2ModelInstance) (Input : FSam2Input)
    (Output : FSam2Output)
    (h : PreprocessImage Input.ImageData Input.ImageWidth Input.ImageHeight ≠ Res.ub) :
    ∃ r, RunInference P self Input Output = some r := by
  unfold RunInference
  split_ifs
  · exact ⟨_, rfl⟩
  · exact ⟨_, rfl⟩
  · exact ⟨_, rfl⟩
  · split
    · rename_i hub
      exact absurd hub h
    · exact ⟨_, rfl⟩
    · split <;> exact ⟨_, rfl⟩

/-- The cache after consecutive decodes, and the engine calls they made. -/
theorem decodeAll_frame (P : Platform) (Calls : List (FSam2Input × FSam2Output)) :
    ∀ self : FSam2ModelInstance,
    (decodeAll P self Calls).CachedImageEmbed = self.CachedImageEmbed ∧
    (decodeAll P self Calls).CachedHighResFeats0 = self.CachedHighResFeats0 ∧
    (decodeAll P self Calls).CachedHighResFeats1 = self.CachedHighResFeats1 ∧
    (decodeAll P self Calls).bHasCachedFeatures = self.bHasCachedFeatures ∧
    ∃ runs, (decodeAll P self Calls).SessionRuns = self.SessionRuns ++ runs ∧
      runs.length ≤ Calls.length ∧
      ∀ r ∈ runs, r.bDecoder = true ∧ r.Inputs.take 3 =
        [("image_embed", OrtValue.floats self.CachedImageEmbed [1, 256, 64, 64]),
         ("high_res_feats_0", OrtValue.floats self.CachedHighResFeats0 [1, 32, 256, 256]),
         ("high_res_feats_1", OrtValue.floats self.CachedHighResFeats1 [1, 64, 128, 128])] := by
  induction Calls with
  | nil =>
    intro self
    exact ⟨rfl, rfl, rfl, rfl, [], by simp [decodeAll], le_refl _, by simp⟩
  | cons c rest ih =>
    intro self
    obtain ⟨Input, Output⟩ := c
    obtain ⟨_, f1, f2, f3, f4⟩ := RunDecoder_frame P self Input Output
    obtain ⟨g1, g2, g3, g4, runs, g5, g6, g7⟩ := ih (RunDecoder P self Input Output).2.1
    have hd : decodeAll P self ((Input, Output) :: rest)
        = decodeAll P (RunDecoder P self Input Output).2.1 rest := rfl
    rw [hd]
    refine ⟨g1.trans f1, g2.trans f2, g3.trans f3, g4.trans f4, ?_⟩
    rw [f1, f2, f3] at g7
    rcases RunDecoder_log P self Input Output with hl | ⟨inputs, hin, hl⟩
    · refine ⟨runs, by rw [g5, hl], ?_, g7⟩
      simp only [List.length_cons]
      omega
    · refine ⟨⟨true, inputs, ["masks", "iou_predictions"]⟩ :: runs, ?_, ?_, ?_⟩
      · rw [g5, hl, List.append_assoc]
        rfl
      · simp only [List.length_cons]
        omega
      · intro r hr
        rcases List.mem_cons.mp hr with rfl | hr
        · exact ⟨rfl, (decoderInputs_head P self Input Output inputs hin).1⟩
        · exact g7 r hr

/-- C11. Empty prompt set: on every input with zero prompt points `RunInference` returns
`false`, on every platform, for every instance, image and output record.  It returns at
one of its own checks: no engine is run and the decode step is not entered, the instance
(with its history of engine calls) and `Output` are as they were. -/
theorem RunInference_empty_prompts (P : Platform) (self : FSam2ModelInstance)
    (Input : FSam2Input) (Output : FSam2Output) (h : Input.PromptPoints.length = 0) :
    RunInference P self Input Output = some (false, self, Output) := by
  unfold RunInference
  split_ifs <;> rfl

theorem RunInference_empty_prompts_witness :
    RunInference ⟨fun v => v, fun _ => true, fun _ _ => some [OrtOutput.tensor [], OrtOutput.tensor [], OrtOutput.tensor []],
        fun _ _ => some [OrtOutput.tensor [Flt.fin 0], OrtOutput.tensor [Flt.fin 1]]⟩
      ⟨true, [Flt.fin 1], [Flt.fin 2], [Flt.fin 3], true, []⟩
      ⟨[Flt.fin 0, Flt.fin 0, Flt.fin 0], 1, 1, [], []⟩
      ⟨[], [], 0, 1024, 1024, 0, 0, Flt.fin 1, 0, 0⟩
      = some (false, ⟨true, [Flt.fin 1], [Flt.fin 2], [Flt.fin 3], true, []⟩,
          ⟨[], [], 0, 1024, 1024, 0, 0, Flt.fin 1, 0, 0⟩) :=
  RunInference_empty_prompts _ _ _ _ rfl

/-- C14. Cache validity: whenever `RunEncoder` returns `true`, the flag is true and the
cached `high_res_feats_0`, `high_res_feats_1` and `image_embed` buffers are the first,
second and third outputs of the encoder run on the image tensor, whatever the cache
held before (another instance given the same image ends with the same cache).  The
flag is false on a constructed instance, and it is true after `RunEncoder`,
`RunDecoder` or `RunInference` only if it was true before or a `RunEncoder` returned
`true` in that call. -/
theorem RunEncoder_success_caches (P : Platform) (self : FSam2ModelInstance)
    (ImageData : List Flt) :
    (∀ self1, RunEncoder P self ImageData = (true, self1) →
      ∃ t feats0 feats1 embed,
        CreateTensor P (OrtValue.floats ImageData [1, 3, 1024, 1024]) = some t ∧
        P.EncoderRun [("image", t)] ["high_res_feats_0", "high_res_feats_1", "image_embed"]
          = some [OrtOutput.tensor feats0, OrtOutput.tensor feats1, OrtOutput.tensor embed] ∧
        self1.bHasCachedFeatures = true ∧
        self1.CachedHighResFeats0 = feats0 ∧
        self1.CachedHighResFeats1 = feats1 ∧
        self1.CachedImageEmbed = embed ∧
        ∀ other : FSam2ModelInstance,
          (RunEncoder P other ImageData).1 = true ∧
          (RunEncoder P other ImageData).2.bHasCachedFeatures = true ∧
          (RunEncoder P other ImageData).2.CachedHighResFeats0 = feats0 ∧
          (RunEncoder P other ImageData).2.CachedHighResFeats1 = feats1 ∧
          (RunEncoder P other ImageData).2.CachedImageEmbed = embed) ∧
    (∀ bModelsLoaded : Bool,
      (FSam2ModelInstance.construct bModelsLoaded).bHasCachedFeatures = false) ∧
    ((RunEncoder P self ImageData).2.bHasCachedFeatures = true →
      self.bHasCachedFeatures = true ∨ (RunEncoder P self ImageData).1 = true) ∧
    (∀ Input Output,
      (RunDecoder P self Input Output).2.1.bHasCachedFeatures = self.bHasCachedFeatures) ∧
    (∀ Input Output r, RunInference P self Input Output = some r →
      r.2.1.bHasCachedFeatures = true →
      self.bHasCachedFeatures = true ∨
      ∃ pre, PreprocessImage Input.ImageData Input.ImageWidth Input.ImageHeight = Res.ok pre ∧
        (RunEncoder P self pre.ProcessedImageData).1 = true) := by
  have key : ∀ img : List Flt, (RunEncoder P self img).2.bHasCachedFeatures = true →
      self.bHasCachedFeatures = true ∨ (RunEncoder P self img).1 = true := by
    intro img h
    cases hb : (RunEncoder P self img).1 with
    | true => exact Or.inr rfl
    | false =>
      rw [(RunEncoder_fail_frame P self img hb).2.2] at h
      exact Or.inl h
  refine ⟨?_, fun _ => rfl, key ImageData,
    fun Input Output => (RunDecoder_frame P self Input Output).2.2.2.2, ?_⟩
  · intro self1 h
    obtain ⟨t, f0, f1, e, ht, he, hs⟩ := RunEncoder_true_inv P self self1 ImageData h
    refine ⟨t, f0, f1, e, ht, he, by rw [hs], by rw [hs], by rw [hs], by rw [hs], ?_⟩
    intro other
    rw [RunEncoder_ok P other ImageData t f0 f1 e ht he]
    exact ⟨rfl, rfl, rfl, rfl, rfl⟩
  · intro Input Output r hr hflag
    rcases RunInference_cases P self Input Output r hr with e | ⟨pre, hpre, _, _, _, h⟩
    · rw [e] at hflag
      exact Or.inl hflag
    · rcases h with ⟨hb, e⟩ | ⟨hb, e⟩
      · rw [e] at hflag
        rcases key _ hflag with h1 | h1
        · exact Or.inl h1
        · rw [hb] at h1
          cases h1
      · exact Or.inr ⟨pre, hpre, hb⟩

theorem RunEncoder_success_caches_witness :
    ∃ t feats0 feats1 embed,
      CreateTensor ⟨fun v => v, fun _ => true,
          fun _ _ => some [OrtOutput.tensor [Flt.fin 7], OrtOutput.tensor [Flt.fin 8],
            OrtOutput.tensor [Flt.fin 9]], fun _ _ => none⟩
        (OrtValue.floats [] [1, 3, 1024, 1024]) = some t ∧
      some [OrtOutput.tensor [Flt.fin 7], OrtOutput.tensor [Flt.fin 8],
          OrtOutput.tensor [Flt.fin 9]]
        = some [OrtOutput.tensor feats0, OrtOutput.tensor feats1, OrtOutput.tensor embed] ∧
      true = true ∧ [Flt.fin 7] = feats0 ∧ [Flt.fin 8] = feats1 ∧ [Flt.fin 9] = embed ∧
      ∀ other : FSam2ModelInstance,
        (RunEncoder ⟨fun v => v, fun _ => true,
            fun _ _ => some [OrtOutput.tensor [Flt.fin 7], OrtOutput.tensor [Flt.fin 8],
            OrtOutput.tensor [Flt.fin 9]], fun _ _ => none⟩
          other []).1 = true ∧
        (RunEncoder ⟨fun v => v, fun _ => true,
            fun _ _ => some [OrtOutput.tensor [Flt.fin 7], OrtOutput.tensor [Flt.fin 8],
            OrtOutput.tensor [Flt.fin 9]], fun _ _ => none⟩
          other []).2.bHasCachedFeatures = true ∧
        (RunEncoder ⟨fun v => v, fun _ => true,
            fun _ _ => some [OrtOutput.tensor [Flt.fin 7], OrtOutput.tensor [Flt.fin 8],
            OrtOutput.tensor [Flt.fin 9]], fun _ _ => none⟩
          other []).2.CachedHighResFeats0 = feats0 ∧
        (RunEncoder ⟨fun v => v, fun _ => true,
            fun _ _ => some [OrtOutput.tensor [Flt.fin 7], OrtOutput.tensor [Flt.fin 8],
            OrtOutput.tensor [Flt.fin 9]], fun _ _ => none⟩
          other []).2.CachedHighResFeats1 = feats1 ∧
        (RunEncoder ⟨fun v => v, fun _ => true,
            fun _ _ => some [OrtOutput.tensor [Flt.fin 7], OrtOutput.tensor [Flt.fin 8],
            OrtOutput.tensor [Flt.fin 9]], fun _ _ => none⟩
          other []).2.CachedImageEmbed = embed :=
  (RunEncoder_success_caches
    ⟨fun v => v, fun _ => true, fun _ _ => some [OrtOutput.tensor [Flt.fin 7], OrtOutput.tensor [Flt.fin 8],
            OrtOutput.tensor [Flt.fin 9]],
      fun _ _ => none⟩
    ⟨true, [Flt.fin 1], [Flt.fin 2], [Flt.fin 3], false, []⟩ []).1
    ⟨true, [Flt.fin 9], [Flt.fin 7], [Flt.fin 8], true,
      [⟨false, [("image", OrtValue.floats [] [1, 3, 1024, 1024])],
        ["high_res_feats_0", "high_res_feats_1", "image_embed"]⟩]⟩ rfl

/-- C17. Decode preserves the cache: `RunDecoder`, whether it returns `true` or `false`,
leaves the three cached buffers and the validity flag as they were; hence after any
number of consecutive decodes the cache is still the one before the first, and every
decoder run they made was handed the same `image_embed`, `high_res_feats_0` and
`high_res_feats_1` data, those of the cache. -/
theorem RunDecoder_keeps_cache (P : Platform) (self : FSam2ModelInstance) :
    (∀ Input Output,
      (RunDecoder P self Input Output).2.1.CachedImageEmbed = self.CachedImageEmbed ∧
      (RunDecoder P self Input Output).2.1.CachedHighResFeats0 = self.CachedHighResFeats0 ∧
      (RunDecoder P self Input Output).2.1.CachedHighResFeats1 = self.CachedHighResFeats1 ∧
      (RunDecoder P self Input Output).2.1.bHasCachedFeatures = self.bHasCachedFeatures) ∧
    (∀ Input Output inputs, self.bHasCachedFeatures = true →
      decoderInputs P self Input Output = some inputs →
      (RunDecoder P self Input Output).2.1.SessionRuns
        = self.SessionRuns ++ [⟨true, inputs, ["masks", "iou_predictions"]⟩] ∧
      inputs.take 3 =
        [("image_embed", OrtValue.floats self.CachedImageEmbed [1, 256, 64, 64]),
         ("high_res_feats_0", OrtValue.floats self.CachedHighResFeats0 [1, 32, 256, 256]),
         ("high_res_feats_1", OrtValue.floats self.CachedHighResFeats1 [1, 64, 128, 128])]) ∧
    (∀ Calls : List (FSam2Input × FSam2Output),
      (decodeAll P self Calls).CachedImageEmbed = self.CachedImageEmbed ∧
      (decodeAll P self Calls).CachedHighResFeats0 = self.CachedHighResFeats0 ∧
      (decodeAll P self Calls).CachedHighResFeats1 = self.CachedHighResFeats1 ∧
      (decodeAll P self Calls).bHasCachedFeatures = self.bHasCachedFeatures ∧
      ∃ runs, (decodeAll P self Calls).SessionRuns = self.SessionRuns ++ runs ∧
        runs.length ≤ Calls.length ∧
        ∀ r ∈ runs, r.bDecoder = true ∧ r.Inputs.take 3 =
          [("image_embed", OrtValue.floats self.CachedImageEmbed [1, 256, 64, 64]),
           ("high_res_feats_0", OrtValue.floats self.CachedHighResFeats0 [1, 32, 256, 256]),
           ("high_res_feats_1", OrtValue.floats self.CachedHighResFeats1 [1, 64, 128, 128])]) :=
  ⟨fun Input Output => (RunDecoder_frame P self Input Output).2,
    fun Input Output inputs hf hin =>
      ⟨by
        rcases RunDecoder_shape P self Input Output with
          ⟨_, h | h⟩ | ⟨_, i2, h2, ⟨_, _, _, e⟩ | ⟨_, _, e⟩ | ⟨_, e⟩⟩
        · rw [hf] at h
          cases h
        · rw [hin] at h
          cases h
        · rw [hin] at h2
          cases h2
          rw [e]
        · rw [hin] at h2
          cases h2
          rw [e]
        · rw [hin] at h2
          cases h2
          rw [e],
        (decoderInputs_head P self Input Output inputs hin).1⟩,
    fun Calls => decodeAll_frame P Calls self⟩

theorem RunDecoder_keeps_cache_witness :
    ∃ inputs,
      decoderInputs ⟨fun v => v, fun _ => true, fun _ _ => none,
          fun _ _ => some [OrtOutput.tensor [Flt.fin 0], OrtOutput.tensor [Flt.fin 1]]⟩
        ⟨true, [Flt.fin 1], [Flt.fin 2], [Flt.fin 3], true, []⟩
        ⟨[], 1, 1, [], []⟩ ⟨[], [], 0, 1024, 1024, 0, 0, Flt.fin 1, 0, 0⟩ = some inputs ∧
      (RunDecoder ⟨fun v => v, fun _ => true, fun _ _ => none,
          fun _ _ => some [OrtOutput.tensor [Flt.fin 0], OrtOutput.tensor [Flt.fin 1]]⟩
        ⟨true, [Flt.fin 1], [Flt.fin 2], [Flt.fin 3], true, []⟩
        ⟨[], 1, 1, [], []⟩ ⟨[], [], 0, 1024, 1024, 0, 0, Flt.fin 1, 0, 0⟩).2.1.SessionRuns
        = [] ++ [⟨true, inputs, ["masks", "iou_predictions"]⟩] ∧
      inputs.take 3 =
        [("image_embed", OrtValue.floats [Flt.fin 1] [1, 256, 64, 64]),
         ("high_res_feats_0", OrtValue.floats [Flt.fin 2] [1, 32, 256, 256]),
         ("high_res_feats_1", OrtValue.floats [Flt.fin 3] [1, 64, 128, 128])] :=
  ⟨_, rfl, (RunDecoder_keeps_cache
    ⟨fun v => v, fun _ => true, fun _ _ => none, fun _ _ => some [OrtOutput.tensor [Flt.fin 0], OrtOutput.tensor [Flt.fin 1]]⟩
    ⟨true, [Flt.fin 1], [Flt.fin 2], [Flt.fin 3], true, []⟩).2.1
    ⟨[], 1, 1, [], []⟩ ⟨[], [], 0, 1024, 1024, 0, 0, Flt.fin 1, 0, 0⟩ _ rfl rfl⟩

/-- The decoder inputs when the runtime takes every tensor. -/
theorem decoderInputs_ok (P : Platform) (self : FSam2ModelInstance) (Input : FSam2Input)
    (Output : FSam2Output) (hacc : ∀ v, P.CreateTensorAccepts v = true) :
    decoderInputs P self Input Output = some
      [("image_embed", OrtValue.floats self.CachedImageEmbed [1, 256, 64, 64]),
       ("high_res_feats_0", OrtValue.floats self.CachedHighResFeats0 [1, 32, 256, 256]),
       ("high_res_feats_1", OrtValue.floats self.CachedHighResFeats1 [1, 64, 128, 128]),
       ("point_coords", OrtValue.floats
          (TransformPromptPoints Input.PromptPoints Input.ImageWidth Input.ImageHeight
            Output.Scale Output.XOffset Output.YOffset)
          [1, (Input.PromptPoints.length : ℤ), 2]),
       ("point_labels", OrtValue.floats (Input.PromptLabels.map binary32.ofInt)
          [1, (Input.PromptLabels.length : ℤ)]),
       ("mask_input", OrtValue.floats (List.replicate (1 * 1 * 256 * 256) (Flt.fin 0))
          [1, 1, 256, 256]),
       ("has_mask_input", OrtValue.floats [Flt.fin 0] [1]),
       ("orig_im_size", OrtValue.ints [1024, 1024] [2])] := by
  unfold decoderInputs CreateTensor
  simp only [hacc, if_true, Option.bind_eq_bind, Option.some_bind]

/-- `RunDecoder` succeeds when the cache is valid, the runtime takes the tensors and the
run gives two outputs. -/
theorem RunDecoder_ok (P : Platform) (self : FSam2ModelInstance) (Input : FSam2Input)
    (Output : FSam2Output) (inputs : List (String × OrtValue)) (masks iou : List Flt)
    (hf : self.bHasCachedFeatures = true)
    (hin : decoderInputs P self Input Output = some inputs)
    (hrun : P.DecoderRun inputs ["masks", "iou_predictions"] = some [OrtOutput.tensor masks, OrtOutput.tensor iou]) :
    RunDecoder P self Input Output = (true,
      ⟨self.bIsInitialized, self.CachedImageEmbed, self.CachedHighResFeats0,
        self.CachedHighResFeats1, self.bHasCachedFeatures,
        self.SessionRuns ++ [⟨true, inputs, ["masks", "iou_predictions"]⟩]⟩,
      ⟨ApplySigmoid P.Exp masks, iou, 1, 1024, 1024, Output.OriginalWidth,
        Output.OriginalHeight, Output.Scale, Output.XOffset, Output.YOffset⟩) := by
  rcases RunDecoder_shape P self Input Output with
    ⟨_, h | h⟩ | ⟨_, i2, h2, ⟨m, i, hr, e⟩ | ⟨m, hr, _⟩ | ⟨hne, _⟩⟩
  · rw [hf] at h
    cases h
  · rw [hin] at h
    cases h
  · rw [hin] at h2
    cases h2
    rw [hrun] at hr
    cases hr
    exact e
  · rw [hin] at h2
    cases h2
    rw [hrun] at hr
    cases hr
  · rw [hin] at h2
    cases h2
    exact absurd hrun (hne _ _)

/-- On a well-formed image of positive size, an initialised instance and at least one
prompt point, `RunInference` preprocesses and encodes whenever the runtime takes every
tensor and the encoder run gives three outputs; its result is then that of
`RunDecoder`. -/
theorem RunInference_to_decode (P : Platform) (self : FSam2ModelInstance) (Input : FSam2Input)
    (Output : FSam2Output) (hi : self.bIsInitialized = true)
    (hW : 0 < Input.ImageWidth) (hH : 0 < Input.ImageHeight)
    (hlen : (Input.ImageData.length : ℤ) = Input.ImageWidth * Input.ImageHeight * 3)
    (h32 : Input.ImageWidth * Input.ImageHeight * 3 < 2147483648)
    (hp : Input.PromptPoints.length ≠ 0)
    (hacc : ∀ v, P.CreateTensorAccepts v = true)
    (henc : ∀ inputs, ∃ feats0 feats1 embed,
      P.EncoderRun inputs ["high_res_feats_0", "high_res_feats_1", "image_embed"]
        = some [OrtOutput.tensor feats0, OrtOutput.tensor feats1, OrtOutput.tensor embed]) :
    ∃ pre feats0 feats1 embed,
      PreprocessImage Input.ImageData Input.ImageWidth Input.ImageHeight = Res.ok pre ∧
      P.EncoderRun [("image", OrtValue.floats pre.ProcessedImageData [1, 3, 1024, 1024])]
        ["high_res_feats_0", "high_res_feats_1", "image_embed"]
        = some [OrtOutput.tensor feats0, OrtOutput.tensor feats1, OrtOutput.tensor embed] ∧
      RunInference P self Input Output =
        some (RunDecoder P
          ⟨self.bIsInitialized, embed, feats0, feats1, true,
            self.SessionRuns ++ [⟨false,
              [("image", OrtValue.floats pre.ProcessedImageData [1, 3, 1024, 1024])],
              ["high_res_feats_0", "high_res_feats_1", "image_embed"]⟩]⟩
          Input
          ⟨Output.MaskData, Output.IouScores, Output.NumMasks, Output.MaskWidth,
            Output.MaskHeight, Input.ImageWidth, Input.ImageHeight, pre.OutScale,
            pre.OutXOffset, pre.OutYOffset⟩) := by
  obtain ⟨data, NW, NH, hpre, _⟩ :=
    PreprocessImage_ok Input.ImageData Input.ImageWidth Input.ImageHeight hW hH hlen h32
  have himg : Input.ImageData.length ≠ 0 := by
    intro h0
    rw [h0] at hlen
    have : 0 < Input.ImageWidth * Input.ImageHeight := mul_pos hW hH
    push_cast at hlen
    omega
  obtain ⟨f0, f1, e, he⟩ :=
    henc [("image", OrtValue.floats data [1, 3, 1024, 1024])]
  have ht : CreateTensor P (OrtValue.floats data [1, 3, 1024, 1024])
      = some (OrtValue.floats data [1, 3, 1024, 1024]) := by
    unfold CreateTensor
    rw [hacc, if_pos rfl]
  refine ⟨_, f0, f1, e, hpre, he, ?_⟩
  exact RunInference_decode P self _ Input Output _ hi himg hp hpre
    (RunEncoder_ok P self data _ f0 f1 e ht he)

/-- On a well-formed image of positive size, an initialised instance and at least one
prompt point, `RunInference` returns `true` whenever the runtime takes every tensor,
the encoder run gives three outputs and the decoder run gives two; the label count plays
no part. -/
theorem RunInference_ok (P : Platform) (self : FSam2ModelInstance) (Input : FSam2Input)
    (Output : FSam2Output) (hi : self.bIsInitialized = true)
    (hW : 0 < Input.ImageWidth) (hH : 0 < Input.ImageHeight)
    (hlen : (Input.ImageData.length : ℤ) = Input.ImageWidth * Input.ImageHeight * 3)
    (h32 : Input.ImageWidth * Input.ImageHeight * 3 < 2147483648)
    (hp : Input.PromptPoints.length ≠ 0)
    (hacc : ∀ v, P.CreateTensorAccepts v = true)
    (henc : ∀ inputs, ∃ feats0 feats1 embed,
      P.EncoderRun inputs ["high_res_feats_0", "high_res_feats_1", "image_embed"]
        = some [OrtOutput.tensor feats0, OrtOutput.tensor feats1, OrtOutput.tensor embed])
    (hdec : ∀ inputs, ∃ masks iou,
      P.DecoderRun inputs ["masks", "iou_predictions"] = some [OrtOutput.tensor masks, OrtOutput.tensor iou]) :
    ∃ pre self1 inputs masks iou,
      PreprocessImage Input.ImageData Input.ImageWidth Input.ImageHeight = Res.ok pre ∧
      P.DecoderRun inputs ["masks", "iou_predictions"] = some [OrtOutput.tensor masks, OrtOutput.tensor iou] ∧
      inputs.get? 3 = some ("point_coords", OrtValue.floats
        (TransformPromptPoints Input.PromptPoints Input.ImageWidth Input.ImageHeight
          pre.OutScale pre.OutXOffset pre.OutYOffset)
        [1, (Input.PromptPoints.length : ℤ), 2]) ∧
      inputs.get? 4 = some ("point_labels",
        OrtValue.floats (Input.PromptLabels.map binary32.ofInt)
          [1, (Input.PromptLabels.length : ℤ)]) ∧
      self1.SessionRuns.getLast? = some ⟨true, inputs, ["masks", "iou_predictions"]⟩ ∧
      RunInference P self Input Output = some (true, self1,
        ⟨ApplySigmoid P.Exp masks, iou, 1, 1024, 1024, Input.ImageWidth, Input.ImageHeight,
          pre.OutScale, pre.OutXOffset, pre.OutYOffset⟩) := by
  obtain ⟨pre, f0, f1, e, hpre, he, hr⟩ :=
    RunInference_to_decode P self Input Output hi hW hH hlen h32 hp hacc henc
  have hin := decoderInputs_ok P
    ⟨self.bIsInitialized, e, f0, f1, true,
      self.SessionRuns ++ [⟨false,
        [("image", OrtValue.floats pre.ProcessedImageData [1, 3, 1024, 1024])],
        ["high_res_feats_0", "high_res_feats_1", "image_embed"]⟩]⟩
    Input
    ⟨Output.MaskData, Output.IouScores, Output.NumMasks, Output.MaskWidth,
      Output.MaskHeight, Input.ImageWidth, Input.ImageHeight, pre.OutScale,
      pre.OutXOffset, pre.OutYOffset⟩ hacc
  obtain ⟨masks, iou, hd⟩ := hdec
    [("image_embed", OrtValue.floats e [1, 256, 64, 64]),
     ("high_res_feats_0", OrtValue.floats f0 [1, 32, 256, 256]),
     ("high_res_feats_1", OrtValue.floats f1 [1, 64, 128, 128]),
     ("point_coords", OrtValue.floats
        (TransformPromptPoints Input.PromptPoints Input.ImageWidth Input.ImageHeight
          pre.OutScale pre.OutXOffset pre.OutYOffset)
        [1, (Input.PromptPoints.length : ℤ), 2]),
     ("point_labels", OrtValue.floats (Input.PromptLabels.map binary32.ofInt)
        [1, (Input.PromptLabels.length : ℤ)]),
     ("mask_input", OrtValue.floats (List.replicate (1 * 1 * 256 * 256) (Flt.fin 0))
        [1, 1, 256, 256]),
     ("has_mask_input", OrtValue.floats [Flt.fin 0] [1]),
     ("orig_im_size", OrtValue.ints [1024, 1024] [2])]
  have hrd := RunDecoder_ok P _ Input _ _ masks iou rfl hin hd
  rw [hrd] at hr
  exact ⟨pre, _, _, masks, iou, hpre, hd, rfl, rfl, List.getLast?_concat _, hr⟩

/-- C12 (failing input). One prompt point with two labels, a 1x1 image, an
initialised instance and an engine that takes the tensors and gives three and two
tensors: the number of points differs from the number of labels and `RunInference` returns `true`;
no check compares the two counts. -/
theorem RunInference_label_mismatch :
    ([⟨Flt.fin 0, Flt.fin 0⟩] : List FVector2D).length ≠ ([1, 0] : List ℤ).length ∧
    ∃ self1 Output1,
      RunInference ⟨fun v => v, fun _ => true,
          fun _ _ => some [OrtOutput.tensor [], OrtOutput.tensor [], OrtOutput.tensor []],
          fun _ _ => some [OrtOutput.tensor [Flt.fin 0], OrtOutput.tensor [Flt.fin 1]]⟩
        ⟨true, [], [], [], false, []⟩
        ⟨[Flt.fin 0, Flt.fin 0, Flt.fin 0], 1, 1, [⟨Flt.fin 0, Flt.fin 0⟩], [1, 0]⟩
        ⟨[], [], 0, 1024, 1024, 0, 0, Flt.fin 1, 0, 0⟩ = some (true, self1, Output1) := by
  obtain ⟨pre, self1, inputs, masks, iou, _, _, _, _, _, h⟩ := RunInference_ok
    ⟨fun v => v, fun _ => true,
      fun _ _ => some [OrtOutput.tensor [], OrtOutput.tensor [], OrtOutput.tensor []],
      fun _ _ => some [OrtOutput.tensor [Flt.fin 0], OrtOutput.tensor [Flt.fin 1]]⟩
    ⟨true, [], [], [], false, []⟩
    ⟨[Flt.fin 0, Flt.fin 0, Flt.fin 0], 1, 1, [⟨Flt.fin 0, Flt.fin 0⟩], [1, 0]⟩
    ⟨[], [], 0, 1024, 1024, 0, 0, Flt.fin 1, 0, 0⟩
    rfl (by decide) (by decide) (by decide) (by decide) (by decide) (fun _ => rfl)
    (fun _ => ⟨_, _, _, rfl⟩) (fun _ => ⟨_, _, rfl⟩)
  exact ⟨by decide, self1, _, h⟩

/-- C16. Snapshot in the output: whenever `RunInference` returns `true` on a `W`x`H`
image, `PreprocessImage` succeeded on it and the output has `OriginalWidth = W`,
`OriginalHeight = H`, the `Scale`, `XOffset` and `YOffset` that `PreprocessImage`
returned, `NumMasks = 1`, `MaskWidth = MaskHeight = 1024`, `IouScores` equal to the
second output of the decoder run on the cached features and the transformed prompts
(`iou_predictions`) and `MaskData` the sigmoid of the first; and it does return `true`
on every well-formed image of positive size with at least one point when the instance
is initialised and the engine takes the tensors and gives three and two outputs. -/
theorem RunInference_success_snapshot (P : Platform) (self : FSam2ModelInstance)
    (Input : FSam2Input) (Output : FSam2Output) :
    (∀ self1 Output1, RunInference P self Input Output = some (true, self1, Output1) →
      ∃ pre inputs masks iou,
        PreprocessImage Input.ImageData Input.ImageWidth Input.ImageHeight = Res.ok pre ∧
        decoderInputs P (RunEncoder P self pre.ProcessedImageData).2 Input
          ⟨Output.MaskData, Output.IouScores, Output.NumMasks, Output.MaskWidth,
            Output.MaskHeight, Input.ImageWidth, Input.ImageHeight, pre.OutScale,
            pre.OutXOffset, pre.OutYOffset⟩ = some inputs ∧
        P.DecoderRun inputs ["masks", "iou_predictions"] = some [OrtOutput.tensor masks, OrtOutput.tensor iou] ∧
        Output1.OriginalWidth = Input.ImageWidth ∧
        Output1.OriginalHeight = Input.ImageHeight ∧
        Output1.Scale = pre.OutScale ∧ Output1.XOffset = pre.OutXOffset ∧
        Output1.YOffset = pre.OutYOffset ∧
        Output1.NumMasks = 1 ∧ Output1.MaskWidth = 1024 ∧ Output1.MaskHeight = 1024 ∧
        Output1.IouScores = iou ∧ Output1.MaskData = ApplySigmoid P.Exp masks) ∧
    (self.bIsInitialized = true → 0 < Input.ImageWidth → 0 < Input.ImageHeight →
      (Input.ImageData.length : ℤ) = Input.ImageWidth * Input.ImageHeight * 3 →
      Input.ImageWidth * Input.ImageHeight * 3 < 2147483648 →
      Input.PromptPoints.length ≠ 0 →
      (∀ v, P.CreateTensorAccepts v = true) →
      (∀ inputs, ∃ feats0 feats1 embed,
        P.EncoderRun inputs ["high_res_feats_0", "high_res_feats_1", "image_embed"]
          = some [OrtOutput.tensor feats0, OrtOutput.tensor feats1, OrtOutput.tensor embed]) →
      (∀ inputs, ∃ masks iou,
        P.DecoderRun inputs ["masks", "iou_predictions"] = some [OrtOutput.tensor masks, OrtOutput.tensor iou]) →
      ∃ self1 Output1, RunInference P self Input Output = some (true, self1, Output1)) := by
  constructor
  · intro self1 Output1 h
    rcases RunInference_cases P self Input Output _ h with e | ⟨pre, hpre, _, _, _, hc⟩
    · cases e
    · rcases hc with ⟨_, e⟩ | ⟨hb, e⟩
      · cases e
      · have h1 : (RunDecoder P (RunEncoder P self pre.ProcessedImageData).2 Input
            ⟨Output.MaskData, Output.IouScores, Output.NumMasks, Output.MaskWidth,
              Output.MaskHeight, Input.ImageWidth, Input.ImageHeight, pre.OutScale,
              pre.OutXOffset, pre.OutYOffset⟩).1 = true := by
          rw [← e]
        obtain ⟨_, inputs, masks, iou, hin, hrun, ho⟩ := RunDecoder_true_inv P _ Input _ h1
        rw [← e] at ho
        have ho1 : Output1 = _ := ho
        refine ⟨pre, inputs, masks, iou, hpre, hin, hrun, ?_⟩
        rw [ho1]
        exact ⟨rfl, rfl, rfl, rfl, rfl, rfl, rfl, rfl, rfl, rfl⟩
  · intro hi hW hH hlen h32 hp hacc henc hdec
    obtain ⟨pre, self1, inputs, masks, iou, _, _, _, _, _, h⟩ :=
      RunInference_ok P self Input Output hi hW hH hlen h32 hp hacc henc hdec
    exact ⟨self1, _, h⟩

theorem RunInference_success_snapshot_witness :
    ∃ self1 Output1 pre,
      RunInference ⟨fun v => v, fun _ => true, fun _ _ => some [OrtOutput.tensor [], OrtOutput.tensor [], OrtOutput.tensor []],
          fun _ _ => some [OrtOutput.tensor [Flt.fin 0], OrtOutput.tensor [Flt.fin 1]]⟩
        ⟨true, [], [], [], false, []⟩
        ⟨[Flt.fin 0, Flt.fin 0, Flt.fin 0], 1, 1, [⟨Flt.fin 0, Flt.fin 0⟩], [1]⟩
        ⟨[], [], 0, 1024, 1024, 0, 0, Flt.fin 1, 0, 0⟩ = some (true, self1, Output1) ∧
      PreprocessImage [Flt.fin 0, Flt.fin 0, Flt.fin 0] 1 1 = Res.ok pre ∧
      Output1.OriginalWidth = 1 ∧ Output1.OriginalHeight = 1 ∧
      Output1.Scale = pre.OutScale ∧ Output1.XOffset = pre.OutXOffset ∧
      Output1.YOffset = pre.OutYOffset ∧
      Output1.NumMasks = 1 ∧ Output1.MaskWidth = 1024 ∧ Output1.MaskHeight = 1024 ∧
      Output1.IouScores = [Flt.fin 1] := by
  obtain ⟨self1, Output1, h⟩ := (RunInference_success_snapshot
    ⟨fun v => v, fun _ => true, fun _ _ => some [OrtOutput.tensor [], OrtOutput.tensor [], OrtOutput.tensor []],
      fun _ _ => some [OrtOutput.tensor [Flt.fin 0], OrtOutput.tensor [Flt.fin 1]]⟩
    ⟨true, [], [], [], false, []⟩
    ⟨[Flt.fin 0, Flt.fin 0, Flt.fin 0], 1, 1, [⟨Flt.fin 0, Flt.fin 0⟩], [1]⟩
    ⟨[], [], 0, 1024, 1024, 0, 0, Flt.fin 1, 0, 0⟩).2
    rfl (by decide) (by decide) (by decide) (by decide) (by decide) (fun _ => rfl)
    (fun _ => ⟨_, _, _, rfl⟩) (fun _ => ⟨_, _, rfl⟩)
  obtain ⟨pre, inputs, masks, iou, hpre, _, hrun, h1, h2, h3, h4, h5, h6, h7, h8, h9, _⟩ :=
    (RunInference_success_snapshot _ _ _ _).1 self1 Output1 h
  have hi : iou = [Flt.fin 1] := by
    have := Option.some.inj hrun
    exact (OrtOutput.tensor.inj (List.cons.inj (List.cons.inj this).2).1).symm
  exact ⟨self1, Output1, pre, h, hpre, h1, h2, h3, h4, h5, h6, h7, h8, h9.trans hi⟩

/-! ## Rounding against the grid of a binade -/

/-- Rounding does not go below a multiple of the unit in the last place that the exact
value reaches. -/
theorem round32_value_ge (q : ℚ) (m : ℤ) (h : (m : ℚ) * binary32.ulp q ≤ q) :
    (m : ℚ) * binary32.ulp q ≤ (roundHalfEven (q / binary32.ulp q) : ℚ) * binary32.ulp q := by
  have hu := Fmt.ulp_pos binary32 q
  have h1 : (m : ℚ) ≤ q / binary32.ulp q := (le_div_iff₀ hu).mpr h
  have h2 : (m : ℚ) ≤ (roundHalfEven (q / binary32.ulp q) : ℚ) := by
    exact_mod_cast roundHalfEven_ge_int _ m h1
  exact mul_le_mul_of_nonneg_right h2 (le_of_lt hu)

/-- Rounding does not go above a multiple of the unit in the last place that the exact
value exceeds by less than half a unit. -/
theorem round32_value_le (q : ℚ) (m : ℤ) (h : q < ((m : ℚ) + 1 / 2) * binary32.ulp q) :
    (roundHalfEven (q / binary32.ulp q) : ℚ) * binary32.ulp q ≤ (m : ℚ) * binary32.ulp q := by
  have hu := Fmt.ulp_pos binary32 q
  have h1 : q / binary32.ulp q < (m : ℚ) + 1 / 2 := (div_lt_iff₀ hu).mpr h
  have h2 : (roundHalfEven (q / binary32.ulp q) : ℚ) ≤ (m : ℚ) := by
    exact_mod_cast roundHalfEven_le_int _ m h1
  exact mul_le_mul_of_nonneg_right h2 (le_of_lt hu)

/-- The exponent that fixes the unit in the last place of a positive value. -/
theorem ulp32_facts (q : ℚ) (hq : 0 < q) :
    ∃ E : ℤ, -126 ≤ E ∧ binary32.ulp q = (2 : ℚ) ^ (E - 23) ∧ q < (2 : ℚ) ^ (E + 1) ∧
      ((2 : ℚ) ^ E ≤ q ∨ E = -126) ∧
      (∀ k : ℤ, (2 : ℚ) ^ k ≤ q → k ≤ E) ∧
      (∀ k : ℤ, q < (2 : ℚ) ^ k → -126 < k → E < k) := by
  have hlo : (2 : ℚ) ^ Int.log 2 q ≤ q := by
    exact_mod_cast Int.zpow_log_le_self (by norm_num : 1 < 2) hq
  have hhi : q < (2 : ℚ) ^ (Int.log 2 q + 1) := by
    exact_mod_cast Int.lt_zpow_succ_log_self (by norm_num : 1 < 2) q
  refine ⟨max (Int.log 2 q) (-126), le_max_right _ _, ?_, ?_, ?_, ?_, ?_⟩
  · unfold Fmt.ulp
    rw [abs_of_pos hq]
    rfl
  · exact lt_of_lt_of_le hhi
      (zpow_le_zpow_right₀ (by norm_num) (by have := le_max_left (Int.log 2 q) (-126); omega))
  · rcases le_total (-126) (Int.log 2 q) with h | h
    · rw [max_eq_left h]
      exact Or.inl hlo
    · rw [max_eq_right h]
      exact Or.inr rfl
  · intro k hk
    have : k ≤ Int.log 2 q :=
      (Int.zpow_le_iff_le_log (by norm_num) hq).mp (by exact_mod_cast hk)
    exact le_trans this (le_max_left _ _)
  · intro k hk hk2
    have : Int.log 2 q < k :=
      (Int.lt_zpow_iff_log_lt (by norm_num) hq).mp (by exact_mod_cast hk)
    exact max_lt this hk2

/-- Powers of two around the unit in the last place. -/
theorem two_zpow_split (E : ℤ) (n : ℕ) :
    ((2 ^ n : ℤ) : ℚ) * (2 : ℚ) ^ (E - n) = (2 : ℚ) ^ E := by
  rw [zpow_sub₀ (by norm_num : (2 : ℚ) ≠ 0)]
  push_cast
  rw [zpow_natCast]
  field_simp

/-- A value of at least 1 rounds to at least 1 (or overflows); above `1 + 2^-23` it rounds
to at least that. -/
theorem round32_ge_one (q : ℚ) (h : 1 ≤ q) :
    binary32.round q = Flt.pinf ∨
    ∃ a : ℚ, binary32.round q = Flt.fin a ∧ 1 ≤ a ∧ a < (2 : ℚ) ^ (128 : ℤ) ∧
      (1 + 1 / 8388608 ≤ q → 1 + 1 / 8388608 ≤ a) := by
  have hq : 0 < q := by linarith
  obtain ⟨E, hE, hu, hlt, hge, hk, _⟩ := ulp32_facts q hq
  have hE0 : 0 ≤ E := hk 0 (by simpa using h)
  have hEq : (2 : ℚ) ^ E ≤ q := by
    rcases hge with h1 | h1
    · exact h1
    · omega
  have hsplit := two_zpow_split E 23
  have hv : (2 : ℚ) ^ E ≤ (roundHalfEven (q / binary32.ulp q) : ℚ) * binary32.ulp q := by
    have := round32_value_ge q (2 ^ 23) (by rw [hu]; exact_mod_cast hsplit.le.trans hEq)
    rw [hu] at this ⊢
    calc (2 : ℚ) ^ E = ((2 ^ 23 : ℤ) : ℚ) * (2 : ℚ) ^ (E - 23) := by exact_mod_cast hsplit.symm
      _ ≤ _ := this
  have hone : (1 : ℚ) ≤ (2 : ℚ) ^ E := one_le_zpow₀ (by norm_num) hE0
  unfold Fmt.round
  rw [if_neg (ne_of_gt hq)]
  split_ifs with hov
  · exact Or.inl rfl
  · refine Or.inr ⟨_, rfl, le_trans hone hv, ?_, ?_⟩
    · have := not_le.mp hov
      have hb : (2 : ℚ) ^ (binary32.emax + 1) = (2 : ℚ) ^ (128 : ℤ) := rfl
      rw [hb] at this
      exact lt_of_le_of_lt (le_abs_self _) this
    · intro hq2
      rcases le_or_lt 2 q with h2 | h2
      · have hE1 : 1 ≤ E := hk 1 (by simpa using h2)
        have : (2 : ℚ) ^ (1 : ℤ) ≤ (2 : ℚ) ^ E := zpow_le_zpow_right₀ (by norm_num) hE1
        have h3 : (2 : ℚ) ≤ (2 : ℚ) ^ E := by simpa using this
        linarith
      · have hE1 : E < 1 := by
          by_contra hc
          have : (2 : ℚ) ^ (1 : ℤ) ≤ (2 : ℚ) ^ E := zpow_le_zpow_right₀ (by norm_num) (by omega)
          have h3 : (2 : ℚ) ≤ (2 : ℚ) ^ E := by simpa using this
          linarith
        have hE2 : E = 0 := by omega
        subst hE2
        have hu2 : binary32.ulp q = 1 / 8388608 := by
          rw [hu]
          norm_num
        have := round32_value_ge q 8388609 (by rw [hu2]; push_cast; linarith)
        rw [hu2] at this ⊢
        push_cast at this
        linarith

/-- A value between `2^-149` and 1 rounds into `(0, 1]`; up to `1 - 2^-24` it rounds to
at most that. -/
theorem round32_le_one (q : ℚ) (h0 : (2 : ℚ) ^ (-149 : ℤ) ≤ q) (h1 : q ≤ 1) :
    ∃ r : ℚ, binary32.round q = Flt.fin r ∧ 0 < r ∧ r ≤ 1 ∧
      (q ≤ 1 - 1 / 16777216 → r ≤ 1 - 1 / 16777216) := by
  have hq : 0 < q := lt_of_lt_of_le (by positivity) h0
  obtain ⟨E, hE, hu, hlt, hge, hk, hk2⟩ := ulp32_facts q hq
  have hupos := Fmt.ulp_pos binary32 q
  have huq : binary32.ulp q ≤ q := by
    rw [hu]
    rcases hge with h | h
    · exact le_trans (zpow_le_zpow_right₀ (by norm_num) (by omega)) h
    · rw [h]
      exact h0
  have hpos : 0 < (roundHalfEven (q / binary32.ulp q) : ℚ) * binary32.ulp q := by
    have := round32_value_ge q 1 (by simpa using huq)
    have h2 : (0 : ℚ) < ((1 : ℤ) : ℚ) * binary32.ulp q := by simpa using hupos
    linarith
  have hsplit := two_zpow_split (E + 1) 24
  have hsplit2 : ((2 ^ 24 : ℤ) : ℚ) * binary32.ulp q = (2 : ℚ) ^ (E + 1) := by
    rw [hu]
    have : E + 1 - ((24 : ℕ) : ℤ) = E - 23 := by push_cast; ring
    rw [← this]
    exact hsplit
  have hup : (roundHalfEven (q / binary32.ulp q) : ℚ) * binary32.ulp q ≤ (2 : ℚ) ^ (E + 1) := by
    have := round32_value_le q (2 ^ 24) (by
      have h3 : ((2 ^ 24 : ℤ) : ℚ) * binary32.ulp q < (((2 ^ 24 : ℤ) : ℚ) + 1 / 2) * binary32.ulp q := by
        nlinarith
      rw [hsplit2] at h3
      linarith)
    rw [hsplit2] at this
    exact this
  have hle1 : (roundHalfEven (q / binary32.ulp q) : ℚ) * binary32.ulp q ≤ 1 ∧
      (q ≤ 1 - 1 / 16777216 →
        (roundHalfEven (q / binary32.ulp q) : ℚ) * binary32.ulp q ≤ 1 - 1 / 16777216) := by
    rcases lt_or_le q (1 / 2) with hh | hh
    · have hE2 : E < -1 := hk2 (-1) (by norm_num; linarith) (by norm_num)
      have : (2 : ℚ) ^ (E + 1) ≤ (2 : ℚ) ^ (-1 : ℤ) := zpow_le_zpow_right₀ (by norm_num) (by omega)
      have h3 : (2 : ℚ) ^ (E + 1) ≤ 1 / 2 := by
        refine le_trans this ?_
        norm_num
      constructor
      · linarith
      · intro _
        linarith
    · rcases lt_or_eq_of_le h1 with hlt1 | heq1
      · have hE2 : E < 0 := hk2 0 (by simpa using hlt1) (by norm_num)
        have hE3 : -1 ≤ E := hk (-1) (by norm_num; linarith)
        have hE4 : E = -1 := by omega
        subst hE4
        have hu2 : binary32.ulp q = 1 / 16777216 := by
          rw [hu]
          norm_num
        constructor
        · have : (2 : ℚ) ^ ((-1 : ℤ) + 1) = 1 := by norm_num
          rw [this] at hup
          exact hup
        · intro hq2
          have := round32_value_le q 16777215 (by rw [hu2]; push_cast; linarith)
          rw [hu2] at this ⊢
          push_cast at this
          linarith
      · have hE2 : 0 ≤ E := hk 0 (by rw [heq1]; norm_num)
        have hE3 : E < 1 := hk2 1 (by rw [heq1]; norm_num) (by norm_num)
        have hE4 : E = 0 := by omega
        subst hE4
        have hu2 : binary32.ulp q = 1 / 8388608 := by
          rw [hu]
          norm_num
        have := round32_value_le q 8388608 (by rw [hu2, heq1]; norm_num)
        rw [hu2] at this ⊢
        push_cast at this
        constructor
        · linarith
        · intro hq2
          rw [heq1] at hq2
          norm_num at hq2
  refine ⟨_, Fmt.round_fin binary32 q ?_, hpos, hle1.1, hle1.2⟩
  rw [abs_of_pos hpos]
  refine lt_of_le_of_lt hle1.1 ?_
  have : (2 : ℚ) ^ (binary32.emax + 1) = (2 : ℚ) ^ (128 : ℤ) := rfl
  rw [this]
  norm_num

/-- Adding 1 to a non-negative `float` does not overflow. -/
theorem round32_one_add (e : ℚ) (he0 : 0 ≤ e)
    (he : e ≤ 340282346638528859811704183484516925440) :
    ∃ a : ℚ, binary32.round (1 + e) = Flt.fin a ∧ 1 ≤ a ∧ a < (2 : ℚ) ^ (128 : ℤ) ∧
      (1 / 8388608 ≤ e → 1 + 1 / 8388608 ≤ a) := by
  have hq : 0 < 1 + e := by linarith
  obtain ⟨E, hE, hu, hlt, hge, hk, hk2⟩ := ulp32_facts (1 + e) hq
  have hupos := Fmt.ulp_pos binary32 (1 + e)
  have hfin : (roundHalfEven ((1 + e) / binary32.ulp (1 + e)) : ℚ) * binary32.ulp (1 + e)
      < (2 : ℚ) ^ (128 : ℤ) := by
    rcases lt_or_le (1 + e) ((2 : ℚ) ^ (127 : ℤ)) with hh | hh
    · have hE2 : E < 127 := hk2 127 hh (by norm_num)
      have hsplit := two_zpow_split (E + 1) 24
      have hsplit2 : ((2 ^ 24 : ℤ) : ℚ) * binary32.ulp (1 + e) = (2 : ℚ) ^ (E + 1) := by
        rw [hu]
        have : E + 1 - ((24 : ℕ) : ℤ) = E - 23 := by push_cast; ring
        rw [← this]
        exact hsplit
      have := round32_value_le (1 + e) (2 ^ 24) (by
        have h3 : ((2 ^ 24 : ℤ) : ℚ) * binary32.ulp (1 + e)
            < (((2 ^ 24 : ℤ) : ℚ) + 1 / 2) * binary32.ulp (1 + e) := by
          nlinarith
        rw [hsplit2] at h3
        linarith)
      rw [hsplit2] at this
      refine lt_of_le_of_lt this ?_
      exact zpow_lt_zpow_right₀ (by norm_num) (by omega)
    · have hE2 : 127 ≤ E := hk 127 hh
      have hE3 : E < 128 := hk2 128 (by norm_num; linarith) (by norm_num)
      have hE4 : E = 127 := by omega
      subst hE4
      have hu2 : binary32.ulp (1 + e) = 20282409603651670423947251286016 := by
        rw [hu]
        norm_num
      have := round32_value_le (1 + e) 16777215 (by rw [hu2]; push_cast; linarith)
      rw [hu2] at this ⊢
      push_cast at this
      refine lt_of_le_of_lt this ?_
      norm_num
  rcases round32_ge_one (1 + e) (by linarith) with h | ⟨a, ha, h1, h2, h3⟩
  · exfalso
    unfold Fmt.round at h
    rw [if_neg (ne_of_gt hq)] at h
    split_ifs at h with hov
    have hb : (2 : ℚ) ^ (binary32.emax + 1) = (2 : ℚ) ^ (128 : ℤ) := rfl
    rw [hb] at hov
    have hnn : (0 : ℚ) ≤ (roundHalfEven ((1 + e) / binary32.ulp (1 + e)) : ℚ)
        * binary32.ulp (1 + e) :=
      mul_nonneg (by exact_mod_cast roundHalfEven_nonneg _ (le_of_lt (div_pos hq hupos)))
        (le_of_lt hupos)
    rw [abs_of_nonneg hnn] at hov
    linarith
  · exact ⟨a, ha, h1, h2, fun h => h3 (by linarith)⟩

/-- The sigmoid of the program on a logit whose exponential of the negation is the
non-negative `float` `e`: a value in `(0, 1]`, equal to 1 once `e ≤ 2^-25`, below 1
once `e ≥ 2^-23`. -/
theorem sigmoid_fin (e : ℚ) (he0 : 0 ≤ e)
    (he : e ≤ 340282346638528859811704183484516925440) :
    ∃ r : ℚ, binary32.div (Flt.fin 1) (binary32.add (Flt.fin 1) (Flt.fin e)) = Flt.fin r ∧
      0 < r ∧ r ≤ 1 ∧ (e ≤ 1 / 33554432 → r = 1) ∧ (1 / 8388608 ≤ e → r < 1) := by
  obtain ⟨a, ha, a1, a2, a3⟩ := round32_one_add e he0 he
  have hadd : binary32.add (Flt.fin 1) (Flt.fin e) = Flt.fin a := ha
  have ha0 : 0 < a := by linarith
  have hinv1 : 1 / a ≤ 1 := by
    rw [div_le_one ha0]
    exact a1
  have hinv0 : (2 : ℚ) ^ (-149 : ℤ) ≤ 1 / a := by
    rw [le_div_iff₀ ha0]
    have h1 : (2 : ℚ) ^ (-149 : ℤ) * a ≤ (2 : ℚ) ^ (-149 : ℤ) * (2 : ℚ) ^ (128 : ℤ) :=
      mul_le_mul_of_nonneg_left (le_of_lt a2) (by positivity)
    refine le_trans h1 ?_
    rw [← zpow_add₀ (by norm_num : (2 : ℚ) ≠ 0)]
    norm_num
  obtain ⟨r, hr, r0, r1, r2⟩ := round32_le_one (1 / a) hinv0 hinv1
  rw [hadd, Fmt.div_fin binary32 1 a (ne_of_gt ha0)]
  refine ⟨r, hr, r0, r1, ?_, ?_⟩
  · intro hsmall
    have hone : binary32.round (1 + e) = Flt.fin 1 := by
      have := round32_of_scaled (1 + e) 0 8388608 (by rw [abs_of_pos (by linarith)]; norm_num; linarith)
        (by rw [abs_of_pos (by linarith)]; norm_num; linarith) (by norm_num)
        (by
          rw [abs_lt]
          constructor <;> norm_num <;> linarith)
        (by norm_num)
      rw [this]
      norm_num
    rw [hone] at ha
    cases ha
    rw [div_one] at hr
    have h1 := round32_int 1 (by decide)
    norm_num at h1
    rw [h1] at hr
    cases hr
    rfl
  · intro hbig
    have ha3 := a3 hbig
    have : 1 / a ≤ 1 - 1 / 16777216 := by
      rw [div_le_iff₀ ha0]
      nlinarith
    have := r2 this
    linarith

/-- Bounds of the real `e^20`. -/
theorem exp_twenty_bounds : (268435456 : ℝ) ≤ Real.exp 20 ∧ Real.exp 20 ≤ 805306368 := by
  have h : Real.exp 20 = Real.exp 1 ^ 20 := by
    have := Real.exp_nat_mul 1 20
    simp only [Nat.cast_ofNat, mul_one] at this
    exact this
  have h1 : (2.7 : ℝ) ≤ Real.exp 1 := le_trans (by norm_num) Real.exp_one_gt_d9.le
  have h2 : Real.exp 1 ≤ (2.72 : ℝ) := le_trans Real.exp_one_lt_d9.le (by norm_num)
  rw [h]
  constructor
  · calc (268435456 : ℝ) ≤ (2.7 : ℝ) ^ 20 := by norm_num
      _ ≤ Real.exp 1 ^ 20 := pow_le_pow_left₀ (by norm_num) h1 20
  · calc Real.exp 1 ^ 20 ≤ (2.72 : ℝ) ^ 20 := pow_le_pow_left₀ (Real.exp_pos 1).le h2 20
      _ ≤ 805306368 := by norm_num

/-- A `float` within half of the real `e^-20` of it lies in `(0, 2^-25]`. -/
theorem near_exp_neg_twenty (e : ℚ)
    (h : |(e : ℝ) - Real.exp (-20)| ≤ Real.exp (-20) / 2) : 0 < e ∧ e ≤ 1 / 33554432 := by
  obtain ⟨b1, b2⟩ := exp_twenty_bounds
  have hpos : (0 : ℝ) < Real.exp 20 := Real.exp_pos 20
  have hinv : Real.exp (-20) = (Real.exp 20)⁻¹ := Real.exp_neg 20
  have hlo : (1 : ℝ) / 805306368 ≤ Real.exp (-20) := by
    rw [hinv, ← one_div]
    exact one_div_le_one_div_of_le hpos b2
  have hhi : Real.exp (-20) ≤ (1 : ℝ) / 268435456 := by
    rw [hinv, ← one_div]
    exact one_div_le_one_div_of_le (by norm_num) b1
  obtain ⟨h1, h2⟩ := abs_le.mp h
  have e0 : (0 : ℝ) < (e : ℝ) := by linarith
  have e1 : (e : ℝ) ≤ 1 / 33554432 := by linarith
  constructor
  · exact_mod_cast e0
  · have : (e : ℝ) ≤ ((1 / 33554432 : ℚ) : ℝ) := by
      push_cast
      exact e1
    exact_mod_cast this

/-- The program's sigmoid of one logit. -/
theorem ApplySigmoid_single (Exp : Flt → Flt) (x : ℚ) :
    ApplySigmoid Exp [Flt.fin x] =
      [binary32.div (Flt.fin 1) (binary32.add (Flt.fin 1) (Exp (Flt.fin (-x))))] := rfl

/-- The logit 20, with an exponential that returns `2^-29` (within half of the real
`e^-20` of it): the sigmoid of the program is exactly 1, so the statement "for every
exponential that near the real one and every finite logit the result lies strictly
between 0 and 1" fails. -/
theorem ApplySigmoid_saturates :
    ¬ ∀ (Exp : Flt → Flt) (x : ℚ),
      (∃ e : ℚ, Exp (Flt.fin (-x)) = Flt.fin e ∧
        |(e : ℝ) - Real.exp (-(x : ℝ))| ≤ Real.exp (-(x : ℝ)) / 2) →
      ∃ r : ℚ, ApplySigmoid Exp [Flt.fin x] = [Flt.fin r] ∧ 0 < r ∧ r < 1 := by
  intro h
  obtain ⟨b1, b2⟩ := exp_twenty_bounds
  have hpos : (0 : ℝ) < Real.exp 20 := Real.exp_pos 20
  have hinv : Real.exp (-20) = (Real.exp 20)⁻¹ := Real.exp_neg 20
  have hlo : (1 : ℝ) / 805306368 ≤ Real.exp (-20) := by
    rw [hinv, ← one_div]
    exact one_div_le_one_div_of_le hpos b2
  have hhi : Real.exp (-20) ≤ (1 : ℝ) / 268435456 := by
    rw [hinv, ← one_div]
    exact one_div_le_one_div_of_le (by norm_num) b1
  obtain ⟨r, hr, _, hlt⟩ := h (fun _ => Flt.fin (1 / 536870912)) 20
    ⟨1 / 536870912, rfl, by
      push_cast
      rw [abs_le]
      constructor <;> linarith⟩
  obtain ⟨r1, hr1, _, _, hone, _⟩ := sigmoid_fin (1 / 536870912) (by norm_num) (by norm_num)
  rw [ApplySigmoid_single, hr1, hone (by norm_num)] at hr
  have : r = 1 := by
    have h1 := (List.cons.inj hr).1
    exact (Flt.fin.inj h1).symm
  rw [this] at hlt
  exact absurd hlt (lt_irrefl 1)

/-- C18. `ApplySigmoid` replaces every logit `x` by the `float` quotient
`1 / (1 + Exp(-x))` elementwise and keeps the length.  For every finite logit for which
`Exp(-x)` is a non-negative `float` the result is greater than 0 and at most 1: it is
less than 1 when `Exp(-x) ≥ 2^-23` and exactly 1 when `Exp(-x) ≤ 2^-25` (so for the
logit 20 and every exponential within half of the real `e^-20` of it); when `Exp(-x)`
overflows to `+inf` the result is 0. -/
theorem ApplySigmoid_range (Exp : Flt → Flt) (Data : List Flt) :
    (ApplySigmoid Exp Data).length = Data.length ∧
    (∀ (i : ℕ) (Value : Flt), Data[i]? = some Value →
      (ApplySigmoid Exp Data)[i]? =
        some (binary32.div (Flt.fin 1) (binary32.add (Flt.fin 1) (Exp Value.neg)))) ∧
    (∀ x e : ℚ, Exp (Flt.fin (-x)) = Flt.fin e → 0 ≤ e →
      e ≤ 340282346638528859811704183484516925440 →
      ∃ r : ℚ, ApplySigmoid Exp [Flt.fin x] = [Flt.fin r] ∧ 0 < r ∧ r ≤ 1 ∧
        (e ≤ 1 / 33554432 → r = 1) ∧ (1 / 8388608 ≤ e → r < 1)) ∧
    (∀ e : ℚ, Exp (Flt.fin (-20)) = Flt.fin e →
      |(e : ℝ) - Real.exp (-20)| ≤ Real.exp (-20) / 2 →
      ApplySigmoid Exp [Flt.fin 20] = [Flt.fin 1]) ∧
    (∀ x : ℚ, Exp (Flt.fin (-x)) = Flt.pinf →
      ApplySigmoid Exp [Flt.fin x] = [Flt.fin 0]) := by
  refine ⟨?_, ?_, ?_, ?_, ?_⟩
  · unfold ApplySigmoid
    rw [List.length_map]
  · intro i Value h
    unfold ApplySigmoid
    rw [List.getElem?_map, h]
    rfl
  · intro x e hx he0 he
    obtain ⟨r, hr, r0, r1, r2, r3⟩ := sigmoid_fin e he0 he
    exact ⟨r, by rw [ApplySigmoid_single, hx, hr], r0, r1, r2, r3⟩
  · intro e hx hnear
    obtain ⟨e0, e1⟩ := near_exp_neg_twenty e hnear
    obtain ⟨r, hr, _, _, r2, _⟩ := sigmoid_fin e (le_of_lt e0)
      (le_trans e1 (by norm_num))
    rw [ApplySigmoid_single, hx, hr, r2 e1]
  · intro x hx
    rw [ApplySigmoid_single, hx]
    rfl

theorem ApplySigmoid_range_witness :
    ∃ r : ℚ, ApplySigmoid (fun _ => Flt.fin (1 / 4)) [Flt.fin 3] = [Flt.fin r] ∧
      0 < r ∧ r ≤ 1 ∧ ((1 : ℚ) / 4 ≤ 1 / 33554432 → r = 1) ∧
      ((1 : ℚ) / 8388608 ≤ 1 / 4 → r < 1) :=
  (ApplySigmoid_range (fun _ => Flt.fin (1 / 4)) [Flt.fin 3]).2.2.1 3 (1 / 4) rfl
    (by norm_num) (by norm_num)

theorem forLoop_one {σ : Type} (body : ℤ → σ → Option σ) (s : σ) :
    forLoop 1 body s = body 0 s := rfl

theorem forLoop_two {σ : Type} (body : ℤ → σ → Option σ) (s : σ) :
    forLoop 2 body s = (body 0 s).bind (body 1) := rfl

/-- The crop of a 2x1 footprint that starts at the last canvas column: the canvas value,
then the fill value 0 for the position outside the canvas. -/
theorem cropRegion_edge (B : List ℕ) (hB : (B.length : ℤ) = 1048576)
    (hall : ∀ e ∈ B, e = 255) : cropRegion B 2 1 1023 0 = some [255, 0] := by
  obtain ⟨v, hv⟩ := TArray.read_ok B 1023 (by norm_num) (by rw [hB]; norm_num)
  have hv2 : v = 255 := hall v (TArray.read_some B 1023 v hv).2.2
  rw [hv2] at hv
  have h0 : cropPixel B 1023 0 0 0 [] = some [255] := by
    unfold cropPixel
    rw [if_pos (by decide)]
    have : i32add (i32mul (i32add 0 0) 1024) (i32add 0 1023) = 1023 := by decide
    rw [this, hv]
    rfl
  have h1 : cropPixel B 1023 0 0 1 [255] = some [255, 0] := by
    unfold cropPixel
    rw [if_neg (by decide)]
    rfl
  unfold cropRegion
  rw [if_pos (by decide), forLoop_one, forLoop_two, h0]
  exact h1

theorem RoundToInt_one : FMath.RoundToInt (Flt.fin 1) = some 1 := by
  exact RoundToInt_of_bounds 1 1 (by norm_num) (by norm_num) (by norm_num) (by norm_num)

theorem RoundToInt_two : FMath.RoundToInt (Flt.fin 2) = some 2 := by
  exact RoundToInt_of_bounds 2 2 (by norm_num) (by norm_num) (by norm_num) (by norm_num)

theorem ofInt32_two : binary32.ofInt 2 = Flt.fin 2 := by
  rw [ofInt32_exact 2 (by norm_num)]
  norm_num

theorem mul_by_one (z : ℤ) (hz : |z| < 16777216) :
    binary32.mul (Flt.fin (z : ℚ)) (Flt.fin 1) = Flt.fin (z : ℚ) := by
  show binary32.round _ = _
  rw [mul_one]
  exact round32_int z hz

theorem div_self_one (z : ℤ) (h0 : z ≠ 0) :
    binary32.div (Flt.fin (z : ℚ)) (Flt.fin (z : ℚ)) = Flt.fin 1 := by
  rw [Fmt.div_fin binary32 _ _ (by exact_mod_cast h0), div_self (by exact_mod_cast h0)]
  have := round32_int 1 (by norm_num)
  norm_num at this
  exact this

/-- The resize loops on the region `[255, 0]` for a 2x1 image, for inverse scales that
send the columns 0 and 1 and the row 0 to themselves. -/
theorem resizeLoops_edge (sx sy : Flt)
    (x0 : FMath.RoundToInt (binary32.mul (binary32.ofInt 0) sx) = some 0)
    (x1 : FMath.RoundToInt (binary32.mul (binary32.ofInt 1) sx) = some 1)
    (y0 : FMath.RoundToInt (binary32.mul (binary32.ofInt 0) sy) = some 0) :
    forLoop 1 (fun y => forLoop 2 (resizePixel [255, 0] 2 2 1 sx sy y)) [0, 0]
      = some [255, 0] := by
  have p0 : resizePixel [255, 0] 2 2 1 sx sy 0 0 [0, 0] = some [255, 0] := by
    unfold resizePixel
    rw [x0, y0]
    rfl
  have p1 : resizePixel [255, 0] 2 2 1 sx sy 0 1 [255, 0] = some [255, 0] := by
    unfold resizePixel
    rw [x1, y0]
    rfl
  rw [forLoop_one, forLoop_two, p0]
  exact p1

/-- The nearest-neighbour resize of the region `[255, 0]` to a 2x1 image. -/
theorem resizeRegion_edge : resizeRegion [255, 0] 2 1 2 1 = some [255, 0] := by
  have hx : binary32.div (binary32.ofInt 2) (binary32.ofInt 2) = Flt.fin 1 := by
    rw [ofInt32_two]
    have := div_self_one 2 (by norm_num)
    norm_num at this
    exact this
  have hy : binary32.div (binary32.ofInt 1) (binary32.ofInt 1) = Flt.fin 1 := by
    rw [ofInt32_one]
    have := div_self_one 1 (by norm_num)
    norm_num at this
    exact this
  have r0 : FMath.RoundToInt (binary32.mul (binary32.ofInt 0) (Flt.fin 1)) = some 0 := by
    rw [ofInt32_zero, mul_zero_left, RoundToInt_zero]
  have r1 : FMath.RoundToInt (binary32.mul (binary32.ofInt 1) (Flt.fin 1)) = some 1 := by
    rw [ofInt32_one]
    have := mul_by_one 1 (by norm_num)
    norm_num at this
    rw [this, RoundToInt_one]
  have ha : TArray.alloc (i32mul 2 1) (0 : ℕ) = some [0, 0] := rfl
  unfold resizeRegion
  rw [hx, hy, ha]
  exact resizeLoops_edge (Flt.fin 1) (Flt.fin 1) r0 r1 r0

theorem RoundToInt_mul_one (z : ℤ) (h0 : 0 ≤ z) (h1 : z < 4194303) :
    FMath.RoundToInt (binary32.mul (binary32.ofInt z) (Flt.fin 1)) = some z := by
  have hz : |z| < 16777216 := by rw [abs_of_nonneg h0]; omega
  rw [ofInt32_exact z hz, mul_by_one z hz]
  exact RoundToInt_of_bounds _ z h0 h1 (by linarith) (by linarith)

/-- A mask that is 255 everywhere after binarisation, for a 2x1 image at scale 1 whose
footprint starts at the last canvas column: the second pixel of the result is the fill
value 0. -/
theorem PostprocessMask_edge (MaskData : List Flt) (hlen : (MaskData.length : ℤ) = 1024 * 1024)
    (hall : ∀ m ∈ MaskData, binarize m = 255) :
    PostprocessMask MaskData 2 1 (Flt.fin 1) 1023 0 = Res.ok [255, 0] := by
  have hc := cropRegion_edge (MaskData.map binarize)
    (by rw [List.length_map, hlen]; norm_num)
    (by
      intro e he
      obtain ⟨m, hm, rfl⟩ := List.mem_map.mp he
      exact hall m hm)
  unfold PostprocessMask
  rw [if_neg (not_not.mpr hlen)]
  simp only [RoundToInt_mul_one 2 (by norm_num) (by norm_num), RoundToInt_mul_one 1 (by norm_num) (by norm_num), hc,
    Option.some_bind, resizeRegion_edge]

/-- A mask that is 1.0 everywhere (class 255), for a 2x1 image at scale 1 with the
offsets (1023, 0): the result has the pixels 255 and 0, not one single value. -/
theorem PostprocessMask_uniform_mask_mixed :
    (∀ m ∈ List.replicate (1024 * 1024) (Flt.fin 1), binarize m = 255) ∧
    PostprocessMask (List.replicate (1024 * 1024) (Flt.fin 1)) 2 1 (Flt.fin 1) 1023 0
      = Res.ok [255, 0] :=
  ⟨fun m hm => by rw [List.eq_of_mem_replicate hm]; exact binarize_one,
    PostprocessMask_edge _ (by rw [List.length_replicate]; norm_num)
      (fun m hm => by rw [List.eq_of_mem_replicate hm]; exact binarize_one)⟩

/-- C19. For every original size `W, H > 0` (with `W * H` an `int32`), scale and
offsets such that the footprint `[XOffset, XOffset + ScaledWidth)` by
`[YOffset, YOffset + ScaledHeight)` lies inside the canvas and both resized extents
`RoundToInt(W * Scale)`, `RoundToInt(H * Scale)` are at least 1: if every value of the
1024x1024 mask binarises to the same class `c`, `PostprocessMask` returns a `FinalMask`
of `W * H` pixels that all have the value `c`. -/
theorem PostprocessMask_uniform_inside (MaskData : List Flt) (c : ℕ) (W H : ℤ) (Scale : Flt)
    (xo yo SW SH : ℤ) (hlen : (MaskData.length : ℤ) = 1024 * 1024)
    (hall : ∀ m ∈ MaskData, binarize m = c) (hW : 0 < W) (hH : 0 < H)
    (h32 : W * H < 2147483648)
    (hSW : FMath.RoundToInt (binary32.mul (binary32.ofInt W) Scale) = some SW)
    (hSH : FMath.RoundToInt (binary32.mul (binary32.ofInt H) Scale) = some SH)
    (hSW1 : 1 ≤ SW) (hSH1 : 1 ≤ SH) (hxo : 0 ≤ xo) (hxo2 : xo + SW ≤ 1024) (hyo : 0 ≤ yo)
    (hyo2 : yo + SH ≤ 1024) :
    ∃ FinalMask, PostprocessMask MaskData W H Scale xo yo = Res.ok FinalMask ∧
      (FinalMask.length : ℤ) = W * H ∧ ∀ p ∈ FinalMask, p = c := by
  refine ⟨_, PostprocessMask_uniform MaskData c W H Scale xo yo SW SH hlen hall hW hH h32 hSW
    hSH hSW1 hSH1 hxo hxo2 hyo hyo2, ?_, ?_⟩
  · rw [List.length_replicate]
    have : 0 < W * H := mul_pos hW hH
    omega
  · intro p hp
    exact List.eq_of_mem_replicate hp

theorem PostprocessMask_uniform_inside_witness :
    ∃ FinalMask,
      PostprocessMask (List.replicate (1024 * 1024) (Flt.fin 1)) 1 1 (Flt.fin 1024) 0 0
        = Res.ok FinalMask ∧
      (FinalMask.length : ℤ) = 1 * 1 ∧ ∀ p ∈ FinalMask, p = 255 :=
  PostprocessMask_uniform_inside _ 255 1 1 (Flt.fin 1024) 0 0 1024 1024
    (by rw [List.length_replicate]; norm_num)
    (by intro m hm; rw [List.eq_of_mem_replicate hm]; exact binarize_one)
    (by norm_num) (by norm_num) (by norm_num) height_0_1 height_0_1 (by norm_num) (by norm_num)
    (by norm_num) (by norm_num) (by norm_num) (by norm_num)

/-! ## Normalisation and layout of the tensor -/

/-- The normalisation loops replace the value at every index `j` by
`(v - Mean[j % 3]) / Std[j % 3]`. -/
theorem normalizeCanvas_spec (canvas : List Flt) (hcv : canvas.length = 3145728) :
    ∃ u, normalizeCanvas canvas = some u ∧ u.length = 3145728 ∧
      ∀ j : ℕ, u[j]? = (canvas[j]?).map (fun v =>
        binary32.div (binary32.sub v (Mean ((j % 3 : ℕ) : ℤ))) (Std ((j % 3 : ℕ) : ℤ))) := by
  have key : ∃ u, normalizeCanvas canvas = some u ∧ (u.length = 3145728 ∧
      ∀ j : ℕ, u[j]? = if (j : ℤ) < 1048576 * 3 then (canvas[j]?).map (fun v =>
        binary32.div (binary32.sub v (Mean ((j % 3 : ℕ) : ℤ))) (Std ((j % 3 : ℕ) : ℤ)))
        else canvas[j]?) := by
    unfold normalizeCanvas
    have hT : TargetSize * TargetSize = 1048576 := by
      simp only [TargetSize]
      norm_num
    rw [hT]
    refine forLoop_idx _ (fun (i : ℤ) (t : List Flt) => t.length = 3145728 ∧
      ∀ j : ℕ, t[j]? = if (j : ℤ) < i * 3 then (canvas[j]?).map (fun v =>
        binary32.div (binary32.sub v (Mean ((j % 3 : ℕ) : ℤ))) (Std ((j % 3 : ℕ) : ℤ)))
        else canvas[j]?) 1048576 (by norm_num) canvas ⟨hcv, ?_⟩ ?_
    · intro j
      rw [if_neg (by omega)]
    · intro i hi0 hi1 t ht
      have hin := forLoop_idx (normalizeStep i) (fun (c : ℤ) (t : List Flt) =>
        t.length = 3145728 ∧
        ∀ j : ℕ, t[j]? = if (j : ℤ) < i * 3 + c then (canvas[j]?).map (fun v =>
          binary32.div (binary32.sub v (Mean ((j % 3 : ℕ) : ℤ))) (Std ((j % 3 : ℕ) : ℤ)))
          else canvas[j]?) 3 (by norm_num) t
        (by show _ ∧ _; rw [add_zero]; exact ht) (by
          intro c hc0 hc1 t2 ht2
          obtain ⟨ht2, hinv⟩ := ht2
          have hi : i32add (i32mul i 3) c = i * 3 + c := by
            rw [i32mul_eq i 3 (by omega) (by omega), i32add_eq (i * 3) c (by omega) (by omega)]
          have hlt : (i * 3 + c).toNat < canvas.length := by omega
          have hv := List.getElem?_eq_getElem hlt
          have hread : TArray.read t2 (i * 3 + c) = some canvas[(i * 3 + c).toNat] := by
            unfold TArray.read
            rw [if_pos ⟨by omega, by rw [ht2]; push_cast; omega⟩, hinv, if_neg (by omega)]
            exact hv
          unfold normalizeStep
          simp only [hi, hread, Option.bind_eq_bind, Option.some_bind]
          rw [TArray.write_ok _ _ _ (by omega) (by rw [ht2]; push_cast; omega)]
          refine ⟨_, rfl, (List.length_set _ _ _).trans ht2, ?_⟩
          intro j
          rw [List.getElem?_set]
          by_cases hj : (i * 3 + c).toNat = j
          · rw [if_pos hj, if_pos (by rw [ht2]; omega), if_pos (by omega), ← hj, hv]
            have : (((i * 3 + c).toNat % 3 : ℕ) : ℤ) = c := by omega
            rw [Option.map_some', this]
          · rw [if_neg hj, hinv]
            by_cases h1 : (j : ℤ) < i * 3 + c
            · rw [if_pos h1, if_pos (by omega)]
            · rw [if_neg h1, if_neg (by omega)])
      obtain ⟨u, hu, hul, hui⟩ := hin
      refine ⟨u, hu, hul, ?_⟩
      intro j
      rw [hui j]
      have : (i + 1) * 3 = i * 3 + 3 := by ring
      rw [this]
  obtain ⟨u, hu, hul, hui⟩ := key
  refine ⟨u, hu, hul, ?_⟩
  intro j
  rw [hui j]
  by_cases h : (j : ℤ) < 1048576 * 3
  · rw [if_pos h]
  · rw [if_neg h, List.getElem?_eq_none (by omega)]
    rfl

/-- The transposition loops put the value of canvas index `(h * 1024 + w) * 3 + c` at index
`c * 1024 * 1024 + h * 1024 + w`. -/
theorem toNCHW_spec (canvas : List Flt) (hcv : canvas.length = 3145728) :
    ∃ u, toNCHW canvas = some u ∧ u.length = 3145728 ∧
      ∀ t : ℕ, t < 3145728 → u[t]? = canvas[(t % 1048576) * 3 + t / 1048576]? := by
  unfold toNCHW
  obtain ⟨cv, ha, hcl⟩ := alloc_canvas
  simp only [ha, Option.bind_eq_bind, Option.some_bind]
  have key := forLoop_idx
    (fun c => forLoop TargetSize (fun h => forLoop TargetSize (transposeStep canvas c h)))
    (fun (c : ℤ) (N : List Flt) => N.length = 3145728 ∧
      ∀ t : ℕ, (t : ℤ) < c * 1048576 → N[t]? = canvas[(t % 1048576) * 3 + t / 1048576]?)
    3 (by norm_num) cv ⟨hcl, by intro t ht; omega⟩ (by
      intro c hc0 hc1 N hN
      have hmid := forLoop_idx
        (fun h => forLoop TargetSize (transposeStep canvas c h))
        (fun (h : ℤ) (N : List Flt) => N.length = 3145728 ∧
          ∀ t : ℕ, (t : ℤ) < c * 1048576 + h * 1024 →
            N[t]? = canvas[(t % 1048576) * 3 + t / 1048576]?)
        TargetSize (by simp only [TargetSize]; norm_num) N
        ⟨hN.1, by intro t ht; exact hN.2 t (by omega)⟩ (by
          intro h hh0 hh1 N2 hN2
          simp only [TargetSize] at hh1
          have hinn := forLoop_idx (transposeStep canvas c h)
            (fun (w : ℤ) (N : List Flt) => N.length = 3145728 ∧
              ∀ t : ℕ, (t : ℤ) < c * 1048576 + h * 1024 + w →
                N[t]? = canvas[(t % 1048576) * 3 + t / 1048576]?)
            TargetSize (by simp only [TargetSize]; norm_num) N2
            ⟨hN2.1, by intro t ht; exact hN2.2 t (by omega)⟩ (by
              intro w hw0 hw1 N3 hN3
              simp only [TargetSize] at hw1
              obtain ⟨hl3, hinv⟩ := hN3
              have hi : i32add (i32mul (i32add (i32mul h TargetSize) w) 3) c
                  = (h * 1024 + w) * 3 + c := by
                simp only [TargetSize]
                rw [i32mul_eq h 1024 (by omega) (by omega),
                  i32add_eq (h * 1024) w (by omega) (by omega),
                  i32mul_eq (h * 1024 + w) 3 (by omega) (by omega),
                  i32add_eq ((h * 1024 + w) * 3) c (by omega) (by omega)]
              have hj : i32add (i32add (i32mul (i32mul c TargetSize) TargetSize)
                  (i32mul h TargetSize)) w = c * 1024 * 1024 + h * 1024 + w := by
                simp only [TargetSize]
                rw [i32mul_eq c 1024 (by omega) (by omega),
                  i32mul_eq (c * 1024) 1024 (by omega) (by omega),
                  i32mul_eq h 1024 (by omega) (by omega),
                  i32add_eq (c * 1024 * 1024) (h * 1024) (by omega) (by omega),
                  i32add_eq (c * 1024 * 1024 + h * 1024) w (by omega) (by omega)]
              have hlt : ((h * 1024 + w) * 3 + c).toNat < canvas.length := by omega
              have hv := List.getElem?_eq_getElem hlt
              have hread : TArray.read canvas ((h * 1024 + w) * 3 + c)
                  = some canvas[((h * 1024 + w) * 3 + c).toNat] := by
                unfold TArray.read
                rw [if_pos ⟨by omega, by rw [hcv]; push_cast; omega⟩]
                exact hv
              unfold transposeStep
              simp only [hi, hj, hread, Option.bind_eq_bind, Option.some_bind]
              rw [TArray.write_ok _ _ _ (by omega) (by rw [hl3]; push_cast; omega)]
              refine ⟨_, rfl, (List.length_set _ _ _).trans hl3, ?_⟩
              intro t ht
              rw [List.getElem?_set]
              by_cases he : (c * 1024 * 1024 + h * 1024 + w).toNat = t
              · rw [if_pos he, if_pos (by rw [hl3]; omega), ← hv]
                congr 1
                omega
              · rw [if_neg he]
                exact hinv t (by omega))
          obtain ⟨u, hu, hul, hui⟩ := hinn
          simp only [TargetSize] at hui
          exact ⟨u, hu, hul, by intro t ht; exact hui t (by omega)⟩)
      obtain ⟨u, hu, hul, hui⟩ := hmid
      simp only [TargetSize] at hui
      exact ⟨u, hu, hul, by intro t ht; exact hui t (by omega)⟩)
  obtain ⟨u, hu, hul, hui⟩ := key
  exact ⟨u, hu, hul, by intro t ht; exact hui t (by omega)⟩

theorem bilinearChannel_length (img : List Flt) (W x0 y0 x1 y1 : ℤ) (wx wy : Flt) (d c : ℤ)
    (a b : List Flt) (h : bilinearChannel img W x0 y0 x1 y1 wx wy d c a = some b) :
    b.length = a.length := by
  unfold bilinearChannel at h
  simp only [Option.bind_eq_bind, Option.bind_eq_some] at h
  obtain ⟨_, _, _, _, _, _, _, _, hw⟩ := h
  rw [(TArray.write_some _ _ _ _ hw).2.2, List.length_set]

theorem resamplePixel_length (img : List Flt) (W H : ℤ) (s : Flt) (xo yo y x : ℤ)
    (a b : List Flt) (h : resamplePixel img W H s xo yo y x a = some b) :
    b.length = a.length := by
  unfold resamplePixel at h
  simp only [Option.bind_eq_bind, Option.bind_eq_some] at h
  obtain ⟨kx, _, ky, _, h⟩ := h
  split_ifs at h
  · exact (forLoop_some _ (fun t : List Flt => t.length = a.length) 3 a b rfl
      (fun k _ _ p q hp hq => (bilinearChannel_length _ _ _ _ _ _ _ _ _ _ _ _ hq).trans hp) h).1
  · cases h
    rfl

/-- The resampling writes into the canvas in place. -/
theorem resampleImage_length (img : List Flt) (W H : ℤ) (s : Flt) (NW NH xo yo : ℤ)
    (a b : List Flt) (h : resampleImage img W H s NW NH xo yo a = some b) :
    b.length = a.length := by
  unfold resampleImage at h
  refine (forLoop_some _ (fun t : List Flt => t.length = a.length) NH a b rfl ?_ h).1
  intro y _ _ p q hp hq
  refine (forLoop_some _ (fun t : List Flt => t.length = a.length) NW p q hp ?_ hq).1
  intro x _ _ p2 q2 hp2 hq2
  exact (resamplePixel_length _ _ _ _ _ _ _ _ _ _ hq2).trans hp2

/-- The stages of a successful `buildTensor`. -/
theorem buildTensor_stages (img : List Flt) (W H : ℤ) (s : Flt) (NW NH xo yo : ℤ)
    (data : List Flt) (h : buildTensor img W H s NW NH xo yo = some data) :
    ∃ canvas resized n,
      TArray.alloc (TargetSize * TargetSize * 3) (Flt.fin 0) = some canvas ∧
      canvas.length = 3145728 ∧
      resampleImage img W H s NW NH xo yo canvas = some resized ∧
      normalizeCanvas resized = some n ∧ toNCHW n = some data := by
  unfold buildTensor at h
  obtain ⟨cv, ha, hcl⟩ := alloc_canvas
  rw [ha, Option.bind_eq_bind, Option.some_bind] at h
  cases hr : resampleImage img W H s NW NH xo yo cv with
  | none =>
    rw [hr] at h
    cases h
  | some resized =>
    rw [hr, Option.some_bind] at h
    cases hn : normalizeCanvas resized with
    | none =>
      rw [hn] at h
      cases h
    | some n =>
      rw [hn, Option.some_bind] at h
      exact ⟨cv, resized, n, ha, hcl, hr, hn, h⟩

/-- What a successful `buildTensor` returns: the resized canvas, normalised, in
channel-major order. -/
theorem buildTensor_spec (img : List Flt) (W H : ℤ) (s : Flt) (NW NH xo yo : ℤ)
    (data : List Flt) (h : buildTensor img W H s NW NH xo yo = some data) :
    ∃ canvas resized,
      TArray.alloc (TargetSize * TargetSize * 3) (Flt.fin 0) = some canvas ∧
      resampleImage img W H s NW NH xo yo canvas = some resized ∧
      resized.length = 3145728 ∧ data.length = 3145728 ∧
      ∀ c h w : ℕ, c < 3 → h < 1024 → w < 1024 →
        ∃ v, resized[(h * 1024 + w) * 3 + c]? = some v ∧
          data[c * 1048576 + h * 1024 + w]? =
            some (binary32.div (binary32.sub v (Mean (c : ℤ))) (Std (c : ℤ))) := by
  obtain ⟨cv, resized, n, ha, hcl, hr, hn, ht⟩ := buildTensor_stages _ _ _ _ _ _ _ _ _ h
  have hrl : resized.length = 3145728 := (resampleImage_length _ _ _ _ _ _ _ _ _ _ hr).trans hcl
  obtain ⟨n1, hn1, hnl, hni⟩ := normalizeCanvas_spec resized hrl
  have en : n1 = n := Option.some.inj (hn1.symm.trans hn)
  rw [en] at hnl hni
  obtain ⟨u, hu, hul, hui⟩ := toNCHW_spec n hnl
  have eu : u = data := Option.some.inj (hu.symm.trans ht)
  rw [eu] at hul hui
  refine ⟨cv, resized, ha, hr, hrl, hul, ?_⟩
  intro c y x hc hy hx
  have hlt : (y * 1024 + x) * 3 + c < resized.length := by omega
  refine ⟨resized[(y * 1024 + x) * 3 + c], List.getElem?_eq_getElem hlt, ?_⟩
  have e1 : (c * 1048576 + y * 1024 + x) % 1048576 * 3 + (c * 1048576 + y * 1024 + x) / 1048576
      = (y * 1024 + x) * 3 + c := by omega
  have e2 : ((((y * 1024 + x) * 3 + c) % 3 : ℕ) : ℤ) = (c : ℤ) := by omega
  rw [hui _ (by omega), e1, hni, List.getElem?_eq_getElem hlt, Option.map_some', e2]

/-- C20. `PreprocessImage` returns a tensor of exactly 3·1024·1024 floats in which the
element at index `c·1024·1024 + h·1024 + w` is `(v - Mean[c]) / Std[c]` in `float`
arithmetic, `v` being the value of pixel `(h, w)`, channel `c`, of the canvas after the
resampling (normalisation comes after the resize); `Mean` is 0.485f, 0.456f, 0.406f and
`Std` is 0.229f, 0.224f, 0.225f.  On every well-formed image of positive size
`PreprocessImage` does return. -/
theorem PreprocessImage_tensor_layout (img : List Flt) (W H : ℤ) :
    (∀ out, PreprocessImage img W H = Res.ok out →
      out.ProcessedImageData.length = 3 * 1024 * 1024 ∧
      ∃ NW NH canvas resized,
        FMath.RoundToInt (binary32.mul (binary32.ofInt W) out.OutScale) = some NW ∧
        FMath.RoundToInt (binary32.mul (binary32.ofInt H) out.OutScale) = some NH ∧
        TArray.alloc (TargetSize * TargetSize * 3) (Flt.fin 0) = some canvas ∧
        resampleImage img W H out.OutScale NW NH out.OutXOffset out.OutYOffset canvas
          = some resized ∧
        resized.length = 3 * 1024 * 1024 ∧
        ∀ c h w : ℕ, c < 3 → h < 1024 → w < 1024 →
          ∃ v, resized[(h * 1024 + w) * 3 + c]? = some v ∧
            out.ProcessedImageData[c * 1024 * 1024 + h * 1024 + w]? =
              some (binary32.div (binary32.sub v (Mean (c : ℤ))) (Std (c : ℤ)))) ∧
    (Mean 0 = binary32.round (485 / 1000) ∧ Mean 1 = binary32.round (456 / 1000) ∧
      Mean 2 = binary32.round (406 / 1000) ∧ Std 0 = binary32.round (229 / 1000) ∧
      Std 1 = binary32.round (224 / 1000) ∧ Std 2 = binary32.round (225 / 1000)) ∧
    (0 < W → 0 < H → (img.length : ℤ) = W * H * 3 → W * H * 3 < 2147483648 →
      ∃ out, PreprocessImage img W H = Res.ok out) := by
  refine ⟨?_, ⟨rfl, rfl, rfl, rfl, rfl, rfl⟩, ?_⟩
  · intro out h
    obtain ⟨_, hs, NW, NH, hnw, hnh, _, _, hb⟩ := PreprocessImage_ok_inv img W H out h
    obtain ⟨cv, resized, ha, hr, hrl, hdl, hpt⟩ := buildTensor_spec _ _ _ _ _ _ _ _ _ hb
    rw [← hs] at hnw hnh hr
    refine ⟨hdl, NW, NH, cv, resized, hnw, hnh, ha, hr, hrl, ?_⟩
    intro c h w hc hh hw
    obtain ⟨v, hv, hd⟩ := hpt c h w hc hh hw
    refine ⟨v, hv, ?_⟩
    have : c * 1024 * 1024 + h * 1024 + w = c * 1048576 + h * 1024 + w := by omega
    rw [this]
    exact hd
  · intro hW hH hlen h32
    obtain ⟨data, NW, NH, h, _⟩ := PreprocessImage_ok img W H hW hH hlen h32
    exact ⟨_, h⟩

theorem PreprocessImage_tensor_layout_witness :
    ∃ out v, PreprocessImage [Flt.fin 0, Flt.fin 0, Flt.fin 0] 1 1 = Res.ok out ∧
      out.ProcessedImageData.length = 3 * 1024 * 1024 ∧
      out.ProcessedImageData[2 * 1024 * 1024 + 5 * 1024 + 7]? =
        some (binary32.div (binary32.sub v (Mean ((2 : ℕ) : ℤ))) (Std ((2 : ℕ) : ℤ))) := by
  obtain ⟨out, h⟩ := (PreprocessImage_tensor_layout [Flt.fin 0, Flt.fin 0, Flt.fin 0] 1 1).2.2
    (by decide) (by decide) (by decide) (by decide)
  obtain ⟨hl, NW, NH, cv, resized, _, _, _, _, _, hpt⟩ :=
    (PreprocessImage_tensor_layout [Flt.fin 0, Flt.fin 0, Flt.fin 0] 1 1).1 out h
  obtain ⟨v, _, hd⟩ := hpt 2 5 7 (by decide) (by decide) (by decide)
  exact ⟨out, v, h, hl, hd⟩

/-! ## The letterbox geometry -/

/-- The scale, the resized extents and the source coordinates of the footprint for
positive sizes. -/
theorem letterbox_sources (W H : ℤ) (hW : 0 < W) (hW2 : W < 2147483648) (hH : 0 < H)
    (hH2 : H < 2147483648) :
    ∃ (s : ℚ) (NW NH : ℤ), letterboxScale W H = Flt.fin s ∧ 1 / 8388608 ≤ s ∧
      FMath.RoundToInt (binary32.mul (binary32.ofInt W) (letterboxScale W H)) = some NW ∧
      FMath.RoundToInt (binary32.mul (binary32.ofInt H) (letterboxScale W H)) = some NH ∧
      0 ≤ NW ∧ NW ≤ 1024 ∧ 0 ≤ NH ∧ NH ≤ 1024 ∧
      (∀ x : ℤ, 0 ≤ x → x < NW → ∃ (v : ℚ) (kx : ℤ),
        binary32.div (binary32.ofInt x) (Flt.fin s) = Flt.fin v ∧
        FMath.FloorToInt (Flt.fin v) = some kx ∧ kx = ⌊v⌋ ∧ 0 ≤ kx ∧ kx ≤ W - 1 ∧ 0 ≤ v) ∧
      (∀ y : ℤ, 0 ≤ y → y < NH → ∃ (v : ℚ) (ky : ℤ),
        binary32.div (binary32.ofInt y) (Flt.fin s) = Flt.fin v ∧
        FMath.FloorToInt (Flt.fin v) = some ky ∧ ky = ⌊v⌋ ∧ 0 ≤ ky ∧ ky ≤ H - 1 ∧ 0 ≤ v) := by
  obtain ⟨w, h, s, hw, hh, hs, w1, w2, h1, h2, ls, sw, sh, hone, hsq⟩ :=
    letterboxScale_facts W H hW hW2 hH hH2
  have hWq : (1 : ℚ) ≤ W := by exact_mod_cast hW
  have hHq : (1 : ℚ) ≤ H := by exact_mod_cast hH
  have hw0 : 1 / 2 ≤ w := by linarith
  have hh0 : 1 / 2 ≤ h := by linarith
  have hs0 : 0 < s := lt_of_lt_of_le (by norm_num) ls
  obtain ⟨pw, NW, hpw, hNW, nw1, nw2, nw3, nw4, nw5, nw6, nw7⟩ :=
    scaledDim_bounds w s (by nlinarith) sw
  obtain ⟨ph, NH, hph, hNH, nh1, nh2, nh3, nh4, nh5, nh6, nh7⟩ :=
    scaledDim_bounds h s (by nlinarith) sh
  refine ⟨s, NW, NH, hs, ls, by rw [hs, hw, hpw, hNW], by rw [hs, hh, hph, hNH], nw2, nw3, nh2,
    nh3, ?_, ?_⟩
  · intro x hx0 hx1
    exact srcIndex_bounds W w s pw x NW hW hW2 w1 w2 ls sw nw4 nw1 nw3 hx0 hx1
  · intro y hy0 hy1
    exact srcIndex_bounds H h s ph y NH hH hH2 h1 h2 ls sh nh4 nh1 nh3 hy0 hy1

/-- The offsets of a resized extent between 0 and 1024. -/
theorem letterbox_offset (N : ℤ) (h0 : 0 ≤ N) (h1 : N ≤ 1024) :
    i32div (i32sub TargetSize N) 2 = (1024 - N) / 2 ∧ 0 ≤ (1024 - N) / 2 ∧
      (1024 - N) / 2 + N ≤ 1024 := by
  refine ⟨?_, by omega, by omega⟩
  rw [TargetSize, i32sub_eq 1024 N (by omega) (by omega), i32div_two _ (by omega) (by omega)]

/-- C26. `PreprocessImage` is index-safe: for positive sizes and an image buffer of
`W * H * 3` floats, every destination pixel `(x, y)` of the footprint has source indices
`0 ≤ FloorToInt(x / scale) ≤ W - 1` and `0 ≤ FloorToInt(y / scale) ≤ H - 1`; with these
and the neighbours `Min(k + 1, W - 1)`, `Min(k + 1, H - 1)` every index read from the
image buffer is inside it, every index written is inside the canvas, and
`PreprocessImage` returns `true` (no access leaves an array). -/
theorem PreprocessImage_index_safe (img : List Flt) (W H : ℤ) (hW : 0 < W) (hH : 0 < H)
    (hlen : (img.length : ℤ) = W * H * 3) (h32 : W * H * 3 < 2147483648) :
    ∃ NW NH : ℤ,
      FMath.RoundToInt (binary32.mul (binary32.ofInt W) (letterboxScale W H)) = some NW ∧
      FMath.RoundToInt (binary32.mul (binary32.ofInt H) (letterboxScale W H)) = some NH ∧
      (∀ x : ℤ, 0 ≤ x → x < NW → ∃ kx,
        FMath.FloorToInt (binary32.div (binary32.ofInt x) (letterboxScale W H)) = some kx ∧
        0 ≤ kx ∧ kx ≤ W - 1 ∧
        0 ≤ FMath.MinInt (i32add kx 1) (i32sub W 1) ∧
        FMath.MinInt (i32add kx 1) (i32sub W 1) ≤ W - 1) ∧
      (∀ y : ℤ, 0 ≤ y → y < NH → ∃ ky,
        FMath.FloorToInt (binary32.div (binary32.ofInt y) (letterboxScale W H)) = some ky ∧
        0 ≤ ky ∧ ky ≤ H - 1 ∧
        0 ≤ FMath.MinInt (i32add ky 1) (i32sub H 1) ∧
        FMath.MinInt (i32add ky 1) (i32sub H 1) ≤ H - 1) ∧
      (∀ kx ky c : ℤ, 0 ≤ kx → kx ≤ W - 1 → 0 ≤ ky → ky ≤ H - 1 → 0 ≤ c → c < 3 →
        i32add (i32mul (i32add (i32mul ky W) kx) 3) c = (ky * W + kx) * 3 + c ∧
        0 ≤ (ky * W + kx) * 3 + c ∧ (ky * W + kx) * 3 + c < (img.length : ℤ) ∧
        ∃ v, TArray.read img (i32add (i32mul (i32add (i32mul ky W) kx) 3) c) = some v) ∧
      (∀ x y c : ℤ, 0 ≤ x → x < NW → 0 ≤ y → y < NH → 0 ≤ c → c < 3 →
        0 ≤ i32add (i32mul (i32add (i32mul (i32add y (i32div (i32sub TargetSize NH) 2))
              TargetSize) (i32add x (i32div (i32sub TargetSize NW) 2))) 3) c ∧
        i32add (i32mul (i32add (i32mul (i32add y (i32div (i32sub TargetSize NH) 2))
              TargetSize) (i32add x (i32div (i32sub TargetSize NW) 2))) 3) c
          < 3 * 1024 * 1024) ∧
      ∃ out, PreprocessImage img W H = Res.ok out := by
  have hW2 : W < 2147483648 := by nlinarith
  have hH2 : H < 2147483648 := by nlinarith
  obtain ⟨s, NW, NH, hs, ls, hnw, hnh, nw0, nw1, nh0, nh1, hsx, hsy⟩ :=
    letterbox_sources W H hW hW2 hH hH2
  obtain ⟨ex, ex0, ex1⟩ := letterbox_offset NW nw0 nw1
  obtain ⟨ey, ey0, ey1⟩ := letterbox_offset NH nh0 nh1
  refine ⟨NW, NH, hnw, hnh, ?_, ?_, ?_, ?_, ?_⟩
  · intro x hx0 hx1
    obtain ⟨v, kx, hv, hk, _, k0, k1, _⟩ := hsx x hx0 hx1
    refine ⟨kx, by rw [hs, hv, hk], k0, k1, ?_⟩
    rw [i32add_eq kx 1 (by omega) (by omega), i32sub_eq W 1 (by omega) (by omega)]
    unfold FMath.MinInt
    split_ifs <;> omega
  · intro y hy0 hy1
    obtain ⟨v, ky, hv, hk, _, k0, k1, _⟩ := hsy y hy0 hy1
    refine ⟨ky, by rw [hs, hv, hk], k0, k1, ?_⟩
    rw [i32add_eq ky 1 (by omega) (by omega), i32sub_eq H 1 (by omega) (by omega)]
    unfold FMath.MinInt
    split_ifs <;> omega
  · intro kx ky c hkx0 hkx hky0 hky hc0 hc
    have hp : ky * W ≤ (H - 1) * W := Int.mul_le_mul_of_nonneg_right hky (le_of_lt hW)
    have hp0 : 0 ≤ ky * W := mul_nonneg hky0 (le_of_lt hW)
    have e : (H - 1) * W = W * H - W := by ring
    have hi : i32add (i32mul (i32add (i32mul ky W) kx) 3) c = (ky * W + kx) * 3 + c := by
      rw [i32mul_eq ky W (by omega) (by omega), i32add_eq (ky * W) kx (by omega) (by omega),
        i32mul_eq (ky * W + kx) 3 (by omega) (by omega),
        i32add_eq ((ky * W + kx) * 3) c (by omega) (by omega)]
    exact ⟨hi, by omega, by omega,
      srcRead_ok img W H ky kx c hlen h32 hW hky0 hky hkx0 hkx hc0 hc⟩
  · intro x y c hx0 hx1 hy0 hy1 hc0 hc1
    rw [ex, ey]
    simp only [TargetSize]
    rw [i32add_eq y ((1024 - NH) / 2) (by omega) (by omega),
      i32add_eq x ((1024 - NW) / 2) (by omega) (by omega),
      i32mul_eq (y + (1024 - NH) / 2) 1024 (by omega) (by omega),
      i32add_eq ((y + (1024 - NH) / 2) * 1024) (x + (1024 - NW) / 2) (by omega) (by omega),
      i32mul_eq ((y + (1024 - NH) / 2) * 1024 + (x + (1024 - NW) / 2)) 3 (by omega) (by omega),
      i32add_eq (((y + (1024 - NH) / 2) * 1024 + (x + (1024 - NW) / 2)) * 3) c (by omega)
        (by omega)]
    constructor <;> omega
  · obtain ⟨data, _, _, h, _⟩ := PreprocessImage_ok img W H hW hH hlen h32
    exact ⟨_, h⟩

theorem PreprocessImage_index_safe_witness :
    ∃ NW NH : ℤ,
      FMath.RoundToInt (binary32.mul (binary32.ofInt 800) (letterboxScale 800 600)) = some NW ∧
      FMath.RoundToInt (binary32.mul (binary32.ofInt 600) (letterboxScale 800 600)) = some NH ∧
      ∃ out, PreprocessImage (List.replicate 1440000 (Flt.fin 0)) 800 600 = Res.ok out := by
  obtain ⟨NW, NH, h1, h2, _, _, _, _, h3⟩ :=
    PreprocessImage_index_safe (List.replicate 1440000 (Flt.fin 0)) 800 600 (by norm_num)
      (by norm_num) (by rw [List.length_replicate]; norm_num) (by norm_num)
  exact ⟨NW, NH, h1, h2, h3⟩

/-- C27. The letterbox footprint lies inside the canvas: for positive sizes the resized
extents and the offsets `(1024 - NewWidth) / 2`, `(1024 - NewHeight) / 2` that
`PreprocessImage` computes satisfy `0 ≤ xOffset`, `0 ≤ yOffset`,
`xOffset + NewWidth ≤ 1024` and `yOffset + NewHeight ≤ 1024`; so for every footprint
pixel the canvas-bounds test of the resampling holds, and with the same parameters the
bounds test of the crop in `PostprocessMask` holds (its zero fill is not taken).  These
are the offsets of every successful `PreprocessImage`. -/
theorem letterbox_footprint_inside (W H : ℤ) (hW : 0 < W) (hW2 : W < 2147483648) (hH : 0 < H)
    (hH2 : H < 2147483648) :
    ∃ NW NH : ℤ,
      FMath.RoundToInt (binary32.mul (binary32.ofInt W) (letterboxScale W H)) = some NW ∧
      FMath.RoundToInt (binary32.mul (binary32.ofInt H) (letterboxScale W H)) = some NH ∧
      0 ≤ i32div (i32sub TargetSize NW) 2 ∧ 0 ≤ i32div (i32sub TargetSize NH) 2 ∧
      i32div (i32sub TargetSize NW) 2 + NW ≤ 1024 ∧
      i32div (i32sub TargetSize NH) 2 + NH ≤ 1024 ∧
      (∀ x y : ℤ, 0 ≤ x → x < NW → 0 ≤ y → y < NH →
        0 ≤ i32add x (i32div (i32sub TargetSize NW) 2) ∧
        i32add x (i32div (i32sub TargetSize NW) 2) < TargetSize ∧
        0 ≤ i32add y (i32div (i32sub TargetSize NH) 2) ∧
        i32add y (i32div (i32sub TargetSize NH) 2) < TargetSize) ∧
      (∀ (B R : List ℕ) (x y : ℤ), 0 ≤ x → x < NW → 0 ≤ y → y < NH →
        cropPixel B (i32div (i32sub TargetSize NW) 2) (i32div (i32sub TargetSize NH) 2) y x R
          = (TArray.read B (i32add
              (i32mul (i32add y (i32div (i32sub TargetSize NH) 2)) 1024)
              (i32add x (i32div (i32sub TargetSize NW) 2)))).bind
              (fun v => TArray.add R v)) ∧
      (∀ (img : List Flt) (out : PreprocessOut), PreprocessImage img W H = Res.ok out →
        out.OutScale = letterboxScale W H ∧
        out.OutXOffset = i32div (i32sub TargetSize NW) 2 ∧
        out.OutYOffset = i32div (i32sub TargetSize NH) 2) := by
  obtain ⟨s, NW, NH, hs, ls, hnw, hnh, nw0, nw1, nh0, nh1, hsx, hsy⟩ :=
    letterbox_sources W H hW hW2 hH hH2
  obtain ⟨ex, ex0, ex1⟩ := letterbox_offset NW nw0 nw1
  obtain ⟨ey, ey0, ey1⟩ := letterbox_offset NH nh0 nh1
  have hg : ∀ x y : ℤ, 0 ≤ x → x < NW → 0 ≤ y → y < NH →
      0 ≤ i32add x (i32div (i32sub TargetSize NW) 2) ∧
      i32add x (i32div (i32sub TargetSize NW) 2) < 1024 ∧
      0 ≤ i32add y (i32div (i32sub TargetSize NH) 2) ∧
      i32add y (i32div (i32sub TargetSize NH) 2) < 1024 := by
    intro x y hx0 hx1 hy0 hy1
    rw [ex, ey, i32add_eq x _ (by omega) (by omega), i32add_eq y _ (by omega) (by omega)]
    omega
  refine ⟨NW, NH, hnw, hnh, by rw [ex]; exact ex0, by rw [ey]; exact ey0, by rw [ex]; exact ex1,
    by rw [ey]; exact ey1, ?_, ?_, ?_⟩
  · intro x y hx0 hx1 hy0 hy1
    simp only [TargetSize]
    exact hg x y hx0 hx1 hy0 hy1
  · intro B R x y hx0 hx1 hy0 hy1
    unfold cropPixel
    rw [if_pos (hg x y hx0 hx1 hy0 hy1)]
  · intro img out h
    obtain ⟨_, hsc, NW2, NH2, hnw2, hnh2, hxo, hyo, _⟩ := PreprocessImage_ok_inv img W H out h
    rw [hnw] at hnw2
    rw [hnh] at hnh2
    cases hnw2
    cases hnh2
    exact ⟨hsc, hxo, hyo⟩

/-- The eight decoder inputs, whenever the runtime takes them. -/
theorem decoderInputs_some_eq (P : Platform) (self : FSam2ModelInstance) (Input : FSam2Input)
    (Output : FSam2Output) (inputs : List (String × OrtValue))
    (h : decoderInputs P self Input Output = some inputs) :
    inputs =
      [("image_embed", OrtValue.floats self.CachedImageEmbed [1, 256, 64, 64]),
       ("high_res_feats_0", OrtValue.floats self.CachedHighResFeats0 [1, 32, 256, 256]),
       ("high_res_feats_1", OrtValue.floats self.CachedHighResFeats1 [1, 64, 128, 128]),
       ("point_coords", OrtValue.floats
          (TransformPromptPoints Input.PromptPoints Input.ImageWidth Input.ImageHeight
            Output.Scale Output.XOffset Output.YOffset)
          [1, (Input.PromptPoints.length : ℤ), 2]),
       ("point_labels", OrtValue.floats (Input.PromptLabels.map binary32.ofInt)
          [1, (Input.PromptLabels.length : ℤ)]),
       ("mask_input", OrtValue.floats (List.replicate (1 * 1 * 256 * 256) (Flt.fin 0))
          [1, 1, 256, 256]),
       ("has_mask_input", OrtValue.floats [Flt.fin 0] [1]),
       ("orig_im_size", OrtValue.ints [1024, 1024] [2])] := by
  unfold decoderInputs CreateTensor at h
  simp only [Option.bind_eq_bind, Option.bind_eq_some] at h
  obtain ⟨a1, h1, a2, h2, a3, h3, a4, h4, a5, h5, a6, h6, a7, h7, a8, h8, h9⟩ := h
  split_ifs at h1 h2 h3 h4 h5 h6 h7 h8
  cases h1; cases h2; cases h3; cases h4; cases h5; cases h6; cases h7; cases h8
  cases h9
  rfl

/-- `TransformPromptPoints` returns two floats for each point. -/
theorem TransformPromptPoints_length (InputPoints : List FVector2D) (W H : ℤ) (Scale : Flt)
    (XOffset YOffset : ℤ) :
    (TransformPromptPoints InputPoints W H Scale XOffset YOffset).length
      = 2 * InputPoints.length := by
  unfold TransformPromptPoints
  rw [tpp_foldl_length _ (fun p => TransformPromptPoint_length W H Scale XOffset YOffset p)]
  simp

/-- The engine call of `RunDecoder`: eight inputs named `image_embed`, `high_res_feats_0`,
`high_res_feats_1`, `point_coords`, `point_labels`, `mask_input`, `has_mask_input`,
`orig_im_size` in this order, and the outputs `masks` and `iou_predictions`.  For `N`
prompt points and `L` labels `point_coords` holds the `2 * N` transformed coordinates with
shape `[1, N, 2]`, `point_labels` the labels converted to `float` with shape `[1, L]`,
`mask_input` 256·256 zeros with shape `[1, 1, 256, 256]`, `has_mask_input` the single
value 0 and `orig_im_size` the `int32` values `[1024, 1024]`, whatever the image width and
height.  The decoder is run when the cache is valid and the runtime takes the tensors. -/
theorem RunDecoder_inputs (P : Platform) (self : FSam2ModelInstance)
    (Input : FSam2Input) (Output : FSam2Output) :
    ((RunDecoder P self Input Output).2.1.SessionRuns = self.SessionRuns ∨
      (RunDecoder P self Input Output).2.1.SessionRuns = self.SessionRuns ++
        [⟨true,
          [("image_embed", OrtValue.floats self.CachedImageEmbed [1, 256, 64, 64]),
           ("high_res_feats_0", OrtValue.floats self.CachedHighResFeats0 [1, 32, 256, 256]),
           ("high_res_feats_1", OrtValue.floats self.CachedHighResFeats1 [1, 64, 128, 128]),
           ("point_coords", OrtValue.floats
              (TransformPromptPoints Input.PromptPoints Input.ImageWidth Input.ImageHeight
                Output.Scale Output.XOffset Output.YOffset)
              [1, (Input.PromptPoints.length : ℤ), 2]),
           ("point_labels", OrtValue.floats (Input.PromptLabels.map binary32.ofInt)
              [1, (Input.PromptLabels.length : ℤ)]),
           ("mask_input", OrtValue.floats (List.replicate (1 * 1 * 256 * 256) (Flt.fin 0))
              [1, 1, 256, 256]),
           ("has_mask_input", OrtValue.floats [Flt.fin 0] [1]),
           ("orig_im_size", OrtValue.ints [1024, 1024] [2])],
          ["masks", "iou_predictions"]⟩]) ∧
    (self.bHasCachedFeatures = true → (∀ v, P.CreateTensorAccepts v = true) →
      (RunDecoder P self Input Output).2.1.SessionRuns ≠ self.SessionRuns) ∧
    (TransformPromptPoints Input.PromptPoints Input.ImageWidth Input.ImageHeight
        Output.Scale Output.XOffset Output.YOffset).length = 2 * Input.PromptPoints.length ∧
    (Input.PromptLabels.map binary32.ofInt).length = Input.PromptLabels.length ∧
    (List.replicate (1 * 1 * 256 * 256) (Flt.fin 0)).length = 256 * 256 := by
  refine ⟨?_, ?_, TransformPromptPoints_length _ _ _ _ _ _, List.length_map _ _,
    List.length_replicate _ _⟩
  · rcases RunDecoder_log P self Input Output with h | ⟨inputs, hin, h⟩
    · exact Or.inl h
    · rw [decoderInputs_some_eq P self Input Output inputs hin] at h
      exact Or.inr h
  · intro hf hacc
    rcases RunDecoder_log P self Input Output with h | ⟨inputs, hin, h⟩
    · exfalso
      rcases RunDecoder_shape P self Input Output with
        ⟨_, h1 | h1⟩ | ⟨_, inputs, _, ⟨_, _, _, e⟩ | ⟨_, _, e⟩ | ⟨_, e⟩⟩
      · rw [hf] at h1
        cases h1
      · rw [decoderInputs_ok P self Input Output hacc] at h1
        cases h1
      · rw [e] at h
        have := congrArg List.length h
        simp at this
      · rw [e] at h
        have := congrArg List.length h
        simp at this
      · rw [e] at h
        have := congrArg List.length h
        simp at this
    · rw [h]
      intro hc
      have := congrArg List.length hc
      simp at this

/-- C24 (failing input). One prompt point with two labels on an instance with a valid
cache: `RunDecoder` runs the decoder with eight inputs of which `point_coords` has the
shape `[1, 1, 2]` and `point_labels` the shape `[1, 2]`, the number of labels, not the
shape `[1, N]` for the `N = 1` prompt points; nothing compares the two counts. -/
theorem RunDecoder_label_shape :
    ∃ inputs coords,
      (RunDecoder ⟨fun v => v, fun _ => true, fun _ _ => none,
          fun _ _ => some [OrtOutput.tensor [Flt.fin 0], OrtOutput.tensor [Flt.fin 1]]⟩
        ⟨true, [Flt.fin 1], [Flt.fin 2], [Flt.fin 3], true, []⟩
        ⟨[], 1, 1, [⟨Flt.fin 0, Flt.fin 0⟩], [1, 0]⟩
        ⟨[], [], 0, 1024, 1024, 0, 0, Flt.fin 1, 0, 0⟩).2.1.SessionRuns
        = [⟨true, inputs, ["masks", "iou_predictions"]⟩] ∧
      inputs.length = 8 ∧
      inputs.get? 3 = some ("point_coords", OrtValue.floats coords [1, 1, 2]) ∧
      inputs.get? 4 = some ("point_labels",
        OrtValue.floats [binary32.ofInt 1, binary32.ofInt 0] [1, 2]) ∧
      ([⟨Flt.fin 0, Flt.fin 0⟩] : List FVector2D).length = 1 := by
  have hin := decoderInputs_ok
    ⟨fun v => v, fun _ => true, fun _ _ => none,
      fun _ _ => some [OrtOutput.tensor [Flt.fin 0], OrtOutput.tensor [Flt.fin 1]]⟩
    ⟨true, [Flt.fin 1], [Flt.fin 2], [Flt.fin 3], true, []⟩
    ⟨[], 1, 1, [⟨Flt.fin 0, Flt.fin 0⟩], [1, 0]⟩
    ⟨[], [], 0, 1024, 1024, 0, 0, Flt.fin 1, 0, 0⟩ (fun _ => rfl)
  have hr := RunDecoder_ok _ _ _ _ _ [Flt.fin 0] [Flt.fin 1] rfl hin rfl
  rw [hr]
  exact ⟨_, _, rfl, rfl, rfl, rfl, rfl⟩

/-- Two nested counting loops with an invariant indexed by row and column. -/
theorem forLoop2_idx {σ : Type} (body : ℤ → ℤ → σ → Option σ) (Inv : ℤ → ℤ → σ → Prop)
    (H W : ℤ) (hH : 0 ≤ H) (hW : 0 ≤ W) (s : σ) (h0 : Inv 0 0 s)
    (hrow : ∀ y t, 0 ≤ y → y < H → Inv y W t → Inv (y + 1) 0 t)
    (hstep : ∀ y x, 0 ≤ y → y < H → 0 ≤ x → x < W → ∀ t, Inv y x t →
      ∃ u, body y x t = some u ∧ Inv y (x + 1) u) :
    ∃ t, forLoop H (fun y => forLoop W (body y)) s = some t ∧ Inv H 0 t := by
  refine forLoop_idx _ (fun y t => Inv y 0 t) H hH s h0 ?_
  intro y hy0 hy1 t ht
  obtain ⟨u, hu, hi⟩ := forLoop_idx (body y) (fun x t => Inv y x t) W hW t ht
    (fun x hx0 hx1 t2 ht2 => hstep y x hy0 hy1 hx0 hx1 t2 ht2)
  exact ⟨u, hu, hrow y u hy0 hy1 hi⟩

/-- Row-major order: the flat index of an earlier cell is smaller. -/
theorem flat_index_lt (W y x j i : ℤ) (hW : 0 ≤ W) (hi : i < W) (hx : 0 ≤ x)
    (h : j < y ∨ (j = y ∧ i < x)) : j * W + i < y * W + x := by
  rcases h with h | ⟨h, h2⟩
  · have h1 : (j + 1) * W ≤ y * W := Int.mul_le_mul_of_nonneg_right (by omega) hW
    have e : (j + 1) * W = j * W + W := by ring
    omega
  · subst h
    omega

/-! ## `PostprocessMask`, read back from its result -/

/-- A loop that ran to its end took the invariant of index 0 to that of index `n`, when
its body takes the invariant of index `k` to that of `k + 1` whenever it returns. -/
theorem forLoopAux_some_idx {σ : Type} (body : ℤ → σ → Option σ) (Inv : ℤ → σ → Prop) (n : ℕ)
    (s t : σ) (h0 : Inv 0 s)
    (hpres : ∀ k : ℕ, k < n → ∀ a b, Inv (k : ℤ) a → body (k : ℤ) a = some b →
      Inv ((k : ℤ) + 1) b)
    (hsome : forLoopAux body n s = some t) : Inv (n : ℤ) t := by
  induction n generalizing t with
  | zero =>
    simp only [forLoopAux, Option.some.injEq] at hsome
    subst hsome
    simpa using h0
  | succ n ih =>
    simp only [forLoopAux] at hsome
    cases hm : forLoopAux body n s with
    | none => rw [hm] at hsome; cases hsome
    | some m =>
      rw [hm, Option.some_bind] at hsome
      have im := ih m (fun k hk => hpres k (by omega)) hm
      have := hpres n (by omega) m t im hsome
      push_cast
      exact this

theorem forLoop_some_idx {σ : Type} (body : ℤ → σ → Option σ) (Inv : ℤ → σ → Prop) (n : ℤ)
    (hn : 0 ≤ n) (s t : σ) (h0 : Inv 0 s)
    (hpres : ∀ k : ℤ, 0 ≤ k → k < n → ∀ a b, Inv k a → body k a = some b → Inv (k + 1) b)
    (hsome : forLoop n body s = some t) : Inv n t := by
  unfold forLoop at hsome
  have := forLoopAux_some_idx body Inv n.toNat s t h0
    (fun k hk a b ia hb => hpres k (by omega) (by omega) a b ia hb) hsome
  have e : ((n.toNat : ℕ) : ℤ) = n := by omega
  rw [e] at this
  exact this

/-- Two nested counting loops that ran to their end, with an invariant indexed by row and
column. -/
theorem forLoop2_some_idx {σ : Type} (body : ℤ → ℤ → σ → Option σ) (Inv : ℤ → ℤ → σ → Prop)
    (H W : ℤ) (hH : 0 ≤ H) (hW : 0 ≤ W) (s t : σ) (h0 : Inv 0 0 s)
    (hrow : ∀ y a, 0 ≤ y → y < H → Inv y W a → Inv (y + 1) 0 a)
    (hstep : ∀ y x, 0 ≤ y → y < H → 0 ≤ x → x < W → ∀ a b, Inv y x a →
      body y x a = some b → Inv y (x + 1) b)
    (hsome : forLoop H (fun y => forLoop W (body y)) s = some t) : Inv H 0 t := by
  refine forLoop_some_idx _ (fun y a => Inv y 0 a) H hH s t h0 ?_ hsome
  intro y hy0 hy1 a b ia hb
  have := forLoop_some_idx (body y) (fun x a => Inv y x a) W hW a b ia
    (fun x hx0 hx1 a2 b2 ia2 hb2 => hstep y x hy0 hy1 hx0 hx1 a2 b2 ia2 hb2) hb
  exact hrow y b hy0 hy1 this

/-- The result of `RoundToInt` is an `int32`, the floor of the rounded sum `F + 0.5f`. -/
theorem RoundToInt_some (F : Flt) (N : ℤ) (h : FMath.RoundToInt F = some N) :
    isInt32 N ∧ ∃ r : ℚ, binary32.add F half = Flt.fin r ∧ N = ⌊r⌋ := by
  unfold FMath.RoundToInt at h
  cases hs : binary32.add F half with
  | fin r =>
    rw [hs] at h
    have h2 : (if isInt32 ⌊r⌋ then some ⌊r⌋ else none) = some N := h
    split_ifs at h2 with hc
    have e := Option.some.inj h2
    rw [← e]
    exact ⟨hc, r, rfl, rfl⟩
  | pinf => rw [hs] at h; cases h
  | ninf => rw [hs] at h; cases h
  | nan => rw [hs] at h; cases h

/-- Rounding keeps the sign of a non-negative value. -/
theorem Fmt.round_sign (F : Fmt) (q : ℚ) (h : 0 ≤ q) :
    (∃ r : ℚ, 0 ≤ r ∧ F.round q = Flt.fin r) ∨ F.round q = Flt.pinf := by
  unfold Fmt.round
  by_cases h0 : q = 0
  · rw [if_pos h0]
    exact Or.inl ⟨0, le_refl 0, rfl⟩
  · rw [if_neg h0]
    have hq : 0 < q := lt_of_le_of_ne h (Ne.symm h0)
    split_ifs with hov
    · exact Or.inr rfl
    · refine Or.inl ⟨_, ?_, rfl⟩
      have hu := F.ulp_pos q
      have : (0 : ℤ) ≤ roundHalfEven (q / F.ulp q) :=
        roundHalfEven_ge_int _ 0 (by push_cast; exact le_of_lt (div_pos hq hu))
      have hq2 : (0 : ℚ) ≤ (roundHalfEven (q / F.ulp q) : ℚ) := by exact_mod_cast this
      exact mul_nonneg hq2 (le_of_lt hu)

/-- The quotient of two data that are not negative is not negative (it may be `+inf` or
NaN). -/
theorem Fmt.div_sign (F : Fmt) (a b : Flt)
    (ha : (∃ q : ℚ, 0 ≤ q ∧ a = Flt.fin q) ∨ a = Flt.pinf ∨ a = Flt.nan)
    (hb : (∃ q : ℚ, 0 ≤ q ∧ b = Flt.fin q) ∨ b = Flt.pinf ∨ b = Flt.nan) :
    (∃ q : ℚ, 0 ≤ q ∧ F.div a b = Flt.fin q) ∨ F.div a b = Flt.pinf ∨ F.div a b = Flt.nan := by
  rcases ha with ⟨qa, ha0, rfl⟩ | rfl | rfl
  · rcases hb with ⟨qb, hb0, rfl⟩ | rfl | rfl
    · by_cases hz : qb = 0
      · subst hz
        by_cases hz2 : qa = 0
        · subst hz2
          exact Or.inr (Or.inr rfl)
        · have : 0 < qa := lt_of_le_of_ne ha0 (Ne.symm hz2)
          refine Or.inr (Or.inl ?_)
          show (if (0 : ℚ) = 0 then (if qa = 0 then Flt.nan else if 0 < qa then Flt.pinf
            else Flt.ninf) else F.round (qa / 0)) = Flt.pinf
          rw [if_pos rfl, if_neg hz2, if_pos this]
      · rw [Fmt.div_fin F qa qb hz]
        rcases F.round_sign (qa / qb) (div_nonneg ha0 hb0) with ⟨r, hr0, hr⟩ | hr
        · exact Or.inl ⟨r, hr0, hr⟩
        · exact Or.inr (Or.inl hr)
    · exact Or.inl ⟨0, le_refl 0, rfl⟩
    · exact Or.inr (Or.inr rfl)
  · rcases hb with ⟨qb, hb0, rfl⟩ | rfl | rfl
    · refine Or.inr (Or.inl ?_)
      show (if qb < 0 then Flt.ninf else Flt.pinf) = Flt.pinf
      rw [if_neg (not_lt.mpr hb0)]
    · exact Or.inr (Or.inr rfl)
    · exact Or.inr (Or.inr rfl)
  · rcases hb with ⟨qb, hb0, rfl⟩ | rfl | rfl
    · exact Or.inr (Or.inr rfl)
    · exact Or.inr (Or.inr rfl)
    · exact Or.inr (Or.inr rfl)

/-- The product of two data that are not negative is not negative (it may be `+inf` or
NaN). -/
theorem Fmt.mul_sign (F : Fmt) (a b : Flt)
    (ha : (∃ q : ℚ, 0 ≤ q ∧ a = Flt.fin q) ∨ a = Flt.pinf ∨ a = Flt.nan)
    (hb : (∃ q : ℚ, 0 ≤ q ∧ b = Flt.fin q) ∨ b = Flt.pinf ∨ b = Flt.nan) :
    (∃ q : ℚ, 0 ≤ q ∧ F.mul a b = Flt.fin q) ∨ F.mul a b = Flt.pinf ∨ F.mul a b = Flt.nan := by
  rcases ha with ⟨qa, ha0, rfl⟩ | rfl | rfl
  · rcases hb with ⟨qb, hb0, rfl⟩ | rfl | rfl
    · rcases F.round_sign (qa * qb) (mul_nonneg ha0 hb0) with ⟨r, hr0, hr⟩ | hr
      · exact Or.inl ⟨r, hr0, hr⟩
      · exact Or.inr (Or.inl hr)
    · by_cases hpos : 0 < qa
      · refine Or.inr (Or.inl ?_)
        simp [Fmt.mul, Flt.sign, hpos]
      · have : qa = 0 := le_antisymm (not_lt.mp hpos) ha0
        subst this
        refine Or.inr (Or.inr ?_)
        simp [Fmt.mul, Flt.sign]
    · exact Or.inr (Or.inr rfl)
  · rcases hb with ⟨qb, hb0, rfl⟩ | rfl | rfl
    · by_cases hpos : 0 < qb
      · refine Or.inr (Or.inl ?_)
        simp [Fmt.mul, Flt.sign, hpos]
      · have : qb = 0 := le_antisymm (not_lt.mp hpos) hb0
        subst this
        refine Or.inr (Or.inr ?_)
        simp [Fmt.mul, Flt.sign]
    · exact Or.inr (Or.inl rfl)
    · exact Or.inr (Or.inr rfl)
  · rcases hb with ⟨qb, hb0, rfl⟩ | rfl | rfl
    · exact Or.inr (Or.inr rfl)
    · exact Or.inr (Or.inr rfl)
    · exact Or.inr (Or.inr rfl)

/-- The conversion of an `int32` that is not negative. -/
theorem Fmt.ofInt_sign (F : Fmt) (z : ℤ) (hz : 0 ≤ z) :
    (∃ q : ℚ, 0 ≤ q ∧ F.ofInt z = Flt.fin q) ∨ F.ofInt z = Flt.pinf ∨ F.ofInt z = Flt.nan := by
  rcases F.round_sign (z : ℚ) (by exact_mod_cast hz) with ⟨r, hr0, hr⟩ | hr
  · exact Or.inl ⟨r, hr0, hr⟩
  · exact Or.inr (Or.inl hr)

/-- `RoundToInt` of a datum that is not negative is not negative. -/
theorem RoundToInt_sign (v : Flt) (N : ℤ)
    (hv : (∃ q : ℚ, 0 ≤ q ∧ v = Flt.fin q) ∨ v = Flt.pinf ∨ v = Flt.nan)
    (h : FMath.RoundToInt v = some N) : 0 ≤ N := by
  obtain ⟨_, r, hr, hN⟩ := RoundToInt_some v N h
  rcases hv with ⟨q, hq0, rfl⟩ | rfl | rfl
  · have hr2 : binary32.round (q + 1 / 2) = Flt.fin r := hr
    rcases binary32.round_sign (q + 1 / 2) (by linarith) with ⟨r2, hr20, hr3⟩ | hr3
    · rw [hr2] at hr3
      have e : r = r2 := by injection hr3
      rw [hN, e]
      exact Int.floor_nonneg.mpr hr20
    · rw [hr2] at hr3
      cases hr3
  · cases hr
  · cases hr

/-- The nearest-neighbour source coordinate `RoundToInt(x * (float(SD) / float(D)))` is not
negative, whenever it is defined, for an index and extents that are not negative. -/
theorem invScale_sign (D SD x r : ℤ) (hD : 0 ≤ D) (hSD : 0 ≤ SD) (hx : 0 ≤ x)
    (h : FMath.RoundToInt (binary32.mul (binary32.ofInt x)
      (binary32.div (binary32.ofInt SD) (binary32.ofInt D))) = some r) : 0 ≤ r :=
  RoundToInt_sign _ r
    (binary32.mul_sign _ _ (binary32.ofInt_sign x hx)
      (binary32.div_sign _ _ (binary32.ofInt_sign SD hSD) (binary32.ofInt_sign D hD))) h

/-- The canvas-bounds test on a wrapped sum agrees with the test on the exact sum, for an
index below `2^31` and an `int32` offset; inside the bounds the sum does not wrap. -/
theorem i32add_guard (x xo : ℤ) (hx0 : 0 ≤ x) (hx1 : x < 2147483648) (hxo : isInt32 xo) :
    ((0 ≤ i32add x xo ∧ i32add x xo < 1024) ↔ (0 ≤ x + xo ∧ x + xo < 1024)) ∧
    ((0 ≤ x + xo ∧ x + xo < 1024) → i32add x xo = x + xo) := by
  unfold isInt32 at hxo
  unfold i32add wrap32
  constructor
  · constructor <;> intro h <;> omega
  · intro h
    omega

/-- The crop, read back from its result: the region is empty, or it has `SH * SW` entries
(fewer than `2^31`) and entry `j * SW + i` is the canvas value at `(xo + i, yo + j)`, or 0
when that position is outside the canvas. -/
theorem cropRegion_inv (B : List ℕ) (SW SH xo yo : ℤ) (R : List ℕ)
    (hSW : SW < 2147483648) (hSH : SH < 2147483648) (hxo : isInt32 xo) (hyo : isInt32 yo)
    (h : cropRegion B SW SH xo yo = some R) :
    R = [] ∨ (0 < SH ∧ 0 < SW ∧ (R.length : ℤ) = SH * SW ∧ (R.length : ℤ) ≤ 2147483647 ∧
      ∀ j i : ℤ, 0 ≤ j → j < SH → 0 ≤ i → i < SW → ∃ v, TArray.read R (j * SW + i) = some v ∧
        ((0 ≤ i + xo ∧ i + xo < 1024 ∧ 0 ≤ j + yo ∧ j + yo < 1024) →
          TArray.read B ((j + yo) * 1024 + (i + xo)) = some v) ∧
        (¬ (0 ≤ i + xo ∧ i + xo < 1024 ∧ 0 ≤ j + yo ∧ j + yo < 1024) → v = 0)) := by
  unfold cropRegion at h
  split_ifs at h
  by_cases hSH0 : SH ≤ 0
  · left
    rw [forLoop_nonpos _ SH hSH0] at h
    exact (Option.some.inj h).symm
  by_cases hSW0 : SW ≤ 0
  · left
    refine (forLoop_some _ (fun t : List ℕ => t = []) SH [] R rfl ?_ h).1
    intro y _ _ a b ia hb
    rw [forLoop_nonpos _ SW hSW0] at hb
    rw [← Option.some.inj hb]
    exact ia
  right
  push_neg at hSH0 hSW0
  obtain ⟨hRl, hRb, hRv⟩ := forLoop2_some_idx (cropPixel B xo yo)
    (fun y x (t : List ℕ) => (t.length : ℤ) = y * SW + x ∧ (t.length : ℤ) ≤ 2147483647 ∧
      ∀ j i : ℤ, 0 ≤ j → 0 ≤ i → i < SW → (j < y ∨ (j = y ∧ i < x)) →
        ∃ v, t[(j * SW + i).toNat]? = some v ∧
          ((0 ≤ i + xo ∧ i + xo < 1024 ∧ 0 ≤ j + yo ∧ j + yo < 1024) →
            TArray.read B ((j + yo) * 1024 + (i + xo)) = some v) ∧
          (¬ (0 ≤ i + xo ∧ i + xo < 1024 ∧ 0 ≤ j + yo ∧ j + yo < 1024) → v = 0))
    SH SW (le_of_lt hSH0) (le_of_lt hSW0) [] R
    ⟨by simp, by simp, by intro j i hj hi hi2 h; omega⟩
    (by
      intro y t hy0 hy1 ht
      refine ⟨by rw [ht.1]; ring, ht.2.1, ?_⟩
      intro j i hj hi hi2 h
      exact ht.2.2 j i hj hi hi2 (by omega))
    (by
      intro y x hy0 hy1 hx0 hx1 t b ht hb
      obtain ⟨gx, ex⟩ := i32add_guard x xo hx0 (by omega) hxo
      obtain ⟨gy, ey⟩ := i32add_guard y yo hy0 (by omega) hyo
      have hyS : 0 ≤ y * SW := mul_nonneg hy0 (le_of_lt hSW0)
      have hold : ∀ (w : ℕ) (j i : ℤ), 0 ≤ j → 0 ≤ i → i < SW → (j < y ∨ (j = y ∧ i < x)) →
          (t ++ [w])[(j * SW + i).toNat]? = t[(j * SW + i).toNat]? := by
        intro w j i hj hi hi2 h
        have hlt := flat_index_lt SW y x j i (le_of_lt hSW0) hi2 hx0 h
        have hjS : 0 ≤ j * SW := mul_nonneg hj (le_of_lt hSW0)
        exact List.getElem?_append_left (by have := ht.1; omega)
      have hnew : ∀ w : ℕ, (t ++ [w])[(y * SW + x).toNat]? = some w := by
        intro w
        have e : (y * SW + x).toNat = t.length := by have := ht.1; omega
        rw [e]
        exact List.getElem?_concat_length t w
      have hlen : ∀ w : ℕ, (((t ++ [w]).length : ℕ) : ℤ) = y * SW + (x + 1) := by
        intro w
        rw [List.length_append, List.length_singleton]; push_cast; rw [ht.1]; ring
      have hlen2 : ∀ w : ℕ, (t.length : ℤ) < 2147483647 →
          (((t ++ [w]).length : ℕ) : ℤ) ≤ 2147483647 := by
        intro w hw
        rw [List.length_append, List.length_singleton]; push_cast; omega
      unfold cropPixel at hb
      by_cases hin : 0 ≤ x + xo ∧ x + xo < 1024 ∧ 0 ≤ y + yo ∧ y + yo < 1024
      · have g : 0 ≤ i32add x xo ∧ i32add x xo < 1024 ∧ 0 ≤ i32add y yo ∧
            i32add y yo < 1024 := by
          have a := gx.mpr ⟨hin.1, hin.2.1⟩
          have c := gy.mpr ⟨hin.2.2.1, hin.2.2.2⟩
          exact ⟨a.1, a.2, c.1, c.2⟩
        rw [if_pos g, ex ⟨hin.1, hin.2.1⟩, ey ⟨hin.2.2.1, hin.2.2.2⟩] at hb
        have ei : i32add (i32mul (y + yo) 1024) (x + xo) = (y + yo) * 1024 + (x + xo) := by
          rw [i32mul_eq (y + yo) 1024 (by omega) (by omega),
            i32add_eq ((y + yo) * 1024) (x + xo) (by omega) (by omega)]
        rw [ei] at hb
        cases hr : TArray.read B ((y + yo) * 1024 + (x + xo)) with
        | none => rw [hr] at hb; cases hb
        | some v =>
          rw [hr, Option.some_bind] at hb
          obtain ⟨eb, hlt⟩ := TArray.add_some _ _ _ hb
          subst eb
          refine ⟨hlen v, hlen2 v hlt, ?_⟩
          intro j i hj hi hi2 h
          by_cases hcur : j = y ∧ i = x
          · obtain ⟨rfl, rfl⟩ := hcur
            exact ⟨v, hnew v, fun _ => hr, fun hn => absurd hin hn⟩
          · rw [hold v j i hj hi hi2 (by omega)]
            exact ht.2.2 j i hj hi hi2 (by omega)
      · have g : ¬ (0 ≤ i32add x xo ∧ i32add x xo < 1024 ∧ 0 ≤ i32add y yo ∧
            i32add y yo < 1024) := by
          intro hc
          have a := gx.mp ⟨hc.1, hc.2.1⟩
          have c := gy.mp ⟨hc.2.2.1, hc.2.2.2⟩
          exact hin ⟨a.1, a.2, c.1, c.2⟩
        rw [if_neg g] at hb
        obtain ⟨eb, hlt⟩ := TArray.add_some _ _ _ hb
        subst eb
        refine ⟨hlen 0, hlen2 0 hlt, ?_⟩
        intro j i hj hi hi2 h
        by_cases hcur : j = y ∧ i = x
        · obtain ⟨rfl, rfl⟩ := hcur
          exact ⟨0, hnew 0, fun h => absurd h hin, fun _ => rfl⟩
        · rw [hold 0 j i hj hi hi2 (by omega)]
          exact ht.2.2 j i hj hi hi2 (by omega))
    h
  refine ⟨hSH0, hSW0, by rw [hRl]; ring, hRb, ?_⟩
  intro j i hj0 hj1 hi0 hi1
  obtain ⟨v, hv, h1, h2⟩ := hRv j i hj0 hi0 hi1 (Or.inl hj1)
  refine ⟨v, ?_, h1, h2⟩
  have hlt := flat_index_lt SW SH 0 j i (le_of_lt hSW0) hi1 (le_refl 0) (Or.inl hj1)
  have hjS : 0 ≤ j * SW := mul_nonneg hj0 (le_of_lt hSW0)
  unfold TArray.read
  rw [if_pos ⟨by omega, by omega⟩]
  exact hv

/-- The nearest-neighbour resize, read back from its result: `W * H` is an `int32`, the
mask has `W * H` pixels and pixel `(x, y)` is the entry of the region that the loop body
read for it. -/
theorem resizeRegion_inv (R : List ℕ) (W H SW SH : ℤ) (F : List ℕ) (hW : 0 < W) (hH : 0 < H)
    (h : resizeRegion R W H SW SH = some F) :
    (F.length : ℤ) = W * H ∧ W * H < 2147483648 ∧
      ∀ y x : ℤ, 0 ≤ y → y < H → 0 ≤ x → x < W → ∃ (rx ry : ℤ) (v : ℕ),
        FMath.RoundToInt (binary32.mul (binary32.ofInt x)
          (binary32.div (binary32.ofInt SW) (binary32.ofInt W))) = some rx ∧
        FMath.RoundToInt (binary32.mul (binary32.ofInt y)
          (binary32.div (binary32.ofInt SH) (binary32.ofInt H))) = some ry ∧
        TArray.read R (i32add (i32mul (FMath.MinInt ry (i32sub SH 1)) SW)
          (FMath.MinInt rx (i32sub SW 1))) = some v ∧
        TArray.read F (y * W + x) = some v := by
  obtain ⟨hFl, _⟩ := resizeRegion_some R W H SW SH F hW hH h
  have hWH : 0 < W * H := mul_pos hW hH
  unfold resizeRegion TArray.alloc at h
  by_cases hn : 0 ≤ i32mul W H
  swap
  · rw [if_neg hn] at h; cases h
  rw [if_pos hn] at h
  simp only [Option.bind_eq_bind, Option.some_bind] at h
  have hn2 : i32mul W H < 2147483648 := by
    unfold i32mul wrap32; omega
  -- the loops keep the length of the mask
  have hkeep : (F.length : ℤ) = i32mul W H := by
    refine (forLoop_some _ (fun t : List ℕ => (t.length : ℤ) = i32mul W H) H _ F
      (by simp only [List.length_replicate]; omega) ?_ h).1
    intro y _ _ a b ia hb
    refine (forLoop_some _ (fun t : List ℕ => (t.length : ℤ) = i32mul W H) W a b ia ?_ hb).1
    intro x _ _ a2 b2 ia2 hb2
    obtain ⟨v, rx, ry, _, _, _, hw⟩ := resizePixel_some _ _ _ _ _ _ _ _ _ _ hb2
    obtain ⟨_, _, rfl⟩ := TArray.write_some _ _ _ _ hw
    rw [List.length_set]
    exact ia2
  have h32 : W * H < 2147483648 := by omega
  obtain ⟨hl, hv⟩ := forLoop2_some_idx
    (fun y => resizePixel R W SW SH (binary32.div (binary32.ofInt SW) (binary32.ofInt W))
        (binary32.div (binary32.ofInt SH) (binary32.ofInt H)) y)
    (fun y x (t : List ℕ) => (t.length : ℤ) = W * H ∧
      ∀ j i : ℤ, 0 ≤ j → 0 ≤ i → i < W → (j < y ∨ (j = y ∧ i < x)) →
        ∃ (rx ry : ℤ) (v : ℕ),
          FMath.RoundToInt (binary32.mul (binary32.ofInt i)
            (binary32.div (binary32.ofInt SW) (binary32.ofInt W))) = some rx ∧
          FMath.RoundToInt (binary32.mul (binary32.ofInt j)
            (binary32.div (binary32.ofInt SH) (binary32.ofInt H))) = some ry ∧
          TArray.read R (i32add (i32mul (FMath.MinInt ry (i32sub SH 1)) SW)
            (FMath.MinInt rx (i32sub SW 1))) = some v ∧
          t[(j * W + i).toNat]? = some v)
    H W (le_of_lt hH) (le_of_lt hW) _ F
    ⟨by simp only [List.length_replicate]; omega, by intro j i hj hi hi2 h; omega⟩
    (by
      intro y t hy0 hy1 ht
      refine ⟨ht.1, ?_⟩
      intro j i hj hi hi2 h
      exact ht.2 j i hj hi hi2 (by omega))
    (by
      intro y x hy0 hy1 hx0 hx1 t b ht hb
      obtain ⟨v, rx, ry, hrx, hry, hr, hw⟩ := resizePixel_some _ _ _ _ _ _ _ _ _ _ hb
      have hyW : y * W ≤ (H - 1) * W := Int.mul_le_mul_of_nonneg_right (by omega) (le_of_lt hW)
      have hyW0 : 0 ≤ y * W := mul_nonneg hy0 (le_of_lt hW)
      have eHW : (H - 1) * W = W * H - W := by ring
      have ej : i32add (i32mul y W) x = y * W + x := by
        rw [i32mul_eq y W (by omega) (by omega), i32add_eq _ _ (by omega) (by omega)]
      rw [ej] at hw
      obtain ⟨_, _, rfl⟩ := TArray.write_some _ _ _ _ hw
      refine ⟨by rw [List.length_set]; exact ht.1, ?_⟩
      intro j i hj hi hi2 h
      by_cases hcur : j = y ∧ i = x
      · obtain ⟨rfl, rfl⟩ := hcur
        refine ⟨rx, ry, v, hrx, hry, hr, ?_⟩
        exact List.getElem?_set_self (by have := ht.1; omega)
      · have hlt := flat_index_lt W y x j i (le_of_lt hW) hi2 hx0 (by omega)
        have hjW : 0 ≤ j * W := mul_nonneg hj (le_of_lt hW)
        rw [List.getElem?_set_ne (by omega)]
        exact ht.2 j i hj hi hi2 (by omega))
    h
  refine ⟨hFl, h32, ?_⟩
  intro y x hy0 hy1 hx0 hx1
  obtain ⟨rx, ry, v, h1, h2, h3, h4⟩ := hv y x hy0 hx0 hx1 (Or.inl hy1)
  refine ⟨rx, ry, v, h1, h2, h3, ?_⟩
  have hlt := flat_index_lt W H 0 y x (le_of_lt hW) hx1 (le_refl 0) (Or.inl hy1)
  have hyW0 : 0 ≤ y * W := mul_nonneg hy0 (le_of_lt hW)
  have eHW : H * W = W * H := mul_comm _ _
  unfold TArray.read
  rw [if_pos ⟨by omega, by omega⟩]
  exact h4

/-- `PostprocessMask`, read back from its result.  Whenever it returns `true` (for `int32`
offsets), every output pixel `(x, y)` holds the binarised canvas value at
`(XOffset + srcX, YOffset + srcY)`, or 0 when that position is outside the canvas, where
`srcX = Min(RoundToInt(x * (float(ScaledWidth) / float(W))), ScaledWidth - 1)` and `srcY`
likewise; the rounded coordinates are not negative, so that `srcX` and `srcY` are the
rounded coordinates clamped to the region. -/
theorem PostprocessMask_inv (MaskData : List Flt) (W H : ℤ) (Scale : Flt) (xo yo : ℤ)
    (FinalMask : List ℕ) (hxo : isInt32 xo) (hyo : isInt32 yo)
    (h : PostprocessMask MaskData W H Scale xo yo = Res.ok FinalMask) :
    (MaskData.length : ℤ) = 1024 * 1024 ∧
    ∃ SW SH : ℤ,
      FMath.RoundToInt (binary32.mul (binary32.ofInt W) Scale) = some SW ∧
      FMath.RoundToInt (binary32.mul (binary32.ofInt H) Scale) = some SH ∧
      ∀ y x : ℤ, 0 ≤ y → y < H → 0 ≤ x → x < W →
        1 ≤ SW ∧ 1 ≤ SH ∧ (FinalMask.length : ℤ) = W * H ∧
        ∃ (rx ry : ℤ) (v : ℕ),
          FMath.RoundToInt (binary32.mul (binary32.ofInt x)
            (binary32.div (binary32.ofInt SW) (binary32.ofInt W))) = some rx ∧
          FMath.RoundToInt (binary32.mul (binary32.ofInt y)
            (binary32.div (binary32.ofInt SH) (binary32.ofInt H))) = some ry ∧
          0 ≤ rx ∧ 0 ≤ ry ∧
          TArray.read FinalMask (y * W + x) = some v ∧
          ((0 ≤ xo + min rx (SW - 1) ∧ xo + min rx (SW - 1) < 1024 ∧
            0 ≤ yo + min ry (SH - 1) ∧ yo + min ry (SH - 1) < 1024) →
            TArray.read (MaskData.map binarize)
              ((yo + min ry (SH - 1)) * 1024 + (xo + min rx (SW - 1))) = some v) ∧
          (¬ (0 ≤ xo + min rx (SW - 1) ∧ xo + min rx (SW - 1) < 1024 ∧
            0 ≤ yo + min ry (SH - 1) ∧ yo + min ry (SH - 1) < 1024) → v = 0) := by
  obtain ⟨hlen, SW, SH, R, hSW, hSH, hc, hr⟩ := PostprocessMask_ok_inv _ _ _ _ _ _ _ h
  refine ⟨hlen, SW, SH, hSW, hSH, ?_⟩
  intro y x hy0 hy1 hx0 hx1
  have hW : 0 < W := by omega
  have hH : 0 < H := by omega
  obtain ⟨iSW, _⟩ := RoundToInt_some _ _ hSW
  obtain ⟨iSH, _⟩ := RoundToInt_some _ _ hSH
  unfold isInt32 at iSW iSH
  obtain ⟨hFl, h32, hF⟩ := resizeRegion_inv _ W H SW SH FinalMask hW hH hr
  obtain ⟨rx, ry, v, hrx, hry, hread, hfin⟩ := hF y x hy0 hy1 hx0 hx1
  obtain ⟨hi0, hi1, _⟩ := TArray.read_some _ _ _ hread
  rcases cropRegion_inv _ SW SH xo yo _ iSW.2 iSH.2 hxo hyo hc with hnil | ⟨pSH, pSW, hRl, hRb, hR⟩
  · rw [hnil] at hi1
    simp only [List.length_nil, Nat.cast_zero] at hi1
    omega
  have hrx0 : 0 ≤ rx := invScale_sign W SW x rx (le_of_lt hW) (le_of_lt pSW) hx0 hrx
  have hry0 : 0 ≤ ry := invScale_sign H SH y ry (le_of_lt hH) (le_of_lt pSH) hy0 hry
  have eSW : i32sub SW 1 = SW - 1 := i32sub_eq SW 1 (by omega) (by omega)
  have eSH : i32sub SH 1 = SH - 1 := i32sub_eq SH 1 (by omega) (by omega)
  have mx : FMath.MinInt rx (SW - 1) = min rx (SW - 1) := by
    unfold FMath.MinInt; split_ifs <;> omega
  have my : FMath.MinInt ry (SH - 1) = min ry (SH - 1) := by
    unfold FMath.MinInt; split_ifs <;> omega
  have bx : 0 ≤ min rx (SW - 1) ∧ min rx (SW - 1) ≤ SW - 1 := by omega
  have by1 : 0 ≤ min ry (SH - 1) ∧ min ry (SH - 1) ≤ SH - 1 := by omega
  have hp0 : 0 ≤ min ry (SH - 1) * SW := mul_nonneg by1.1 (le_of_lt pSW)
  have hp1 : min ry (SH - 1) * SW ≤ (SH - 1) * SW :=
    Int.mul_le_mul_of_nonneg_right by1.2 (le_of_lt pSW)
  have eS : (SH - 1) * SW = SH * SW - SW := by ring
  rw [eSW, eSH, mx, my, i32mul_eq _ SW (by omega) (by omega),
    i32add_eq _ _ (by omega) (by omega)] at hread
  obtain ⟨v2, hv2, hin, hout⟩ := hR (min ry (SH - 1)) (min rx (SW - 1)) by1.1 (by omega) bx.1
    (by omega)
  have hvv : v2 = v := Option.some.inj (hv2.symm.trans hread)
  subst hvv
  refine ⟨by omega, by omega, hFl, rx, ry, v2, hrx, hry, hrx0, hry0, hfin, ?_, ?_⟩
  · intro hcn
    have := hin (by omega)
    rw [add_comm yo, add_comm xo]
    exact this
  · intro hcn
    exact hout (by omega)

/-- The crop, entry by entry, for extents up to 1024 and `int32` offsets: it returns a
region of `SH * SW` entries, and entry `j * SW + i` of the region is the canvas value at
`(xo + i, yo + j)`, or 0 when that position is outside the canvas. -/
theorem cropRegion_spec (B : List ℕ) (SW SH xo yo : ℤ) (hB : (B.length : ℤ) = 1048576)
    (hSW : 0 ≤ SW) (hSW2 : SW ≤ 1024) (hSH : 0 ≤ SH) (hSH2 : SH ≤ 1024)
    (hxo : isInt32 xo) (hyo : isInt32 yo) :
    ∃ R, cropRegion B SW SH xo yo = some R ∧ (R.length : ℤ) = SH * SW ∧
      ∀ j i : ℤ, 0 ≤ j → j < SH → 0 ≤ i → i < SW → ∃ v, TArray.read R (j * SW + i) = some v ∧
        ((0 ≤ i + xo ∧ i + xo < 1024 ∧ 0 ≤ j + yo ∧ j + yo < 1024) →
          TArray.read B ((j + yo) * 1024 + (i + xo)) = some v) ∧
        (¬ (0 ≤ i + xo ∧ i + xo < 1024 ∧ 0 ≤ j + yo ∧ j + yo < 1024) → v = 0) := by
  have hprod0 : 0 ≤ SW * SH := mul_nonneg hSW hSH
  have hprod1 : SW * SH ≤ 1024 * 1024 := mul_le_mul (by omega) (by omega) hSH (by norm_num)
  have hrun : ∃ R, cropRegion B SW SH xo yo = some R ∧ (R.length : ℤ) = SH * SW := by
    unfold cropRegion
    rw [if_pos (by rw [i32mul_eq SW SH (by omega) (by omega)]; exact hprod0)]
    obtain ⟨R, hR, hRl⟩ := forLoop2_idx (cropPixel B xo yo)
      (fun y x (t : List ℕ) => (t.length : ℤ) = y * SW + x) SH SW hSH hSW [] (by simp)
      (by
        intro y t hy0 hy1 ht
        rw [ht]; ring)
      (by
        intro y x hy0 hy1 hx0 hx1 t ht
        have hyS : 0 ≤ y * SW := mul_nonneg hy0 hSW
        have hyS1 : y * SW ≤ 1023 * 1024 := mul_le_mul (by omega) hSW2 hSW (by norm_num)
        have hlen : ∀ w : ℕ, (((t ++ [w]).length : ℕ) : ℤ) = y * SW + (x + 1) := by
          intro w
          rw [List.length_append, List.length_singleton]; push_cast; rw [ht]; ring
        unfold cropPixel
        by_cases hg : 0 ≤ i32add x xo ∧ i32add x xo < 1024 ∧ 0 ≤ i32add y yo ∧
            i32add y yo < 1024
        · rw [if_pos hg]
          generalize i32add x xo = X at hg ⊢
          generalize i32add y yo = Y at hg ⊢
          have ei : i32add (i32mul Y 1024) X = Y * 1024 + X := by
            rw [i32mul_eq Y 1024 (by omega) (by omega),
              i32add_eq (Y * 1024) X (by omega) (by omega)]
          obtain ⟨v, hv⟩ := TArray.read_ok B (Y * 1024 + X) (by omega) (by rw [hB]; omega)
          rw [ei, hv, Option.some_bind, TArray.add_ok t v (by rw [ht]; omega)]
          exact ⟨_, rfl, hlen v⟩
        · rw [if_neg hg, TArray.add_ok t 0 (by rw [ht]; omega)]
          exact ⟨_, rfl, hlen 0⟩)
    exact ⟨R, hR, by rw [hRl]; ring⟩
  obtain ⟨R, hR, hRl⟩ := hrun
  refine ⟨R, hR, hRl, ?_⟩
  intro j i hj0 hj1 hi0 hi1
  rcases cropRegion_inv B SW SH xo yo R (by omega) (by omega) hxo hyo hR with
    hnil | ⟨_, _, _, _, hv⟩
  · rw [hnil] at hRl
    simp only [List.length_nil, Nat.cast_zero] at hRl
    have : 0 < SH * SW := mul_pos (by omega) (by omega)
    omega
  · exact hv j i hj0 hj1 hi0 hi1

/-- The nearest-neighbour resize, pixel by pixel: pixel `(x, y)` of the result is the
entry of the region at row `Min(RoundToInt(y * InvScaleY), SH - 1)` and column
`Min(RoundToInt(x * InvScaleX), SW - 1)`. -/
theorem resizeRegion_spec (R : List ℕ) (W H SW SH : ℤ) (hW : 0 < W) (hH : 0 < H)
    (h32 : W * H < 2147483648) (hSW1 : 1 ≤ SW) (hSW2 : SW ≤ 1024) (hSH1 : 1 ≤ SH)
    (hSH2 : SH ≤ 1024) (hR : (R.length : ℤ) = SH * SW) :
    ∃ F, resizeRegion R W H SW SH = some F ∧ (F.length : ℤ) = W * H ∧
      ∀ y x : ℤ, 0 ≤ y → y < H → 0 ≤ x → x < W → ∃ (rx ry : ℤ) (v : ℕ),
        FMath.RoundToInt (binary32.mul (binary32.ofInt x)
          (binary32.div (binary32.ofInt SW) (binary32.ofInt W))) = some rx ∧
        FMath.RoundToInt (binary32.mul (binary32.ofInt y)
          (binary32.div (binary32.ofInt SH) (binary32.ofInt H))) = some ry ∧
        0 ≤ rx ∧ 0 ≤ ry ∧
        TArray.read R (FMath.MinInt ry (SH - 1) * SW + FMath.MinInt rx (SW - 1)) = some v ∧
        TArray.read F (y * W + x) = some v := by
  have hWH : 0 < W * H := mul_pos hW hH
  have hW2 : W < 2147483648 := by nlinarith
  have hH2 : H < 2147483648 := by nlinarith
  have eSW : i32sub SW 1 = SW - 1 := i32sub_eq SW 1 (by omega) (by omega)
  have eSH : i32sub SH 1 = SH - 1 := i32sub_eq SH 1 (by omega) (by omega)
  unfold resizeRegion TArray.alloc
  rw [i32mul_eq W H (by omega) (by omega), if_pos (le_of_lt hWH)]
  simp only [Option.bind_eq_bind, Option.some_bind]
  obtain ⟨F, hF, hFl, hFv⟩ := forLoop2_idx
    (fun y => resizePixel R W SW SH (binary32.div (binary32.ofInt SW) (binary32.ofInt W))
        (binary32.div (binary32.ofInt SH) (binary32.ofInt H)) y)
    (fun y x (t : List ℕ) => (t.length : ℤ) = W * H ∧
      ∀ j i : ℤ, 0 ≤ j → 0 ≤ i → i < W → (j < y ∨ (j = y ∧ i < x)) →
        ∃ (rx ry : ℤ) (v : ℕ),
          FMath.RoundToInt (binary32.mul (binary32.ofInt i)
            (binary32.div (binary32.ofInt SW) (binary32.ofInt W))) = some rx ∧
          FMath.RoundToInt (binary32.mul (binary32.ofInt j)
            (binary32.div (binary32.ofInt SH) (binary32.ofInt H))) = some ry ∧
          0 ≤ rx ∧ 0 ≤ ry ∧
          TArray.read R (FMath.MinInt ry (SH - 1) * SW + FMath.MinInt rx (SW - 1)) = some v ∧
          t[(j * W + i).toNat]? = some v)
    H W (le_of_lt hH) (le_of_lt hW) (List.replicate (W * H).toNat 0)
    ⟨by rw [List.length_replicate]; omega, by intro j i hj hi hi2 h; omega⟩
    (by
      intro y t hy0 hy1 ht
      refine ⟨ht.1, ?_⟩
      intro j i hj hi hi2 h
      exact ht.2 j i hj hi hi2 (by omega))
    (by
      intro y x hy0 hy1 hx0 hx1 t ht
      obtain ⟨ry, hry, hry0⟩ := invScale_round H SH y hH hH2 hSH1 hSH2 hy0 hy1
      obtain ⟨rx, hrx, hrx0⟩ := invScale_round W SW x hW hW2 hSW1 hSW2 hx0 hx1
      have hyW : y * W ≤ (H - 1) * W := Int.mul_le_mul_of_nonneg_right (by omega) (le_of_lt hW)
      have hyW0 : 0 ≤ y * W := mul_nonneg hy0 (le_of_lt hW)
      have eHW : (H - 1) * W = W * H - W := by ring
      obtain ⟨sx0, sx1⟩ := MinInt_bounds rx SW hrx0 hSW1 hSW2
      obtain ⟨sy0, sy1⟩ := MinInt_bounds ry SH hry0 hSH1 hSH2
      rw [eSW] at sx0 sx1
      rw [eSH] at sy0 sy1
      have hp0 : 0 ≤ FMath.MinInt ry (SH - 1) * SW := mul_nonneg sy0 (by omega)
      have hp1 : FMath.MinInt ry (SH - 1) * SW ≤ (SH - 1) * SW :=
        Int.mul_le_mul_of_nonneg_right sy1 (by omega)
      have hp2 : SH * SW ≤ 1024 * 1024 := mul_le_mul hSH2 hSW2 (by omega) (by norm_num)
      have eS : (SH - 1) * SW = SH * SW - SW := by ring
      have ei : i32add (i32mul (FMath.MinInt ry (SH - 1)) SW) (FMath.MinInt rx (SW - 1))
          = FMath.MinInt ry (SH - 1) * SW + FMath.MinInt rx (SW - 1) := by
        rw [i32mul_eq _ SW (by omega) (by omega), i32add_eq _ _ (by omega) (by omega)]
      obtain ⟨v, hv⟩ := TArray.read_ok R
        (FMath.MinInt ry (SH - 1) * SW + FMath.MinInt rx (SW - 1)) (by omega)
        (by rw [hR]; omega)
      have ej : i32add (i32mul y W) x = y * W + x := by
        rw [i32mul_eq y W (by omega) (by omega), i32add_eq _ _ (by omega) (by omega)]
      unfold resizePixel
      simp only [hrx, hry, Option.bind_eq_bind, Option.some_bind, eSW, eSH, ei, hv, ej]
      rw [TArray.write_ok _ _ _ (by omega) (by rw [ht.1]; omega)]
      refine ⟨_, rfl, by rw [List.length_set]; exact ht.1, ?_⟩
      intro j i hj hi hi2 h
      by_cases hcur : j = y ∧ i = x
      · obtain ⟨rfl, rfl⟩ := hcur
        refine ⟨rx, ry, v, hrx, hry, hrx0, hry0, hv, ?_⟩
        exact List.getElem?_set_self (by have := ht.1; omega)
      · have hlt := flat_index_lt W y x j i (le_of_lt hW) hi2 hx0 (by omega)
        have hjW : 0 ≤ j * W := mul_nonneg hj (le_of_lt hW)
        rw [List.getElem?_set_ne (by omega)]
        exact ht.2 j i hj hi hi2 (by omega))
  refine ⟨F, hF, hFl, ?_⟩
  intro y x hy0 hy1 hx0 hx1
  obtain ⟨rx, ry, v, h1, h2, h3, h4, h5, h6⟩ := hFv y x hy0 hx0 hx1 (Or.inl hy1)
  refine ⟨rx, ry, v, h1, h2, h3, h4, h5, ?_⟩
  have hlt := flat_index_lt W H 0 y x (le_of_lt hW) hx1 (le_refl 0) (Or.inl hy1)
  have hyW0 : 0 ≤ y * W := mul_nonneg hy0 (le_of_lt hW)
  have eHW : H * W = W * H := mul_comm _ _
  unfold TArray.read
  rw [if_pos ⟨by omega, by omega⟩]
  exact h6

/-- `PostprocessMask`, pixel by pixel. -/
theorem PostprocessMask_spec (MaskData : List Flt) (W H : ℤ) (Scale : Flt)
    (xo yo SW SH : ℤ) (hlen : (MaskData.length : ℤ) = 1024 * 1024) (hW : 0 < W) (hH : 0 < H)
    (h32 : W * H < 2147483648)
    (hSW : FMath.RoundToInt (binary32.mul (binary32.ofInt W) Scale) = some SW)
    (hSH : FMath.RoundToInt (binary32.mul (binary32.ofInt H) Scale) = some SH)
    (hSW1 : 1 ≤ SW) (hSW2 : SW ≤ 1024) (hSH1 : 1 ≤ SH) (hSH2 : SH ≤ 1024)
    (hxo : isInt32 xo) (hyo : isInt32 yo) :
    ∃ FinalMask, PostprocessMask MaskData W H Scale xo yo = Res.ok FinalMask ∧
      (FinalMask.length : ℤ) = W * H ∧
      ∀ y x : ℤ, 0 ≤ y → y < H → 0 ≤ x → x < W → ∃ (rx ry : ℤ) (v : ℕ),
        FMath.RoundToInt (binary32.mul (binary32.ofInt x)
          (binary32.div (binary32.ofInt SW) (binary32.ofInt W))) = some rx ∧
        FMath.RoundToInt (binary32.mul (binary32.ofInt y)
          (binary32.div (binary32.ofInt SH) (binary32.ofInt H))) = some ry ∧
        0 ≤ FMath.MinInt rx (SW - 1) ∧ FMath.MinInt rx (SW - 1) ≤ SW - 1 ∧
        0 ≤ FMath.MinInt ry (SH - 1) ∧ FMath.MinInt ry (SH - 1) ≤ SH - 1 ∧
        FMath.MinInt rx (SW - 1) = max 0 (min rx (SW - 1)) ∧
        FMath.MinInt ry (SH - 1) = max 0 (min ry (SH - 1)) ∧
        TArray.read FinalMask (y * W + x) = some v ∧
        ((0 ≤ xo + FMath.MinInt rx (SW - 1) ∧ xo + FMath.MinInt rx (SW - 1) < 1024 ∧
          0 ≤ yo + FMath.MinInt ry (SH - 1) ∧ yo + FMath.MinInt ry (SH - 1) < 1024) →
          TArray.read (MaskData.map binarize)
            ((yo + FMath.MinInt ry (SH - 1)) * 1024 + (xo + FMath.MinInt rx (SW - 1)))
            = some v) ∧
        (¬ (0 ≤ xo + FMath.MinInt rx (SW - 1) ∧ xo + FMath.MinInt rx (SW - 1) < 1024 ∧
          0 ≤ yo + FMath.MinInt ry (SH - 1) ∧ yo + FMath.MinInt ry (SH - 1) < 1024) →
          v = 0) := by
  obtain ⟨R, hR, hRl, hRv⟩ := cropRegion_spec (MaskData.map binarize) SW SH xo yo
    (by rw [List.length_map, hlen]; norm_num) (by omega) hSW2 (by omega) hSH2 hxo hyo
  obtain ⟨F, hF, hFl, hFv⟩ := resizeRegion_spec R W H SW SH hW hH h32 hSW1 hSW2 hSH1 hSH2 hRl
  refine ⟨F, ?_, hFl, ?_⟩
  · unfold PostprocessMask
    rw [if_neg (not_not.mpr hlen)]
    simp only [hSW, hSH, hR, Option.some_bind, hF]
  · intro y x hy0 hy1 hx0 hx1
    obtain ⟨rx, ry, v, h1, h2, h3, h4, h5, h6⟩ := hFv y x hy0 hy1 hx0 hx1
    have bx : 0 ≤ FMath.MinInt rx (SW - 1) ∧ FMath.MinInt rx (SW - 1) ≤ SW - 1 := by
      unfold FMath.MinInt; split_ifs <;> omega
    have by1 : 0 ≤ FMath.MinInt ry (SH - 1) ∧ FMath.MinInt ry (SH - 1) ≤ SH - 1 := by
      unfold FMath.MinInt; split_ifs <;> omega
    have cx : FMath.MinInt rx (SW - 1) = max 0 (min rx (SW - 1)) := by
      unfold FMath.MinInt; split_ifs <;> omega
    have cy : FMath.MinInt ry (SH - 1) = max 0 (min ry (SH - 1)) := by
      unfold FMath.MinInt; split_ifs <;> omega
    obtain ⟨v2, hv2, hin, hout⟩ := hRv (FMath.MinInt ry (SH - 1)) (FMath.MinInt rx (SW - 1))
      by1.1 (by omega) bx.1 (by omega)
    have hvv : v2 = v := Option.some.inj (hv2.symm.trans h5)
    subst hvv
    refine ⟨rx, ry, v2, h1, h2, bx.1, bx.2, by1.1, by1.2, cx, cy, h6, ?_, ?_⟩
    · intro hc
      have := hin (by omega)
      rw [add_comm yo, add_comm xo]
      exact this
    · intro hc
      exact hout (by omega)

/-! ## The resampling, pixel by pixel -/

theorem bilinearChannel_eq (img : List Flt) (W x0 y0 x1 y1 : ℤ) (wx wy : Flt)
    (D c : ℤ) (canvas : List Flt) (p00 p01 p10 p11 : Flt)
    (h00 : TArray.read img (i32add (i32mul (i32add (i32mul y0 W) x0) 3) c) = some p00)
    (h01 : TArray.read img (i32add (i32mul (i32add (i32mul y0 W) x1) 3) c) = some p01)
    (h10 : TArray.read img (i32add (i32mul (i32add (i32mul y1 W) x0) 3) c) = some p10)
    (h11 : TArray.read img (i32add (i32mul (i32add (i32mul y1 W) x1) 3) c) = some p11)
    (hd0 : 0 ≤ D + c) (hd1 : D + c < (canvas.length : ℤ)) (hd2 : D + c < 2147483648) :
    bilinearChannel img W x0 y0 x1 y1 wx wy D c canvas
      = some (canvas.set (D + c).toNat (InterpolatedValue p00 p01 p10 p11 wx wy)) := by
  have hi : i32add D c = D + c := i32add_eq _ _ (by omega) (by omega)
  unfold bilinearChannel
  simp only [h00, h01, h10, h11, Option.bind_eq_bind, Option.some_bind, hi]
  rw [TArray.write_ok _ _ _ hd0 hd1]
  rfl

theorem sampleBilinear_eq (img : List Flt) (W H : ℤ) (s : Flt) (y x c kx ky : ℤ)
    (p00 p01 p10 p11 : Flt)
    (hfx : FMath.FloorToInt (binary32.div (binary32.ofInt x) s) = some kx)
    (hfy : FMath.FloorToInt (binary32.div (binary32.ofInt y) s) = some ky)
    (h00 : TArray.read img (i32add (i32mul (i32add (i32mul ky W) kx) 3) c) = some p00)
    (h01 : TArray.read img (i32add (i32mul (i32add (i32mul ky W)
      (FMath.MinInt (i32add kx 1) (i32sub W 1))) 3) c) = some p01)
    (h10 : TArray.read img (i32add (i32mul (i32add (i32mul
      (FMath.MinInt (i32add ky 1) (i32sub H 1)) W) kx) 3) c) = some p10)
    (h11 : TArray.read img (i32add (i32mul (i32add (i32mul
      (FMath.MinInt (i32add ky 1) (i32sub H 1)) W)
      (FMath.MinInt (i32add kx 1) (i32sub W 1))) 3) c) = some p11) :
    sampleBilinear img W H s y x c
      = some (InterpolatedValue p00 p01 p10 p11
          (binary32.sub (binary32.div (binary32.ofInt x) s) (binary32.ofInt kx))
          (binary32.sub (binary32.div (binary32.ofInt y) s) (binary32.ofInt ky))) := by
  unfold sampleBilinear
  simp only [hfx, hfy, h00, h01, h10, h11, Option.bind_eq_bind, Option.some_bind]

/-- The clamped upper neighbour of a source index is inside the image. -/
theorem upperNeighbour_bounds (k D : ℤ) (hD : D < 2147483648) (hk0 : 0 ≤ k) (hk : k ≤ D - 1) :
    0 ≤ FMath.MinInt (i32add k 1) (i32sub D 1) ∧ FMath.MinInt (i32add k 1) (i32sub D 1) ≤ D - 1 ∧
    FMath.MinInt (i32add k 1) (i32sub D 1) = min (k + 1) (D - 1) := by
  rw [i32add_eq k 1 (by omega) (by omega), i32sub_eq D 1 (by omega) (by omega)]
  unfold FMath.MinInt
  split_ifs <;> omega

/-- One pixel of the resampling: the three channels of canvas pixel `(x + xo, y + yo)`
receive the interpolated values, everything else is kept. -/
theorem resamplePixel_spec (img : List Flt) (W H : ℤ) (s : Flt) (xo yo y x : ℤ)
    (t : List Flt) (kx ky : ℤ) (hlen : (img.length : ℤ) = W * H * 3)
    (h32 : W * H * 3 < 2147483648) (hW : 0 < W) (hH : 0 < H)
    (hcv : t.length = 3145728)
    (hfx : FMath.FloorToInt (binary32.div (binary32.ofInt x) s) = some kx)
    (hfy : FMath.FloorToInt (binary32.div (binary32.ofInt y) s) = some ky)
    (hkx : 0 ≤ kx ∧ kx ≤ W - 1) (hky : 0 ≤ ky ∧ ky ≤ H - 1)
    (hx : 0 ≤ x + xo ∧ x + xo < 1024) (hy : 0 ≤ y + yo ∧ y + yo < 1024) :
    ∃ u, resamplePixel img W H s xo yo y x t = some u ∧ u.length = 3145728 ∧
      (∀ c : ℤ, 0 ≤ c → c < 3 → ∃ v, sampleBilinear img W H s y x c = some v ∧
        u[(((y + yo) * 1024 + (x + xo)) * 3 + c).toNat]? = some v) ∧
      (∀ n : ℕ, ((n : ℤ) < ((y + yo) * 1024 + (x + xo)) * 3 ∨
        ((y + yo) * 1024 + (x + xo)) * 3 + 3 ≤ (n : ℤ)) → u[n]? = t[n]?) := by
  have hW2 : W < 2147483648 := by nlinarith
  have hH2 : H < 2147483648 := by nlinarith
  have ex : i32add x xo = x + xo := i32add_eq _ _ (by omega) (by omega)
  have ey : i32add y yo = y + yo := i32add_eq _ _ (by omega) (by omega)
  have hg : 0 ≤ i32add x xo ∧ i32add x xo < TargetSize ∧ 0 ≤ i32add y yo ∧
      i32add y yo < TargetSize := by
    rw [ex, ey]
    simp only [TargetSize]
    omega
  have hd : i32mul (i32add (i32mul (i32add y yo) TargetSize) (i32add x xo)) 3
      = ((y + yo) * 1024 + (x + xo)) * 3 := by
    rw [ex, ey]
    simp only [TargetSize]
    rw [i32mul_eq (y + yo) 1024 (by omega) (by omega),
      i32add_eq ((y + yo) * 1024) (x + xo) (by omega) (by omega),
      i32mul_eq ((y + yo) * 1024 + (x + xo)) 3 (by omega) (by omega)]
  obtain ⟨hx1a, hx1b, _⟩ := upperNeighbour_bounds kx W hW2 hkx.1 hkx.2
  obtain ⟨hy1a, hy1b, _⟩ := upperNeighbour_bounds ky H hH2 hky.1 hky.2
  unfold resamplePixel
  simp only [hfx, hfy, Option.bind_eq_bind, Option.some_bind]
  rw [if_pos hg, hd]
  generalize hD : ((y + yo) * 1024 + (x + xo)) * 3 = D
  have hD0 : 0 ≤ D := by omega
  have hD1 : D + 2 < 3145728 := by omega
  obtain ⟨u, hu, hul, huw, huf⟩ := forLoop_idx
    (bilinearChannel img W kx ky (FMath.MinInt (i32add kx 1) (i32sub W 1))
      (FMath.MinInt (i32add ky 1) (i32sub H 1))
      (binary32.sub (binary32.div (binary32.ofInt x) s) (binary32.ofInt kx))
      (binary32.sub (binary32.div (binary32.ofInt y) s) (binary32.ofInt ky)) D)
    (fun c (a : List Flt) => a.length = 3145728 ∧
      (∀ c2 : ℤ, 0 ≤ c2 → c2 < c → ∃ v, sampleBilinear img W H s y x c2 = some v ∧
        a[(D + c2).toNat]? = some v) ∧
      (∀ n : ℕ, ((n : ℤ) < D ∨ D + 3 ≤ (n : ℤ)) → a[n]? = t[n]?))
    3 (by norm_num) t ⟨hcv, by intro c2 h0 h1; omega, fun _ _ => rfl⟩ (by
      intro c hc0 hc1 a ha
      obtain ⟨p00, h00⟩ := srcRead_ok img W H ky kx c hlen h32 hW hky.1 hky.2 hkx.1 hkx.2 hc0 hc1
      obtain ⟨p01, h01⟩ := srcRead_ok img W H ky _ c hlen h32 hW hky.1 hky.2 hx1a hx1b hc0 hc1
      obtain ⟨p10, h10⟩ := srcRead_ok img W H _ kx c hlen h32 hW hy1a hy1b hkx.1 hkx.2 hc0 hc1
      obtain ⟨p11, h11⟩ := srcRead_ok img W H _ _ c hlen h32 hW hy1a hy1b hx1a hx1b hc0 hc1
      have hb := bilinearChannel_eq img W kx ky _ _
        (binary32.sub (binary32.div (binary32.ofInt x) s) (binary32.ofInt kx))
        (binary32.sub (binary32.div (binary32.ofInt y) s) (binary32.ofInt ky))
        D c a p00 p01 p10 p11 h00 h01 h10 h11 (by omega) (by rw [ha.1]; push_cast; omega)
        (by omega)
      have hs := sampleBilinear_eq img W H s y x c kx ky p00 p01 p10 p11 hfx hfy h00 h01 h10 h11
      refine ⟨_, hb, by rw [List.length_set]; exact ha.1, ?_, ?_⟩
      · intro c2 h0 h1
        by_cases hc2 : c2 = c
        · subst hc2
          exact ⟨_, hs, List.getElem?_set_self (by rw [ha.1]; omega)⟩
        · rw [List.getElem?_set_ne (by omega)]
          exact ha.2.1 c2 h0 (by omega)
      · intro n hn
        rw [List.getElem?_set_ne (by omega)]
        exact ha.2.2 n hn)
  exact ⟨u, hu, hul, fun c h0 h1 => huw c h0 h1, huf⟩

/-- The resampling loops on a footprint inside the canvas: pixel `(x + xo, y + yo)` of
the canvas receives the interpolated values of destination pixel `(x, y)`; no other
element of the canvas changes. -/
theorem resampleImage_spec (img : List Flt) (W H : ℤ) (s : Flt) (NW NH xo yo : ℤ)
    (canvas : List Flt) (hlen : (img.length : ℤ) = W * H * 3)
    (h32 : W * H * 3 < 2147483648) (hW : 0 < W) (hH : 0 < H)
    (hcv : canvas.length = 3145728) (hNW : 0 ≤ NW) (hNH : 0 ≤ NH)
    (hxo : 0 ≤ xo) (hxo2 : xo + NW ≤ 1024) (hyo : 0 ≤ yo) (hyo2 : yo + NH ≤ 1024)
    (hsx : ∀ x : ℤ, 0 ≤ x → x < NW → ∃ kx,
      FMath.FloorToInt (binary32.div (binary32.ofInt x) s) = some kx ∧ 0 ≤ kx ∧ kx ≤ W - 1)
    (hsy : ∀ y : ℤ, 0 ≤ y → y < NH → ∃ ky,
      FMath.FloorToInt (binary32.div (binary32.ofInt y) s) = some ky ∧ 0 ≤ ky ∧ ky ≤ H - 1) :
    ∃ u, resampleImage img W H s NW NH xo yo canvas = some u ∧ u.length = 3145728 ∧
      (∀ y x c : ℤ, 0 ≤ y → y < NH → 0 ≤ x → x < NW → 0 ≤ c → c < 3 →
        ∃ v, sampleBilinear img W H s y x c = some v ∧
          TArray.read u (((y + yo) * 1024 + (x + xo)) * 3 + c) = some v) ∧
      (∀ Y X c : ℤ, 0 ≤ Y → Y < 1024 → 0 ≤ X → X < 1024 → 0 ≤ c → c < 3 →
        ¬ (yo ≤ Y ∧ Y < yo + NH ∧ xo ≤ X ∧ X < xo + NW) →
        TArray.read u ((Y * 1024 + X) * 3 + c) = TArray.read canvas ((Y * 1024 + X) * 3 + c)) := by
  unfold resampleImage
  obtain ⟨u, hu, hul, huw, huf⟩ := forLoop2_idx
    (fun y x => resamplePixel img W H s xo yo y x)
    (fun y x (t : List Flt) => t.length = 3145728 ∧
      (∀ j i c : ℤ, 0 ≤ j → 0 ≤ i → i < NW → 0 ≤ c → c < 3 → (j < y ∨ (j = y ∧ i < x)) →
        ∃ v, sampleBilinear img W H s j i c = some v ∧
          t[(((j + yo) * 1024 + (i + xo)) * 3 + c).toNat]? = some v) ∧
      (∀ n : ℕ, (∀ j i c : ℤ, 0 ≤ j → j < NH → 0 ≤ i → i < NW → 0 ≤ c → c < 3 →
          (n : ℤ) ≠ ((j + yo) * 1024 + (i + xo)) * 3 + c) → t[n]? = canvas[n]?))
    NH NW hNH hNW canvas
    ⟨hcv, by intro j i c hj hi hi2 hc hc2 h; omega, fun _ _ => rfl⟩
    (by
      intro y t hy0 hy1 ht
      refine ⟨ht.1, ?_, ht.2.2⟩
      intro j i c hj hi hi2 hc hc2 h
      exact ht.2.1 j i c hj hi hi2 hc hc2 (by omega))
    (by
      intro y x hy0 hy1 hx0 hx1 t ht
      obtain ⟨kx, hfx, hkx⟩ := hsx x hx0 hx1
      obtain ⟨ky, hfy, hky⟩ := hsy y hy0 hy1
      obtain ⟨u, hu, hul, huw, huf⟩ := resamplePixel_spec img W H s xo yo y x t kx ky hlen h32
        hW hH ht.1 hfx hfy hkx hky ⟨by omega, by omega⟩ ⟨by omega, by omega⟩
      refine ⟨u, hu, hul, ?_, ?_⟩
      · intro j i c hj hi hi2 hc hc2 h
        by_cases hcur : j = y ∧ i = x
        · obtain ⟨rfl, rfl⟩ := hcur
          exact huw c hc hc2
        · obtain ⟨v, hv, hget⟩ := ht.2.1 j i c hj hi hi2 hc hc2 (by omega)
          refine ⟨v, hv, ?_⟩
          rw [huf _ (by omega)]
          exact hget
      · intro n hn
        have h0 := hn y x 0 hy0 hy1 hx0 hx1 (by norm_num) (by norm_num)
        have h1 := hn y x 1 hy0 hy1 hx0 hx1 (by norm_num) (by norm_num)
        have h2 := hn y x 2 hy0 hy1 hx0 hx1 (by norm_num) (by norm_num)
        rw [huf n (by omega)]
        exact ht.2.2 n hn)
  refine ⟨u, hu, hul, ?_, ?_⟩
  · intro y x c hy0 hy1 hx0 hx1 hc0 hc1
    obtain ⟨v, hv, hget⟩ := huw y x c hy0 hx0 hx1 hc0 hc1 (Or.inl hy1)
    refine ⟨v, hv, ?_⟩
    unfold TArray.read
    rw [if_pos ⟨by omega, by rw [hul]; push_cast; omega⟩]
    exact hget
  · intro Y X c hY0 hY1 hX0 hX1 hc0 hc1 hout
    have hidx : 0 ≤ (Y * 1024 + X) * 3 + c ∧ (Y * 1024 + X) * 3 + c < 3145728 := by omega
    unfold TArray.read
    rw [if_pos ⟨hidx.1, by rw [hul]; push_cast; omega⟩,
      if_pos ⟨hidx.1, by rw [hcv]; push_cast; omega⟩]
    refine huf _ ?_
    intro j i c2 hj0 hj1 hi0 hi1 hc20 hc21
    have e : (((Y * 1024 + X) * 3 + c).toNat : ℤ) = (Y * 1024 + X) * 3 + c := by omega
    rw [e]
    omega

/-- Every element of the fresh canvas is zero. -/
theorem alloc_canvas_zero (cv : List Flt)
    (h : TArray.alloc (TargetSize * TargetSize * 3) (Flt.fin 0) = some cv) :
    cv.length = 3145728 ∧ ∀ i : ℤ, 0 ≤ i → i < 3145728 → TArray.read cv i = some (Flt.fin 0) := by
  have e : (TargetSize * TargetSize * 3).toNat = 3145728 := by
    simp only [TargetSize]; omega
  unfold TArray.alloc at h
  split_ifs at h
  rw [e] at h
  have hc := Option.some.inj h
  have hl : cv.length = 3145728 := by rw [← hc, List.length_replicate]
  refine ⟨hl, ?_⟩
  intro i hi0 hi1
  unfold TArray.read
  rw [if_pos ⟨hi0, by rw [hl]; push_cast; omega⟩, ← hc, List.getElem?_replicate,
    if_pos (by omega)]

/-- `PreprocessImage` on a well-formed image, stage by stage: the geometry, the canvas
after the resampling (interpolated values inside the footprint, zero outside) and the
tensor (normalised, channel-major). -/
theorem PreprocessImage_stages (img : List Flt) (W H : ℤ) (hW : 0 < W) (hH : 0 < H)
    (hlen : (img.length : ℤ) = W * H * 3) (h32 : W * H * 3 < 2147483648) :
    ∃ (data canvas resized : List Flt) (NW NH : ℤ),
      PreprocessImage img W H =
        Res.ok ⟨data, letterboxScale W H, (1024 - NW) / 2, (1024 - NH) / 2⟩ ∧
      FMath.RoundToInt (binary32.mul (binary32.ofInt W) (letterboxScale W H)) = some NW ∧
      FMath.RoundToInt (binary32.mul (binary32.ofInt H) (letterboxScale W H)) = some NH ∧
      0 ≤ NW ∧ NW ≤ 1024 ∧ 0 ≤ NH ∧ NH ≤ 1024 ∧
      TArray.alloc (TargetSize * TargetSize * 3) (Flt.fin 0) = some canvas ∧
      resampleImage img W H (letterboxScale W H) NW NH ((1024 - NW) / 2) ((1024 - NH) / 2)
        canvas = some resized ∧
      resized.length = 3145728 ∧ data.length = 3145728 ∧
      (∀ y x c : ℤ, 0 ≤ y → y < NH → 0 ≤ x → x < NW → 0 ≤ c → c < 3 →
        ∃ v, sampleBilinear img W H (letterboxScale W H) y x c = some v ∧
          TArray.read resized (((y + (1024 - NH) / 2) * 1024 + (x + (1024 - NW) / 2)) * 3 + c)
            = some v) ∧
      (∀ Y X c : ℤ, 0 ≤ Y → Y < 1024 → 0 ≤ X → X < 1024 → 0 ≤ c → c < 3 →
        ¬ ((1024 - NH) / 2 ≤ Y ∧ Y < (1024 - NH) / 2 + NH ∧
          (1024 - NW) / 2 ≤ X ∧ X < (1024 - NW) / 2 + NW) →
        TArray.read resized ((Y * 1024 + X) * 3 + c) = some (Flt.fin 0)) ∧
      (∀ Y X c : ℤ, 0 ≤ Y → Y < 1024 → 0 ≤ X → X < 1024 → 0 ≤ c → c < 3 →
        ∃ v, TArray.read resized ((Y * 1024 + X) * 3 + c) = some v ∧
          TArray.read data (c * 1048576 + Y * 1024 + X)
            = some (binary32.div (binary32.sub v (Mean c)) (Std c))) := by
  have hWH : 0 < W * H := mul_pos hW hH
  have hW2 : W < 2147483648 := by nlinarith
  have hH2 : H < 2147483648 := by nlinarith
  obtain ⟨data, NW, NH, hok, hdl, hnw, hnh, nw0, nw1, nh0, nh1, _, _⟩ :=
    PreprocessImage_ok img W H hW hH hlen h32
  obtain ⟨s, NW2, NH2, hs, _, hnw2, hnh2, _, _, _, _, hsx, hsy⟩ :=
    letterbox_sources W H hW hW2 hH hH2
  have eNW : NW2 = NW := Option.some.inj (hnw2.symm.trans hnw)
  have eNH : NH2 = NH := Option.some.inj (hnh2.symm.trans hnh)
  subst eNW; subst eNH
  obtain ⟨_, _, NW3, NH3, hnw3, hnh3, _, _, hbt⟩ := PreprocessImage_ok_inv img W H _ hok
  have eNW : NW3 = NW2 := Option.some.inj (hnw3.symm.trans hnw)
  have eNH : NH3 = NH2 := Option.some.inj (hnh3.symm.trans hnh)
  subst eNW; subst eNH
  dsimp only at hbt
  obtain ⟨canvas, resized, ha, hr, hrl, hdl2, hpt⟩ := buildTensor_spec _ _ _ _ _ _ _ _ _ hbt
  obtain ⟨hcl, hzero⟩ := alloc_canvas_zero canvas ha
  obtain ⟨u, hu, hul, huw, huf⟩ := resampleImage_spec img W H (letterboxScale W H) NW3 NH3
    ((1024 - NW3) / 2) ((1024 - NH3) / 2) canvas hlen h32 hW hH hcl nw0 nh0
    (by omega) (by omega) (by omega) (by omega)
    (by
      intro x hx0 hx1
      obtain ⟨v, kx, hv, hk, _, k0, k1, _⟩ := hsx x hx0 hx1
      exact ⟨kx, by rw [hs, hv]; exact hk, k0, k1⟩)
    (by
      intro y hy0 hy1
      obtain ⟨v, ky, hv, hk, _, k0, k1, _⟩ := hsy y hy0 hy1
      exact ⟨ky, by rw [hs, hv]; exact hk, k0, k1⟩)
  have eu : u = resized := Option.some.inj (hu.symm.trans hr)
  subst eu
  refine ⟨data, canvas, u, NW3, NH3, hok, hnw, hnh, nw0, nw1, nh0, nh1, ha, hr, hrl, hdl2, huw,
    ?_, ?_⟩
  · intro Y X c hY0 hY1 hX0 hX1 hc0 hc1 hout
    rw [huf Y X c hY0 hY1 hX0 hX1 hc0 hc1 (by omega)]
    exact hzero _ (by omega) (by omega)
  · intro Y X c hY0 hY1 hX0 hX1 hc0 hc1
    obtain ⟨v, hv, hd⟩ := hpt c.toNat Y.toNat X.toNat (by omega) (by omega) (by omega)
    have ec : ((c.toNat : ℕ) : ℤ) = c := by omega
    rw [ec] at hd
    refine ⟨v, ?_, ?_⟩
    · unfold TArray.read
      rw [if_pos ⟨by omega, by rw [hrl]; push_cast; omega⟩]
      have e : ((Y * 1024 + X) * 3 + c).toNat = (Y.toNat * 1024 + X.toNat) * 3 + c.toNat := by
        omega
      rw [e]
      exact hv
    · unfold TArray.read
      rw [if_pos ⟨by omega, by rw [hdl2]; push_cast; omega⟩]
      have e : (c * 1048576 + Y * 1024 + X).toNat = c.toNat * 1048576 + Y.toNat * 1024 + X.toNat := by
        omega
      rw [e]
      exact hd

/-- The flat index of a source sample, without wrap-around. -/
theorem srcIndex_eq (W H ky kx c : ℤ) (h32 : W * H * 3 < 2147483648) (hW : 0 < W)
    (hky0 : 0 ≤ ky) (hky : ky ≤ H - 1) (hkx0 : 0 ≤ kx) (hkx : kx ≤ W - 1) (hc0 : 0 ≤ c)
    (hc : c < 3) :
    i32add (i32mul (i32add (i32mul ky W) kx) 3) c = (ky * W + kx) * 3 + c ∧
      0 ≤ (ky * W + kx) * 3 + c ∧ (ky * W + kx) * 3 + c < W * H * 3 := by
  have hp : ky * W ≤ (H - 1) * W := Int.mul_le_mul_of_nonneg_right hky (le_of_lt hW)
  have hp0 : 0 ≤ ky * W := mul_nonneg hky0 (le_of_lt hW)
  have e : (H - 1) * W = W * H - W := by ring
  rw [i32mul_eq ky W (by omega) (by omega), i32add_eq (ky * W) kx (by omega) (by omega),
    i32mul_eq (ky * W + kx) 3 (by omega) (by omega),
    i32add_eq ((ky * W + kx) * 3) c (by omega) (by omega)]
  exact ⟨rfl, by omega, by omega⟩

/-- One interpolated value, spelled out: the source coordinates `x / s`, `y / s`, their
floors, the upper neighbours clamped to the last column and row, the four samples and
the weights `SrcX - SrcX0`, `SrcY - SrcY0`. -/
theorem sampleBilinear_explicit (img : List Flt) (W H : ℤ) (s : ℚ) (y x c : ℤ) (sx sy : ℚ)
    (hlen : (img.length : ℤ) = W * H * 3) (h32 : W * H * 3 < 2147483648) (hW : 0 < W)
    (hH : 0 < H)
    (hsx : binary32.div (binary32.ofInt x) (Flt.fin s) = Flt.fin sx)
    (hsy : binary32.div (binary32.ofInt y) (Flt.fin s) = Flt.fin sy)
    (hkx0 : 0 ≤ ⌊sx⌋) (hkx : ⌊sx⌋ ≤ W - 1) (hky0 : 0 ≤ ⌊sy⌋) (hky : ⌊sy⌋ ≤ H - 1)
    (hc0 : 0 ≤ c) (hc : c < 3) :
    ∃ P00 P01 P10 P11 : Flt,
      TArray.read img ((⌊sy⌋ * W + ⌊sx⌋) * 3 + c) = some P00 ∧
      TArray.read img ((⌊sy⌋ * W + min (⌊sx⌋ + 1) (W - 1)) * 3 + c) = some P01 ∧
      TArray.read img ((min (⌊sy⌋ + 1) (H - 1) * W + ⌊sx⌋) * 3 + c) = some P10 ∧
      TArray.read img ((min (⌊sy⌋ + 1) (H - 1) * W + min (⌊sx⌋ + 1) (W - 1)) * 3 + c)
        = some P11 ∧
      sampleBilinear img W H (Flt.fin s) y x c
        = some (InterpolatedValue P00 P01 P10 P11
            (binary32.sub (Flt.fin sx) (binary32.ofInt ⌊sx⌋))
            (binary32.sub (Flt.fin sy) (binary32.ofInt ⌊sy⌋))) := by
  have hWH : 0 < W * H := mul_pos hW hH
  have hW2 : W < 2147483648 := by nlinarith
  have hH2 : H < 2147483648 := by nlinarith
  have hfx : FMath.FloorToInt (binary32.div (binary32.ofInt x) (Flt.fin s)) = some ⌊sx⌋ := by
    rw [hsx, FloorToInt_fin sx ⟨by omega, by omega⟩]
  have hfy : FMath.FloorToInt (binary32.div (binary32.ofInt y) (Flt.fin s)) = some ⌊sy⌋ := by
    rw [hsy, FloorToInt_fin sy ⟨by omega, by omega⟩]
  obtain ⟨x1a, x1b, ex1⟩ := upperNeighbour_bounds ⌊sx⌋ W hW2 hkx0 hkx
  obtain ⟨y1a, y1b, ey1⟩ := upperNeighbour_bounds ⌊sy⌋ H hH2 hky0 hky
  obtain ⟨p00, h00⟩ := srcRead_ok img W H ⌊sy⌋ ⌊sx⌋ c hlen h32 hW hky0 hky hkx0 hkx hc0 hc
  obtain ⟨p01, h01⟩ := srcRead_ok img W H ⌊sy⌋ _ c hlen h32 hW hky0 hky x1a x1b hc0 hc
  obtain ⟨p10, h10⟩ := srcRead_ok img W H _ ⌊sx⌋ c hlen h32 hW y1a y1b hkx0 hkx hc0 hc
  obtain ⟨p11, h11⟩ := srcRead_ok img W H _ _ c hlen h32 hW y1a y1b x1a x1b hc0 hc
  have hs := sampleBilinear_eq img W H (Flt.fin s) y x c ⌊sx⌋ ⌊sy⌋ p00 p01 p10 p11 hfx hfy
    h00 h01 h10 h11
  rw [hsx, hsy] at hs
  rw [(srcIndex_eq W H ⌊sy⌋ ⌊sx⌋ c h32 hW hky0 hky hkx0 hkx hc0 hc).1] at h00
  rw [(srcIndex_eq W H ⌊sy⌋ _ c h32 hW hky0 hky x1a x1b hc0 hc).1, ex1] at h01
  rw [(srcIndex_eq W H _ ⌊sx⌋ c h32 hW y1a y1b hkx0 hkx hc0 hc).1, ey1] at h10
  rw [(srcIndex_eq W H _ _ c h32 hW y1a y1b x1a x1b hc0 hc).1, ex1, ey1] at h11
  exact ⟨p00, p01, p10, p11, h00, h01, h10, h11, hs⟩

/-- C23. Letterbox padding is preserved: on every well-formed image of positive size
`PreprocessImage` returns `true`, the resampling leaves every canvas element outside the
footprint `[xOffset, xOffset + NewWidth)` by `[yOffset, yOffset + NewHeight)` at its
initial zero, and the returned tensor holds `(0 - Mean[c]) / Std[c]` (in `float`
arithmetic) at index `c·1024·1024 + Y·1024 + X` for every such position `(X, Y)` and
channel `c`, a value that does not depend on the image contents. -/
theorem PreprocessImage_padding (img : List Flt) (W H : ℤ) (hW : 0 < W) (hH : 0 < H)
    (hlen : (img.length : ℤ) = W * H * 3) (h32 : W * H * 3 < 2147483648) :
    ∃ (out : PreprocessOut) (canvas resized : List Flt) (NW NH : ℤ),
      PreprocessImage img W H = Res.ok out ∧
      FMath.RoundToInt (binary32.mul (binary32.ofInt W) out.OutScale) = some NW ∧
      FMath.RoundToInt (binary32.mul (binary32.ofInt H) out.OutScale) = some NH ∧
      TArray.alloc (TargetSize * TargetSize * 3) (Flt.fin 0) = some canvas ∧
      resampleImage img W H out.OutScale NW NH out.OutXOffset out.OutYOffset canvas
        = some resized ∧
      ∀ Y X c : ℤ, 0 ≤ Y → Y < 1024 → 0 ≤ X → X < 1024 → 0 ≤ c → c < 3 →
        ¬ (out.OutYOffset ≤ Y ∧ Y < out.OutYOffset + NH ∧
          out.OutXOffset ≤ X ∧ X < out.OutXOffset + NW) →
        TArray.read resized ((Y * 1024 + X) * 3 + c) = some (Flt.fin 0) ∧
        TArray.read out.ProcessedImageData (c * 1048576 + Y * 1024 + X)
          = some (binary32.div (binary32.sub (Flt.fin 0) (Mean c)) (Std c)) := by
  obtain ⟨data, canvas, resized, NW, NH, hok, hnw, hnh, nw0, nw1, nh0, nh1, ha, hr, hrl, hdl,
    _, hpad, hdata⟩ := PreprocessImage_stages img W H hW hH hlen h32
  refine ⟨_, canvas, resized, NW, NH, hok, hnw, hnh, ha, hr, ?_⟩
  intro Y X c hY0 hY1 hX0 hX1 hc0 hc1 hout
  have hz := hpad Y X c hY0 hY1 hX0 hX1 hc0 hc1 hout
  obtain ⟨v, hv, hd⟩ := hdata Y X c hY0 hY1 hX0 hX1 hc0 hc1
  rw [hz] at hv
  rw [← Option.some.inj hv] at hd
  exact ⟨hz, hd⟩

theorem PreprocessImage_padding_witness :
    ∃ out : PreprocessOut,
      PreprocessImage [Flt.fin 0, Flt.fin 0, Flt.fin 0] 1 1 = Res.ok out := by
  obtain ⟨out, _, _, _, _, h, _⟩ := PreprocessImage_padding [Flt.fin 0, Flt.fin 0, Flt.fin 0]
    1 1 (by norm_num) (by norm_num) (by norm_num) (by norm_num)
  exact ⟨out, h⟩

/-! ## The identity letterbox of a 1024x1024 image -/

theorem round32_one : binary32.round 1 = Flt.fin 1 := by
  have := round32_int 1 (by norm_num)
  norm_num at this
  exact this

theorem scale_square_1024 : letterboxScale 1024 1024 = Flt.fin 1 := by
  unfold letterboxScale
  rw [ofInt_TargetSize, ofInt32_exact 1024 (by norm_num)]
  have a := div_self_one 1024 (by norm_num)
  norm_num at a
  have e : ((1024 : ℤ) : ℚ) = 1024 := by norm_num
  rw [e, a]
  unfold FMath.Min
  split_ifs <;> rfl

/-- With both weights 0 the interpolation returns the sample `P00`, when the samples are
`float` values. -/
theorem InterpolatedValue_zero_weights (a b c d : ℚ) (ha : binary32.round a = Flt.fin a)
    (hc : binary32.round c = Flt.fin c) :
    InterpolatedValue (Flt.fin a) (Flt.fin b) (Flt.fin c) (Flt.fin d) (Flt.fin 0) (Flt.fin 0)
      = Flt.fin a := by
  have h1 : binary32.sub (Flt.fin 1) (Flt.fin 0) = Flt.fin 1 := by
    show binary32.round (1 + -0) = _
    rw [neg_zero, add_zero, round32_one]
  have m1 : binary32.mul (Flt.fin a) (Flt.fin 1) = Flt.fin a := by
    show binary32.round (a * 1) = _
    rw [mul_one, ha]
  have m2 : binary32.mul (Flt.fin b) (Flt.fin 0) = Flt.fin 0 := by
    show binary32.round (b * 0) = _
    rw [mul_zero, binary32.round_zero]
  have m3 : binary32.mul (Flt.fin 0) (Flt.fin 1) = Flt.fin 0 := by
    show binary32.round (0 * 1) = _
    rw [zero_mul, binary32.round_zero]
  have m4 : binary32.mul (Flt.fin c) (Flt.fin 1) = Flt.fin c := by
    show binary32.round (c * 1) = _
    rw [mul_one, hc]
  have m5 : binary32.mul (Flt.fin c) (Flt.fin 0) = Flt.fin 0 := by
    show binary32.round (c * 0) = _
    rw [mul_zero, binary32.round_zero]
  have m6 : binary32.mul (Flt.fin d) (Flt.fin 0) = Flt.fin 0 := by
    show binary32.round (d * 0) = _
    rw [mul_zero, binary32.round_zero]
  have m7 : binary32.mul (Flt.fin 0) (Flt.fin 0) = Flt.fin 0 := by
    show binary32.round (0 * 0) = _
    rw [mul_zero, binary32.round_zero]
  have s1 : binary32.add (Flt.fin a) (Flt.fin 0) = Flt.fin a := by
    show binary32.round (a + 0) = _
    rw [add_zero, ha]
  unfold InterpolatedValue
  rw [h1, m1, m1, m2, m3, s1, m4, m5, s1, m6, m7, s1]

/-- The source coordinate of destination index `x` under scale 1 is `x` itself, with
weight 0. -/
theorem unit_scale_source (x : ℤ) (h0 : 0 ≤ x) (h1 : x < 1024) :
    binary32.div (binary32.ofInt x) (Flt.fin 1) = Flt.fin (x : ℚ) ∧
    ⌊(x : ℚ)⌋ = x ∧
    binary32.sub (Flt.fin (x : ℚ)) (binary32.ofInt ⌊(x : ℚ)⌋) = Flt.fin 0 := by
  have hx : |x| < 16777216 := by rw [abs_of_nonneg h0]; omega
  refine ⟨by rw [ofInt32_exact x hx, div_by_one x hx], Int.floor_intCast x, ?_⟩
  rw [Int.floor_intCast, ofInt32_exact x hx]
  show binary32.round ((x : ℚ) + -(x : ℚ)) = _
  rw [add_neg_cancel, binary32.round_zero]

/-- C30. For a 1024x1024 image whose values are finite `float` values the letterbox is
the identity: `PreprocessImage` returns `true` with scale 1 and offsets 0, and for every
channel `c`, row `h` and column `w` the output element at index
`c·1024·1024 + h·1024 + w` is `(in[(h·1024 + w)·3 + c] - Mean[c]) / Std[c]` in `float`
arithmetic: the normalised, transposed input, unchanged by the resampling. -/
theorem PreprocessImage_identity_1024 (img : List Flt)
    (hlen : (img.length : ℤ) = 1024 * 1024 * 3)
    (hfin : ∀ v ∈ img, ∃ q : ℚ, v = Flt.fin q ∧ binary32.round q = Flt.fin q) :
    ∃ data : List Flt,
      PreprocessImage img 1024 1024 = Res.ok ⟨data, Flt.fin 1, 0, 0⟩ ∧
      data.length = 3 * 1024 * 1024 ∧
      ∀ c h w : ℤ, 0 ≤ c → c < 3 → 0 ≤ h → h < 1024 → 0 ≤ w → w < 1024 →
        ∃ v, TArray.read img ((h * 1024 + w) * 3 + c) = some v ∧
          TArray.read data (c * 1024 * 1024 + h * 1024 + w)
            = some (binary32.div (binary32.sub v (Mean c)) (Std c)) := by
  obtain ⟨data, canvas, resized, NW, NH, hok, hnw, hnh, nw0, nw1, nh0, nh1, ha, hr, hrl, hdl,
    hfoot, _, hdata⟩ := PreprocessImage_stages img 1024 1024 (by norm_num) (by norm_num) hlen
      (by norm_num)
  rw [scale_square_1024] at hnw hnh hok hfoot
  rw [RoundToInt_mul_one 1024 (by norm_num) (by norm_num)] at hnw hnh
  have eNW : NW = 1024 := (Option.some.inj hnw).symm
  have eNH : NH = 1024 := (Option.some.inj hnh).symm
  subst eNW; subst eNH
  have e0 : ((1024 : ℤ) - 1024) / 2 = 0 := by norm_num
  rw [e0] at hok hfoot
  refine ⟨data, hok, by rw [hdl], ?_⟩
  intro c h w hc0 hc1 hh0 hh1 hw0 hw1
  obtain ⟨v, hv, hread⟩ := hfoot h w c hh0 hh1 hw0 hw1 hc0 hc1
  obtain ⟨v2, hv2, hd⟩ := hdata h w c hh0 hh1 hw0 hw1 hc0 hc1
  have e1 : ((h + 0) * 1024 + (w + 0)) * 3 + c = (h * 1024 + w) * 3 + c := by ring
  rw [e1, hv2] at hread
  have ev : v2 = v := Option.some.inj hread
  subst ev
  obtain ⟨hsx, hfx, hwx⟩ := unit_scale_source w hw0 hw1
  obtain ⟨hsy, hfy, hwy⟩ := unit_scale_source h hh0 hh1
  obtain ⟨P00, P01, P10, P11, h00, h01, h10, h11, hsb⟩ := sampleBilinear_explicit img 1024 1024
    1 h w c (w : ℚ) (h : ℚ) hlen (by norm_num) (by norm_num) (by norm_num) hsx hsy
    (by rw [hfx]; exact hw0) (by rw [hfx]; omega) (by rw [hfy]; exact hh0) (by rw [hfy]; omega)
    hc0 hc1
  rw [hwx, hwy] at hsb
  rw [hfx, hfy] at h00 h10
  rw [hfy] at h01
  obtain ⟨a, ea, ra⟩ := hfin P00 (TArray.read_some _ _ _ h00).2.2
  obtain ⟨b, eb, _⟩ := hfin P01 (TArray.read_some _ _ _ h01).2.2
  obtain ⟨c2, ec, rc⟩ := hfin P10 (TArray.read_some _ _ _ h10).2.2
  obtain ⟨d, ed, _⟩ := hfin P11 (TArray.read_some _ _ _ h11).2.2
  rw [ea, eb, ec, ed, InterpolatedValue_zero_weights a b c2 d ra rc] at hsb
  have ev : v2 = Flt.fin a := Option.some.inj (hv.symm.trans hsb)
  refine ⟨P00, h00, ?_⟩
  have e2 : c * 1024 * 1024 + h * 1024 + w = c * 1048576 + h * 1024 + w := by ring
  rw [e2, hd, ev, ea]

theorem PreprocessImage_identity_1024_witness :
    ∃ data : List Flt,
      PreprocessImage (List.replicate 3145728 (Flt.fin 0)) 1024 1024
        = Res.ok ⟨data, Flt.fin 1, 0, 0⟩ := by
  obtain ⟨data, h, _⟩ := PreprocessImage_identity_1024 (List.replicate 3145728 (Flt.fin 0))
    (by rw [List.length_replicate]; norm_num)
    (by
      intro v hv
      rw [List.eq_of_mem_replicate hv]
      exact ⟨0, rfl, binary32.round_zero⟩)
  exact ⟨data, h⟩

/-- C21. Whenever `PostprocessMask` returns `true` (the offsets being `int32` values), with
the resized extents `ScaledWidth = RoundToInt(W * Scale)` and
`ScaledHeight = RoundToInt(H * Scale)`, for every output pixel `(x, y)` with `0 ≤ x < W`
and `0 ≤ y < H`: `FinalMask[y·W + x]` is the entry of the cropped region at column `srcX`
and row `srcY`, where `srcX` is `RoundToInt(x * (float(ScaledWidth) / float(W)))` clamped
to `[0, ScaledWidth - 1]` (it is the code's `Min(.., ScaledWidth - 1)`, the rounded value
not being negative) and `srcY` likewise (the products in `float`); that entry is the
binarised canvas value at `(XOffset + srcX, YOffset + srcY)`, or 0 when this position is
outside `[0, 1024)` in either axis.  And `PostprocessMask` does return `true`, with
`W * H` pixels, for a mask of 1024·1024 values, `W, H > 0` with `W * H` an `int32`, and
resized extents between 1 and 1024. -/
theorem PostprocessMask_pixels (MaskData : List Flt) (W H : ℤ) (Scale : Flt) (xo yo : ℤ)
    (hxo : isInt32 xo) (hyo : isInt32 yo) :
    (∀ FinalMask : List ℕ, PostprocessMask MaskData W H Scale xo yo = Res.ok FinalMask →
      ∃ SW SH : ℤ,
        FMath.RoundToInt (binary32.mul (binary32.ofInt W) Scale) = some SW ∧
        FMath.RoundToInt (binary32.mul (binary32.ofInt H) Scale) = some SH ∧
        ∀ y x : ℤ, 0 ≤ y → y < H → 0 ≤ x → x < W → ∃ (rx ry srcX srcY : ℤ) (v : ℕ),
          FMath.RoundToInt (binary32.mul (binary32.ofInt x)
            (binary32.div (binary32.ofInt SW) (binary32.ofInt W))) = some rx ∧
          FMath.RoundToInt (binary32.mul (binary32.ofInt y)
            (binary32.div (binary32.ofInt SH) (binary32.ofInt H))) = some ry ∧
          srcX = max 0 (min rx (SW - 1)) ∧ srcY = max 0 (min ry (SH - 1)) ∧
          srcX = FMath.MinInt rx (i32sub SW 1) ∧ srcY = FMath.MinInt ry (i32sub SH 1) ∧
          0 ≤ srcX ∧ srcX ≤ SW - 1 ∧ 0 ≤ srcY ∧ srcY ≤ SH - 1 ∧
          TArray.read FinalMask (y * W + x) = some v ∧
          ((0 ≤ xo + srcX ∧ xo + srcX < 1024 ∧ 0 ≤ yo + srcY ∧ yo + srcY < 1024) →
            TArray.read (MaskData.map binarize) ((yo + srcY) * 1024 + (xo + srcX))
              = some v) ∧
          (¬ (0 ≤ xo + srcX ∧ xo + srcX < 1024 ∧ 0 ≤ yo + srcY ∧ yo + srcY < 1024) →
            v = 0)) ∧
    ((MaskData.length : ℤ) = 1024 * 1024 → 0 < W → 0 < H → W * H < 2147483648 →
      ∀ SW SH : ℤ,
        FMath.RoundToInt (binary32.mul (binary32.ofInt W) Scale) = some SW →
        FMath.RoundToInt (binary32.mul (binary32.ofInt H) Scale) = some SH →
        1 ≤ SW → SW ≤ 1024 → 1 ≤ SH → SH ≤ 1024 →
        ∃ FinalMask, PostprocessMask MaskData W H Scale xo yo = Res.ok FinalMask ∧
          (FinalMask.length : ℤ) = W * H) := by
  constructor
  · intro FinalMask h
    obtain ⟨_, SW, SH, hSW, hSH, hpix⟩ :=
      PostprocessMask_inv MaskData W H Scale xo yo FinalMask hxo hyo h
    refine ⟨SW, SH, hSW, hSH, ?_⟩
    intro y x hy0 hy1 hx0 hx1
    obtain ⟨pSW, pSH, _, rx, ry, v, hrx, hry, hrx0, hry0, hread, hin, hout⟩ :=
      hpix y x hy0 hy1 hx0 hx1
    obtain ⟨iSW, _⟩ := RoundToInt_some _ _ hSW
    obtain ⟨iSH, _⟩ := RoundToInt_some _ _ hSH
    unfold isInt32 at iSW iSH
    have eSW : i32sub SW 1 = SW - 1 := i32sub_eq SW 1 (by omega) (by omega)
    have eSH : i32sub SH 1 = SH - 1 := i32sub_eq SH 1 (by omega) (by omega)
    refine ⟨rx, ry, min rx (SW - 1), min ry (SH - 1), v, hrx, hry, by omega, by omega, ?_, ?_,
      by omega, by omega, by omega, by omega, hread, hin, hout⟩
    · rw [eSW]
      unfold FMath.MinInt
      split_ifs <;> omega
    · rw [eSH]
      unfold FMath.MinInt
      split_ifs <;> omega
  · intro hlen hW hH h32 SW SH hSW hSH hSW1 hSW2 hSH1 hSH2
    obtain ⟨F, hF, hFl, _⟩ := PostprocessMask_spec MaskData W H Scale xo yo SW SH hlen hW hH h32
      hSW hSH hSW1 hSW2 hSH1 hSH2 hxo hyo
    exact ⟨F, hF, hFl⟩

theorem PostprocessMask_pixels_witness :
    ∃ (FinalMask : List ℕ) (SW SH : ℤ),
      PostprocessMask (List.replicate (1024 * 1024) (Flt.fin 1)) 1 1 (Flt.fin 1024) 0 0
        = Res.ok FinalMask ∧ (FinalMask.length : ℤ) = 1 * 1 ∧
      FMath.RoundToInt (binary32.mul (binary32.ofInt 1) (Flt.fin 1024)) = some SW ∧
      FMath.RoundToInt (binary32.mul (binary32.ofInt 1) (Flt.fin 1024)) = some SH := by
  obtain ⟨F, h1, h2⟩ := (PostprocessMask_pixels (List.replicate (1024 * 1024) (Flt.fin 1))
    1 1 (Flt.fin 1024) 0 0 (by decide) (by decide)).2
    (by rw [List.length_replicate]; norm_num) (by norm_num) (by norm_num) (by norm_num)
    1024 1024 height_0_1 height_0_1 (by norm_num) (by norm_num) (by norm_num) (by norm_num)
  obtain ⟨SW, SH, h3, h4, _⟩ := (PostprocessMask_pixels
    (List.replicate (1024 * 1024) (Flt.fin 1)) 1 1 (Flt.fin 1024) 0 0 (by decide)
    (by decide)).1 F h1
  exact ⟨F, SW, SH, h1, h2, h3, h4⟩

/-- With the scale and offsets `PreprocessImage` returns for an image of aspect ratio at
most 2047:1, `PostprocessMask` returns `true` on every mask of 1024·1024 values: no read
leaves the canvas or the cropped region. -/
theorem PostprocessMask_safe_moderate (img MaskData : List Flt) (W H : ℤ) (hW : 0 < W)
    (hH : 0 < H) (hlen : (img.length : ℤ) = W * H * 3) (h32 : W * H * 3 < 2147483648)
    (hr1 : W ≤ 2047 * H) (hr2 : H ≤ 2047 * W)
    (hmask : (MaskData.length : ℤ) = 1024 * 1024) :
    ∃ (out : PreprocessOut) (FinalMask : List ℕ), PreprocessImage img W H = Res.ok out ∧
      PostprocessMask MaskData W H out.OutScale out.OutXOffset out.OutYOffset
        = Res.ok FinalMask ∧ (FinalMask.length : ℤ) = W * H := by
  obtain ⟨data, NW, NH, hok, _, hnw, hnh, nw0, nw, nh0, nh, _, _⟩ :=
    PreprocessImage_ok img W H hW hH hlen h32
  have hWH : 0 < W * H := mul_pos hW hH
  have hW2 : W < 2147483648 := by nlinarith
  have hH2 : H < 2147483648 := by nlinarith
  obtain ⟨p1, p2⟩ := resized_extents_pos W H NW NH hW hW2 hH hH2 hr1 hr2 hnw hnh
  obtain ⟨F, hF, hFl, _⟩ := PostprocessMask_spec MaskData W H (letterboxScale W H)
    ((1024 - NW) / 2) ((1024 - NH) / 2) NW NH hmask hW hH (by omega) hnw hnh p1 nw p2 nh
    ⟨by omega, by omega⟩ ⟨by omega, by omega⟩
  exact ⟨_, F, hok, hF, hFl⟩

/-- C25 (failing input). A 4096x1 image is preprocessed with a scale for which the
resized height `RoundToInt(1 * scale)` is 0; with the scale and offsets `PreprocessImage`
returns, `PostprocessMask` crops an empty region from every mask of 1024·1024 values and
the nearest-neighbour loop then reads `RegionMask[-1 * 1024 + 0]`, outside the (empty)
array: the resize has no result. -/
theorem PostprocessMask_empty_region_read (img MaskData : List Flt)
    (himg : (img.length : ℤ) = 4096 * 1 * 3)
    (hmask : (MaskData.length : ℤ) = 1024 * 1024) :
    ∃ out : PreprocessOut, PreprocessImage img 4096 1 = Res.ok out ∧
      FMath.RoundToInt (binary32.mul (binary32.ofInt 4096) out.OutScale) = some 1024 ∧
      FMath.RoundToInt (binary32.mul (binary32.ofInt 1) out.OutScale) = some 0 ∧
      (∀ R, cropRegion (MaskData.map binarize) 1024 0 out.OutXOffset out.OutYOffset = some R →
        R = []) ∧
      FMath.MinInt 0 (i32sub 0 1) = -1 ∧
      TArray.read ([] : List ℕ) (i32add (i32mul (-1) 1024) 0) = none ∧
      resizeRegion [] 4096 1 1024 0 = none ∧
      PostprocessMask MaskData 4096 1 out.OutScale out.OutXOffset out.OutYOffset = Res.ub := by
  obtain ⟨data, hok⟩ := PreprocessImage_wide img himg
  refine ⟨_, hok, width_wide, height_wide, ?_, ?_, ?_, ?_, ?_⟩
  · intro R hR
    exact cropRegion_empty _ _ _ _ _ _ (Or.inr (le_refl 0)) hR
  · rw [i32sub_eq 0 1 (by norm_num) (by norm_num)]
    unfold FMath.MinInt
    rw [if_neg (by norm_num)]
    norm_num
  · unfold TArray.read
    rw [if_neg (by
      rw [i32mul_eq (-1) 1024 (by norm_num) (by norm_num),
        i32add_eq _ 0 (by norm_num) (by norm_num)]
      norm_num)]
  · exact resizeRegion_empty 4096 1 1024 0 (by norm_num) (by norm_num)
  · exact PostprocessMask_empty_region MaskData 4096 1 (Flt.fin (1 / 4)) 0 512 1024 0 hmask
      (by norm_num) (by norm_num) width_wide height_wide (Or.inr (le_refl 0))

theorem PostprocessMask_empty_region_read_witness :
    ∃ out : PreprocessOut,
      PreprocessImage (List.replicate 12288 (Flt.fin 1)) 4096 1 = Res.ok out ∧
      PostprocessMask (List.replicate (1024 * 1024) (Flt.fin 1)) 4096 1 out.OutScale
        out.OutXOffset out.OutYOffset = Res.ub := by
  obtain ⟨out, h1, _, _, _, _, _, _, h2⟩ := PostprocessMask_empty_region_read
    (List.replicate 12288 (Flt.fin 1)) (List.replicate (1024 * 1024) (Flt.fin 1))
    (by rw [List.length_replicate]; norm_num) (by rw [List.length_replicate]; norm_num)
  exact ⟨out, h1, h2⟩

theorem letterbox_footprint_inside_witness :
    ∃ NW NH : ℤ,
      FMath.RoundToInt (binary32.mul (binary32.ofInt 800) (letterboxScale 800 600)) = some NW ∧
      FMath.RoundToInt (binary32.mul (binary32.ofInt 600) (letterboxScale 800 600)) = some NH ∧
      0 ≤ i32div (i32sub TargetSize NW) 2 ∧ 0 ≤ i32div (i32sub TargetSize NH) 2 ∧
      i32div (i32sub TargetSize NW) 2 + NW ≤ 1024 ∧
      i32div (i32sub TargetSize NH) 2 + NH ≤ 1024 := by
  obtain ⟨NW, NH, h1, h2, h3, h4, h5, h6, _⟩ :=
    letterbox_footprint_inside 800 600 (by norm_num) (by norm_num) (by norm_num) (by norm_num)
  exact ⟨NW, NH, h1, h2, h3, h4, h5, h6⟩

/-! ## Rounding in the resampling -/

theorem roundHalfEven_tie_even (q : ℚ) (m : ℤ) (h : q = (m : ℚ) + 1 / 2) (he : m % 2 = 0) :
    roundHalfEven q = m := by
  have hf : ⌊q⌋ = m := by
    rw [Int.floor_eq_iff, h]
    constructor <;> linarith
  unfold roundHalfEven
  rw [hf, h]
  rw [if_neg (by norm_num), if_neg (by norm_num), if_pos he]

/-- Rounding of a value half-way between two neighbours, the lower one even. -/
theorem round32_tie_even (q : ℚ) (e m : ℤ)
    (h1 : (2 : ℚ) ^ e ≤ |q|) (h2 : |q| < (2 : ℚ) ^ (e + 1)) (he : -126 ≤ e)
    (hm : q / (2 : ℚ) ^ (e - 23) = (m : ℚ) + 1 / 2) (hev : m % 2 = 0)
    (hov : |(m : ℚ) * (2 : ℚ) ^ (e - 23)| < (2 : ℚ) ^ (128 : ℤ)) :
    binary32.round q = Flt.fin ((m : ℚ) * (2 : ℚ) ^ (e - 23)) := by
  have hu : binary32.ulp q = (2 : ℚ) ^ (e - 23) := by
    have := binary32.ulp_of_bounds q e h1 h2 he
    simpa [binary32] using this
  have hr : roundHalfEven (q / binary32.ulp q) = m := by
    rw [hu]; exact roundHalfEven_tie_even _ _ hm hev
  have := binary32.round_fin q (by
    rw [hr, hu]
    have hb : (2 : ℚ) ^ (binary32.emax + 1) = (2 : ℚ) ^ (128 : ℤ) := rfl
    rw [hb]
    exact hov)
  rw [this, hr, hu]

/-- One canvas coordinate of a prompt point, before the clamp: not below the offset and
not above `1024 + 2^-12`, when the exact right edge of the footprint is not. -/
theorem canvasCoord_bounds (D : ℤ) (s p : ℚ) (off : ℤ) (hD : 0 < D) (hD2 : D < 2147483648)
    (hs0 : 0 ≤ s) (hp0 : 0 ≤ p) (hp1 : p ≤ 1) (hoff0 : 0 ≤ off) (hoff1 : off ≤ 512)
    (hT : (off : ℚ) + D * s ≤ 1024 + 1 / 4096 - 1 / 1048576) :
    ∃ X : ℚ, binary32.cast (binary64.add (binary64.ofInt off)
        (binary64.mul (binary64.mul (Flt.fin p) (binary64.ofInt D)) (Flt.fin s))) = Flt.fin X ∧
      (off : ℚ) ≤ X ∧ X ≤ 1024 + 1 / 4096 := by
  have hDq : (0 : ℚ) < D := by exact_mod_cast hD
  have hDq2 : (D : ℚ) < 2147483648 := by exact_mod_cast hD2
  have hoq0 : (0 : ℚ) ≤ off := by exact_mod_cast hoff0
  have hoq1 : (off : ℚ) ≤ 512 := by exact_mod_cast hoff1
  have hDs0 : 0 ≤ (D : ℚ) * s := mul_nonneg (le_of_lt hDq) hs0
  have e40 : (2 : ℚ) ^ 40 = 1099511627776 := by norm_num
  have e12 : (2 : ℚ) ^ 12 = 4096 := by norm_num
  have p64 : (2 : ℤ) ^ binary64.prec = 9007199254740992 := by decide
  rw [ofInt64_exact off (by rw [abs_of_nonneg hoff0]; omega),
    ofInt64_exact D (by rw [abs_of_pos hD]; omega)]
  -- `Point.X * InputWidth`
  obtain ⟨r1, hr1, r1lo, r1hi⟩ := binary64.round_dyadic_bounds (by decide) (p * D) 0 D 0
    (by decide) (le_refl 0)
    (by rw [pow_zero, mul_one]; push_cast; exact mul_nonneg hp0 (le_of_lt hDq))
    (by
      rw [pow_zero, mul_one]
      calc p * D ≤ 1 * D := mul_le_mul_of_nonneg_right hp1 (le_of_lt hDq)
        _ = D := one_mul _)
    (by rw [p64]; omega)
  rw [pow_zero, mul_one] at r1lo r1hi
  push_cast at r1lo
  have hm1 : binary64.mul (Flt.fin p) (Flt.fin (D : ℚ)) = Flt.fin r1 := hr1
  rw [hm1]
  -- `... * Scale`
  have hr1s : r1 * s ≤ D * s := mul_le_mul_of_nonneg_right r1hi hs0
  have hDs1 : (D : ℚ) * s ≤ 1025 := by linarith
  obtain ⟨C2, hc1, hc2⟩ : ∃ C : ℤ, (D : ℚ) * s * 1099511627776 ≤ C ∧
      (C : ℚ) < (D : ℚ) * s * 1099511627776 + 1 :=
    ⟨⌈(D : ℚ) * s * 1099511627776⌉, Int.le_ceil _, Int.ceil_lt_add_one _⟩
  obtain ⟨r2, hr2, r2lo, r2hi⟩ := binary64.round_dyadic_bounds (by decide) (r1 * s) 0
    C2 40 (by decide) (le_refl 0)
    (by push_cast; exact mul_nonneg (mul_nonneg r1lo hs0) (by positivity))
    (by
      rw [e40]
      have := mul_le_mul_of_nonneg_right hr1s (by norm_num : (0 : ℚ) ≤ 1099511627776)
      linarith)
    (by
      rw [p64]
      have h1 : (C2 : ℚ) < ((9007199254740992 : ℤ) : ℚ) := by
        push_cast
        linarith
      exact_mod_cast h1)
  rw [e40] at r2lo r2hi
  push_cast at r2lo
  have hm2 : binary64.mul (Flt.fin r1) (Flt.fin s) = Flt.fin r2 := hr2
  rw [hm2]
  have hr20 : 0 ≤ r2 := by linarith
  -- `XOffset + ...`
  obtain ⟨C3, hc3, hc4⟩ : ∃ C : ℤ, ((off : ℚ) + r2) * 1099511627776 ≤ C ∧
      (C : ℚ) < ((off : ℚ) + r2) * 1099511627776 + 1 :=
    ⟨⌈((off : ℚ) + r2) * 1099511627776⌉, Int.le_ceil _, Int.ceil_lt_add_one _⟩
  have hsum : ((off : ℚ) + r2) * 1099511627776 ≤ 1125900175278080 - 1 := by linarith
  have hC3 : C3 ≤ 1125900175278080 := by
    have h1 : (C3 : ℚ) < ((1125900175278080 : ℤ) : ℚ) := by
      push_cast
      linarith
    have h2 : C3 < 1125900175278080 := by exact_mod_cast h1
    omega
  have hC3q : (C3 : ℚ) ≤ 1125900175278080 := by exact_mod_cast hC3
  obtain ⟨r3, hr3, r3lo, r3hi⟩ := binary64.round_dyadic_bounds (by decide) ((off : ℚ) + r2)
    (off * 1099511627776) C3 40 (by decide)
    (by omega)
    (by
      rw [e40]
      push_cast
      have := mul_le_mul_of_nonneg_right hr20 (by norm_num : (0 : ℚ) ≤ 1099511627776)
      linarith)
    (by rw [e40]; exact hc3)
    (by rw [p64]; omega)
  rw [e40] at r3lo r3hi
  push_cast at r3lo
  have hm3 : binary64.add (Flt.fin (off : ℚ)) (Flt.fin r2) = Flt.fin r3 := hr3
  rw [hm3]
  have hr3lo : (off : ℚ) ≤ r3 := by linarith
  have hr3hi : r3 ≤ 1024 + 1 / 4096 := by linarith
  -- the store into a `float`
  obtain ⟨r4, hr4, r4lo, r4hi⟩ := binary32.round_dyadic_bounds (by decide) r3
    (off * 4096) 4194305 12 (by decide) (by omega)
    (by
      rw [e12]
      push_cast
      linarith)
    (by
      rw [e12]
      push_cast
      linarith)
    (by decide)
  rw [e12] at r4lo r4hi
  push_cast at r4lo r4hi
  exact ⟨r4, hr4, by linarith, by linarith⟩

/-! ## Prompt points and the letterbox footprint -/

/-- The exact right edge `offset + D * scale` of the footprint exceeds 1024 by less than
`2^-12`. -/
theorem footprint_edge_bound (D : ℤ) (d s : ℚ) (N : ℤ) (hD : 0 < D)
    (hd1 : (D : ℚ) * (1 - 1 / 16777216) ≤ d)
    (hs : 1 / 8388608 ≤ s) (hsd : s * d ≤ 1024 * (1 + 1 / 16777216))
    (hN : FMath.RoundToInt (binary32.mul (Flt.fin d) (Flt.fin s)) = some N) (hN1 : N ≤ 1024) :
    (((1024 - N) / 2 : ℤ) : ℚ) + D * s ≤ 1024 + 1 / 4096 - 1 / 1048576 := by
  have hs0 : 0 < s := lt_of_lt_of_le (by norm_num) hs
  have hDq : (1 : ℚ) ≤ D := by exact_mod_cast hD
  have hd0 : 1 / 2 ≤ d := by linarith
  have hds : d * s = s * d := mul_comm _ _
  have hlow : 1 / 1099511627776 ≤ d * s := by
    have : 1 / 2 * (1 / 8388608) ≤ d * s := mul_le_mul hd0 hs (by norm_num) (by linarith)
    linarith
  obtain ⟨p, hp, p1, p2⟩ := round32_pos (d * s) hlow (by linarith)
  have hmul : binary32.mul (Flt.fin d) (Flt.fin s) = Flt.fin p := hp
  have hp0 : 0 ≤ p := by nlinarith
  have hp1 : p ≤ 1026 := by nlinarith
  obtain ⟨_, N2, _, hN2, _, hN20, _, _, _, _, hge⟩ := RoundToInt_spec p hp0 (by linarith)
  rw [hmul, hN2] at hN
  have eN : N2 = N := Option.some.inj hN
  rw [eN] at hge hN20
  have hpN : p < N + 1 / 2 := by
    by_contra hc
    push_neg at hc
    have := hge (N + 1) (by omega) (by push_cast; linarith)
    omega
  have hT : (D : ℚ) * s * (1 - 1 / 16777216) ≤ d * s := by
    have := mul_le_mul_of_nonneg_right hd1 (le_of_lt hs0)
    have e : (D : ℚ) * (1 - 1 / 16777216) * s = (D : ℚ) * s * (1 - 1 / 16777216) := by ring
    rw [e] at this
    exact this
  have hxo : ((((1024 - N) / 2 : ℤ)) : ℚ) * 2 ≤ 1024 - N := by
    have : (1024 - N) / 2 * 2 ≤ 1024 - N := by omega
    exact_mod_cast this
  generalize (D : ℚ) * s = T at *
  generalize d * s = SD at *
  rcases lt_or_eq_of_le hN1 with hlt | heq
  · have hNq : (N : ℚ) ≤ 1023 := by
      have : N ≤ 1023 := by omega
      exact_mod_cast this
    generalize ((((1024 - N) / 2 : ℤ)) : ℚ) = xo at *
    linarith
  · subst heq
    have e0 : ((1024 : ℤ) - 1024) / 2 = 0 := by norm_num
    rw [e0]
    push_cast
    linarith

/-- C28. For positive `int32` sizes, with the scale and offsets `PreprocessImage`
computes, every prompt point of `[0, 1] x [0, 1]` has canvas coordinates that, before
the clamp, are not below the offsets (the left and top edge of the footprint) and not
above `1024 + 2^-12`: the lower clamp never changes the value, the upper clamp lowers it
by at most `2^-12` (rounding can put the right or bottom edge just above 1024), and
`TransformPromptPoints` returns `xOffset ≤ canvasX ≤ 1024`, `yOffset ≤ canvasY ≤ 1024`. -/
theorem TransformPromptPoints_in_footprint (W H : ℤ) (hW : 0 < W) (hW2 : W < 2147483648)
    (hH : 0 < H) (hH2 : H < 2147483648) :
    ∃ (s : ℚ) (NW NH : ℤ), letterboxScale W H = Flt.fin s ∧
      FMath.RoundToInt (binary32.mul (binary32.ofInt W) (letterboxScale W H)) = some NW ∧
      FMath.RoundToInt (binary32.mul (binary32.ofInt H) (letterboxScale W H)) = some NH ∧
      (∀ (img : List Flt) (out : PreprocessOut), PreprocessImage img W H = Res.ok out →
        out.OutScale = Flt.fin s ∧ out.OutXOffset = (1024 - NW) / 2 ∧
        out.OutYOffset = (1024 - NH) / 2) ∧
      ∀ pts : List FVector2D,
        (∀ P ∈ pts, ∃ px py : ℚ, P.X = Flt.fin px ∧ P.Y = Flt.fin py ∧
          0 ≤ px ∧ px ≤ 1 ∧ 0 ≤ py ∧ py ≤ 1) →
        ∀ i : Fin pts.length, ∃ X Y : ℚ,
          binary32.cast (binary64.add (binary64.ofInt ((1024 - NW) / 2))
            (binary64.mul (binary64.mul (pts.get i).X (binary64.ofInt W)) (Flt.fin s)))
            = Flt.fin X ∧
          binary32.cast (binary64.add (binary64.ofInt ((1024 - NH) / 2))
            (binary64.mul (binary64.mul (pts.get i).Y (binary64.ofInt H)) (Flt.fin s)))
            = Flt.fin Y ∧
          (((1024 - NW) / 2 : ℤ) : ℚ) ≤ X ∧ X ≤ 1024 + 1 / 4096 ∧
          (((1024 - NH) / 2 : ℤ) : ℚ) ≤ Y ∧ Y ≤ 1024 + 1 / 4096 ∧
          (TransformPromptPoints pts W H (Flt.fin s) ((1024 - NW) / 2) ((1024 - NH) / 2))[
            2 * i.val]? = some (Flt.fin (min X 1024)) ∧
          (TransformPromptPoints pts W H (Flt.fin s) ((1024 - NW) / 2) ((1024 - NH) / 2))[
            2 * i.val + 1]? = some (Flt.fin (min Y 1024)) ∧
          (((1024 - NW) / 2 : ℤ) : ℚ) ≤ min X 1024 ∧ min X 1024 ≤ 1024 ∧
          (((1024 - NH) / 2 : ℤ) : ℚ) ≤ min Y 1024 ∧ min Y 1024 ≤ 1024 := by
  obtain ⟨w, h, s, hw, hh, hs, w1, w2, h1, h2, ls, sw, sh, _, _⟩ :=
    letterboxScale_facts W H hW hW2 hH hH2
  obtain ⟨NW, NH, hnw, hnh, nw0, nw1, nh0, nh1, _, _⟩ := letterbox_extents W H hW hW2 hH hH2
  obtain ⟨ex, ex0, ex1⟩ := letterbox_offset NW nw0 nw1
  obtain ⟨ey, ey0, ey1⟩ := letterbox_offset NH nh0 nh1
  have hs0 : 0 ≤ s := le_trans (by norm_num) ls
  have hTx := footprint_edge_bound W w s NW hW w1 ls sw (by rw [← hw, ← hs]; exact hnw) nw1
  have hTy := footprint_edge_bound H h s NH hH h1 ls sh (by rw [← hh, ← hs]; exact hnh) nh1
  refine ⟨s, NW, NH, hs, hnw, hnh, ?_, ?_⟩
  · intro img out hout
    obtain ⟨_, hsc, NW2, NH2, hnw2, hnh2, hxo, hyo, _⟩ := PreprocessImage_ok_inv img W H out hout
    rw [hnw] at hnw2
    rw [hnh] at hnh2
    cases hnw2
    cases hnh2
    exact ⟨hsc.trans hs, hxo.trans ex, hyo.trans ey⟩
  · intro pts hpts i
    obtain ⟨px, py, hpx, hpy, px0, px1, py0, py1⟩ := hpts (pts.get i) (List.get_mem pts i.val i.isLt)
    obtain ⟨X, hX, X0, X1⟩ := canvasCoord_bounds W s px ((1024 - NW) / 2) hW hW2 hs0 px0 px1
      ex0 (by omega) hTx
    obtain ⟨Y, hY, Y0, Y1⟩ := canvasCoord_bounds H s py ((1024 - NH) / 2) hH hH2 hs0 py0 py1
      ey0 (by omega) hTy
    have hxq : (0 : ℚ) ≤ (((1024 - NW) / 2 : ℤ) : ℚ) := by exact_mod_cast ex0
    have hyq : (0 : ℚ) ≤ (((1024 - NH) / 2 : ℤ) : ℚ) := by exact_mod_cast ey0
    have hxq1 : (((1024 - NW) / 2 : ℤ) : ℚ) ≤ 1024 := by
      have : (1024 - NW) / 2 ≤ 1024 := by omega
      exact_mod_cast this
    have hyq1 : (((1024 - NH) / 2 : ℤ) : ℚ) ≤ 1024 := by
      have : (1024 - NH) / 2 ≤ 1024 := by omega
      exact_mod_cast this
    have cX : FMath.Clamp (Flt.fin X) (Flt.fin 0) (Flt.fin 1024) = Flt.fin (min X 1024) := by
      rw [Clamp_fin, max_eq_right (le_min (by linarith) (by norm_num))]
    have cY : FMath.Clamp (Flt.fin Y) (Flt.fin 0) (Flt.fin 1024) = Flt.fin (min Y 1024) := by
      rw [Clamp_fin, max_eq_right (le_min (by linarith) (by norm_num))]
    have g0 := tpp_foldl_get _
      (TransformPromptPoint_length W H (Flt.fin s) ((1024 - NW) / 2) ((1024 - NH) / 2))
      pts [] i.val i.isLt 0 (by norm_num)
    have g1 := tpp_foldl_get _
      (TransformPromptPoint_length W H (Flt.fin s) ((1024 - NW) / 2) ((1024 - NH) / 2))
      pts [] i.val i.isLt 1 (by norm_num)
    simp only [List.length_nil, zero_add, add_zero] at g0 g1
    rw [← hpx] at hX
    rw [← hpy] at hY
    refine ⟨X, Y, hX, hY, X0, X1, Y0, Y1, ?_, ?_, le_min X0 hxq1, min_le_right _ _,
      le_min Y0 hyq1, min_le_right _ _⟩
    · unfold TransformPromptPoints
      rw [g0, ← cX, ← hX]
      rfl
    · unfold TransformPromptPoints
      rw [g1, ← cY, ← hY]
      rfl

theorem TransformPromptPoints_in_footprint_witness :
    ∃ (s : ℚ) (NW NH : ℤ), letterboxScale 800 600 = Flt.fin s ∧
      FMath.RoundToInt (binary32.mul (binary32.ofInt 800) (letterboxScale 800 600)) = some NW ∧
      FMath.RoundToInt (binary32.mul (binary32.ofInt 600) (letterboxScale 800 600))
        = some NH := by
  obtain ⟨s, NW, NH, h1, h2, h3, _⟩ := TransformPromptPoints_in_footprint 800 600 (by norm_num)
    (by norm_num) (by norm_num) (by norm_num)
  exact ⟨s, NW, NH, h1, h2, h3⟩

/-! ## A prompt point that the clamp moves -/

theorem ofInt_25165825 : binary32.ofInt 25165825 = Flt.fin 25165824 := by
  show binary32.round _ = _
  have := round32_tie_even (((25165825 : ℤ) : ℚ)) 24 12582912 (by norm_num [abs_of_pos])
    (by norm_num [abs_of_pos]) (by norm_num) (by norm_num) (by norm_num)
    (by norm_num [abs_of_pos])
  rw [this]; norm_num

theorem round32_scale_huge :
    binary32.round (11184811 / 274877906944) = Flt.fin (11184811 / 274877906944) := by
  have := round32_of_scaled (11184811 / 274877906944) (-15) 11184811
    (by norm_num [abs_of_pos]) (by norm_num [abs_of_pos]) (by norm_num) (by norm_num [abs_lt])
    (by norm_num [abs_of_pos])
  rw [this]; norm_num

theorem scale_huge : letterboxScale 25165825 1 = Flt.fin (11184811 / 274877906944) := by
  unfold letterboxScale
  rw [ofInt_TargetSize, ofInt32_one, ofInt_25165825]
  have a := div_by_one 1024 (by norm_num)
  norm_num at a
  have b : binary32.div (Flt.fin 1024) (Flt.fin 25165824)
      = Flt.fin (11184811 / 274877906944) := by
    rw [binary32.div_fin _ _ (by norm_num)]
    have := round32_of_scaled (1024 / 25165824) (-15) 11184811
      (by norm_num [abs_of_pos]) (by norm_num [abs_of_pos]) (by norm_num) (by norm_num [abs_lt])
      (by norm_num [abs_of_pos])
    rw [this]; norm_num
  rw [a, b]
  unfold FMath.Min
  rw [if_pos (by simp only [Flt.lt, decide_eq_true_eq]; norm_num)]

theorem width_huge :
    FMath.RoundToInt (binary32.mul (binary32.ofInt 25165825)
      (Flt.fin (11184811 / 274877906944))) = some 1024 := by
  rw [ofInt_25165825]
  have a : binary32.mul (Flt.fin 25165824) (Flt.fin (11184811 / 274877906944))
      = Flt.fin 1024 := by
    show binary32.round _ = _
    have := round32_of_scaled (25165824 * (11184811 / 274877906944)) 10 8388608
      (by norm_num [abs_of_pos]) (by norm_num [abs_of_pos]) (by norm_num) (by norm_num [abs_lt])
      (by norm_num [abs_of_pos])
    rw [this]; norm_num
  rw [a, RoundToInt_1024]

theorem height_huge :
    FMath.RoundToInt (binary32.mul (binary32.ofInt 1)
      (Flt.fin (11184811 / 274877906944))) = some 0 := by
  rw [ofInt32_one]
  have a : binary32.mul (Flt.fin 1) (Flt.fin (11184811 / 274877906944))
      = Flt.fin (11184811 / 274877906944) := by
    show binary32.round _ = _
    rw [one_mul, round32_scale_huge]
  rw [a]
  exact RoundToInt_of_bounds _ 0 (by norm_num) (by norm_num) (by norm_num) (by norm_num)

/-- `PreprocessImage` on a 25165825x1 image: scale `fl(1024 / fl(25165825))`, resized
extents 1024 and 0, offsets 0 and 512. -/
theorem PreprocessImage_huge (img : List Flt) (hlen : (img.length : ℤ) = 25165825 * 1 * 3) :
    ∃ data : List Flt, PreprocessImage img 25165825 1
      = Res.ok ⟨data, Flt.fin (11184811 / 274877906944), 0, 512⟩ := by
  obtain ⟨data, NW, NH, hok, _, hnw, hnh, _⟩ :=
    PreprocessImage_ok img 25165825 1 (by norm_num) (by norm_num) hlen (by norm_num)
  rw [scale_huge, width_huge] at hnw
  rw [scale_huge, height_huge] at hnh
  cases hnw; cases hnh
  rw [scale_huge] at hok
  exact ⟨data, by simpa using hok⟩

theorem canvasX_huge : binary32.cast (binary64.add (binary64.ofInt 0)
    (binary64.mul (binary64.mul (Flt.fin 1) (binary64.ofInt 25165825))
      (Flt.fin (11184811 / 274877906944)))) = Flt.fin (8388609 / 8192) := by
  rw [ofInt64_exact 0 (by norm_num), ofInt64_exact 25165825 (by norm_num)]
  have a : binary64.mul (Flt.fin 1) (Flt.fin ((25165825 : ℤ) : ℚ)) = Flt.fin 25165825 := by
    show binary64.round _ = _
    rw [one_mul]
    exact (ofInt64_exact 25165825 (by norm_num)).trans (by norm_num)
  rw [a]
  have b : binary64.mul (Flt.fin 25165825) (Flt.fin (11184811 / 274877906944))
      = Flt.fin (281474996284075 / 274877906944) := by
    show binary64.round _ = _
    have := round64_of_scaled (25165825 * (11184811 / 274877906944)) 10 4503599940545200
      (by norm_num [abs_of_pos]) (by norm_num [abs_of_pos]) (by norm_num) (by norm_num [abs_lt])
      (by norm_num [abs_of_pos])
    rw [this]; norm_num
  rw [b]
  have c : binary64.add (Flt.fin ((0 : ℤ) : ℚ)) (Flt.fin (281474996284075 / 274877906944))
      = Flt.fin (281474996284075 / 274877906944) := by
    show binary64.round _ = _
    have := round64_of_scaled (((0 : ℤ) : ℚ) + 281474996284075 / 274877906944) 10
      4503599940545200
      (by norm_num [abs_of_pos]) (by norm_num [abs_of_pos]) (by norm_num) (by norm_num [abs_lt])
      (by norm_num [abs_of_pos])
    rw [this]; norm_num
  rw [c]
  show binary32.round _ = _
  have := round32_of_scaled (281474996284075 / 274877906944) 10 8388609
      (by norm_num [abs_of_pos]) (by norm_num [abs_of_pos]) (by norm_num) (by norm_num [abs_lt])
      (by norm_num [abs_of_pos])
  rw [this]; norm_num

theorem canvasY_huge : binary32.cast (binary64.add (binary64.ofInt 512)
    (binary64.mul (binary64.mul (Flt.fin 0) (binary64.ofInt 1))
      (Flt.fin (11184811 / 274877906944)))) = Flt.fin 512 := by
  rw [ofInt64_exact 512 (by norm_num), ofInt64_exact 1 (by norm_num)]
  have a : binary64.mul (Flt.fin 0) (Flt.fin ((1 : ℤ) : ℚ)) = Flt.fin 0 := by
    show binary64.round _ = _
    rw [zero_mul, binary64.round_zero]
  rw [a]
  have b : binary64.mul (Flt.fin 0) (Flt.fin (11184811 / 274877906944)) = Flt.fin 0 := by
    show binary64.round _ = _
    rw [zero_mul, binary64.round_zero]
  rw [b]
  have c : binary64.add (Flt.fin ((512 : ℤ) : ℚ)) (Flt.fin 0) = Flt.fin ((512 : ℤ) : ℚ) := by
    show binary64.round _ = _
    rw [add_zero]
    exact ofInt64_exact 512 (by norm_num)
  rw [c]
  show binary32.round _ = _
  rw [round32_int 512 (by norm_num)]
  norm_num

/-- A 25165825x1 image is preprocessed with scale `s = fl(1024 / fl(25165825))`
and offsets (0, 512); for the prompt point (1, 0) the exact right edge
`xOffset + W * s` is above 1024, the canvas coordinate `0 + 1 * 25165825 * s` stored in
a `float` is `1024 + 2^-13`, and the clamp changes it to 1024. -/
theorem TransformPromptPoints_clamp_changes :
    (∃ data : List Flt, PreprocessImage (List.replicate 75497475 (Flt.fin 0)) 25165825 1
      = Res.ok ⟨data, Flt.fin (11184811 / 274877906944), 0, 512⟩) ∧
    (1024 : ℚ) < 0 + 25165825 * (11184811 / 274877906944) ∧
    binary32.cast (binary64.add (binary64.ofInt 0)
      (binary64.mul (binary64.mul (Flt.fin 1) (binary64.ofInt 25165825))
        (Flt.fin (11184811 / 274877906944)))) = Flt.fin (8388609 / 8192) ∧
    (1024 : ℚ) < 8388609 / 8192 ∧
    TransformPromptPoints [⟨Flt.fin 1, Flt.fin 0⟩] 25165825 1
      (Flt.fin (11184811 / 274877906944)) 0 512 = [Flt.fin 1024, Flt.fin 512] := by
  refine ⟨PreprocessImage_huge _ (by rw [List.length_replicate]; norm_num), by norm_num,
    canvasX_huge, by norm_num, ?_⟩
  simp only [TransformPromptPoints, List.foldl_cons, List.foldl_nil, List.nil_append,
    TransformPromptPoint]
  rw [canvasX_huge, canvasY_huge, Clamp_fin, Clamp_fin]
  norm_num

/-! ## The letterbox in the returned tensor -/

/-- C3. For positive sizes, on every well-formed image `PreprocessImage` returns `true`
and has placed the resized image in a footprint of `NewWidth = RoundToInt(W * scale)` by
`NewHeight = RoundToInt(H * scale)` pixels that starts at `(xOffset, yOffset)` and lies
inside the canvas: the returned tensor holds at index
`c·1024·1024 + (y + yOffset)·1024 + (x + xOffset)` the normalised value of pixel `(x, y)`
of the resized image, for every `0 ≤ x < NewWidth`, `0 ≤ y < NewHeight`, and the
normalised zero at every canvas position outside the footprint.  Whenever it returns
`true` the offsets are `(1024 - NewWidth) / 2` and `(1024 - NewHeight) / 2` (truncating
division); an 800x600 image gets the scale `1.28f`, the footprint 1024x768 and the
offsets 0 and 128. -/
theorem PreprocessImage_offsets (img : List Flt) (W H : ℤ) (hW : 0 < W)
    (hW2 : W < 2147483648) (hH : 0 < H) (hH2 : H < 2147483648) :
    ((img.length : ℤ) = W * H * 3 → W * H * 3 < 2147483648 →
      ∃ (out : PreprocessOut) (NewWidth NewHeight : ℤ),
        PreprocessImage img W H = Res.ok out ∧
        FMath.RoundToInt (binary32.mul (binary32.ofInt W) out.OutScale) = some NewWidth ∧
        FMath.RoundToInt (binary32.mul (binary32.ofInt H) out.OutScale) = some NewHeight ∧
        0 ≤ out.OutXOffset ∧ out.OutXOffset + NewWidth ≤ 1024 ∧
        0 ≤ out.OutYOffset ∧ out.OutYOffset + NewHeight ≤ 1024 ∧
        (∀ y x c : ℤ, 0 ≤ y → y < NewHeight → 0 ≤ x → x < NewWidth → 0 ≤ c → c < 3 →
          ∃ v, sampleBilinear img W H out.OutScale y x c = some v ∧
            TArray.read out.ProcessedImageData
                (c * 1048576 + (y + out.OutYOffset) * 1024 + (x + out.OutXOffset))
              = some (binary32.div (binary32.sub v (Mean c)) (Std c))) ∧
        (∀ Y X c : ℤ, 0 ≤ Y → Y < 1024 → 0 ≤ X → X < 1024 → 0 ≤ c → c < 3 →
          ¬ (out.OutYOffset ≤ Y ∧ Y < out.OutYOffset + NewHeight ∧
            out.OutXOffset ≤ X ∧ X < out.OutXOffset + NewWidth) →
          TArray.read out.ProcessedImageData (c * 1048576 + Y * 1024 + X)
            = some (binary32.div (binary32.sub (Flt.fin 0) (Mean c)) (Std c)))) ∧
    (∀ out : PreprocessOut, PreprocessImage img W H = Res.ok out →
      ∃ NewWidth NewHeight : ℤ,
        FMath.RoundToInt (binary32.mul (binary32.ofInt W) out.OutScale) = some NewWidth ∧
        FMath.RoundToInt (binary32.mul (binary32.ofInt H) out.OutScale) = some NewHeight ∧
        out.OutXOffset = Int.tdiv (1024 - NewWidth) 2 ∧
        out.OutYOffset = Int.tdiv (1024 - NewHeight) 2 ∧
        (W = 800 → H = 600 → out.OutScale = binary32.round (32 / 25) ∧ NewWidth = 1024 ∧
          NewHeight = 768 ∧ out.OutXOffset = 0 ∧ out.OutYOffset = 128)) := by
  constructor
  · intro hlen h32
    obtain ⟨data, canvas, resized, NW, NH, hok, hnw, hnh, nw0, nw1, nh0, nh1, ha, hr, hrl, hdl,
      hfoot, hpad, hdata⟩ := PreprocessImage_stages img W H hW hH hlen h32
    refine ⟨_, NW, NH, hok, hnw, hnh, ?_, ?_, ?_, ?_, ?_, ?_⟩
    · show 0 ≤ (1024 - NW) / 2
      omega
    · show (1024 - NW) / 2 + NW ≤ 1024
      omega
    · show 0 ≤ (1024 - NH) / 2
      omega
    · show (1024 - NH) / 2 + NH ≤ 1024
      omega
    · intro y x c hy0 hy1 hx0 hx1 hc0 hc1
      obtain ⟨v, hv, hread⟩ := hfoot y x c hy0 hy1 hx0 hx1 hc0 hc1
      obtain ⟨v3, hv3, hd⟩ := hdata (y + (1024 - NH) / 2) (x + (1024 - NW) / 2) c (by omega)
        (by omega) (by omega) (by omega) hc0 hc1
      have ev3 : v3 = v := Option.some.inj (hv3.symm.trans hread)
      rw [ev3] at hd
      exact ⟨v, hv, hd⟩
    · intro Y X c hY0 hY1 hX0 hX1 hc0 hc1 hout
      have hz := hpad Y X c hY0 hY1 hX0 hX1 hc0 hc1 hout
      obtain ⟨v, hv, hd⟩ := hdata Y X c hY0 hY1 hX0 hX1 hc0 hc1
      rw [hz] at hv
      rw [← Option.some.inj hv] at hd
      exact hd
  · intro out hok
    obtain ⟨_, hsc, NW, NH, hnw, hnh, hxo, hyo, hbt⟩ := PreprocessImage_ok_inv img W H out hok
    obtain ⟨NW2, NH2, hnw2, hnh2, nw0, nw, nh0, nh, _, _⟩ :=
      letterbox_extents W H hW hW2 hH hH2
    rw [hnw] at hnw2; cases hnw2
    rw [hnh] at hnh2; cases hnh2
    have exo : out.OutXOffset = (1024 - NW) / 2 := by
      rw [hxo, TargetSize, i32sub_eq 1024 NW (by omega) (by omega),
        i32div_two _ (by omega) (by omega)]
    have eyo : out.OutYOffset = (1024 - NH) / 2 := by
      rw [hyo, TargetSize, i32sub_eq 1024 NH (by omega) (by omega),
        i32div_two _ (by omega) (by omega)]
    refine ⟨NW, NH, by rw [hsc, hnw], by rw [hsc, hnh], ?_, ?_, ?_⟩
    · rw [exo]; exact (Int.tdiv_eq_ediv (by omega) (by norm_num)).symm
    · rw [eyo]; exact (Int.tdiv_eq_ediv (by omega) (by norm_num)).symm
    · intro eW eH
      subst eW; subst eH
      rw [scale_800_600, width_800_600] at hnw
      rw [scale_800_600, height_800_600] at hnh
      cases hnw; cases hnh
      refine ⟨by rw [hsc, scale_800_600, scale_800], rfl, rfl, ?_, ?_⟩
      · rw [exo]; norm_num
      · rw [eyo]; norm_num

theorem PreprocessImage_offsets_witness :
    ∃ out : PreprocessOut,
      PreprocessImage (List.replicate 1440000 (Flt.fin 0)) 800 600 = Res.ok out ∧
      out.OutScale = binary32.round (32 / 25) ∧ out.OutXOffset = 0 ∧ out.OutYOffset = 128 := by
  obtain ⟨out, _, _, h, _⟩ := (PreprocessImage_offsets (List.replicate 1440000 (Flt.fin 0))
    800 600 (by decide) (by decide) (by decide) (by decide)).1
    (by rw [List.length_replicate]; norm_num) (by norm_num)
  obtain ⟨NW, NH, _, _, _, _, hex⟩ :=
    (PreprocessImage_offsets (List.replicate 1440000 (Flt.fin 0)) 800 600
      (by decide) (by decide) (by decide) (by decide)).2 out h
  obtain ⟨e1, _, _, e2, e3⟩ := hex rfl rfl
  exact ⟨out, h, e1, e2, e3⟩

/-! ## The binarisation inside `PostprocessMask` -/

theorem TArray.read_map {α β : Type} (f : α → β) (A : List α) (i : ℤ) (v : β)
    (h : TArray.read (A.map f) i = some v) : ∃ m, TArray.read A i = some m ∧ v = f m := by
  unfold TArray.read at h ⊢
  split_ifs at h with hc
  rw [List.length_map] at hc
  rw [if_pos hc]
  rw [List.getElem?_map] at h
  cases hm : A[i.toNat]? with
  | none => rw [hm] at h; cases h
  | some m =>
    rw [hm] at h
    exact ⟨m, rfl, (Option.some.inj h).symm⟩

/-- C7. The binarisation threshold of `PostprocessMask` is exclusive on the low side.
Whenever `PostprocessMask` returns `true` (the offsets being `int32` values), every output
pixel `(x, y)` is 0 when its source position is outside the canvas, and otherwise is
`Value > 0.5f ? 255 : 0` for the mask value `Value` at its source position
`(XOffset + srcX, YOffset + srcY)`: 255 if a finite `Value` is above 0.5, and 0 if it is
at most 0.5, in particular 0 for exactly 0.5.  For the single values: a finite value
becomes 255 if it is above 0.5 and 0 otherwise, NaN becomes 0, exactly 0.5 becomes 0; 0.5
is the sigmoid of logit 0 (for an `Exp` with `Exp(0) = 1`), which is therefore binarised
to 0; and a 1024x1024 mask that is 0.5 everywhere is postprocessed (identity geometry) to
the mask that is 0 everywhere. -/
theorem binarize_threshold :
    (∀ (MaskData : List Flt) (W H : ℤ) (Scale : Flt) (xo yo : ℤ) (FinalMask : List ℕ),
      isInt32 xo → isInt32 yo →
      PostprocessMask MaskData W H Scale xo yo = Res.ok FinalMask →
      ∃ SW SH : ℤ,
        FMath.RoundToInt (binary32.mul (binary32.ofInt W) Scale) = some SW ∧
        FMath.RoundToInt (binary32.mul (binary32.ofInt H) Scale) = some SH ∧
        ∀ y x : ℤ, 0 ≤ y → y < H → 0 ≤ x → x < W → ∃ (rx ry srcX srcY : ℤ) (v : ℕ),
          FMath.RoundToInt (binary32.mul (binary32.ofInt x)
            (binary32.div (binary32.ofInt SW) (binary32.ofInt W))) = some rx ∧
          FMath.RoundToInt (binary32.mul (binary32.ofInt y)
            (binary32.div (binary32.ofInt SH) (binary32.ofInt H))) = some ry ∧
          srcX = max 0 (min rx (SW - 1)) ∧ srcY = max 0 (min ry (SH - 1)) ∧
          TArray.read FinalMask (y * W + x) = some v ∧
          ((0 ≤ xo + srcX ∧ xo + srcX < 1024 ∧ 0 ≤ yo + srcY ∧ yo + srcY < 1024) →
            ∃ Value : Flt,
              TArray.read MaskData ((yo + srcY) * 1024 + (xo + srcX)) = some Value ∧
              v = (if half.lt Value then 255 else 0) ∧
              (∀ q : ℚ, Value = Flt.fin q → 1 / 2 < q → v = 255) ∧
              (∀ q : ℚ, Value = Flt.fin q → q ≤ 1 / 2 → v = 0) ∧
              (Value = Flt.fin (1 / 2) → v = 0) ∧ (Value = Flt.nan → v = 0)) ∧
          (¬ (0 ≤ xo + srcX ∧ xo + srcX < 1024 ∧ 0 ≤ yo + srcY ∧ yo + srcY < 1024) →
            v = 0)) ∧
    (∀ q : ℚ, binarize (Flt.fin q) = if 1 / 2 < q then 255 else 0) ∧
    binarize (Flt.fin (1 / 2)) = 0 ∧ binarize Flt.nan = 0 ∧
    (∀ Exp : Flt → Flt, Exp (Flt.fin 0) = Flt.fin 1 →
      ApplySigmoid Exp [Flt.fin 0] = [Flt.fin (1 / 2)] ∧
      (ApplySigmoid Exp [Flt.fin 0]).map binarize = [0]) ∧
    PostprocessMask (List.replicate (1024 * 1024) (Flt.fin (1 / 2))) 1024 1024 (Flt.fin 1) 0 0
      = Res.ok (List.replicate ((1024 : ℤ) * 1024).toNat 0) := by
  refine ⟨?_, binarize_fin, binarize_half, rfl, ?_, ?_⟩
  · intro MaskData W H Scale xo yo FinalMask hxo hyo h
    obtain ⟨_, SW, SH, hSW, hSH, hpix⟩ :=
      PostprocessMask_inv MaskData W H Scale xo yo FinalMask hxo hyo h
    refine ⟨SW, SH, hSW, hSH, ?_⟩
    intro y x hy0 hy1 hx0 hx1
    obtain ⟨pSW, pSH, _, rx, ry, v, hrx, hry, hrx0, hry0, hread, hin, hout⟩ :=
      hpix y x hy0 hy1 hx0 hx1
    refine ⟨rx, ry, min rx (SW - 1), min ry (SH - 1), v, hrx, hry, by omega, by omega, hread,
      ?_, hout⟩
    intro hc
    obtain ⟨m, hm, hv⟩ := TArray.read_map binarize MaskData _ v (hin hc)
    refine ⟨m, hm, hv, ?_, ?_, ?_, ?_⟩
    · intro q hq h1
      rw [hv, hq, binarize_fin, if_pos h1]
    · intro q hq h1
      rw [hv, hq, binarize_fin, if_neg (not_lt.mpr h1)]
    · intro hq
      rw [hv, hq, binarize_half]
    · intro hq
      rw [hv, hq]
      rfl
  · intro Exp h
    rw [ApplySigmoid_zero Exp h]
    exact ⟨rfl, by rw [List.map_cons, List.map_nil, binarize_half]⟩
  · exact PostprocessMask_uniform _ 0 1024 1024 (Flt.fin 1) 0 0 1024 1024
      (by rw [List.length_replicate]; norm_num)
      (by intro m hm; rw [List.eq_of_mem_replicate hm]; exact binarize_half)
      (by norm_num) (by norm_num) (by norm_num) width_identity width_identity (by norm_num)
      (by norm_num) (by norm_num) (by norm_num) (by norm_num) (by norm_num)

/-- The rounded second-order Taylor polynomial, an exponential with `Exp(0) = 1`. -/
theorem taylorExp_zero :
    (fun v : Flt => match v with
      | Flt.fin q => binary32.round (1 + q + q * q / 2)
      | x => x) (Flt.fin 0) = Flt.fin 1 := by
  show binary32.round _ = _
  have e : (1 : ℚ) + 0 + 0 * 0 / 2 = ((1 : ℤ) : ℚ) := by norm_num
  rw [e, round32_int 1 (by norm_num)]; norm_num

theorem binarize_threshold_witness :
    (PostprocessMask (List.replicate (1024 * 1024) (Flt.fin (1 / 2))) 1024 1024 (Flt.fin 1) 0 0
        = Res.ok (List.replicate ((1024 : ℤ) * 1024).toNat 0) ∧
      ∃ SW SH : ℤ,
        FMath.RoundToInt (binary32.mul (binary32.ofInt 1024) (Flt.fin 1)) = some SW ∧
        FMath.RoundToInt (binary32.mul (binary32.ofInt 1024) (Flt.fin 1)) = some SH ∧
        ∃ v : ℕ, TArray.read (List.replicate ((1024 : ℤ) * 1024).toNat 0) (0 * 1024 + 0)
          = some v ∧ v = 0) ∧
    ApplySigmoid (fun v : Flt => match v with
      | Flt.fin q => binary32.round (1 + q + q * q / 2)
      | x => x) [Flt.fin 0] = [Flt.fin (1 / 2)] ∧
    (ApplySigmoid (fun v : Flt => match v with
      | Flt.fin q => binary32.round (1 + q + q * q / 2)
      | x => x) [Flt.fin 0]).map binarize = [0] := by
  refine ⟨⟨binarize_threshold.2.2.2.2.2, ?_⟩, binarize_threshold.2.2.2.2.1 _ taylorExp_zero⟩
  obtain ⟨SW, SH, h1, h2, hpix⟩ := binarize_threshold.1
    (List.replicate (1024 * 1024) (Flt.fin (1 / 2))) 1024 1024 (Flt.fin 1) 0 0
    (List.replicate ((1024 : ℤ) * 1024).toNat 0) (by decide) (by decide)
    binarize_threshold.2.2.2.2.2
  obtain ⟨rx, ry, sx, sy, v, _, _, _, _, hread, hin, hout⟩ :=
    hpix 0 0 (le_refl 0) (by norm_num) (le_refl 0) (by norm_num)
  refine ⟨SW, SH, h1, h2, v, hread, ?_⟩
  by_cases hc : 0 ≤ 0 + sx ∧ 0 + sx < 1024 ∧ 0 ≤ 0 + sy ∧ 0 + sy < 1024
  · obtain ⟨m, hm, _, _, _, h5, _⟩ := hin hc
    exact h5 (List.eq_of_mem_replicate (TArray.read_some _ _ _ hm).2.2)
  · exact hout hc

/-! ## The rounded sum in `RoundToInt` -/

theorem roundHalfEven_tie_odd (q : ℚ) (m : ℤ) (h : q = (m : ℚ) + 1 / 2) (ho : m % 2 = 1) :
    roundHalfEven q = m + 1 := by
  have hf : ⌊q⌋ = m := by
    rw [Int.floor_eq_iff, h]
    constructor <;> linarith
  unfold roundHalfEven
  rw [hf, h]
  rw [if_neg (by norm_num), if_neg (by norm_num), if_neg (by omega)]

/-- Rounding of a value half-way between two neighbours, the lower one odd. -/
theorem round32_tie_odd (q : ℚ) (e m : ℤ)
    (h1 : (2 : ℚ) ^ e ≤ |q|) (h2 : |q| < (2 : ℚ) ^ (e + 1)) (he : -126 ≤ e)
    (hm : q / (2 : ℚ) ^ (e - 23) = (m : ℚ) + 1 / 2) (hod : m % 2 = 1)
    (hov : |((m + 1 : ℤ) : ℚ) * (2 : ℚ) ^ (e - 23)| < (2 : ℚ) ^ (128 : ℤ)) :
    binary32.round q = Flt.fin (((m + 1 : ℤ) : ℚ) * (2 : ℚ) ^ (e - 23)) := by
  have hu : binary32.ulp q = (2 : ℚ) ^ (e - 23) := by
    have := binary32.ulp_of_bounds q e h1 h2 he
    simpa [binary32] using this
  have hr : roundHalfEven (q / binary32.ulp q) = m + 1 := by
    rw [hu]; exact roundHalfEven_tie_odd _ _ hm hod
  have := binary32.round_fin q (by
    rw [hr, hu]
    have hb : (2 : ℚ) ^ (binary32.emax + 1) = (2 : ℚ) ^ (128 : ℤ) := rfl
    rw [hb]
    exact hov)
  rw [this, hr, hu]

/-- `RoundToInt(0.49999997f)` is 1: the sum `0.49999997f + 0.5f` lies half-way between
two `float` values and rounds to `1.0f`. -/
theorem RoundToInt_below_half : FMath.RoundToInt (Flt.fin (16777215 / 33554432)) = some 1 := by
  have hr : binary32.round (16777215 / 33554432 + 1 / 2) = Flt.fin 1 := by
    have := round32_tie_odd (16777215 / 33554432 + 1 / 2) (-1) 16777215
      (by norm_num [abs_of_pos]) (by norm_num [abs_of_pos]) (by norm_num) (by norm_num)
      (by norm_num) (by norm_num [abs_of_pos])
    rw [this]; norm_num
  have := RoundToInt_of_round (16777215 / 33554432) 1 hr (by norm_num [isInt32])
  rw [this]
  norm_num

theorem scale_83968_41 : letterboxScale 83968 41 = Flt.fin (3273603 / 268435456) := by
  unfold letterboxScale
  rw [ofInt_TargetSize, ofInt32_exact 83968 (by norm_num), ofInt32_exact 41 (by norm_num)]
  have a : binary32.div (Flt.fin 1024) (Flt.fin ((83968 : ℤ) : ℚ))
      = Flt.fin (3273603 / 268435456) := by
    rw [binary32.div_fin _ _ (by norm_num)]
    have := round32_of_scaled (1024 / ((83968 : ℤ) : ℚ)) (-7) 13094412
      (by norm_num [abs_of_pos]) (by norm_num [abs_of_pos]) (by norm_num) (by norm_num [abs_lt])
      (by norm_num [abs_of_pos])
    rw [this]; norm_num
  have b : binary32.div (Flt.fin 1024) (Flt.fin ((41 : ℤ) : ℚ)) = Flt.fin (3273603 / 131072) := by
    rw [binary32.div_fin _ _ (by norm_num)]
    have := round32_of_scaled (1024 / ((41 : ℤ) : ℚ)) 4 13094412
      (by norm_num [abs_of_pos]) (by norm_num [abs_of_pos]) (by norm_num) (by norm_num [abs_lt])
      (by norm_num [abs_of_pos])
    rw [this]; norm_num
  rw [a, b]
  unfold FMath.Min
  rw [if_pos (by simp only [Flt.lt, decide_eq_true_eq]; norm_num)]

theorem width_83968_41 :
    FMath.RoundToInt (binary32.mul (binary32.ofInt 83968) (Flt.fin (3273603 / 268435456)))
      = some 1024 := by
  rw [ofInt32_exact 83968 (by norm_num)]
  have a : binary32.mul (Flt.fin ((83968 : ℤ) : ℚ)) (Flt.fin (3273603 / 268435456))
      = Flt.fin (16777215 / 16384) := by
    show binary32.round _ = _
    have := round32_of_scaled (((83968 : ℤ) : ℚ) * (3273603 / 268435456)) 9 16777215
      (by norm_num [abs_of_pos]) (by norm_num [abs_of_pos]) (by norm_num) (by norm_num [abs_lt])
      (by norm_num [abs_of_pos])
    rw [this]; norm_num
  rw [a]
  exact RoundToInt_of_bounds _ 1024 (by norm_num) (by norm_num) (by norm_num) (by norm_num)

theorem height_83968_41 :
    FMath.RoundToInt (binary32.mul (binary32.ofInt 41) (Flt.fin (3273603 / 268435456)))
      = some 1 := by
  rw [ofInt32_exact 41 (by norm_num)]
  have a : binary32.mul (Flt.fin ((41 : ℤ) : ℚ)) (Flt.fin (3273603 / 268435456))
      = Flt.fin (16777215 / 33554432) := by
    show binary32.round _ = _
    have := round32_of_scaled (((41 : ℤ) : ℚ) * (3273603 / 268435456)) (-2) 16777215
      (by norm_num [abs_of_pos]) (by norm_num [abs_of_pos]) (by norm_num) (by norm_num [abs_lt])
      (by norm_num [abs_of_pos])
    rw [this]; norm_num
  rw [a]
  exact RoundToInt_below_half

/-- `PreprocessImage` on a 83968x41 image: the scaled height `41 * scale` is the `float`
`0.49999997f`, which `RoundToInt` takes to 1; the resized extents are 1024 and 1, the
offsets 0 and 511. -/
theorem PreprocessImage_83968_41 (img : List Flt)
    (hlen : (img.length : ℤ) = 83968 * 41 * 3) :
    ∃ data : List Flt,
      PreprocessImage img 83968 41 = Res.ok ⟨data, Flt.fin (3273603 / 268435456), 0, 511⟩ := by
  obtain ⟨data, NW, NH, hok, _, hnw, hnh, _⟩ :=
    PreprocessImage_ok img 83968 41 (by norm_num) (by norm_num) hlen (by norm_num)
  rw [scale_83968_41, width_83968_41] at hnw
  rw [scale_83968_41, height_83968_41] at hnh
  cases hnw; cases hnh
  rw [scale_83968_41] at hok
  exact ⟨data, by simpa using hok⟩

theorem extent_below_half :
    FMath.RoundToInt (binary32.mul (binary32.ofInt 1) (Flt.fin (16777215 / 33554432)))
      = some 1 := by
  rw [ofInt32_one]
  have a : binary32.mul (Flt.fin 1) (Flt.fin (16777215 / 33554432))
      = Flt.fin (16777215 / 33554432) := by
    show binary32.round _ = _
    have := round32_of_scaled (1 * (16777215 / 33554432)) (-2) 16777215
      (by norm_num [abs_of_pos]) (by norm_num [abs_of_pos]) (by norm_num) (by norm_num [abs_lt])
      (by norm_num [abs_of_pos])
    rw [this]; norm_num
  rw [a]
  exact RoundToInt_below_half

/-- A 1x1 image at the scale `0.49999997f` with offsets 0: both resized extents are 1 and
the all-ones mask is postprocessed to the single pixel 255. -/
theorem PostprocessMask_below_half :
    PostprocessMask (List.replicate (1024 * 1024) (Flt.fin 1)) 1 1
      (Flt.fin (16777215 / 33554432)) 0 0 = Res.ok [255] := by
  have h := PostprocessMask_uniform (List.replicate (1024 * 1024) (Flt.fin 1)) 255 1 1
    (Flt.fin (16777215 / 33554432)) 0 0 1 1 (by rw [List.length_replicate]; norm_num)
    (by intro m hm; rw [List.eq_of_mem_replicate hm]; exact binarize_one)
    (by norm_num) (by norm_num) (by norm_num) extent_below_half extent_below_half (by norm_num)
    (by norm_num) (by norm_num) (by norm_num) (by norm_num) (by norm_num)
  rw [h]
  rfl

end Sam2
